import Mathlib

/-!
# Must-C_OS: process table, execute/halt and the address-space window

A shallow embedding of the process-control-block table (`pcb.c`), the flat
read-only filesystem lookups used by `execute` (`filesystem.c`), the program
loader (`paging.c`) and the `execute`/`halt` system calls (`syscall.c`).

Conventions of the embedding
* C `int`/`int32_t` values are `Int`; `uint8_t`/`uint32_t` values are `Nat`,
  reduced `% 2^8` / `% 2^32` where the C code converts or may wrap.
* `pcb_arr[i]` is a fixed pointer to the PCB of slot `i`, so a `pcb_t*` that
  is dereferenced is a slot index `Fin 6`.
* memory read through a pointer (a C string, a byte buffer) is a function
  `Nat → Nat` from byte offset to byte value.
-/

namespace MustC

/-! ## pcb.h -/

def KS_SIZE : Nat := 8192
def KP_BOTTOM : Nat := 8388608
def FD_SIZE : Nat := 8
def PCB_SIZE : Nat := 256
def MAX_PROC : Nat := 6

/-- The value stored in `fileops_table_ptr`: the address of one of the
operation tables of `filesystem.c` / `rtc.c`, or `NULL`. -/
inductive fileops_ptr where
  | null
  | stdinOps_table
  | stdoutOps_table
  | fileops
  | dirops
  | rtcOps_table
deriving DecidableEq, Repr

structure file_descriptor_t where
  fileops_table_ptr : fileops_ptr
  inode : Int
  file_pos : Int
  flags : Int
deriving DecidableEq, Repr

structure pcb_t where
  process_id : Int
  parent_id : Int
  file_desc : Fin 8 → file_descriptor_t
  saved_esp : Nat
  saved_ebp : Nat
  saved_eip : Nat
  active : Nat
  available : Nat

/-- The six PCBs that `pcb_arr[0..5]` point to. -/
abbrev pcb_table := Fin 6 → pcb_t

/-! ## filesystem.c: start_process -/

/-- `start_process(PCB)`: binds descriptors 0 and 1 to the terminal tables and
clears the in-use flag of descriptors 2..7; the other fields of 2..7 are left
as they were. -/
def start_process (fd : Fin 8 → file_descriptor_t) : Fin 8 → file_descriptor_t :=
  fun i =>
    if i.val = 0 then
      { fileops_table_ptr := fileops_ptr.stdinOps_table, inode := -1, file_pos := -1, flags := 1 }
    else if i.val = 1 then
      { fileops_table_ptr := fileops_ptr.stdoutOps_table, inode := -1, file_pos := -1, flags := 1 }
    else
      { fd i with flags := 0 }

/-! ## pcb.c -/

/-- A PCB after `memset(pcb, 0, sizeof(pcb_t))`. -/
def pcb_zero : pcb_t :=
  { process_id := 0, parent_id := 0,
    file_desc := fun _ =>
      { fileops_table_ptr := fileops_ptr.null, inode := 0, file_pos := 0, flags := 0 },
    saved_esp := 0, saved_ebp := 0, saved_eip := 0, active := 0, available := 0 }

/-- `pcb_arr_init`: every slot is zeroed, gets its two terminal descriptors
and is marked available. -/
def pcb_arr_init : pcb_table :=
  fun _ => { pcb_zero with file_desc := start_process pcb_zero.file_desc, available := 1 }

/-- The `for` loop of `find_avail_pid`, entered at index `i` with `fuel`
iterations left: the first slot with `available == 1` gets its `process_id`
stamped and its index is returned; `-1` when the scan runs off the table. -/
def find_avail_pid_loop (t : pcb_table) : Nat → Nat → Int × pcb_table
  | 0, _ => (-1, t)
  | fuel + 1, i =>
    if h : i < 6 then
      if (t ⟨i, h⟩).available = 1 then
        ((i : Int), Function.update t ⟨i, h⟩ { t ⟨i, h⟩ with process_id := (i : Int) })
      else
        find_avail_pid_loop t fuel (i + 1)
    else
      (-1, t)

/-- `find_avail_pid()`: the return value and the table afterwards. -/
def find_avail_pid (t : pcb_table) : Int × pcb_table :=
  find_avail_pid_loop t 6 0

/-- `clear_pid(pid)`. -/
def clear_pid (t : pcb_table) (pid : Int) : Int × pcb_table :=
  if h : 0 ≤ pid ∧ pid < 6 then
    let i : Fin 6 := ⟨pid.toNat, by omega⟩
    (pid, Function.update t i { t i with available := 1 })
  else
    (-1, t)

/-- `create_pcb(parentID, curr_ebp, curr_esp)`.  When `find_avail_pid` returns
`-1` the C code indexes `pcb_arr[-1]`, outside the table: the result is then
`none`. -/
def create_pcb (t : pcb_table) (parentID : Int) (curr_ebp curr_esp : Nat) :
    Option (Int × pcb_table) :=
  let r := find_avail_pid t
  if h : 0 ≤ r.1 ∧ r.1 < 6 then
    let i : Fin 6 := ⟨r.1.toNat, by omega⟩
    some (r.1, Function.update r.2 i
      { r.2 i with
        available := 0, process_id := r.1, parent_id := parentID,
        saved_esp := curr_esp, saved_ebp := curr_ebp, active := 1 })
  else
    none

/-- Tables reachable from `pcb_arr_init` by `create_pcb` calls that find a
slot and by `clear_pid` calls with any argument. -/
inductive pcb_reachable : pcb_table → Prop where
  | init : pcb_reachable pcb_arr_init
  | create (t t1 : pcb_table) (parentID : Int) (curr_ebp curr_esp : Nat) (i : Int) :
      pcb_reachable t → create_pcb t parentID curr_ebp curr_esp = some (i, t1) →
      pcb_reachable t1
  | clear (t : pcb_table) (pid : Int) :
      pcb_reachable t → pcb_reachable (clear_pid t pid).2

/-! ## lib.c (string helpers) -/

/-- The value of a byte read through an `int8_t*`. -/
def as_int8 (b : Nat) : Int :=
  if b % 256 < 128 then ((b % 256 : Nat) : Int) else ((b % 256 : Nat) : Int) - 256

/-- Conversion of an `int`/`int32_t` to `uint32_t`. -/
def to_uint32 (x : Int) : Nat := (x % 4294967296).toNat

/-- Conversion of an `int` to `uint8_t`. -/
def to_uint8 (x : Int) : Nat := (x % 256).toNat

/-- The loop of `strncmp`, at index `i` with `fuel` iterations left. -/
def strncmp_loop (s1 s2 : Nat → Nat) (n : Nat) : Nat → Nat → Int
  | 0, _ => 0
  | fuel + 1, i =>
    if i < n then
      if as_int8 (s1 i) ≠ as_int8 (s2 i) ∨ as_int8 (s1 i) = 0 then
        as_int8 (s1 i) - as_int8 (s2 i)
      else
        strncmp_loop s1 s2 n fuel (i + 1)
    else
      0

/-- Modelled from the spec: `strncmp(s1, s2, n)` of lib.c, which is not under
src/.  The name lookup and the signature check compare at most `n` bytes; the
comparison stops at the first index where the bytes differ or where `s1` holds
a NUL, and returns the difference of the two bytes there, `0` when all `n`
bytes were equal. -/
def strncmp (s1 s2 : Nat → Nat) (n : Nat) : Int :=
  strncmp_loop s1 s2 n n 0

/-- Modelled from the spec: `memcpy(dest, src, n)` of lib.c, which is not under
src/: the first `n` bytes of `dest` become those of `src`. -/
def memcpy (dest src : Nat → Nat) (n : Nat) : Nat → Nat :=
  fun i => if i < n then src i else dest i

/-- A NUL-terminated C string: byte `i` of the list, `0` from its end on. -/
def c_string (l : List Nat) : Nat → Nat :=
  fun i => l.getD i 0

/-! ## filesystem.h -/

def FILENAME_LEN : Nat := 32
def NUM_DIR_ENTRIES : Nat := 63
def BLOCK_SIZE : Nat := 4096
def ELF_MAGIC_LEN : Nat := 4
def PROG_EIP_START_BYTE : Nat := 24

structure dentry_t where
  filename : Nat → Nat
  filetype : Int
  inode_num : Int

structure inode_t where
  length : Int
  data_block_num : Nat → Int

/-- The filesystem image that `filesystem.boot_block`, `filesystem.inodes` and
`filesystem.data_blocks` point into (`get_filesys` has run, so
`filesystem.boot_block` is not `NULL`).  The three counters and `direntries`
are the fields of the boot block. -/
structure filesystem_t where
  dir_count : Int
  inode_count : Int
  data_count : Int
  direntries : Nat → dentry_t
  inodes : Nat → inode_t
  data_blocks : Nat → Nat → Nat

/-- `ELF_MAGIC`: 0x7F 'E' 'L' 'F'. -/
def ELF_MAGIC : Nat → Nat := c_string [0x7F, 0x45, 0x4C, 0x46]

/-! ## filesystem.c -/

/-- `read_dentry_by_index(index, dentry)`: `some d` when it returns 0 and
stores `d`, `none` when it returns -1.  `index` is a `uint32_t`, so the bound
check compares it with `dir_count` converted to unsigned. -/
def read_dentry_by_index (fs : filesystem_t) (index : Nat) : Option dentry_t :=
  if index ≥ to_uint32 fs.dir_count then none else some (fs.direntries index)

/-- The loop of `read_dentry_by_name`, at index `i` with `fuel` iterations left. -/
def read_dentry_by_name_loop (fs : filesystem_t) (fname : Nat → Nat) :
    Nat → Nat → Option dentry_t
  | 0, _ => none
  | fuel + 1, i =>
    if (i : Int) < fs.dir_count then
      match read_dentry_by_index fs i with
      | some dir_entry =>
        if strncmp dir_entry.filename fname FILENAME_LEN = 0 then some dir_entry
        else read_dentry_by_name_loop fs fname fuel (i + 1)
      | none => read_dentry_by_name_loop fs fname fuel (i + 1)
    else
      none

/-- `read_dentry_by_name(fname, dentry)` for non-null arguments: `some d` when
it returns 0 and stores `d`, `none` when it returns -1. -/
def read_dentry_by_name (fs : filesystem_t) (fname : Nat → Nat) : Option dentry_t :=
  read_dentry_by_name_loop fs fname fs.dir_count.toNat 0

/-- The copy loop of `read_data` for the first data block (`d ==
data_block_start`): the destination index is the loop counter `i`. -/
def read_data_first (temp_data : Nat → Nat) (length data_start : Nat) (data_end : Int)
    (is_end : Bool) : Nat → Nat → (Nat → Nat) × Nat → (Nat → Nat) × Nat
  | 0, _, st => st
  | fuel + 1, i, (buf, bytes_read) =>
    if bytes_read < length ∧ i + data_start < BLOCK_SIZE then
      if is_end = true ∧ ((i + data_start : Nat) : Int) ≥ data_end then
        (buf, bytes_read)
      else
        read_data_first temp_data length data_start data_end is_end fuel (i + 1)
          (Function.update buf i (temp_data (i + data_start)), bytes_read + 1)
    else
      (buf, bytes_read)

/-- The copy loop of `read_data` for a middle block (`stop = BLOCK_SIZE`) and
for the last block (`stop = data_end`): the destination index is `bytes_read`. -/
def read_data_rest (temp_data : Nat → Nat) (length : Nat) (stop : Int) :
    Nat → Nat → (Nat → Nat) × Nat → (Nat → Nat) × Nat
  | 0, _, st => st
  | fuel + 1, i, (buf, bytes_read) =>
    if bytes_read < length ∧ (i : Int) < stop then
      read_data_rest temp_data length stop fuel (i + 1)
        (Function.update buf bytes_read (temp_data i), bytes_read + 1)
    else
      (buf, bytes_read)

/-- The loop of `read_data` over the data blocks `d = data_block_start ..
data_block_end`.  The first component is `none` when the loop returned -1
because of a data-block number outside `[0, data_count)`. -/
def read_data_blocks (fs : filesystem_t) (temp_inode : inode_t) (length data_start : Nat)
    (data_end : Int) (data_block_start : Nat) (data_block_end : Int) :
    Nat → Nat → (Nat → Nat) × Nat → Option Nat × (Nat → Nat)
  | 0, _, st => (some st.2, st.1)
  | fuel + 1, d, st =>
    if (d : Int) ≤ data_block_end then
      let temp_data_idx := temp_inode.data_block_num d
      if temp_data_idx < 0 ∨ temp_data_idx ≥ fs.data_count then
        (none, st.1)
      else
        let temp_data := fs.data_blocks temp_data_idx.toNat
        if d = data_block_start then
          read_data_blocks fs temp_inode length data_start data_end data_block_start
            data_block_end fuel (d + 1)
            (read_data_first temp_data length data_start data_end
              (decide ((d : Int) = data_block_end)) BLOCK_SIZE 0 st)
        else if d > data_block_start ∧ (d : Int) < data_block_end then
          read_data_blocks fs temp_inode length data_start data_end data_block_start
            data_block_end fuel (d + 1)
            (read_data_rest temp_data length (BLOCK_SIZE : Int) BLOCK_SIZE 0 st)
        else if (d : Int) = data_block_end then
          read_data_blocks fs temp_inode length data_start data_end data_block_start
            data_block_end fuel (d + 1)
            (read_data_rest temp_data length data_end BLOCK_SIZE 0 st)
        else
          read_data_blocks fs temp_inode length data_start data_end data_block_start
            data_block_end fuel (d + 1) st
    else
      (some st.2, st.1)

/-- `read_data(inode, offset, buf, length)`: the return value and the memory at
`buf` afterwards.  `inode`, `offset` and `length` are `uint32_t`; `file_length`
is an `int32_t` that the comparisons with them convert to unsigned and that the
`/` and `%` of the truncated case divide as a signed number. -/
def read_data (fs : filesystem_t) (inode offset : Nat) (buf : Nat → Nat) (length : Nat) :
    Int × (Nat → Nat) :=
  if inode ≥ NUM_DIR_ENTRIES - 1 then (-1, buf)
  else
    let temp_inode := fs.inodes inode
    let file_length := temp_inode.length
    if offset > to_uint32 file_length then (0, buf)
    else
      let data_block_start := offset / BLOCK_SIZE
      let data_start := offset % BLOCK_SIZE
      let total := (length + offset) % 4294967296
      let data_block_end : Int :=
        if total > to_uint32 file_length then file_length.tdiv (BLOCK_SIZE : Int)
        else ((total / BLOCK_SIZE : Nat) : Int)
      let data_end : Int :=
        if total > to_uint32 file_length then file_length.tmod (BLOCK_SIZE : Int)
        else ((total % BLOCK_SIZE : Nat) : Int)
      let r := read_data_blocks fs temp_inode length data_start data_end data_block_start
        data_block_end (data_block_end + 1 - (data_block_start : Int)).toNat data_block_start
        (buf, 0)
      match r.1 with
      | none => (-1, r.2)
      | some bytes_read => ((bytes_read : Int), r.2)

/-- The loop of `exec_file_check` that copies the program name: returns the
final `i` and the `filename` buffer. -/
def exec_file_check_copy (command : Nat → Nat) : Nat → Nat → (Nat → Nat) → Nat × (Nat → Nat)
  | 0, i, filename => (i, filename)
  | fuel + 1, i, filename =>
    if i < FILENAME_LEN ∧ command i ≠ 32 ∧ command i ≠ 0 then
      exec_file_check_copy command fuel (i + 1) (Function.update filename i (command i))
    else
      (i, filename)

/-- What the uninitialised memory used by one `exec_file_check` call holds on
entry: its locals `filename` and `elf_magic`, and the four bytes at
`prog_eip`, which its callers leave uninitialised too. -/
structure exec_file_check_mem where
  filename : Nat → Nat
  elf_magic : Nat → Nat
  prog_eip : Nat → Nat

/-- `exec_file_check(command, prog_eip, dir_entry)` for non-null arguments:
`none` when it returns -1; `some (d, e)` when it returns 0, with `d` stored in
`*dir_entry` and `e` the four bytes at `prog_eip`.  `filename` is the memory at
the local array, so the store `filename[i] = 0` with `i = 32` lands on the byte
after the 32-byte array, which the lookup never reads. -/
def exec_file_check (fs : filesystem_t) (command : Nat → Nat) (m : exec_file_check_mem) :
    Option (dentry_t × (Nat → Nat)) :=
  let c := exec_file_check_copy command FILENAME_LEN 0 m.filename
  let filename := Function.update c.2 c.1 0
  match read_dentry_by_name fs filename with
  | none => none
  | some dir_entry =>
    let r1 := read_data fs (to_uint32 dir_entry.inode_num) 0 m.elf_magic ELF_MAGIC_LEN
    if r1.1 = -1 ∨ strncmp r1.2 ELF_MAGIC ELF_MAGIC_LEN ≠ 0 then none
    else
      let r2 := read_data fs (to_uint32 dir_entry.inode_num) PROG_EIP_START_BYTE m.prog_eip 4
      if r2.1 = -1 then none
      else some (dir_entry, r2.2)

/-! ## paging.h, terminals.h, syscall.h, x86_desc.h -/

def ENTRIES : Nat := 1024
def MB_OFFSET : Nat := 0x400000
def USER_PROG_IDX : Nat := 32
def USER_PROG_PA : Nat := 2 * MB_OFFSET
def USER_PROG_PDE : Nat := 0x197
def NUM_TERMINALS : Nat := 3
def MAX_BUF_SIZE : Nat := 128
def KB_OFFSET : Nat := 0x1000
def DEFAULT_PDE : Nat := 0x82
def DEFAULT_PTE : Nat := 0x16
def VIDMEM_PTE : Nat := 0x7
def ZERO_ATTRIBUTE : Nat := 0xFFFFF000
def VIDMAP_PDE_IDX : Nat := USER_PROG_IDX + 1
def VIDMAP_PDE_IDX_POS : Nat := 22
def VIDMAP_PTE_IDX_POS : Nat := 12
def VIDMEM_PAGE_IDX : Nat := 184
def TERMINAL_VMEM_PAGE_IDX : Nat := 69

/-- Modelled from the spec: the constant `VIDEO` of lib.h, which is not under
src/: the address of the visible character-cell memory, page
`VIDMEM_PAGE_IDX` of paging.h (0xB8000). -/
def VIDEO : Nat := 0xB8000

/-- Modelled from the spec: the constant `NUM_COLS` of lib.h, which is not
under src/: the display has 80 columns. -/
def NUM_COLS : Nat := 80

/-- Modelled from the spec: the constant `NUM_ROWS` of lib.h, which is not
under src/: the display has 25 rows. -/
def NUM_ROWS : Nat := 25

/-- Modelled from the spec: the constant `KERNEL_DS` of x86_desc.h, which is
not under src/: the kernel data segment selector that the privileged stack
descriptor `tss.ss0` is set to. -/
def KERNEL_DS : Nat := 0x18

structure terminal_t where
  initialized : Int
  curr_pcb : Option (Fin 6)
  cursor_x : Int
  cursor_y : Int
  ebp : Nat
  esp : Nat
  eip : Nat
  esp0 : Nat
  ss0 : Nat
  is_kernel_mode : Int

/-- The global variables that the system calls and the terminal switch read
and write: the filesystem image, the PCBs and `curr_pcb`, `terminal_arr`,
`curr_terminal` and `curr_foreground_terminal`, `page_directory`, `page_table`
and `vidmap_page_table`, the fields `esp0` and `ss0` of `tss`, `arg_buf`, the
cursor variables `screen_x` and `screen_y`, and `mem`, the bytes that the
kernel code reaches through a pointer (the display at `VIDEO`, the saved
terminal pages, the buffers that a system call is handed), by address.  The
re-mapping of the program window is not followed in `mem`. -/
structure kernel_state where
  filesystem : filesystem_t
  pcb_arr : pcb_table
  curr_pcb : Fin 6
  terminal_arr : Fin 3 → terminal_t
  curr_terminal : Fin 3
  page_directory : Fin 1024 → Nat
  tss_esp0 : Nat
  tss_ss0 : Nat
  arg_buf : Nat → Nat
  curr_foreground_terminal : Fin 3
  vidmap_page_table : Fin 1024 → Nat
  screen_x : Int
  screen_y : Int
  mem : Nat → Nat
  page_table : Fin 1024 → Nat

/-- How a system call hands control on. -/
inductive outcome where
  /-- the C function returned this value to its caller -/
  | returned (eax : Int)
  /-- `iret` into ring 3 at `eip` with user stack pointer `esp` -/
  | user_mode (eip esp : Nat)
  /-- the end of `halt`: `ebp` and `esp` are loaded with the values saved by the
  parent's `execute`, `eax` with the status, then `leave; ret` -/
  | resumed (ebp esp eax : Nat)
  /-- the `while (1)` of `halt` was still running when the fuel ran out -/
  | still_looping
  /-- a store outside a buffer, or a call through a `NULL` operations table -/
  | fault
  /-- a function without return value returned to its caller -/
  | done
  /-- the end of `run_terminal_process`: `ebp` and `esp` are loaded with the
  values saved for the target terminal -/
  | switched (ebp esp : Nat)
  /-- the system call ends with a call of entry `entry` (0 `fd_open`, 1
  `fd_read`, 2 `fd_write`, 3 `fd_close`) of the operations table `table` with
  the arguments `fd`, `buf`, `nbytes`, and returns what that call returns -/
  | calls (table : fileops_ptr) (entry : Nat) (fd : Int) (buf : Nat) (nbytes : Int)
deriving DecidableEq, Repr

/-! ## pcb.c: point_curr_pcb -/

/-- `point_curr_pcb(pcbx)`; the `else` branch returns 0, so the final
`return -1` is never reached. -/
def point_curr_pcb (s : kernel_state) (pcbx : Int) : Int × kernel_state :=
  if h : 0 ≤ pcbx ∧ pcbx < 6 then
    (pcbx, { s with curr_pcb := ⟨pcbx.toNat, by omega⟩ })
  else
    (0, s)

/-! ## syscall.c: parseCmd, pidToESP0 -/

/-- `pidToESP0(pid)` for a `uint8_t` pid. -/
def pidToESP0 (pid : Nat) : Nat := KP_BOTTOM - KS_SIZE * pid

/-- The local variables of `parseCmd` and the two output buffers;
`to_arg_buf` says that `currBuf == arg_buf`. -/
structure parseCmd_state where
  start : Nat
  curr : Nat
  length : Int
  curr_cmd : Int
  to_arg_buf : Bool
  cmd_buf : Nat → Nat
  arg_buf : Nat → Nat

/-- `memcpy(currBuf, cmd + start, length)` in `parseCmd`.  Both buffers have
`MAX_BUF_SIZE` bytes: a longer copy runs past the end of the buffer and gives
`none`. -/
def parseCmd_memcpy (cmd : Nat → Nat) (st : parseCmd_state) : Option parseCmd_state :=
  let n := to_uint32 st.length
  if n > MAX_BUF_SIZE then none
  else if st.to_arg_buf then
    some { st with arg_buf := memcpy st.arg_buf (fun i => cmd (st.start + i)) n }
  else
    some { st with cmd_buf := memcpy st.cmd_buf (fun i => cmd (st.start + i)) n }

/-- The `while (cmd[curr] != 0)` loop of `parseCmd`; the first argument is the
part of the string from `cmd[curr]` on, so its head is `cmd[curr]` and its end
is the terminating NUL. -/
def parseCmd_loop (cmd : Nat → Nat) : List Nat → parseCmd_state → Option parseCmd_state
  | [], st => some st
  | c :: rest, st =>
    if c ≠ 0 then
      let after_space : Option parseCmd_state :=
        if c = 32 ∧ st.curr_cmd = 0 then
          match parseCmd_memcpy cmd st with
          | none => none
          | some st1 =>
            let st2 := if st1.to_arg_buf = false then
                { st1 with to_arg_buf := true, curr_cmd := 1 } else st1
            some { st2 with length := -1, start := st.curr + 1 }
        else some st
      match after_space with
      | none => none
      | some st3 =>
        parseCmd_loop cmd rest { st3 with curr := st3.curr + 1, length := st3.length + 1 }
    else
      some st

/-- `parseCmd(cmd, cmd_buf, arg_buf)` on the NUL-terminated string `cmd`:
`some (cmd_buf, arg_buf)` when it returns 0, `none` when one of its copies
runs past a buffer. -/
def parseCmd (cmd : List Nat) (cmd_buf arg_buf : Nat → Nat) :
    Option ((Nat → Nat) × (Nat → Nat)) :=
  let st0 : parseCmd_state :=
    { start := 0, curr := 0, length := 0, curr_cmd := 0, to_arg_buf := false,
      cmd_buf := cmd_buf, arg_buf := arg_buf }
  match parseCmd_loop (c_string cmd) cmd st0 with
  | none => none
  | some st =>
    match parseCmd_memcpy (c_string cmd) st with
    | none => none
    | some st1 => some (st1.cmd_buf, st1.arg_buf)

/-! ## paging.c: load_program -/

/-- The `uint32_t` stored little-endian in four bytes of memory. -/
def le32 (b : Nat → Nat) : Nat :=
  b 0 % 256 + 256 * (b 1 % 256) + 65536 * (b 2 % 256) + 16777216 * (b 3 % 256)

/-- The page-directory entry `(USER_PROG_PA + MB_OFFSET * pid) | USER_PROG_PDE`
as stored in the `uint32_t` array. -/
def user_prog_pde (pid : Int) : Nat :=
  to_uint32 ((USER_PROG_PA : Int) + (MB_OFFSET : Int) * pid) ||| USER_PROG_PDE

/-- `load_program(command, prog_eip)` for non-null arguments: the return value
(`-1` stands for the `(uint32_t)-1` that the caller reads back as -1), the
state afterwards and the memory at `prog_eip`.  The bytes that `read_data`
copies to the program window at 0x08048000 are not part of `kernel_state`;
`flush_tlb` changes no variable. -/
def load_program (s : kernel_state) (command : Nat → Nat) (m : exec_file_check_mem) :
    Int × kernel_state × (Nat → Nat) :=
  match exec_file_check s.filesystem command m with
  | none => (-1, s, m.prog_eip)
  | some (dir_entry, prog_eip) =>
    let s1 := { s with
      page_directory := Function.update s.page_directory ⟨32, by norm_num⟩
        (user_prog_pde (s.pcb_arr s.curr_pcb).process_id) }
    let file_inode := s1.filesystem.inodes dir_entry.inode_num.toNat
    let r := read_data s1.filesystem (to_uint32 dir_entry.inode_num) 0 (fun _ => 0)
      (to_uint32 file_inode.length)
    if r.1 = -1 then (-1, s1, prog_eip) else (0, s1, prog_eip)

/-! ## syscall.c: execute -/

/-- The registers and uninitialised stack memory that one `syscall_execute`
call finds: `ebp` and `esp` at the point where they are read, and the memory
used by the `exec_file_check` call of `syscall_execute` and by the one inside
`load_program`. -/
structure execute_frame where
  ebp : Nat
  esp : Nat
  check_mem : exec_file_check_mem
  load_mem : exec_file_check_mem

/-- `syscall_execute` with `arg1` pointing to the NUL-terminated string
`command`. -/
def syscall_execute (s : kernel_state) (command : List Nat) (f : execute_frame) :
    outcome × kernel_state :=
  match parseCmd command (fun _ => 0) (fun _ => 0) with
  | none => (outcome.fault, s)
  | some (cmd_buf, arg_buf) =>
    let s1 := { s with arg_buf := arg_buf }
    match exec_file_check s1.filesystem cmd_buf f.check_mem with
    | none => (outcome.returned (-1), s1)
    | some _ =>
      let avail := find_avail_pid s1.pcb_arr
      let s2 := { s1 with pcb_arr := avail.2 }
      if avail.1 = -1 then (outcome.returned (-1), s2)
      else
        let parentID : Int :=
          if (s2.terminal_arr s2.curr_terminal).initialized = 0 then -1
          else (s2.pcb_arr s2.curr_pcb).process_id
        let s3 := { s2 with
          terminal_arr := Function.update s2.terminal_arr s2.curr_terminal
            { (s2.terminal_arr s2.curr_terminal) with initialized := 1 } }
        match create_pcb s3.pcb_arr parentID f.ebp f.esp with
        | none => (outcome.fault, s3)
        | some (currID, t) =>
          let s4 := (point_curr_pcb { s3 with pcb_arr := t } currID).2
          let l := load_program s4 cmd_buf f.load_mem
          if l.1 = -1 then (outcome.returned (-1), l.2.1)
          else
            let prog_eip := le32 l.2.2
            let s5 := l.2.1
            let s6 := { s5 with
              pcb_arr := Function.update s5.pcb_arr s5.curr_pcb
                { (s5.pcb_arr s5.curr_pcb) with saved_eip := prog_eip },
              tss_esp0 := pidToESP0 (to_uint8 currID),
              tss_ss0 := KERNEL_DS }
            (outcome.user_mode prog_eip 0x08400000, s6)

/-- The string "shell". -/
def shell_command : List Nat := [115, 104, 101, 108, 108]

/-! ## filesystem.c, rtc.c: the close operations -/

/-- The body shared by `file_close`, `dir_close` and `rtc_close`: descriptor
`fd` of the current PCB is reset when `fd` is in 2..7 and in use; the Boolean
says whether it was. -/
def close_descriptor (s : kernel_state) (fd : Int) : Bool × kernel_state :=
  if h : 2 ≤ fd ∧ fd < 8 then
    let i : Fin 8 := ⟨fd.toNat, by omega⟩
    if ((s.pcb_arr s.curr_pcb).file_desc i).flags ≠ 0 then
      (true, { s with
        pcb_arr := Function.update s.pcb_arr s.curr_pcb
          { (s.pcb_arr s.curr_pcb) with
            file_desc := Function.update (s.pcb_arr s.curr_pcb).file_desc i
              { fileops_table_ptr := fileops_ptr.null, inode := 0, file_pos := 0,
                flags := 0 } } })
    else (false, s)
  else (false, s)

/-- `file_close(fd)`. -/
def file_close (s : kernel_state) (fd : Int) : Int × kernel_state :=
  let r := close_descriptor s fd
  (if r.1 then 0 else -1, r.2)

/-- `dir_close(fd)`. -/
def dir_close (s : kernel_state) (fd : Int) : Int × kernel_state :=
  let r := close_descriptor s fd
  (if r.1 then 0 else -1, r.2)

/-- `rtc_close(fd)`: returns 0 in both cases. -/
def rtc_close (s : kernel_state) (fd : Int) : Int × kernel_state :=
  (0, (close_descriptor s fd).2)

/-- `default_close(fd)`. -/
def default_close (s : kernel_state) (_fd : Int) : Int × kernel_state :=
  (-1, s)

/-- The call `((fileops_table_t *)ptr)->fd_close(fd)`; `none` for a call through
`NULL`. -/
def fd_close (s : kernel_state) (ptr : fileops_ptr) (fd : Int) : Option (Int × kernel_state) :=
  match ptr with
  | fileops_ptr.null => none
  | fileops_ptr.stdinOps_table => some (default_close s fd)
  | fileops_ptr.stdoutOps_table => some (default_close s fd)
  | fileops_ptr.fileops => some (file_close s fd)
  | fileops_ptr.dirops => some (dir_close s fd)
  | fileops_ptr.rtcOps_table => some (rtc_close s fd)

/-! ## syscall.c: checkFd, halt -/

/-- `checkFd(fd)`.  The bound is `PCB_SIZE` (256), so for `8 <= fd < 256` the
flag is read from `file_desc[fd]`, past the 8-entry table: `none`. -/
def checkFd (s : kernel_state) (fd : Int) : Option Int :=
  if fd < 0 ∨ fd ≥ (PCB_SIZE : Int) then some (-1)
  else if h : fd < 8 then
    if ((s.pcb_arr s.curr_pcb).file_desc ⟨fd.toNat, by omega⟩).flags = 0 then some (-1)
    else some 0
  else none

/-- The loop of `syscall_halt` that closes the descriptors `i = 0 .. FD_SIZE -
1`; `none` when a call goes through a `NULL` table. -/
def halt_close_loop : Nat → Nat → kernel_state → Option kernel_state
  | 0, _, s => some s
  | fuel + 1, i, s =>
    if h : i < 8 then
      match checkFd s (i : Int) with
      | none => none
      | some c =>
        if c = 0 then
          match fd_close s ((s.pcb_arr s.curr_pcb).file_desc ⟨i, h⟩).fileops_table_ptr (i : Int) with
          | none => none
          | some r => halt_close_loop fuel (i + 1) r.2
        else halt_close_loop fuel (i + 1) s
    else some s

/-- The `while (1)` loop of `syscall_halt` for a process without parent, with
`fuel` iterations: each one clears the terminal's `initialized` flag and calls
`execute("shell")`; the loop is left only when that call enters user mode (or
faults).  `frames k` is what the `k`-th call finds. -/
def halt_restart : Nat → kernel_state → (Nat → execute_frame) → outcome × kernel_state
  | 0, s, _ => (outcome.still_looping, s)
  | fuel + 1, s, frames =>
    let s1 := { s with
      terminal_arr := Function.update s.terminal_arr s.curr_terminal
        { (s.terminal_arr s.curr_terminal) with initialized := 0 } }
    let r := syscall_execute s1 shell_command (frames 0)
    match r.1 with
    | outcome.returned _ => halt_restart fuel r.2 (fun k => frames (k + 1))
    | _ => r

/-- `syscall_halt` with `arg1 = status`.  `fuel` and `frames` are used only by
the restart loop of a process without parent. -/
def syscall_halt (s : kernel_state) (arg1 : Nat) (fuel : Nat) (frames : Nat → execute_frame) :
    outcome × kernel_state :=
  let retval : Nat := if arg1 = 255 then 256 else arg1
  match halt_close_loop FD_SIZE 0 s with
  | none => (outcome.fault, s)
  | some s1 =>
    let c := s1.curr_pcb
    let s2 := { s1 with pcb_arr := Function.update s1.pcb_arr c { (s1.pcb_arr c) with active := 0 } }
    let parent_esp := (s2.pcb_arr c).saved_esp
    let parent_ebp := (s2.pcb_arr c).saved_ebp
    let s3 := { s2 with
      pcb_arr := Function.update s2.pcb_arr c
        { (s2.pcb_arr c) with saved_ebp := 0, saved_esp := 0 } }
    let s4 := { s3 with pcb_arr := (clear_pid s3.pcb_arr (s3.pcb_arr c).process_id).2 }
    if (s4.pcb_arr c).parent_id = -1 then
      halt_restart fuel s4 frames
    else
      let s5 := { s4 with
        terminal_arr := Function.update s4.terminal_arr s4.curr_terminal
          { (s4.terminal_arr s4.curr_terminal) with curr_pcb := some c } }
      let s6 := (point_curr_pcb s5 (s5.pcb_arr s5.curr_pcb).parent_id).2
      let parent_process := to_uint8 (s6.pcb_arr s6.curr_pcb).process_id
      let s7 := { s6 with
        tss_esp0 := pidToESP0 parent_process,
        tss_ss0 := KERNEL_DS,
        page_directory := Function.update s6.page_directory ⟨32, by norm_num⟩
          (user_prog_pde (parent_process : Int)) }
      let s8 := { s7 with
        pcb_arr := Function.update s7.pcb_arr s7.curr_pcb
          { (s7.pcb_arr s7.curr_pcb) with active := 1 } }
      (outcome.resumed parent_ebp parent_esp retval, s8)

/-- The status that every exception handler of idt.c passes: `halt(-1)` with
the parameter declared `uint8_t`. -/
def exception_halt_status : Nat := to_uint8 (-1)

/-! ## syscall.c: close, read, write, getargs, vidmap -/

/-- The value of a 32-bit register read as an `int`. -/
def to_int32 (x : Nat) : Int :=
  if x % 4294967296 < 2147483648 then ((x % 4294967296 : Nat) : Int)
  else ((x % 4294967296 : Nat) : Int) - 4294967296

/-- `syscall_close` with `arg1 = fd`, the value of `ebx` (below 2^32).  The
call through the operations table is followed into the close operation. -/
def syscall_close (s : kernel_state) (arg1 : Nat) : outcome × kernel_state :=
  match checkFd s (to_int32 arg1) with
  | none => (outcome.fault, s)
  | some c =>
    if c = 0 then
      if h : arg1 < 8 then
        match fd_close s ((s.pcb_arr s.curr_pcb).file_desc ⟨arg1, h⟩).fileops_table_ptr
            (to_int32 arg1) with
        | none => (outcome.fault, s)
        | some r => (outcome.returned r.1, r.2)
      else (outcome.fault, s)
    else (outcome.returned (-1), s)

/-- `syscall_read` with `arg1 = fd`, `arg2 = buf`, `arg3 = nbytes`, up to the
call of `fd_read` through the operations table of the descriptor; the read
operation itself is not followed. -/
def syscall_read (s : kernel_state) (arg1 arg2 arg3 : Nat) : outcome × kernel_state :=
  match checkFd s (to_int32 arg1) with
  | none => (outcome.fault, s)
  | some c =>
    if c = 0 then
      if h : arg1 < 8 then
        match ((s.pcb_arr s.curr_pcb).file_desc ⟨arg1, h⟩).fileops_table_ptr with
        | fileops_ptr.null => (outcome.fault, s)
        | t => (outcome.calls t 1 (to_int32 arg1) arg2 (to_int32 arg3), s)
      else (outcome.fault, s)
    else (outcome.returned (-1), s)

/-- `syscall_write` with `arg1 = fd`, `arg2 = buf`, `arg3 = nbytes`, up to the
call of `fd_write` through the operations table of the descriptor; the write
operation itself is not followed. -/
def syscall_write (s : kernel_state) (arg1 arg2 arg3 : Nat) : outcome × kernel_state :=
  match checkFd s (to_int32 arg1) with
  | none => (outcome.fault, s)
  | some c =>
    if c = 0 then
      if h : arg1 < 8 then
        match ((s.pcb_arr s.curr_pcb).file_desc ⟨arg1, h⟩).fileops_table_ptr with
        | fileops_ptr.null => (outcome.fault, s)
        | t => (outcome.calls t 2 (to_int32 arg1) arg2 (to_int32 arg3), s)
      else (outcome.fault, s)
    else (outcome.returned (-1), s)

/-- The memory after `memcpy((void *)dest, src, n)` with `dest` an address and
`src` a buffer of the kernel. -/
def mem_copy_in (m : Nat → Nat) (dest : Nat) (src : Nat → Nat) (n : Nat) : Nat → Nat :=
  fun a => if dest ≤ a then memcpy (fun i => m (dest + i)) src n (a - dest) else m a

/-- `syscall_getargs` with `arg1 = buf`, `arg2 = nbytes`.  `arg_buf` is an
array, so `arg_buf == NULL` is false; it has `MAX_BUF_SIZE` bytes, and a copy
of more than that reads past its end. -/
def syscall_getargs (s : kernel_state) (arg1 arg2 : Nat) : outcome × kernel_state :=
  if arg1 = 0 ∨ as_int8 (s.arg_buf 0) = 0 then (outcome.returned (-1), s)
  else if arg2 > MAX_BUF_SIZE then (outcome.fault, s)
  else (outcome.returned 0, { s with mem := mem_copy_in s.mem arg1 s.arg_buf arg2 })

/-- The memory after a store of the `uint32_t` value `v` at address `a`
(little-endian). -/
def store32 (m : Nat → Nat) (a v : Nat) : Nat → Nat :=
  fun x => if a ≤ x ∧ x < a + 4 then (v >>> (8 * (x - a))) % 256 else m x

/-- `syscall_vidmap` with `arg1 = screen_start`.  `vidmap_page_table` has
`ENTRIES` entries; an index outside it is a fault. -/
def syscall_vidmap (s : kernel_state) (arg1 : Nat) : outcome × kernel_state :=
  if arg1 < USER_PROG_IDX * MB_OFFSET ∨ arg1 ≥ VIDMAP_PDE_IDX * MB_OFFSET ∨ arg1 = 0 then
    (outcome.returned (-1), s)
  else
    let pid := (s.pcb_arr s.curr_pcb).process_id
    if h : 0 ≤ pid ∧ pid < 1024 then
      let s1 := { s with
        vidmap_page_table := Function.update s.vidmap_page_table ⟨pid.toNat, by omega⟩
          ((VIDMEM_PAGE_IDX * KB_OFFSET) ||| VIDMEM_PTE) }
      let vidmap_addr :=
        ((VIDMAP_PDE_IDX <<< VIDMAP_PDE_IDX_POS) ||| (pid.toNat <<< VIDMAP_PTE_IDX_POS)) &&&
          ZERO_ATTRIBUTE
      (outcome.returned 0, { s1 with mem := store32 s1.mem arg1 vidmap_addr })
    else (outcome.fault, s)

/-! ## terminals.c -/

/-- `get_page_addr_from_terminal_id(terminal_id)`; 0 is `NULL`. -/
def get_page_addr_from_terminal_id (terminal_id : Int) : Nat :=
  if terminal_id < 0 ∨ terminal_id ≥ (NUM_TERMINALS : Int) then 0
  else (terminal_id.toNat + TERMINAL_VMEM_PAGE_IDX) * KB_OFFSET

/-- The loop of `save_video_mem` at index `i` with `fuel` iterations left:
`terminal_vmem_addr[i] = vmem[i << 1]`. -/
def save_video_mem_loop (vmem page : Nat) : Nat → Nat → (Nat → Nat) → (Nat → Nat)
  | 0, _, m => m
  | fuel + 1, i, m =>
    if i < NUM_COLS * NUM_ROWS then
      save_video_mem_loop vmem page fuel (i + 1)
        (Function.update m (page + i) (m (vmem + (i <<< 1))))
    else m

/-- `save_video_mem(vmem, terminal_id)`: the characters go to the page of
`terminal_id`, the cursor to the record of `curr_terminal`. -/
def save_video_mem (s : kernel_state) (vmem : Nat) (terminal_id : Int) : kernel_state :=
  let terminal_vmem_addr := get_page_addr_from_terminal_id terminal_id
  { s with
    mem := save_video_mem_loop vmem terminal_vmem_addr (NUM_COLS * NUM_ROWS) 0 s.mem,
    terminal_arr := Function.update s.terminal_arr s.curr_terminal
      { (s.terminal_arr s.curr_terminal) with cursor_x := s.screen_x, cursor_y := s.screen_y } }

/-- The loop of `restore_video_mem` at index `i` with `fuel` iterations left:
`vmem[i << 1] = terminal_vmem_addr[i]`. -/
def restore_video_mem_loop (vmem page : Nat) : Nat → Nat → (Nat → Nat) → (Nat → Nat)
  | 0, _, m => m
  | fuel + 1, i, m =>
    if i < NUM_COLS * NUM_ROWS then
      restore_video_mem_loop vmem page fuel (i + 1)
        (Function.update m (vmem + (i <<< 1)) (m (page + i)))
    else m

/-- Modelled from the spec: `update_cursor(x, y)` of lib.c, which is not under
src/: it places the cursor of the display at the restored position and changes
no variable of `kernel_state`. -/
def update_cursor (s : kernel_state) (_x _y : Int) : kernel_state := s

/-- `restore_video_mem(vmem, terminal_id)`; `none` when `terminal_id` is no
index of `terminal_arr`. -/
def restore_video_mem (s : kernel_state) (vmem : Nat) (terminal_id : Int) :
    Option kernel_state :=
  let terminal_vmem_addr := get_page_addr_from_terminal_id terminal_id
  if h : 0 ≤ terminal_id ∧ terminal_id < 3 then
    let t : Fin 3 := ⟨terminal_id.toNat, by omega⟩
    let s1 := { s with
      mem := restore_video_mem_loop vmem terminal_vmem_addr (NUM_COLS * NUM_ROWS) 0 s.mem,
      screen_x := (s.terminal_arr t).cursor_x,
      screen_y := (s.terminal_arr t).cursor_y }
    some (update_cursor s1 s1.screen_x s1.screen_y)
  else none

/-- `run_terminal_process(target_terminal_id)`; `curr_ebp` and `curr_esp` are
the registers at the point where they are read, `f` is what the call of
`execute` finds when the target terminal is not initialised.  When that call
enters user mode the rest of the function is not run; a `NULL` in the
`curr_pcb` field of the target record is dereferenced. -/
def run_terminal_process (s : kernel_state) (target_terminal_id : Int)
    (curr_ebp curr_esp : Nat) (f : execute_frame) : outcome × kernel_state :=
  if h : 0 ≤ target_terminal_id ∧ target_terminal_id < 3 then
    let t : Fin 3 := ⟨target_terminal_id.toNat, by omega⟩
    let s1 := { s with
      terminal_arr := Function.update s.terminal_arr s.curr_terminal
        { (s.terminal_arr s.curr_terminal) with
          ebp := curr_ebp, esp := curr_esp, esp0 := s.tss_esp0, ss0 := s.tss_ss0,
          curr_pcb := some s.curr_pcb } }
    let s2 := { s1 with curr_terminal := t }
    let r : outcome × kernel_state :=
      if (s2.terminal_arr t).initialized = 0 then syscall_execute s2 shell_command f
      else (outcome.returned 0, s2)
    match r.1 with
    | outcome.returned _ =>
      match (r.2.terminal_arr t).curr_pcb with
      | none => (outcome.fault, r.2)
      | some target_terminal_pcb =>
        let s3 := { r.2 with
          curr_pcb := target_terminal_pcb,
          page_directory := Function.update r.2.page_directory ⟨32, by norm_num⟩
            (user_prog_pde (r.2.pcb_arr target_terminal_pcb).process_id) }
        let s4 := { s3 with
          tss_esp0 := (s3.terminal_arr t).esp0,
          tss_ss0 := (s3.terminal_arr t).ss0 }
        (outcome.switched (s4.terminal_arr t).ebp (s4.terminal_arr t).esp, s4)
    | _ => r
  else (outcome.done, s)

/-- `switch_terminal(target_terminal_id)`; `curr_ebp`, `curr_esp` and `f` are
handed to `run_terminal_process`. -/
def switch_terminal (s : kernel_state) (target_terminal_id : Int)
    (curr_ebp curr_esp : Nat) (f : execute_frame) : outcome × kernel_state :=
  if h : target_terminal_id < 0 ∨ target_terminal_id ≥ 3 then (outcome.done, s)
  else if target_terminal_id = (s.curr_foreground_terminal.val : Int) then (outcome.done, s)
  else
    let s1 := save_video_mem s VIDEO (s.curr_foreground_terminal.val : Int)
    match restore_video_mem s1 VIDEO target_terminal_id with
    | none => (outcome.fault, s1)
    | some s2 =>
      let s3 := { s2 with curr_foreground_terminal := ⟨target_terminal_id.toNat, by omega⟩ }
      run_terminal_process s3 target_terminal_id curr_ebp curr_esp f

/-! ## filesystem.c, rtc.c, syscall.c: open -/

/-- Modelled from the spec: `strlen(s)` of lib.c, which is not under src/: the
number of bytes of the string before its first NUL. -/
def strlen (l : List Nat) : Nat :=
  (l.takeWhile (fun c => decide (c ≠ 0))).length

/-- The state with descriptor `fd` of the current PCB filled the way the open
operations fill it: operations table, inode number, position 0, in use. -/
def fill_descriptor (s : kernel_state) (fd : Fin 8) (ptr : fileops_ptr) (inode_num : Int) :
    kernel_state :=
  { s with
    pcb_arr := Function.update s.pcb_arr s.curr_pcb
      { (s.pcb_arr s.curr_pcb) with
        file_desc := Function.update (s.pcb_arr s.curr_pcb).file_desc fd
          { fileops_table_ptr := ptr, inode := inode_num, file_pos := 0, flags := 1 } } }

/-- The loop of `file_open` and of `dir_open` at descriptor `fd` with `fuel`
iterations left: the first descriptor from 2 on that is not in use is filled
when the name is found in the directory; -1 when the name is not found or
every descriptor is in use. -/
def open_loop (s : kernel_state) (fname : Nat → Nat) (ptr : fileops_ptr) :
    Nat → Nat → Int × kernel_state
  | 0, _ => (-1, s)
  | fuel + 1, fd =>
    if h : fd < FD_SIZE then
      if ((s.pcb_arr s.curr_pcb).file_desc ⟨fd, h⟩).flags ≠ 0 then
        open_loop s fname ptr fuel (fd + 1)
      else
        match read_dentry_by_name s.filesystem fname with
        | some dir_entry => ((fd : Int), fill_descriptor s ⟨fd, h⟩ ptr dir_entry.inode_num)
        | none => (-1, s)
    else (-1, s)

/-- `file_open(filename)`: the return value and the state afterwards; `none`
is the `NULL` pointer, `some name` a pointer to the NUL-terminated string
`name`. -/
def file_open (s : kernel_state) (filename : Option (List Nat)) : Int × kernel_state :=
  match filename with
  | none => (-1, s)
  | some name =>
    if strlen name > FILENAME_LEN then (-1, s)
    else open_loop s (c_string name) fileops_ptr.fileops 6 2

/-- `dir_open(dirname)` for a non-null `dirname`. -/
def dir_open (s : kernel_state) (dirname : List Nat) : Int × kernel_state :=
  open_loop s (c_string dirname) fileops_ptr.dirops 6 2

/-- The loop of `rtc_open` at descriptor `fd` with `fuel` iterations left.  It
runs up to `PCB_SIZE`: from `fd = 8` on it reads `file_desc[fd]` past the
8-entry table, which gives `none`.  The writes to the RTC ports are not part
of `kernel_state`. -/
def rtc_open_loop (s : kernel_state) (fname : Nat → Nat) :
    Nat → Nat → Option (Int × kernel_state)
  | 0, _ => some (-1, s)
  | fuel + 1, fd =>
    if fd < PCB_SIZE then
      if h : fd < 8 then
        if ((s.pcb_arr s.curr_pcb).file_desc ⟨fd, h⟩).fileops_table_ptr =
            fileops_ptr.rtcOps_table then
          some ((fd : Int), s)
        else if ((s.pcb_arr s.curr_pcb).file_desc ⟨fd, h⟩).flags ≠ 0 then
          rtc_open_loop s fname fuel (fd + 1)
        else
          match read_dentry_by_name s.filesystem fname with
          | some dir_entry =>
            some ((fd : Int),
              fill_descriptor s ⟨fd, h⟩ fileops_ptr.rtcOps_table dir_entry.inode_num)
          | none => some (-1, s)
      else none
    else some (-1, s)

/-- `rtc_open(filename)` for a non-null `filename`. -/
def rtc_open (s : kernel_state) (filename : List Nat) : Option (Int × kernel_state) :=
  rtc_open_loop s (c_string filename) 254 2

/-- `syscall_open` with `arg1` pointing to the NUL-terminated string
`filename`. -/
def syscall_open (s : kernel_state) (filename : List Nat) : outcome × kernel_state :=
  if strlen filename = 1 ∧ strncmp (c_string filename) (c_string [46]) 1 = 0 then
    (outcome.returned (dir_open s filename).1, (dir_open s filename).2)
  else if strlen filename = 3 ∧ strncmp (c_string filename) (c_string [114, 116, 99]) 3 = 0 then
    match rtc_open s filename with
    | none => (outcome.fault, s)
    | some r => (outcome.returned r.1, r.2)
  else
    (outcome.returned (file_open s (some filename)).1, (file_open s (some filename)).2)

/-! ## paging.c: page_directory_init, page_table_init -/

def TABLE_ATTRIBUTE : Nat := 0x13
def KERNEL_PDE : Nat := 0x193
def KB_PAGE_COUNT : Nat := 1024

/-- The `for` loop of `page_directory_init` at index `i` with `fuel`
iterations left. -/
def page_directory_init_loop : Nat → Nat → (Fin 1024 → Nat) → (Fin 1024 → Nat)
  | 0, _, pd => pd
  | fuel + 1, i, pd =>
    if h : i < ENTRIES then
      page_directory_init_loop fuel (i + 1) (Function.update pd ⟨i, h⟩ DEFAULT_PDE)
    else pd

/-- `page_directory_init()`.  `page_table_addr` and `vidmap_page_table_addr`
are the values of `(int)page_table` and `(int)vidmap_page_table`: the
addresses at which the two tables are linked. -/
def page_directory_init (s : kernel_state) (page_table_addr vidmap_page_table_addr : Nat) :
    kernel_state :=
  let pd0 := page_directory_init_loop ENTRIES 0 s.page_directory
  let pd1 := Function.update pd0 ⟨0, by norm_num⟩
    ((page_table_addr &&& ZERO_ATTRIBUTE) ||| TABLE_ATTRIBUTE)
  let pd2 := Function.update pd1 ⟨1, by norm_num⟩ (MB_OFFSET ||| KERNEL_PDE)
  let pd3 := Function.update pd2 ⟨VIDMAP_PDE_IDX, by decide⟩
    ((vidmap_page_table_addr &&& ZERO_ATTRIBUTE) ||| VIDMEM_PTE)
  { s with page_directory := pd3 }

/-- The `for` loop of `page_table_init` at index `i` with `fuel` iterations
left, on the pair (`page_table`, `vidmap_page_table`). -/
def page_table_init_loop :
    Nat → Nat → (Fin 1024 → Nat) × (Fin 1024 → Nat) → (Fin 1024 → Nat) × (Fin 1024 → Nat)
  | 0, _, st => st
  | fuel + 1, i, (pt, vt) =>
    if h : i < KB_PAGE_COUNT then
      page_table_init_loop fuel (i + 1)
        (Function.update pt ⟨i, h⟩ ((i * KB_OFFSET) ||| DEFAULT_PTE),
         Function.update vt ⟨i, h⟩ ((i * KB_OFFSET) ||| DEFAULT_PTE))
    else (pt, vt)

/-- `page_table_init()`. -/
def page_table_init (s : kernel_state) : kernel_state :=
  let r := page_table_init_loop KB_PAGE_COUNT 0 (s.page_table, s.vidmap_page_table)
  let pt1 := Function.update r.1 ⟨VIDMEM_PAGE_IDX, by decide⟩
    ((VIDMEM_PAGE_IDX * KB_OFFSET) ||| VIDMEM_PTE)
  let pt2 := Function.update pt1 ⟨TERMINAL_VMEM_PAGE_IDX, by decide⟩
    ((TERMINAL_VMEM_PAGE_IDX * KB_OFFSET) ||| VIDMEM_PTE)
  let pt3 := Function.update pt2 ⟨TERMINAL_VMEM_PAGE_IDX + 1, by decide⟩
    (((TERMINAL_VMEM_PAGE_IDX + 1) * KB_OFFSET) ||| VIDMEM_PTE)
  let pt4 := Function.update pt3 ⟨TERMINAL_VMEM_PAGE_IDX + 2, by decide⟩
    (((TERMINAL_VMEM_PAGE_IDX + 2) * KB_OFFSET) ||| VIDMEM_PTE)
  { s with page_table := pt4, vidmap_page_table := r.2 }

/-! ## pcb.c: pidToPCB -/

def PCB1_POS : Nat := KP_BOTTOM - KS_SIZE + PCB_SIZE
def PCB2_POS : Nat := KP_BOTTOM - KS_SIZE - KS_SIZE + PCB_SIZE

/-- `pidToPCB(pid)` for a `uint8_t` pid: the address of the PCB of that
process. -/
def pidToPCB (pid : Nat) : Nat := KP_BOTTOM - KS_SIZE * (pid + 1) + PCB_SIZE

/-- `sizeof(file_descriptor_t)`: a pointer and three `int32_t`. -/
def sizeof_file_descriptor_t : Nat := 4 + 4 + 4 + 4

/-- `sizeof(pcb_t)`: two `int`, the `FD_SIZE` descriptors, three `uint32_t`,
two `uint8_t` and two bytes of padding up to the alignment of 4. -/
def sizeof_pcb_t : Nat := 4 + 4 + FD_SIZE * sizeof_file_descriptor_t + 4 + 4 + 4 + 1 + 1 + 2

/-! ## filesystem.c: the stores of exec_file_check to `filename` -/

/-- The indices of the local array `filename` that `exec_file_check` stores
to, in program order: `filename[i] = command[i]` in every iteration of the copy
loop (at index `i` with `fuel` iterations left), then `filename[i] = 0` with
the value of `i` at which the loop was left. -/
def exec_file_check_stores (command : Nat → Nat) : Nat → Nat → List Nat
  | 0, i => [i]
  | fuel + 1, i =>
    if i < FILENAME_LEN ∧ command i ≠ 32 ∧ command i ≠ 0 then
      i :: exec_file_check_stores command fuel (i + 1)
    else
      [i]

/-! ## keyboard.h, keyboard.c -/

def SCANCODES_LEN : Nat := 58
def LEFT_SHIFT_PRESSED : Nat := 0x2A
def LEFT_SHIFT_RELEASED : Nat := 0xAA
def RIGHT_SHIFT_PRESSED : Nat := 0x36
def RIGHT_SHIFT_RELEASED : Nat := 0xB6
def CAPS_LOCK_PRESSED : Nat := 0x3A
def CTRL_PRESSED : Nat := 0x1d
def CTRL_RELEASED : Nat := 0x9d
def ALT_PRESSED : Nat := 0x38
def ALT_RELEASED : Nat := 0xB8
def BACKSPACE : Nat := 0x0e
def ENTER : Nat := 0x1c
def F1 : Nat := 0x3b
def F2 : Nat := 0x3c
def F3 : Nat := 0x3d
def ESC : Nat := 27
def KEYBOARD_BUFFER_SIZE : Nat := 128

/-- `kbd_US`: the characters of the scancodes 0..57, then those of the same
scancodes with shift held. -/
def kbd_US : List Nat :=
  [0, 27, 49, 50, 51, 52, 53, 54, 55, 56, 57, 48, 45, 61, 8,
   9,
   113, 119, 101, 114, 116, 121, 117, 105, 111, 112, 91, 93, 10,
   0,
   97, 115, 100, 102, 103, 104, 106, 107, 108, 59, 39, 96, 0, 92, 122, 120, 99, 118, 98, 110,
   109, 44, 46, 47, 0,
   42,
   0,
   32,
   0, 27, 33, 64, 35, 36, 37, 94, 38, 42, 40, 41, 95, 43, 8,
   9,
   81, 87, 69, 82, 84, 89, 85, 73, 79, 80, 123, 125, 10,
   0,
   65, 83, 68, 70, 71, 72, 74, 75, 76, 58, 34, 126, 0, 124, 90, 88, 67, 86, 66, 78, 77, 60,
   62, 63, 0,
   42,
   0,
   32]

/-- `kbd_US_CAPS`: the same table with caps lock on. -/
def kbd_US_CAPS : List Nat :=
  [0, 27, 49, 50, 51, 52, 53, 54, 55, 56, 57, 48, 45, 61, 8,
   9,
   81, 87, 69, 82, 84, 89, 85, 73, 79, 80, 91, 93, 10,
   0,
   65, 83, 68, 70, 71, 72, 74, 75, 76, 59, 39, 96, 0, 92, 90, 88, 67, 86, 66, 78, 77, 44, 46,
   47, 0,
   42,
   0,
   32,
   0, 27, 33, 64, 35, 36, 37, 94, 38, 42, 40, 41, 95, 43, 8,
   9,
   113, 119, 101, 114, 116, 121, 117, 105, 111, 112, 123, 125, 10,
   0,
   97, 115, 100, 102, 103, 104, 106, 107, 108, 58, 34, 126, 0, 124, 122, 120, 99, 118, 98,
   110, 109, 60, 62, 63, 0,
   42,
   0,
   32]

/-- The variables of keyboard.c: the modifier flags, `char_counter`, and for
each of the three terminals the line buffer `keyboard_buffer` with its `head`,
`tail`, `length` and `enter_flag`. -/
structure keyboard_t where
  shift : Int
  caps_lock : Int
  ctrl : Int
  alt : Int
  char_counter : Fin 3 → Int
  keyboard_buffer : Fin 3 → Nat → Nat
  keyboard_buffer_head : Fin 3 → Int
  keyboard_buffer_tail : Fin 3 → Int
  length : Fin 3 → Int
  enter_flag : Fin 3 → Int

/-- The initial values that keyboard.c gives its variables. -/
def keyboard_init : keyboard_t :=
  { shift := 0, caps_lock := 0, ctrl := 0, alt := 0, char_counter := fun _ => 0,
    keyboard_buffer := fun _ _ => 0, keyboard_buffer_head := fun _ => 0,
    keyboard_buffer_tail := fun _ => 0, length := fun _ => 0, enter_flag := fun _ => 0 }

/-- Modelled from the spec: `max(a, b)` of lib.h, which is not under src/: the
larger of two `int` values, used by the keyboard driver to keep the length of
the input line from going below zero. -/
def int_max (a b : Int) : Int := if a > b then a else b

/-- The expression `caps_lock == 0 ? kbd_US[key + shift * SCANCODES_LEN] :
kbd_US_CAPS[key + shift * SCANCODES_LEN]`; `none` when the index is outside
the 116 entries of the table. -/
def scancode_char (k : keyboard_t) (key : Nat) : Option Nat :=
  let idx : Int := (key : Int) + k.shift * (SCANCODES_LEN : Int)
  if 0 ≤ idx ∧ idx < 2 * (SCANCODES_LEN : Int) then
    some ((if k.caps_lock = 0 then kbd_US else kbd_US_CAPS).getD idx.toNat 0)
  else none

/-- `update_keyboard_buffer(key)` with `curr_foreground_terminal == t`: the
character returned and the variables afterwards; `none` when the table or the
line buffer is indexed outside its bounds. -/
def update_keyboard_buffer (k : keyboard_t) (t : Fin 3) (key : Nat) :
    Option (Nat × keyboard_t) :=
  match scancode_char k key with
  | none => none
  | some to_screen =>
    let k1 : keyboard_t :=
      if k.enter_flag t ≠ 0 then
        { k with
          keyboard_buffer_head :=
            Function.update k.keyboard_buffer_head t (k.keyboard_buffer_tail t),
          enter_flag := Function.update k.enter_flag t 0,
          length := Function.update k.length t 0 }
      else k
    if key = BACKSPACE then
      let tail : Int :=
        if k1.keyboard_buffer_tail t > k1.keyboard_buffer_head t then
          k1.keyboard_buffer_tail t - 1
        else k1.keyboard_buffer_head t
      if 0 ≤ tail ∧ tail < (KEYBOARD_BUFFER_SIZE : Int) then
        some (k1.keyboard_buffer t tail.toNat,
          { k1 with
            keyboard_buffer_tail := Function.update k1.keyboard_buffer_tail t tail,
            keyboard_buffer := Function.update k1.keyboard_buffer t
              (Function.update (k1.keyboard_buffer t) tail.toNat 0),
            length := Function.update k1.length t (int_max (k1.length t - 1) 0) })
      else none
    else if k1.length t < (KEYBOARD_BUFFER_SIZE : Int) then
      if k1.ctrl = 1 ∨ k1.alt = 1 then some (0, k1)
      else if 0 ≤ k1.keyboard_buffer_tail t ∧
          k1.keyboard_buffer_tail t < (KEYBOARD_BUFFER_SIZE : Int) then
        some (to_screen,
          { k1 with
            keyboard_buffer := Function.update k1.keyboard_buffer t
              (Function.update (k1.keyboard_buffer t) (k1.keyboard_buffer_tail t).toNat
                to_screen),
            keyboard_buffer_tail := Function.update k1.keyboard_buffer_tail t
              ((k1.keyboard_buffer_tail t + 1).tmod (KEYBOARD_BUFFER_SIZE : Int)),
            length := Function.update k1.length t (k1.length t + 1) })
      else none
    else some (0, k1)

/-- `send_to_screen(key, lastChar)` with `curr_foreground_terminal == t`: what
it does to `enter_flag` and `char_counter`.  The characters that it sends to
the display through `terminal_write`, and `clear`, are not part of
`keyboard_t`. -/
def send_to_screen (k : keyboard_t) (t : Fin 3) (key lastChar : Nat) : Option keyboard_t :=
  match scancode_char k key with
  | none => none
  | some to_screen =>
    if k.ctrl = 1 ∧ (to_screen = 108 ∨ to_screen = 76) then some k
    else if k.ctrl = 0 ∧ k.alt = 0 then
      if to_screen = 0 ∨ to_screen = ESC then some k
      else if to_screen = 8 then
        if lastChar = 9 then
          some { k with char_counter := Function.update k.char_counter t (k.char_counter t - 4) }
        else if k.char_counter t > 0 then
          some { k with char_counter := Function.update k.char_counter t (k.char_counter t - 1) }
        else some k
      else
        let k1 : keyboard_t :=
          if to_screen = 10 then
            { k with
              enter_flag := Function.update k.enter_flag t 1,
              char_counter := Function.update k.char_counter t (-1) }
          else k
        some { k1 with
          char_counter := Function.update k1.char_counter t
            (if to_screen = 9 then k1.char_counter t + 4 else k1.char_counter t + 1) }
    else some k

/-- `_keyboard_interrupt_handler()` when the data port delivers `key`, with
`curr_foreground_terminal == t`: the variables of keyboard.c afterwards and,
for Alt+F1..F3, the argument of the `switch_terminal` call that it makes (that
call works on the variables of terminals.c); `none` when a table or the line
buffer is indexed outside its bounds. -/
def _keyboard_interrupt_handler (k : keyboard_t) (t : Fin 3) (key : Nat) :
    Option (keyboard_t × Option Int) :=
  if key = LEFT_SHIFT_PRESSED ∨ key = RIGHT_SHIFT_PRESSED then some ({ k with shift := 1 }, none)
  else if key = LEFT_SHIFT_RELEASED ∨ key = RIGHT_SHIFT_RELEASED then
    some ({ k with shift := 0 }, none)
  else if key = CAPS_LOCK_PRESSED then some ({ k with caps_lock := -k.caps_lock - 1 }, none)
  else if key = CTRL_PRESSED then some ({ k with ctrl := 1 }, none)
  else if key = CTRL_RELEASED then some ({ k with ctrl := 0 }, none)
  else if key = ALT_PRESSED then some ({ k with alt := 1 }, none)
  else if key = ALT_RELEASED then some ({ k with alt := 0 }, none)
  else if key = F1 then some (k, if k.alt ≠ 0 ∧ k.ctrl = 0 then some 0 else none)
  else if key = F2 then some (k, if k.alt ≠ 0 ∧ k.ctrl = 0 then some 1 else none)
  else if key = F3 then some (k, if k.alt ≠ 0 ∧ k.ctrl = 0 then some 2 else none)
  else if key < SCANCODES_LEN then
    match update_keyboard_buffer k t key with
    | none => none
    | some (lastChar, k1) =>
      match send_to_screen k1 t key lastChar with
      | none => none
      | some k2 => some (k2, none)
  else some (k, none)

/-! ## terminal.c: terminal_read -/

/-- How a `terminal_read` call ends. -/
inductive terminal_read_result where
  /-- it returned `eax`, leaving the variables `k` and the memory `buf` at its
  second argument -/
  | returned (eax : Int) (k : keyboard_t) (buf : Nat → Nat)
  /-- `enter_flag` is 0: the call spins until the keyboard handler sets it -/
  | waiting
  /-- the size of `temp` is not positive, or the line buffer is read outside
  its bounds -/
  | fault

/-- The loop of `terminal_read` over the current line, at index `i` with `fuel`
iterations left, on the pair (`temp`, `counter`); `none` when the index into
the line buffer is negative. -/
def terminal_read_loop (k : keyboard_t) (t : Fin 3) (read_bytes : Int) :
    Nat → Nat → (Nat → Nat) × Nat → Option ((Nat → Nat) × Nat)
  | 0, _, st => some st
  | fuel + 1, i, (temp, counter) =>
    if (i : Int) < k.length t then
      if (i : Int) < read_bytes then
        let index : Int :=
          (k.keyboard_buffer_head t + (i : Int)).tmod (KEYBOARD_BUFFER_SIZE : Int)
        if 0 ≤ index then
          terminal_read_loop k t read_bytes fuel (i + 1)
            (Function.update temp counter (k.keyboard_buffer t index.toNat), counter + 1)
        else none
      else terminal_read_loop k t read_bytes fuel (i + 1) (temp, counter)
    else some (temp, counter)

/-- `terminal_read(fd, buf, nbytes)` for a non-null `buf`, with
`curr_foreground_terminal == t`; `buf` is the memory at the second argument.
`temp` has `buffer_size` bytes, all set to 0 by the first loop. -/
def terminal_read (k : keyboard_t) (t : Fin 3) (buf : Nat → Nat) (nbytes : Int) :
    terminal_read_result :=
  if nbytes = 0 then terminal_read_result.returned 0 k buf
  else
    let read_bytes : Int := if nbytes ≤ 127 then nbytes else 128
    let buffer_size : Int := if nbytes ≤ 127 then read_bytes + 1 else 128
    if buffer_size ≤ 0 then terminal_read_result.fault
    else if k.enter_flag t = 0 then terminal_read_result.waiting
    else
      match terminal_read_loop k t read_bytes (k.length t).toNat 0 (fun _ => 0, 0) with
      | none => terminal_read_result.fault
      | some (temp, counter) =>
        let temp1 : Nat → Nat :=
          if (counter : Int) = read_bytes ∧ as_int8 (temp (counter - 1)) ≠ 10 ∧
              counter ≠ KEYBOARD_BUFFER_SIZE then
            Function.update temp counter 10
          else temp
        let k1 : keyboard_t :=
          { k with
            keyboard_buffer_head :=
              Function.update k.keyboard_buffer_head t (k.keyboard_buffer_tail t),
            enter_flag := Function.update k.enter_flag t 0,
            length := Function.update k.length t 0 }
        terminal_read_result.returned (counter : Int) k1 (memcpy buf temp1 buffer_size.toNat)

/-! ## The order of paging writes, TLB flushes and interrupt-flag changes -/

/-- One step of a kernel function, as far as the order of these steps is
concerned: `sti()`, `cli()`, a store to `page_directory[i]`, a store to
`vidmap_page_table[i]`, `flush_tlb()`, a store of `v` to the `available` flag
of slot `pid`, and `other` for any other statement or run of statements that
the function executes between two of these. -/
inductive event where
  | sti
  | cli
  | write_page_directory (i : Nat)
  | write_vidmap_page_table (i : Int)
  | flush_tlb
  | write_available (pid : Int) (v : Nat)
  | other
deriving DecidableEq, Repr

/-- The steps of `clear_pid(pid)`. -/
def clear_pid_events (pid : Int) : List event :=
  if 0 ≤ pid ∧ pid < 6 then [event.write_available pid 1] else []

/-- The steps of `create_pcb`: the call of `find_avail_pid`, the store
`pcb_arr[i]->available = 0`, the stores to the other fields.  With `i == -1`
the first store is outside the table and the list ends there. -/
def create_pcb_events (t : pcb_table) : List event :=
  let r := find_avail_pid t
  if 0 ≤ r.1 ∧ r.1 < 6 then [event.other, event.write_available r.1 0, event.other]
  else [event.other]

/-- The steps of `load_program`: the file check, and when it passes the store
to `page_directory[USER_PROG_IDX]`, `flush_tlb()`, and the copy of the image. -/
def load_program_events (s : kernel_state) (command : Nat → Nat) (m : exec_file_check_mem) :
    List event :=
  match exec_file_check s.filesystem command m with
  | none => [event.other]
  | some _ =>
    [event.other, event.write_page_directory USER_PROG_IDX, event.flush_tlb, event.other]

/-- The steps of `syscall_execute`, along the path that `syscall_execute`
takes on the same arguments: `sti()`, the parsing of the command, the file
check, `find_avail_pid`, the stores to the terminal record, `create_pcb`,
`point_curr_pcb`, `load_program`, the stores to `saved_eip` and `tss`, `cli()`
and the `iret`. -/
def syscall_execute_events (s : kernel_state) (command : List Nat) (f : execute_frame) :
    List event :=
  [event.sti, event.other] ++
  match parseCmd command (fun _ => 0) (fun _ => 0) with
  | none => []
  | some (cmd_buf, arg_buf) =>
    let s1 : kernel_state := { s with arg_buf := arg_buf }
    event.other ::
    match exec_file_check s1.filesystem cmd_buf f.check_mem with
    | none => []
    | some _ =>
      let avail := find_avail_pid s1.pcb_arr
      let s2 : kernel_state := { s1 with pcb_arr := avail.2 }
      event.other ::
      if avail.1 = -1 then []
      else
        let parentID : Int :=
          if (s2.terminal_arr s2.curr_terminal).initialized = 0 then -1
          else (s2.pcb_arr s2.curr_pcb).process_id
        let s3 : kernel_state := { s2 with
          terminal_arr := Function.update s2.terminal_arr s2.curr_terminal
            { (s2.terminal_arr s2.curr_terminal) with initialized := 1 } }
        event.other ::
        (create_pcb_events s3.pcb_arr ++
          match create_pcb s3.pcb_arr parentID f.ebp f.esp with
          | none => []
          | some (currID, t) =>
            let s4 := (point_curr_pcb { s3 with pcb_arr := t } currID).2
            event.other ::
            (load_program_events s4 cmd_buf f.load_mem ++
              if (load_program s4 cmd_buf f.load_mem).1 = -1 then []
              else [event.other, event.cli, event.other]))

/-- The steps of the `while (1)` loop of `syscall_halt`, with `fuel`
iterations: the store to `initialized` and the steps of `execute("shell")`. -/
def halt_restart_events : Nat → kernel_state → (Nat → execute_frame) → List event
  | 0, _, _ => []
  | fuel + 1, s, frames =>
    let s1 := { s with
      terminal_arr := Function.update s.terminal_arr s.curr_terminal
        { (s.terminal_arr s.curr_terminal) with initialized := 0 } }
    let r := syscall_execute s1 shell_command (frames 0)
    event.other ::
    (syscall_execute_events s1 shell_command (frames 0) ++
      match r.1 with
      | outcome.returned _ => halt_restart_events fuel r.2 (fun k => frames (k + 1))
      | _ => [])

/-- The steps of `syscall_halt`, along the path that `syscall_halt` takes on
the same arguments: `sti()`, the loop that closes the descriptors, the stores
to `active`, `saved_ebp` and `saved_esp`, `clear_pid`, then either the restart
loop or the stores to the terminal record, `curr_pcb` and `tss`, the store to
`page_directory[USER_PROG_IDX]`, `flush_tlb()`, the store to `active` and the
return into the parent. -/
def syscall_halt_events (s : kernel_state) (_arg1 : Nat) (fuel : Nat)
    (frames : Nat → execute_frame) : List event :=
  [event.sti, event.other] ++
  match halt_close_loop FD_SIZE 0 s with
  | none => []
  | some s1 =>
    let c := s1.curr_pcb
    let s2 := { s1 with pcb_arr := Function.update s1.pcb_arr c { (s1.pcb_arr c) with active := 0 } }
    let s3 := { s2 with
      pcb_arr := Function.update s2.pcb_arr c
        { (s2.pcb_arr c) with saved_ebp := 0, saved_esp := 0 } }
    let s4 := { s3 with pcb_arr := (clear_pid s3.pcb_arr (s3.pcb_arr c).process_id).2 }
    event.other ::
    (clear_pid_events (s3.pcb_arr c).process_id ++
      if (s4.pcb_arr c).parent_id = -1 then halt_restart_events fuel s4 frames
      else
        [event.other, event.write_page_directory USER_PROG_IDX, event.flush_tlb, event.other,
          event.other])

/-- The steps of `syscall_vidmap`: `sti()`, and when the address passes the
check the store to `vidmap_page_table[pid]` and the store of the address
through `arg1`, after which the function returns. -/
def syscall_vidmap_events (s : kernel_state) (arg1 : Nat) : List event :=
  event.sti ::
  if arg1 < USER_PROG_IDX * MB_OFFSET ∨ arg1 ≥ VIDMAP_PDE_IDX * MB_OFFSET ∨ arg1 = 0 then []
  else
    let pid := (s.pcb_arr s.curr_pcb).process_id
    if 0 ≤ pid ∧ pid < 1024 then [event.write_vidmap_page_table pid, event.other]
    else []

/-- The steps of `run_terminal_process`, along the path that
`run_terminal_process` takes on the same arguments: the stores to the record
of the terminal being left and to `curr_terminal`; for a terminal that is not
initialised `sti()` and the steps of `execute("shell")`; then the load of the
recorded PCB pointer, the store to `page_directory[USER_PROG_IDX]`,
`flush_tlb()`, the stores to `tss`, `sti()` and the switch of the stack.  The
list ends where `execute` enters user mode, and before the store whose value
is read through a `NULL` pointer. -/
def run_terminal_process_events (s : kernel_state) (target_terminal_id : Int)
    (curr_ebp curr_esp : Nat) (f : execute_frame) : List event :=
  if h : 0 ≤ target_terminal_id ∧ target_terminal_id < 3 then
    let t : Fin 3 := ⟨target_terminal_id.toNat, by omega⟩
    let s1 := { s with
      terminal_arr := Function.update s.terminal_arr s.curr_terminal
        { (s.terminal_arr s.curr_terminal) with
          ebp := curr_ebp, esp := curr_esp, esp0 := s.tss_esp0, ss0 := s.tss_ss0,
          curr_pcb := some s.curr_pcb } }
    let s2 := { s1 with curr_terminal := t }
    let r : outcome × kernel_state :=
      if (s2.terminal_arr t).initialized = 0 then syscall_execute s2 shell_command f
      else (outcome.returned 0, s2)
    event.other ::
    ((if (s2.terminal_arr t).initialized = 0 then
        event.sti :: syscall_execute_events s2 shell_command f
      else []) ++
      match r.1 with
      | outcome.returned _ =>
        match (r.2.terminal_arr t).curr_pcb with
        | none => [event.other]
        | some _ =>
          [event.other, event.write_page_directory USER_PROG_IDX, event.flush_tlb, event.other,
            event.sti, event.other]
      | _ => [])
  else []

/-- The steps of `switch_terminal`: the copies of the display and the store to
`curr_foreground_terminal`, then the steps of `run_terminal_process`. -/
def switch_terminal_events (s : kernel_state) (target_terminal_id : Int)
    (curr_ebp curr_esp : Nat) (f : execute_frame) : List event :=
  if h : target_terminal_id < 0 ∨ target_terminal_id ≥ 3 then []
  else if target_terminal_id = (s.curr_foreground_terminal.val : Int) then []
  else
    let s1 := save_video_mem s VIDEO (s.curr_foreground_terminal.val : Int)
    match restore_video_mem s1 VIDEO target_terminal_id with
    | none => [event.other]
    | some s2 =>
      let s3 := { s2 with curr_foreground_terminal := ⟨target_terminal_id.toNat, by omega⟩ }
      event.other :: run_terminal_process_events s3 target_terminal_id curr_ebp curr_esp f

/-- The steps of `_keyboard_interrupt_handler` for Alt+F1..F3, up to the end
of the `switch_terminal` call: `cli()`, the read of the data port and
`send_eoi`, then the steps of `switch_terminal(target_terminal_id)`. -/
def keyboard_switch_events (s : kernel_state) (target_terminal_id : Int)
    (curr_ebp curr_esp : Nat) (f : execute_frame) : List event :=
  event.cli :: event.other ::
    switch_terminal_events s target_terminal_id curr_ebp curr_esp f

/-! ## Vocabulary of the statements -/

/-- A character that belongs to the program name: neither a space nor NUL. -/
def is_name_char (c : Nat) : Bool := decide (c ≠ 32 ∧ c ≠ 0)

/-- A character other than the terminating NUL. -/
def is_string_char (c : Nat) : Bool := decide (c ≠ 0)

/-- The program name of a command line: the characters before the first space
or the terminating NUL. -/
def program_name (cmd : List Nat) : List Nat :=
  cmd.takeWhile is_name_char

/-- The argument string of a command line: what follows the first space, up to
the terminating NUL. -/
def argument_string (cmd : List Nat) : List Nat :=
  (cmd.takeWhile is_string_char).drop ((program_name cmd).length + 1)

/-- Byte `pos` of the file with inode number `inode`, as the filesystem lays
it out: byte `pos % BLOCK_SIZE` of the data block whose number is entry
`pos / BLOCK_SIZE` of the inode. -/
def file_byte (fs : filesystem_t) (inode pos : Nat) : Nat :=
  fs.data_blocks ((fs.inodes inode).data_block_num (pos / BLOCK_SIZE)).toNat (pos % BLOCK_SIZE) % 256

/-- The first four bytes of the file are 0x7F 'E' 'L' 'F'. -/
def has_elf_magic (fs : filesystem_t) (inode : Nat) : Prop :=
  file_byte fs inode 0 = 0x7F ∧ file_byte fs inode 1 = 0x45 ∧
  file_byte fs inode 2 = 0x4C ∧ file_byte fs inode 3 = 0x46

instance (fs : filesystem_t) (inode : Nat) : Decidable (has_elf_magic fs inode) := by
  unfold has_elf_magic; infer_instance

/-- Every data-block number that covers the bytes `0 .. length` of the file is
inside `[0, data_count)`. -/
def blocks_valid (fs : filesystem_t) (inode : Nat) : Prop :=
  ∀ b : Nat, (b : Int) ≤ (fs.inodes inode).length / 4096 →
    0 ≤ (fs.inodes inode).data_block_num b ∧ (fs.inodes inode).data_block_num b < fs.data_count

/-- The program `name` is a valid executable of the filesystem: the lookup by
name finds an entry with an inode number in range, the file has at least the
28 bytes that hold the signature and the entry address, its data-block
numbers are valid and it starts with the ELF signature. -/
def valid_executable (fs : filesystem_t) (name : List Nat) : Prop :=
  ∃ d : dentry_t, read_dentry_by_name fs (c_string name) = some d ∧
    0 ≤ d.inode_num ∧ d.inode_num < 62 ∧
    28 ≤ (fs.inodes d.inode_num.toNat).length ∧
    (fs.inodes d.inode_num.toNat).length < 2147483648 ∧
    blocks_valid fs d.inode_num.toNat ∧
    has_elf_magic fs d.inode_num.toNat

/-- The entry address of an executable: the little-endian `uint32_t` in bytes
24..27 of the file. -/
def entry_point (fs : filesystem_t) (inode : Nat) : Nat :=
  le32 (fun j => file_byte fs inode (PROG_EIP_START_BYTE + j))

/-- The state that a successful `execute` leaves when it allocates slot `k`
for a program with entry address `eip`: the new PCB, `curr_pcb`, the
terminal's `initialized` flag, the program window, the TSS fields and
`arg_buf`. -/
def execute_post (s : kernel_state) (cmd : List Nat) (f : execute_frame) (k : Fin 6)
    (eip : Nat) : kernel_state :=
  { s with
    pcb_arr := Function.update s.pcb_arr k
      { (s.pcb_arr k) with
        available := 0, process_id := (k.val : Int),
        parent_id :=
          if (s.terminal_arr s.curr_terminal).initialized = 0 then -1
          else if s.curr_pcb = k then (k.val : Int) else (s.pcb_arr s.curr_pcb).process_id,
        saved_esp := f.esp, saved_ebp := f.ebp, active := 1, saved_eip := eip },
    curr_pcb := k,
    terminal_arr := Function.update s.terminal_arr s.curr_terminal
      { (s.terminal_arr s.curr_terminal) with initialized := 1 },
    page_directory := Function.update s.page_directory ⟨32, by norm_num⟩
      (user_prog_pde (k.val : Int)),
    tss_esp0 := pidToESP0 k.val,
    tss_ss0 := KERNEL_DS,
    arg_buf := c_string (argument_string cmd) }

/-- Every descriptor of the table that is in use has an operations table, so
that `halt` can call its `fd_close`. -/
def fds_callable (fd : Fin 8 → file_descriptor_t) : Prop :=
  ∀ i : Fin 8, (fd i).flags ≠ 0 → (fd i).fileops_table_ptr ≠ fileops_ptr.null

/-- The descriptor table that the close loop of `halt` leaves: a descriptor
2..7 that is in use and bound to the file, directory or RTC table is reset,
every other descriptor is as before. -/
def halt_closed (fd : Fin 8 → file_descriptor_t) : Fin 8 → file_descriptor_t :=
  fun i =>
    if (fd i).flags ≠ 0 ∧ 2 ≤ i.val ∧
        ((fd i).fileops_table_ptr = fileops_ptr.fileops ∨
         (fd i).fileops_table_ptr = fileops_ptr.dirops ∨
         (fd i).fileops_table_ptr = fileops_ptr.rtcOps_table) then
      { fileops_table_ptr := fileops_ptr.null, inode := 0, file_pos := 0, flags := 0 }
    else fd i

/-- The state `s` with the descriptor table of the current PCB replaced by `g`. -/
def with_file_desc (s : kernel_state) (g : Fin 8 → file_descriptor_t) : kernel_state :=
  { s with
    pcb_arr := Function.update s.pcb_arr s.curr_pcb
      { (s.pcb_arr s.curr_pcb) with file_desc := g } }

/-- The state that `halt` leaves when the halting process (the current PCB,
slot `c`) has the parent `p`: slot `c` released, the terminal's `curr_pcb`
pointing to `c`, slot `p` current and active, the TSS fields and the program
window set for `p`. -/
def halt_post (s : kernel_state) (p : Fin 6) : kernel_state :=
  { s with
    pcb_arr := Function.update
      (Function.update s.pcb_arr s.curr_pcb
        { (s.pcb_arr s.curr_pcb) with
          file_desc := halt_closed (s.pcb_arr s.curr_pcb).file_desc,
          active := 0, saved_ebp := 0, saved_esp := 0, available := 1 }) p
      { (Function.update s.pcb_arr s.curr_pcb
          { (s.pcb_arr s.curr_pcb) with
            file_desc := halt_closed (s.pcb_arr s.curr_pcb).file_desc,
            active := 0, saved_ebp := 0, saved_esp := 0, available := 1 } p) with
        active := 1 },
    curr_pcb := p,
    terminal_arr := Function.update s.terminal_arr s.curr_terminal
      { (s.terminal_arr s.curr_terminal) with curr_pcb := some s.curr_pcb },
    page_directory := Function.update s.page_directory ⟨32, by norm_num⟩
      (user_prog_pde (p.val : Int)),
    tss_esp0 := pidToESP0 p.val,
    tss_ss0 := KERNEL_DS }

/-- The value that `halt(status)` leaves in `eax` for the parent. -/
def halt_retval (status : Nat) : Nat := if status = 255 then 256 else status

/-- `calls.length` nested `execute` calls followed by as many `halt` calls:
each call `(command, frame, status)` is issued by the process that the
previous one created, and after the calls nested inside it that process halts
with `status`.  The result lists, in the order of the `halt` calls, how each
one handed control on; `none` when one of the `execute` calls did not enter
user mode. -/
def run_nested (fuel : Nat) (frames : Nat → execute_frame) :
    kernel_state → List (List Nat × execute_frame × Nat) → Option (List outcome × kernel_state)
  | s, [] => some ([], s)
  | s, (command, f, status) :: rest =>
    match (syscall_execute s command f).1 with
    | outcome.user_mode _ _ =>
      match run_nested fuel frames (syscall_execute s command f).2 rest with
      | some (outs, s2) =>
        some (outs ++ [(syscall_halt s2 status fuel frames).1],
          (syscall_halt s2 status fuel frames).2)
      | none => none
    | _ => none

/-- The number of slots with `available == 1`. -/
def free_slots (t : pcb_table) : Nat :=
  (Finset.univ.filter (fun i : Fin 6 => (t i).available = 1)).card

/-- The command line fits the two `MAX_BUF_SIZE`-byte buffers of `parseCmd`. -/
def fits_buffers (cmd : List Nat) : Prop :=
  (program_name cmd).length ≤ MAX_BUF_SIZE ∧ (argument_string cmd).length ≤ MAX_BUF_SIZE

instance (cmd : List Nat) : Decidable (fits_buffers cmd) := by
  unfold fits_buffers; infer_instance

/-! ## Example data -/

/-- A 28-byte image that starts with the ELF magic and holds `entry` in bytes
24..27. -/
def demo_image (entry : Nat) : Nat → Nat :=
  fun i =>
    if i < 4 then ELF_MAGIC i
    else if i = 24 then entry % 256
    else if i = 25 then entry / 256 % 256
    else if i = 26 then entry / 65536 % 256
    else if i = 27 then entry / 16777216 % 256
    else 0

/-- The string "ls". -/
def ls_command : List Nat := [108, 115]

/-- The string "badprog". -/
def badprog_command : List Nat := [98, 97, 100, 112, 114, 111, 103]

/-- A filesystem image with the directory ".", the executables "shell"
(inode 1, data block 0) and "ls" (inode 2, data block 1), the text file
"frame0.txt" (inode 3, data block 2, 5 bytes) and the empty file "log"
(inode 4). -/
def demo_fs : filesystem_t :=
  { dir_count := 5, inode_count := 5, data_count := 3,
    direntries := fun i =>
      if i = 0 then { filename := c_string [46], filetype := 1, inode_num := 0 }
      else if i = 1 then { filename := c_string shell_command, filetype := 2, inode_num := 1 }
      else if i = 2 then { filename := c_string ls_command, filetype := 2, inode_num := 2 }
      else if i = 3 then
        { filename := c_string [102, 114, 97, 109, 101, 48, 46, 116, 120, 116],
          filetype := 2, inode_num := 3 }
      else if i = 4 then { filename := c_string [108, 111, 103], filetype := 2, inode_num := 4 }
      else { filename := fun _ => 0, filetype := 0, inode_num := 0 },
    inodes := fun i =>
      if i = 1 then { length := 28, data_block_num := fun _ => 0 }
      else if i = 2 then { length := 28, data_block_num := fun _ => 1 }
      else if i = 3 then { length := 5, data_block_num := fun _ => 2 }
      else if i = 4 then { length := 0, data_block_num := fun _ => 2 }
      else { length := 0, data_block_num := fun _ => 0 },
    data_blocks := fun b =>
      if b = 0 then demo_image 0x080482E8
      else if b = 1 then demo_image 0x080480B4
      else c_string [47, 92, 47, 92, 10] }

/-- The string "log". -/
def log_command : List Nat := [108, 111, 103]

/-- A program name of 32 characters 'a'. -/
def name32 : List Nat := List.replicate 32 97

/-- A filesystem image whose only file is an executable with the 32-character
name `name32` (inode 1, data block 0). -/
def long_name_fs : filesystem_t :=
  { dir_count := 2, inode_count := 2, data_count := 1,
    direntries := fun i =>
      if i = 0 then { filename := c_string [46], filetype := 1, inode_num := 0 }
      else { filename := c_string name32, filetype := 2, inode_num := 1 },
    inodes := fun _ => { length := 28, data_block_num := fun _ => 0 },
    data_blocks := fun _ => demo_image 0x080482E8 }

/-- A filesystem image in which "shell" (inode 1) has 8192 bytes: its first
data-block number is 0 and valid, its later ones are 7, outside the
`data_count` of 3. -/
def bad_block_fs : filesystem_t :=
  { demo_fs with
    inodes := fun i =>
      if i = 1 then { length := 8192, data_block_num := fun b => if b = 0 then 0 else 7 }
      else demo_fs.inodes i }

/-- A terminal record after `init_terminals`. -/
def terminal_zero : terminal_t :=
  { initialized := 0, curr_pcb := none, cursor_x := 0, cursor_y := 0, ebp := 0, esp := 0,
    eip := 0, esp0 := 0, ss0 := 0, is_kernel_mode := 0 }

/-- The state after `pcb_arr_init` and `init_terminals` with the filesystem
`fs` loaded, every page-directory entry at `DEFAULT_PDE` (the state before
`page_directory_init` stores the three entries that depend on where the
tables are), the entries of `page_table` and of `vidmap_page_table` as
`page_table_init` leaves them, terminal 0 running and in the foreground, the
cursor at the origin and all of `mem` zero. -/
def fresh_state (fs : filesystem_t) : kernel_state :=
  { filesystem := fs, pcb_arr := pcb_arr_init, curr_pcb := 0,
    terminal_arr := fun _ => terminal_zero, curr_terminal := 0,
    page_directory := fun _ => 0x82, tss_esp0 := 0, tss_ss0 := 0,
    arg_buf := fun _ => 0, curr_foreground_terminal := 0,
    vidmap_page_table := fun i => (i.val * KB_OFFSET) ||| DEFAULT_PTE,
    screen_x := 0, screen_y := 0, mem := fun _ => 0,
    page_table := fun i =>
      if i.val = 184 ∨ (69 ≤ i.val ∧ i.val ≤ 71) then (i.val * KB_OFFSET) ||| VIDMEM_PTE
      else (i.val * KB_OFFSET) ||| DEFAULT_PTE }

/-- Uninitialised memory that happens to hold zeros. -/
def zero_mem : exec_file_check_mem :=
  { filename := fun _ => 0, elf_magic := fun _ => 0, prog_eip := fun _ => 0 }

/-- Uninitialised memory in which the local `elf_magic` still holds the
signature bytes that an earlier call read into the same stack location. -/
def stale_mem : exec_file_check_mem :=
  { filename := fun _ => 0, elf_magic := ELF_MAGIC, prog_eip := fun _ => 0 }

/-- A frame of `syscall_execute` with the given `ebp` and `esp`. -/
def demo_frame (ebp esp : Nat) : execute_frame :=
  { ebp := ebp, esp := esp, check_mem := zero_mem, load_mem := zero_mem }

/-- A table in which all six slots are taken: slot `i` holds process `i`,
started by process `i - 1` (slot 0 by nobody). -/
def full_table : pcb_table :=
  fun i =>
    { (pcb_arr_init i) with
      available := 0, process_id := (i.val : Int), parent_id := (i.val : Int) - 1,
      active := if i.val = 5 then 1 else 0 }

/-- A state with six live processes on the example filesystem, the last one
current. -/
def full_state : kernel_state :=
  { (fresh_state demo_fs) with
    pcb_arr := full_table, curr_pcb := 5,
    terminal_arr := fun _ => { terminal_zero with initialized := 1 } }

/-- The state in which "ls" runs as the only process, on the filesystem with
the damaged "shell" file. -/
def ls_running_state : kernel_state :=
  (syscall_execute (fresh_state bad_block_fs) ls_command (demo_frame 1 2)).2

/-- Two PCB values agree in every field except `active`. -/
def same_but_active (a b : pcb_t) : Prop :=
  a.process_id = b.process_id ∧ a.parent_id = b.parent_id ∧ a.file_desc = b.file_desc ∧
  a.saved_esp = b.saved_esp ∧ a.saved_ebp = b.saved_ebp ∧ a.saved_eip = b.saved_eip ∧
  a.available = b.available

/-- The state in which "shell" (slot 0) has started "ls" (slot 1) on the
example filesystem. -/
def shell_ls_state : kernel_state :=
  (syscall_execute (syscall_execute (fresh_state demo_fs) shell_command (demo_frame 1 2)).2
    ls_command (demo_frame 3 4)).2

/-- The state in which "shell" runs as the only process on the example
filesystem. -/
def shell_state : kernel_state :=
  (syscall_execute (fresh_state demo_fs) shell_command (demo_frame 1 2)).2

/-- Two nested calls: "ls" started with `ebp = 3`, `esp = 4`, halting with
status 0, and inside it "ls" started with `ebp = 5`, `esp = 6`, halting with
status 255. -/
def two_calls : List (List Nat × execute_frame × Nat) :=
  [(ls_command, demo_frame 3 4, 0), (ls_command, demo_frame 5 6, 255)]

/-- The table after `create_pcb(-1, 1, 16)` on a fresh table, the call made by
`create_pcb_test`. -/
def pcb_table_one_live : pcb_table :=
  Function.update pcb_arr_init 0
    { (pcb_arr_init 0) with
      available := 0, process_id := 0, parent_id := -1,
      saved_esp := 16, saved_ebp := 1, active := 1 }

/-! ## Sessions of `execute` and `halt` calls -/

/-- What the process table of a session looks like: every descriptor in use
has an operations table; a slot that is not available carries its index as
`process_id`; its `parent_id` is -1 or the index of another slot that is not
available; no such slot names the current PCB as its parent; two of them never
name the same parent; and while the terminal is initialised the current PCB is
not available. -/
def session_inv (s : kernel_state) : Prop :=
  (∀ i : Fin 6, fds_callable (s.pcb_arr i).file_desc) ∧
  (∀ i : Fin 6, (s.pcb_arr i).available ≠ 1 → (s.pcb_arr i).process_id = (i.val : Int)) ∧
  (∀ i : Fin 6, (s.pcb_arr i).available ≠ 1 →
    (s.pcb_arr i).parent_id = -1 ∨
    ∃ p : Fin 6, (s.pcb_arr i).parent_id = (p.val : Int) ∧ p ≠ i ∧
      (s.pcb_arr p).available ≠ 1) ∧
  (∀ i : Fin 6, (s.pcb_arr i).available ≠ 1 →
    (s.pcb_arr i).parent_id ≠ (s.curr_pcb.val : Int)) ∧
  (∀ i j : Fin 6, (s.pcb_arr i).available ≠ 1 → (s.pcb_arr j).available ≠ 1 →
    (s.pcb_arr i).parent_id ≠ -1 → (s.pcb_arr i).parent_id = (s.pcb_arr j).parent_id →
    i = j) ∧
  ((s.terminal_arr s.curr_terminal).initialized ≠ 0 →
    (s.pcb_arr s.curr_pcb).available ≠ 1)

/-- The states of one terminal's session: a state with the table of
`pcb_arr_init` and the terminal not initialised, and every state that an
`execute` call, or a `halt` call made while the terminal is initialised, leads
to.  A call that faults, and a restart loop that has not come to an end, leads
nowhere. -/
inductive session_reachable : kernel_state → Prop where
  | boot (s : kernel_state) :
      s.pcb_arr = pcb_arr_init → (s.terminal_arr s.curr_terminal).initialized = 0 →
      session_reachable s
  | execute (s : kernel_state) (command : List Nat) (f : execute_frame) :
      session_reachable s → (syscall_execute s command f).1 ≠ outcome.fault →
      session_reachable (syscall_execute s command f).2
  | halt (s : kernel_state) (arg1 fuel : Nat) (frames : Nat → execute_frame) :
      session_reachable s → (s.terminal_arr s.curr_terminal).initialized ≠ 0 →
      (syscall_halt s arg1 fuel frames).1 ≠ outcome.fault →
      (syscall_halt s arg1 fuel frames).1 ≠ outcome.still_looping →
      session_reachable (syscall_halt s arg1 fuel frames).2

/-- The descriptor table of a running process, as `start_process` and the
open operations fill it: descriptors 0 and 1 are in use and bound to the
terminal input and output tables, and every descriptor 2..7 that is in use is
bound to the file, directory or RTC table. -/
def fd_table_ok (fd : Fin 8 → file_descriptor_t) : Prop :=
  (fd 0).flags ≠ 0 ∧ (fd 0).fileops_table_ptr = fileops_ptr.stdinOps_table ∧
  (fd 1).flags ≠ 0 ∧ (fd 1).fileops_table_ptr = fileops_ptr.stdoutOps_table ∧
  ∀ i : Fin 8, 2 ≤ i.val → (fd i).flags ≠ 0 →
    ((fd i).fileops_table_ptr = fileops_ptr.fileops ∨
     (fd i).fileops_table_ptr = fileops_ptr.dirops ∨
     (fd i).fileops_table_ptr = fileops_ptr.rtcOps_table)

/-- The state in which "ls", started by "shell", holds the file of inode 3
open as descriptor 2 and the directory as descriptor 3, the way `file_open`
and `dir_open` fill a descriptor. -/
def ls_files_state : kernel_state :=
  with_file_desc shell_ls_state
    (Function.update
      (Function.update (shell_ls_state.pcb_arr shell_ls_state.curr_pcb).file_desc 2
        { fileops_table_ptr := fileops_ptr.fileops, inode := 3, file_pos := 0, flags := 1 }) 3
      { fileops_table_ptr := fileops_ptr.dirops, inode := 0, file_pos := 0, flags := 1 })

/-- The part of the state that `execute` and `halt` never write: the
filesystem image, the two terminal indices, `vidmap_page_table`, the cursor
variables and `mem` are in `s1` what they are in `s`. -/
def outside_unchanged (s s1 : kernel_state) : Prop :=
  s1.filesystem = s.filesystem ∧ s1.curr_terminal = s.curr_terminal ∧
  s1.curr_foreground_terminal = s.curr_foreground_terminal ∧
  s1.vidmap_page_table = s.vidmap_page_table ∧
  s1.screen_x = s.screen_x ∧ s1.screen_y = s.screen_y ∧ s1.mem = s.mem

/-- The state after "ls" (slot 1), started by "shell", has called `vidmap`
with a pointer into its program window and has then halted with status 0. -/
def ls_vidmap_halted_state : kernel_state :=
  (syscall_halt (syscall_vidmap shell_ls_state 134217744).2 0 1 (fun _ => demo_frame 7 8)).2

/-- The string "ls x". -/
def ls_arg_command : List Nat := [108, 115, 32, 120]

/-- The state in which "ls", started by "shell" with the command line "ls x",
runs: `arg_buf` holds "x". -/
def ls_arg_state : kernel_state :=
  (syscall_execute shell_state ls_arg_command (demo_frame 3 4)).2

/-- The string "shell 1234 9876" of `execute_test`. -/
def shell_args_command : List Nat :=
  [115, 104, 101, 108, 108, 32, 49, 50, 51, 52, 32, 57, 56, 55, 54]

/-- The state that `switch_terminal(t)` leaves when it hands the CPU to the
process `pb` recorded for terminal `t`: the characters of the display saved to
the page of the old foreground terminal and those of `t` restored, the cursor
and the registers `curr_ebp`, `curr_esp`, `tss.esp0`, `tss.ss0` and `curr_pcb`
saved in the record of the terminal being left, the cursor, the TSS fields and
the program window of `t` in force, `t` running and in the foreground. -/
def switch_post (s : kernel_state) (t : Fin 3) (pb : Fin 6) (curr_ebp curr_esp : Nat) :
    kernel_state :=
  { s with
    mem := restore_video_mem_loop VIDEO (get_page_addr_from_terminal_id (t.val : Int))
      (NUM_COLS * NUM_ROWS) 0
      (save_video_mem_loop VIDEO
        (get_page_addr_from_terminal_id (s.curr_foreground_terminal.val : Int))
        (NUM_COLS * NUM_ROWS) 0 s.mem),
    terminal_arr := Function.update s.terminal_arr s.curr_terminal
      { (s.terminal_arr s.curr_terminal) with
        cursor_x := s.screen_x, cursor_y := s.screen_y, ebp := curr_ebp, esp := curr_esp,
        esp0 := s.tss_esp0, ss0 := s.tss_ss0, curr_pcb := some s.curr_pcb },
    screen_x := (s.terminal_arr t).cursor_x,
    screen_y := (s.terminal_arr t).cursor_y,
    curr_foreground_terminal := t,
    curr_terminal := t,
    curr_pcb := pb,
    page_directory := Function.update s.page_directory ⟨32, by norm_num⟩
      (user_prog_pde (s.pcb_arr pb).process_id),
    tss_esp0 := (s.terminal_arr t).esp0,
    tss_ss0 := (s.terminal_arr t).ss0 }

/-- A state with two sessions on the example filesystem: the shell of
terminal 0 runs in slot 0, then `switch_terminal(1)` has started the shell of
terminal 1 in slot 1; terminal 1 is running and in the foreground, the record
of terminal 0 holds what was saved when it was left. -/
def two_terminal_state : kernel_state :=
  (switch_terminal shell_state 1 21 22 (demo_frame 5 6)).2

/-- The terminal records other than that of the running terminal are in `s1`
what they are in `s`. -/
def records_elsewhere_unchanged (s s1 : kernel_state) : Prop :=
  ∀ t : Fin 3, t ≠ s.curr_terminal → s1.terminal_arr t = s.terminal_arr t

/-- The terminal records and the two terminal indices are in `s1` what they
are in `s`. -/
def terminals_unchanged (s s1 : kernel_state) : Prop :=
  s1.terminal_arr = s.terminal_arr ∧ s1.curr_terminal = s.curr_terminal ∧
  s1.curr_foreground_terminal = s.curr_foreground_terminal

/-- What holds of the descriptor tables and of the terminal records between
system calls and terminal switches: every descriptor table has the shape of
`fd_table_ok`; the running terminal is the foreground terminal; and the record
of every initialised terminal other than the running one names a PCB. -/
def kernel_inv (s : kernel_state) : Prop :=
  (∀ i : Fin 6, fd_table_ok (s.pcb_arr i).file_desc) ∧
  s.curr_terminal = s.curr_foreground_terminal ∧
  (∀ t : Fin 3, t ≠ s.curr_terminal → (s.terminal_arr t).initialized ≠ 0 →
    (s.terminal_arr t).curr_pcb ≠ none)

/-- The states of the kernel: a state with the table of `pcb_arr_init`, no
terminal initialised and the running terminal in the foreground, and every
state that a call of `execute`, `halt`, `open`, `close`, `vidmap` or `getargs`
or a `switch_terminal` leads to.  A call that faults, and a restart loop that
has not come to an end, leads nowhere. -/
inductive kernel_reachable : kernel_state → Prop where
  | boot (s : kernel_state) :
      s.pcb_arr = pcb_arr_init → s.curr_terminal = s.curr_foreground_terminal →
      (∀ t : Fin 3, (s.terminal_arr t).initialized = 0) → kernel_reachable s
  | execute (s : kernel_state) (command : List Nat) (f : execute_frame) :
      kernel_reachable s → (syscall_execute s command f).1 ≠ outcome.fault →
      kernel_reachable (syscall_execute s command f).2
  | halt (s : kernel_state) (arg1 fuel : Nat) (frames : Nat → execute_frame) :
      kernel_reachable s →
      (syscall_halt s arg1 fuel frames).1 ≠ outcome.fault →
      (syscall_halt s arg1 fuel frames).1 ≠ outcome.still_looping →
      kernel_reachable (syscall_halt s arg1 fuel frames).2
  | sys_open (s : kernel_state) (filename : List Nat) :
      kernel_reachable s → (syscall_open s filename).1 ≠ outcome.fault →
      kernel_reachable (syscall_open s filename).2
  | sys_close (s : kernel_state) (arg1 : Nat) :
      kernel_reachable s → (syscall_close s arg1).1 ≠ outcome.fault →
      kernel_reachable (syscall_close s arg1).2
  | vidmap (s : kernel_state) (arg1 : Nat) :
      kernel_reachable s → (syscall_vidmap s arg1).1 ≠ outcome.fault →
      kernel_reachable (syscall_vidmap s arg1).2
  | getargs (s : kernel_state) (arg1 arg2 : Nat) :
      kernel_reachable s → (syscall_getargs s arg1 arg2).1 ≠ outcome.fault →
      kernel_reachable (syscall_getargs s arg1 arg2).2
  | switch (s : kernel_state) (target_terminal_id : Int) (curr_ebp curr_esp : Nat)
      (f : execute_frame) :
      kernel_reachable s →
      (switch_terminal s target_terminal_id curr_ebp curr_esp f).1 ≠ outcome.fault →
      kernel_reachable (switch_terminal s target_terminal_id curr_ebp curr_esp f).2

/-- No slot of the table is marked both available and active. -/
def flags_exclusive (t : pcb_table) : Prop :=
  ∀ i : Fin 6, ¬ ((t i).available = 1 ∧ (t i).active = 1)

/-! ## Paging entries and the page walk -/

/-- Bit 0 (P) of a page-directory or page-table entry: the entry is present. -/
def entry_present (e : Nat) : Prop := e % 2 = 1

instance (e : Nat) : Decidable (entry_present e) := by
  unfold entry_present; infer_instance

/-- Bit 2 (U/S) of an entry: user-mode code may use the mapping. -/
def entry_user (e : Nat) : Prop := e / 4 % 2 = 1

instance (e : Nat) : Decidable (entry_user e) := by
  unfold entry_user; infer_instance

/-- Bit 7 (PS) of a page-directory entry: the entry maps a 4MB page. -/
def entry_large (e : Nat) : Prop := e / 128 % 2 = 1

instance (e : Nat) : Decidable (entry_large e) := by
  unfold entry_large; infer_instance

/-- Bits [31:12] of an entry: the address of the 4KB page, or of the page
table, that it names. -/
def entry_frame (e : Nat) : Nat := e / 4096 * 4096

/-- Bits [31:22] of a page-directory entry with PS set: the address of the 4MB
page that it maps. -/
def entry_frame_4mb (e : Nat) : Nat := e / 4194304 * 4194304

/-- What "mapped" means in the statements: the walk that the processor makes
for the 32-bit address `addr` over `page_directory` once paging is on with
4MB pages allowed, as the PS bits of the entries require.  `none`: an entry on
the way is not present, the access is a page fault.  `some pa`: the address is
mapped to the physical address `pa`.  A directory entry without PS names a
page table by its address: `page_table` at `page_table_addr`,
`vidmap_page_table` at `vidmap_page_table_addr`; no other table exists. -/
def translate (s : kernel_state) (page_table_addr vidmap_page_table_addr addr : Nat) :
    Option Nat :=
  let pde := s.page_directory ⟨addr / 4194304 % 1024, Nat.mod_lt _ (by norm_num)⟩
  if ¬ entry_present pde then none
  else if entry_large pde then some (entry_frame_4mb pde + addr % 4194304)
  else
    let i : Fin 1024 := ⟨addr / 4096 % 1024, Nat.mod_lt _ (by norm_num)⟩
    if entry_frame pde = page_table_addr then
      if entry_present (s.page_table i) then some (entry_frame (s.page_table i) + addr % 4096)
      else none
    else if entry_frame pde = vidmap_page_table_addr then
      if entry_present (s.vidmap_page_table i) then
        some (entry_frame (s.vidmap_page_table i) + addr % 4096)
      else none
    else none

/-- The state after `page_directory_init` and `page_table_init`, as
`paging_init` calls them, with `page_table` linked at 0x405000 and
`vidmap_page_table` at 0x406000. -/
def paged_state : kernel_state :=
  page_table_init (page_directory_init (fresh_state demo_fs) 0x405000 0x406000)

/-- The buffer `buf` after the `k` bytes of the file from position `offset`
on have been copied to its start: byte `offset + j` of the file lies at
position `(offset + j) % BLOCK_SIZE` of the data block whose number is entry
`(offset + j) / BLOCK_SIZE` of the inode. -/
def read_result (fs : filesystem_t) (ino : inode_t) (offset : Nat) (buf : Nat → Nat) (k : Nat) :
    Nat → Nat :=
  fun j =>
    if j < k then
      fs.data_blocks (ino.data_block_num ((offset + j) / BLOCK_SIZE)).toNat
        ((offset + j) % BLOCK_SIZE)
    else buf j

/-- The example filesystem with "frame0.txt" (inode 3) grown to exactly one
full data block: 4096 bytes in data block 2.  The entries of the inode after
the first are not used by the file; they hold 7, which is no data block of
the image (`data_count` is 3). -/
def full_block_fs : filesystem_t :=
  { demo_fs with
    inodes := fun i =>
      if i = 3 then { length := 4096, data_block_num := fun b => if b = 0 then 2 else 7 }
      else demo_fs.inodes i }

/-- The 32-byte name field of the directory entry `d` holds the string `name`:
the characters of `name` from the start of the field, followed by a NUL when
`name` has fewer than `FILENAME_LEN` characters. -/
def entry_named (d : dentry_t) (name : List Nat) : Prop :=
  name.length ≤ FILENAME_LEN ∧
  (∀ k : Nat, k < name.length → d.filename k = name.getD k 0) ∧
  (name.length < FILENAME_LEN → d.filename name.length = 0)

instance (d : dentry_t) (name : List Nat) : Decidable (entry_named d name) := by
  unfold entry_named; infer_instance

/-- Entry `i` is the first entry of the directory whose name field holds
`name`. -/
def first_entry_named (fs : filesystem_t) (name : List Nat) (i : Nat) : Prop :=
  (i : Int) < fs.dir_count ∧ entry_named (fs.direntries i) name ∧
  ∀ j : Nat, j < i → ¬ entry_named (fs.direntries j) name

instance (fs : filesystem_t) (name : List Nat) (i : Nat) :
    Decidable (first_entry_named fs name i) := by
  unfold first_entry_named; infer_instance

/-- The name fields of the directory hold bytes. -/
def dir_names_bytes (fs : filesystem_t) : Prop :=
  ∀ i j : Nat, (fs.direntries i).filename j < 256

/-- The state after `n` nested `execute("shell")` calls from the boot state of
the example filesystem: the shell of terminal 0, the shell it started, and so
on. -/
def shells_state : Nat → kernel_state
  | 0 => fresh_state demo_fs
  | n + 1 => (syscall_execute (shells_state n) shell_command (demo_frame 1 2)).2

/-- The string "badprog q". -/
def badprog_q_command : List Nat := [98, 97, 100, 112, 114, 111, 103, 32, 113]

/-- The state in which the shell started with the command line
"shell 1234 9876" (slot 0) has started "ls" (slot 1). -/
def args_child_state : kernel_state :=
  (syscall_execute
    (syscall_execute (fresh_state demo_fs) shell_args_command (demo_frame 1 2)).2
    ls_command (demo_frame 3 4)).2

/-- A run in which "ls" halts at once: the shell of slot 0 runs again. -/
def args_run_a : kernel_state :=
  (syscall_halt args_child_state 0 1 (fun _ => demo_frame 7 8)).2

/-- The same run, except that "ls" first calls `execute("badprog q")`, which
fails because there is no such file, and then halts. -/
def args_run_b : kernel_state :=
  (syscall_halt (syscall_execute args_child_state badprog_q_command (demo_frame 5 6)).2 0 1
    (fun _ => demo_frame 7 8)).2

/-! ## The keyboard line buffers -/

/-- The key events `keys`, handled one after the other by the keyboard
interrupt handler while terminal `t` is in the foreground; `none` when one of
them is not handled to the end. -/
def type_keys (t : Fin 3) : keyboard_t → List Nat → Option keyboard_t
  | k, [] => some k
  | k, key :: rest =>
    match _keyboard_interrupt_handler k t key with
    | none => none
    | some r => type_keys t r.1 rest

/-- The states of the keyboard variables: the initial values, and every state
that a handled key event or a `terminal_read` call that returns leads to. -/
inductive keyboard_reachable : keyboard_t → Prop where
  | init : keyboard_reachable keyboard_init
  | key (k : keyboard_t) (t : Fin 3) (key : Nat) (r : keyboard_t × Option Int) :
      keyboard_reachable k → _keyboard_interrupt_handler k t key = some r →
      keyboard_reachable r.1
  | read (k : keyboard_t) (t : Fin 3) (buf : Nat → Nat) (nbytes c : Int) (k1 : keyboard_t)
      (b : Nat → Nat) :
      keyboard_reachable k →
      terminal_read k t buf nbytes = terminal_read_result.returned c k1 b →
      keyboard_reachable k1

/-- The bounds of the line buffers: for every terminal the length is between
0 and 128 and `head` and `tail` are indices of the buffer; `shift` is 0 or 1. -/
def line_bounds (k : keyboard_t) : Prop :=
  (k.shift = 0 ∨ k.shift = 1) ∧
  ∀ t : Fin 3, 0 ≤ k.length t ∧ k.length t ≤ 128 ∧
    0 ≤ k.keyboard_buffer_head t ∧ k.keyboard_buffer_head t < 128 ∧
    0 ≤ k.keyboard_buffer_tail t ∧ k.keyboard_buffer_tail t < 128

/-- The line of terminal `t` ends where `length` says:
`tail == (head + length) mod 128`. -/
def line_consistent (k : keyboard_t) (t : Fin 3) : Prop :=
  k.keyboard_buffer_tail t = (k.keyboard_buffer_head t + k.length t) % 128

instance (k : keyboard_t) (t : Fin 3) : Decidable (line_consistent k t) := by
  unfold line_consistent; infer_instance

/-- The value that a `terminal_read` call returned, if it returned. -/
def read_count : terminal_read_result → Option Int
  | terminal_read_result.returned eax _ _ => some eax
  | _ => none

/-- Byte `j` of the memory at `buf` after a `terminal_read` call that
returned. -/
def read_byte (r : terminal_read_result) (j : Nat) : Option Nat :=
  match r with
  | terminal_read_result.returned _ _ buf => some (buf j)
  | _ => none

/-- The keyboard variables after the keys 'a', 'b' and Enter have been typed
in terminal 0: the pending input line is "ab\n". -/
def ab_line_state : keyboard_t :=
  (type_keys 0 keyboard_init [0x1e, 0x30, ENTER]).getD keyboard_init

/-- The keyboard variables after 128 keys 'a' and then Backspace have been
typed in terminal 0. -/
def full_line_backspace_state : keyboard_t :=
  (type_keys 0 keyboard_init (List.replicate 128 0x1e ++ [BACKSPACE])).getD keyboard_init

/-! ## Processes that open and close files -/

/-- The descriptor table of a process that has just been created, as
`start_process` leaves it: descriptors 0 and 1 are in use and bound to the
terminal input and output tables, descriptors 2..7 are not in use. -/
def fd_table_fresh (fd : Fin 8 → file_descriptor_t) : Prop :=
  (fd 0).flags ≠ 0 ∧ (fd 0).fileops_table_ptr = fileops_ptr.stdinOps_table ∧
  (fd 1).flags ≠ 0 ∧ (fd 1).fileops_table_ptr = fileops_ptr.stdoutOps_table ∧
  ∀ i : Fin 8, 2 ≤ i.val → (fd i).flags = 0

/-- The states of one terminal's session in which processes also open and
close files: a state with the table of `pcb_arr_init` and the terminal not
initialised; every state that an `execute` call leads to; and every state that
a `halt`, `open` or `close` call of the running process, that is a call made
while the terminal is initialised, leads to.  A call that faults, and a
restart loop that has not come to an end, leads nowhere. -/
inductive process_reachable : kernel_state → Prop where
  | boot (s : kernel_state) :
      s.pcb_arr = pcb_arr_init → (s.terminal_arr s.curr_terminal).initialized = 0 →
      process_reachable s
  | execute (s : kernel_state) (command : List Nat) (f : execute_frame) :
      process_reachable s → (syscall_execute s command f).1 ≠ outcome.fault →
      process_reachable (syscall_execute s command f).2
  | halt (s : kernel_state) (arg1 fuel : Nat) (frames : Nat → execute_frame) :
      process_reachable s → (s.terminal_arr s.curr_terminal).initialized ≠ 0 →
      (syscall_halt s arg1 fuel frames).1 ≠ outcome.fault →
      (syscall_halt s arg1 fuel frames).1 ≠ outcome.still_looping →
      process_reachable (syscall_halt s arg1 fuel frames).2
  | sys_open (s : kernel_state) (filename : List Nat) :
      process_reachable s → (s.terminal_arr s.curr_terminal).initialized ≠ 0 →
      (syscall_open s filename).1 ≠ outcome.fault →
      process_reachable (syscall_open s filename).2
  | sys_close (s : kernel_state) (arg1 : Nat) :
      process_reachable s → (s.terminal_arr s.curr_terminal).initialized ≠ 0 →
      (syscall_close s arg1).1 ≠ outcome.fault →
      process_reachable (syscall_close s arg1).2

/-- What `open` and `close` leave of the process table: the current PCB is the
same, every slot keeps its `available`, `process_id` and `parent_id`, and every
slot other than the current one keeps its descriptor table. -/
def slots_kept (s s1 : kernel_state) : Prop :=
  s1.curr_pcb = s.curr_pcb ∧
  ∀ j : Fin 6, (s1.pcb_arr j).available = (s.pcb_arr j).available ∧
    (s1.pcb_arr j).process_id = (s.pcb_arr j).process_id ∧
    (s1.pcb_arr j).parent_id = (s.pcb_arr j).parent_id ∧
    (j ≠ s.curr_pcb → (s1.pcb_arr j).file_desc = (s.pcb_arr j).file_desc)

/-- What the induction over `process_reachable` carries: the invariant of a
session, the shape `fd_table_ok` of every descriptor table, and the shape
`fd_table_fresh` of the table of every available slot. -/
def process_inv (s : kernel_state) : Prop :=
  session_inv s ∧
  (∀ i : Fin 6, fd_table_ok (s.pcb_arr i).file_desc) ∧
  (∀ i : Fin 6, (s.pcb_arr i).available = 1 → fd_table_fresh (s.pcb_arr i).file_desc)

/-- The name "frame0.txt". -/
def frame0_name : List Nat := [102, 114, 97, 109, 101, 48, 46, 116, 120, 116]

/-- The state in which "ls" (slot 1), started by "shell", has opened
"frame0.txt" as descriptor 2 and the directory as descriptor 3. -/
def ls_opened_state : kernel_state :=
  (syscall_open (syscall_open shell_ls_state frame0_name).2 [46]).2

/-- The state after "ls" has then halted with both files open. -/
def ls_opened_halted_state : kernel_state :=
  (syscall_halt ls_opened_state 0 1 (fun _ => demo_frame 7 8)).2

/-! ## Properties of the order of steps -/

/-- The step is a store to an entry of the page directory or of a page
table. -/
def is_paging_write : event → Bool
  | event.write_page_directory _ => true
  | event.write_vidmap_page_table _ => true
  | _ => false

/-- Every store to a paging entry in the list is immediately followed by
`flush_tlb()`. -/
def flushed_after_writes : List event → Bool
  | [] => true
  | e :: rest =>
    (!is_paging_write e || decide (rest.head? = some event.flush_tlb)) &&
      flushed_after_writes rest

/-- The list does not end with a store to a paging entry. -/
def ends_flushed (tr : List event) : Bool :=
  match tr.getLast? with
  | some e => !is_paging_write e
  | none => true

/-- The interrupt flag after a step. -/
def if_after (flag : Bool) : event → Bool
  | event.sti => true
  | event.cli => false
  | _ => flag

/-- The step is a store to the `available` flag of a PCB. -/
def is_available_write : event → Bool
  | event.write_available _ _ => true
  | _ => false

/-- Whether a step belongs to the steps during which the interrupt flag has to
be clear: a store to `page_directory[32]`, every step after it up to and
including the next `flush_tlb()` (`window` says that such a store has been made
and not yet flushed), and a store to an `available` flag. -/
def is_critical (window : Bool) (e : event) : Bool :=
  window || decide (e = event.write_page_directory 32) || is_available_write e

/-- Whether a store to `page_directory[32]` is still waiting for its
`flush_tlb()` after the step. -/
def window_after (window : Bool) (e : event) : Bool :=
  (window || decide (e = event.write_page_directory 32)) && decide (e ≠ event.flush_tlb)

/-- The values of the interrupt flag at the critical steps of the list, in
order, when the list is entered with the flag `flag`. -/
def critical_flags : Bool → Bool → List event → List Bool
  | _, _, [] => []
  | flag, window, e :: rest =>
    (if is_critical window e then [flag] else []) ++
      critical_flags (if_after flag e) (window_after window e) rest

/-- Every store to a paging entry in the list is immediately followed by
`flush_tlb()`, the last step of the list not being such a store. -/
def well_flushed (tr : List event) : Bool :=
  flushed_after_writes tr && ends_flushed tr

/-- The interrupt flag is set at every critical step of the list when the list
is entered with the flag set, and no store to `page_directory[32]` is left
without its `flush_tlb()` at the end. -/
def runs_enabled (tr : List event) : Prop :=
  (∀ b ∈ critical_flags true false tr, b = true) ∧ tr.foldl window_after false = false

/-- As `runs_enabled`, and the flag is still set at the end of the list. -/
def stays_enabled (tr : List event) : Prop :=
  runs_enabled tr ∧ tr.foldl if_after true = true

/-- The interrupt flag is set at every critical step of the list whatever the
flag is on entry, and no store to `page_directory[32]` is left without its
`flush_tlb()` at the end. -/
def enabled_from_any (tr : List event) : Prop :=
  ∀ flag : Bool,
    (∀ b ∈ critical_flags flag false tr, b = true) ∧ tr.foldl window_after false = false

/-! ## Calls made whoever the caller is -/

/-- The states that `execute` and `halt` calls lead to from a state with the
table of `pcb_arr_init`, with no condition on who calls `halt`: the exception
handlers of idt.c call it whether or not a process has been started.  A call
that faults, and a restart loop that has not come to an end, leads nowhere. -/
inductive execute_halt_reachable : kernel_state → Prop where
  | boot (s : kernel_state) :
      s.pcb_arr = pcb_arr_init → (s.terminal_arr s.curr_terminal).initialized = 0 →
      execute_halt_reachable s
  | execute (s : kernel_state) (command : List Nat) (f : execute_frame) :
      execute_halt_reachable s → (syscall_execute s command f).1 ≠ outcome.fault →
      execute_halt_reachable (syscall_execute s command f).2
  | halt (s : kernel_state) (arg1 fuel : Nat) (frames : Nat → execute_frame) :
      execute_halt_reachable s →
      (syscall_halt s arg1 fuel frames).1 ≠ outcome.fault →
      (syscall_halt s arg1 fuel frames).1 ≠ outcome.still_looping →
      execute_halt_reachable (syscall_halt s arg1 fuel frames).2

/-- The states that `execute`, `halt`, `open` and `close` calls lead to from a
state with the table of `pcb_arr_init`, with no condition on who makes the
call: before the first `execute` they act on the PCB that `curr_pcb` names
from the start, the one of slot 0. -/
inductive calls_reachable : kernel_state → Prop where
  | boot (s : kernel_state) :
      s.pcb_arr = pcb_arr_init → (s.terminal_arr s.curr_terminal).initialized = 0 →
      calls_reachable s
  | execute (s : kernel_state) (command : List Nat) (f : execute_frame) :
      calls_reachable s → (syscall_execute s command f).1 ≠ outcome.fault →
      calls_reachable (syscall_execute s command f).2
  | halt (s : kernel_state) (arg1 fuel : Nat) (frames : Nat → execute_frame) :
      calls_reachable s →
      (syscall_halt s arg1 fuel frames).1 ≠ outcome.fault →
      (syscall_halt s arg1 fuel frames).1 ≠ outcome.still_looping →
      calls_reachable (syscall_halt s arg1 fuel frames).2
  | sys_open (s : kernel_state) (filename : List Nat) :
      calls_reachable s → (syscall_open s filename).1 ≠ outcome.fault →
      calls_reachable (syscall_open s filename).2
  | sys_close (s : kernel_state) (arg1 : Nat) :
      calls_reachable s → (syscall_close s arg1).1 ≠ outcome.fault →
      calls_reachable (syscall_close s arg1).2

/-- The state after `halt(-1)`, the call of the exception handlers, in the boot
state of the example filesystem. -/
def boot_halt_state : kernel_state :=
  (syscall_halt (fresh_state demo_fs) 255 1 (fun _ => demo_frame 1 2)).2

/-- The state after `open("frame0.txt")` in the boot state of the example
filesystem. -/
def boot_open_state : kernel_state :=
  (syscall_open (fresh_state demo_fs) frame0_name).2

/-- The command line "ls " followed by 129 characters 'x'. -/
def long_args_command : List Nat := ls_command ++ [32] ++ List.replicate 129 120

/-! ## Theorems -/

theorem find_avail_pid_loop_spec (t : pcb_table) :
    ∀ (fuel i : Nat), i + fuel = 6 →
      (∀ k : Fin 6, (find_avail_pid_loop t fuel i).1 = (k.val : Int) ↔
        (i ≤ k.val ∧ (t k).available = 1 ∧
          ∀ j : Fin 6, i ≤ j.val → j.val < k.val → (t j).available ≠ 1)) ∧
      ((find_avail_pid_loop t fuel i).1 = -1 ↔
        ∀ j : Fin 6, i ≤ j.val → (t j).available ≠ 1) := by
  intro fuel
  induction fuel with
  | zero =>
    intro i hi
    simp only [find_avail_pid_loop]
    constructor
    · intro k
      constructor
      · intro h; omega
      · rintro ⟨h1, -, -⟩; have := k.isLt; omega
    · constructor
      · intro _ j hj; have := j.isLt; omega
      · intro _; trivial
  | succ fuel ih =>
    intro i hi
    have hi6 : i < 6 := by omega
    simp only [find_avail_pid_loop, dif_pos hi6]
    by_cases hav : (t ⟨i, hi6⟩).available = 1
    · simp only [if_pos hav]
      constructor
      · intro k
        constructor
        · intro h
          have hk : k = ⟨i, hi6⟩ := by
            apply Fin.ext; simp only; omega
          subst hk
          refine ⟨le_refl _, hav, ?_⟩
          intro j h1 h2; simp only at h2; omega
        · rintro ⟨h1, h2, h3⟩
          by_contra hne
          have hlt : i < k.val := by
            rcases Nat.lt_or_ge i k.val with h | h
            · exact h
            · exfalso; apply hne
              have : i = k.val := by omega
              simp only [this]
          exact h3 ⟨i, hi6⟩ (le_refl _) hlt hav
      · constructor
        · intro h; simp only at h; omega
        · intro h; exact absurd hav (h ⟨i, hi6⟩ (le_refl _))
    · simp only [if_neg hav]
      obtain ⟨ih1, ih2⟩ := ih (i + 1) (by omega)
      constructor
      · intro k
        rw [ih1 k]
        constructor
        · rintro ⟨h1, h2, h3⟩
          refine ⟨by omega, h2, ?_⟩
          intro j hj1 hj2
          by_cases hji : j.val = i
          · have : j = ⟨i, hi6⟩ := Fin.ext hji
            rw [this]; exact hav
          · exact h3 j (by omega) hj2
        · rintro ⟨h1, h2, h3⟩
          have hki : k.val ≠ i := by
            intro hk
            have : k = ⟨i, hi6⟩ := Fin.ext hk
            rw [this] at h2; exact hav h2
          refine ⟨by omega, h2, ?_⟩
          intro j hj1 hj2
          exact h3 j (by omega) hj2
      · rw [ih2]
        constructor
        · intro h j hj
          by_cases hji : j.val = i
          · have : j = ⟨i, hi6⟩ := Fin.ext hji
            rw [this]; exact hav
          · exact h j (by omega)
        · intro h j hj
          exact h j (by omega)

/-- The return value of `find_avail_pid` in terms of the `available` flags. -/
theorem find_avail_pid_spec (t : pcb_table) :
    (∀ k : Fin 6, (find_avail_pid t).1 = (k.val : Int) ↔
      ((t k).available = 1 ∧ ∀ j : Fin 6, j.val < k.val → (t j).available ≠ 1)) ∧
    ((find_avail_pid t).1 = -1 ↔ ∀ j : Fin 6, (t j).available ≠ 1) := by
  obtain ⟨h1, h2⟩ := find_avail_pid_loop_spec t 6 0 (by norm_num)
  constructor
  · intro k
    rw [find_avail_pid, h1 k]
    constructor
    · rintro ⟨-, h, h3⟩
      exact ⟨h, fun j hj => h3 j (Nat.zero_le _) hj⟩
    · rintro ⟨h, h3⟩
      exact ⟨Nat.zero_le _, h, fun j _ hj => h3 j hj⟩
  · rw [find_avail_pid, h2]
    constructor
    · intro h j; exact h j (Nat.zero_le _)
    · intro h j _; exact h j

/-- C1: for every process table, `find_avail_pid` returns index `k` exactly
when slot `k` is the lowest-numbered slot with `available == 1`, and returns
`-1` exactly when no slot has `available == 1`. -/
theorem find_avail_pid_lowest (t : pcb_table) :
    (∀ k : Fin 6, (find_avail_pid t).1 = (k.val : Int) ↔
      ((t k).available = 1 ∧ ∀ j : Fin 6, j.val < k.val → (t j).available ≠ 1)) ∧
    ((find_avail_pid t).1 = -1 ↔ ∀ j : Fin 6, (t j).available ≠ 1) :=
  find_avail_pid_spec t

theorem find_avail_pid_loop_table (t : pcb_table) :
    ∀ (fuel i : Nat),
      ((find_avail_pid_loop t fuel i).1 = -1 ∧ (find_avail_pid_loop t fuel i).2 = t) ∨
      (∃ k : Fin 6, (find_avail_pid_loop t fuel i).1 = (k.val : Int) ∧
        (find_avail_pid_loop t fuel i).2 =
          Function.update t k { t k with process_id := (k.val : Int) }) := by
  intro fuel
  induction fuel with
  | zero => intro i; left; simp [find_avail_pid_loop]
  | succ fuel ih =>
    intro i
    by_cases hi6 : i < 6
    · by_cases hav : (t ⟨i, hi6⟩).available = 1
      · right
        refine ⟨⟨i, hi6⟩, ?_, ?_⟩ <;> simp [find_avail_pid_loop, hi6, hav]
      · simp only [find_avail_pid_loop, dif_pos hi6, if_neg hav]
        exact ih (i + 1)
    · left; simp [find_avail_pid_loop, hi6]

theorem find_avail_pid_table (t : pcb_table) :
    ((find_avail_pid t).1 = -1 ∧ (find_avail_pid t).2 = t) ∨
    (∃ k : Fin 6, (find_avail_pid t).1 = (k.val : Int) ∧
      (find_avail_pid t).2 = Function.update t k { t k with process_id := (k.val : Int) }) :=
  find_avail_pid_loop_table t 6 0

/-- What a `create_pcb` call that finds a slot does to the table. -/
theorem create_pcb_some (t t1 : pcb_table) (parentID : Int) (curr_ebp curr_esp : Nat) (i : Int)
    (h : create_pcb t parentID curr_ebp curr_esp = some (i, t1)) :
    ∃ k : Fin 6, i = (k.val : Int) ∧ (find_avail_pid t).1 = (k.val : Int) ∧
      t1 = Function.update t k
        { t k with
          available := 0, process_id := (k.val : Int), parent_id := parentID,
          saved_esp := curr_esp, saved_ebp := curr_ebp, active := 1 } := by
  unfold create_pcb at h
  rcases find_avail_pid_table t with ⟨h1, -⟩ | ⟨k, h1, h2⟩
  · simp only [h1] at h
    simp at h
  · have hk := k.isLt
    have hr : 0 ≤ (find_avail_pid t).1 ∧ (find_avail_pid t).1 < 6 := by
      rw [h1]; omega
    simp only [dif_pos hr, Option.some.injEq, Prod.mk.injEq] at h
    obtain ⟨hi, ht⟩ := h
    have hfin : (⟨(find_avail_pid t).1.toNat, by omega⟩ : Fin 6) = k := by
      apply Fin.ext; simp only [h1]; simp
    refine ⟨k, by rw [← hi, h1], h1, ?_⟩
    rw [← ht, hfin, h2, h1]
    simp

/-- C2: in every table reachable from `pcb_arr_init` through `create_pcb`
calls that find a slot and `clear_pid` calls, each slot that is not available
carries its own index as `process_id`; hence two distinct unavailable slots
never have the same `process_id`. -/
theorem pcb_reachable_process_id (t : pcb_table) (h : pcb_reachable t) :
    (∀ i : Fin 6, (t i).available ≠ 1 → (t i).process_id = (i.val : Int)) ∧
    (∀ i j : Fin 6, (t i).available ≠ 1 → (t j).available ≠ 1 →
      (t i).process_id = (t j).process_id → i = j) := by
  have key : ∀ i : Fin 6, (t i).available ≠ 1 → (t i).process_id = (i.val : Int) := by
    induction h with
    | init => intro i hi; exact absurd rfl hi
    | create t t1 parentID curr_ebp curr_esp r _ hc ih =>
      obtain ⟨k, -, -, ht1⟩ := create_pcb_some t t1 parentID curr_ebp curr_esp r hc
      intro i hi
      by_cases hik : i = k
      · subst hik; rw [ht1]; simp
      · rw [ht1, Function.update_noteq hik] at hi ⊢
        exact ih i hi
    | clear t pid _ ih =>
      intro i hi
      unfold clear_pid at hi ⊢
      by_cases hp : 0 ≤ pid ∧ pid < 6
      · simp only [dif_pos hp] at hi ⊢
        by_cases hik : i = ⟨pid.toNat, by omega⟩
        · rw [hik] at hi; simp at hi
        · rw [Function.update_noteq hik] at hi ⊢
          exact ih i hi
      · simp only [dif_neg hp] at hi ⊢
        exact ih i hi
  refine ⟨key, ?_⟩
  intro i j hi hj hij
  rw [key i hi, key j hj] at hij
  exact Fin.ext (by exact_mod_cast hij)

/-- A table reached by one allocation and one release. -/
theorem pcb_reachable_process_id_witness :
    pcb_reachable (clear_pid pcb_table_one_live 3).2 ∧
    ∀ i j : Fin 6,
      ((clear_pid pcb_table_one_live 3).2 i).available ≠ 1 →
      ((clear_pid pcb_table_one_live 3).2 j).available ≠ 1 →
      ((clear_pid pcb_table_one_live 3).2 i).process_id =
        ((clear_pid pcb_table_one_live 3).2 j).process_id → i = j :=
  have hr : pcb_reachable (clear_pid pcb_table_one_live 3).2 :=
    pcb_reachable.clear _ 3
      (pcb_reachable.create pcb_arr_init _ (-1) 1 16 0 pcb_reachable.init (by
        simp [create_pcb, find_avail_pid, find_avail_pid_loop, pcb_arr_init,
          pcb_table_one_live]))
  ⟨hr, (pcb_reachable_process_id _ hr).2⟩

theorem parseCmd_loop_args (cmdf : Nat → Nat) :
    ∀ (rest : List Nat) (st : parseCmd_state), st.curr_cmd ≠ 0 →
      parseCmd_loop cmdf rest st = some
        { st with
          curr := st.curr + (rest.takeWhile is_string_char).length,
          length := st.length + ((rest.takeWhile is_string_char).length : Int) } := by
  intro rest
  induction rest with
  | nil => intro st _; simp [parseCmd_loop]
  | cons c r ih =>
    intro st hst
    by_cases hc : c = 0
    · simp [parseCmd_loop, hc, List.takeWhile_cons, is_string_char]
    · have h1 : ¬ (c = 32 ∧ st.curr_cmd = 0) := fun h => hst h.2
      simp only [parseCmd_loop, ne_eq, hc, not_false_eq_true, if_true, if_neg h1]
      rw [ih _ (by simpa using hst)]
      simp [List.takeWhile_cons, hc, is_string_char]
      constructor <;> ring

theorem to_uint32_natCast (k : Nat) (h : k < 4294967296) : to_uint32 (k : Int) = k := by
  unfold to_uint32; omega

/-- The loop of `parseCmd` before the first space, when the name fits. -/
theorem parseCmd_loop_name (cmdf : Nat → Nat) :
    ∀ (rest : List Nat) (st : parseCmd_state), st.curr_cmd = 0 → st.to_arg_buf = false →
      0 ≤ st.length →
      st.length + ((rest.takeWhile is_name_char).length : Int) ≤ 128 →
      parseCmd_loop cmdf rest st =
        if rest.getD (rest.takeWhile is_name_char).length 0 = 32 then
          some
            { start := st.curr + (rest.takeWhile is_name_char).length + 1,
              curr := st.curr + (rest.takeWhile is_name_char).length + 1 +
                ((rest.drop ((rest.takeWhile is_name_char).length + 1)).takeWhile
                  is_string_char).length,
              length :=
                (((rest.drop ((rest.takeWhile is_name_char).length + 1)).takeWhile
                  is_string_char).length : Int),
              curr_cmd := 1, to_arg_buf := true,
              cmd_buf := memcpy st.cmd_buf (fun i => cmdf (st.start + i))
                (st.length + ((rest.takeWhile is_name_char).length : Int)).toNat,
              arg_buf := st.arg_buf }
        else
          some
            { st with
              curr := st.curr + (rest.takeWhile is_name_char).length,
              length := st.length + ((rest.takeWhile is_name_char).length : Int) } := by
  intro rest
  induction rest with
  | nil => intro st _ _ _ _; simp [parseCmd_loop]
  | cons c r ih =>
    intro st h0 hb hl hk
    by_cases hc : c = 0
    · subst hc; simp [parseCmd_loop, List.takeWhile_cons, is_name_char]
    · by_cases hs : c = 32
      · subst hs
        have htw : List.takeWhile is_name_char (32 :: r) = [] := by
          simp [List.takeWhile_cons, is_name_char]
        rw [htw] at hk ⊢
        have hlen : to_uint32 st.length = st.length.toNat := by
          unfold to_uint32
          simp at hk
          omega
        have hle : ¬ (st.length.toNat > MAX_BUF_SIZE) := by
          simp [MAX_BUF_SIZE] at hk ⊢; omega
        simp only [parseCmd_loop, parseCmd_memcpy, hlen, if_neg hle, hb]
        simp [h0]
        rw [parseCmd_loop_args _ _ _ (by simp)]
        simp
      · have h1 : ¬ (c = 32 ∧ st.curr_cmd = 0) := fun h => hs h.1
        simp only [parseCmd_loop, ne_eq, hc, not_false_eq_true, if_true, if_neg h1]
        have htw : List.takeWhile is_name_char (c :: r) =
            c :: List.takeWhile is_name_char r := by
          simp [List.takeWhile_cons, hc, hs, is_name_char]
        rw [htw] at hk ⊢
        simp only [List.length_cons, Nat.cast_add, Nat.cast_one] at hk
        rw [ih _ (by simpa using h0) (by simpa using hb) (by simp; omega) (by simp; omega)]
        simp only [List.length_cons, List.getD_cons_succ, List.drop_succ_cons]
        split
        · simp
          refine ⟨by ring, ?_⟩
          rw [show st.length + 1 + ((List.takeWhile is_name_char r).length : Int) =
            st.length + (((List.takeWhile is_name_char r).length : Int) + 1) by ring]
        · simp
          constructor <;> ring

theorem takeWhile_getD (p : Nat → Bool) :
    ∀ (l : List Nat) (i : Nat), i < (l.takeWhile p).length →
      (l.takeWhile p).getD i 0 = l.getD i 0 := by
  intro l
  induction l with
  | nil => intro i h; simp at h
  | cons c r ih =>
    intro i h
    by_cases hp : p c = true
    · rw [List.takeWhile_cons_of_pos hp] at h ⊢
      cases i with
      | zero => simp
      | succ i =>
        simp only [List.getD_cons_succ]
        exact ih i (by simpa using h)
    · rw [List.takeWhile_cons_of_neg hp] at h
      simp at h

/-- After the program name comes a space or the terminator, so dropping the
name and one more character from the string leaves the argument string. -/
theorem takeWhile_string_drop :
    ∀ (l : List Nat), l.getD (l.takeWhile is_name_char).length 0 = 32 →
      (l.takeWhile is_string_char).drop ((l.takeWhile is_name_char).length + 1) =
        (l.drop ((l.takeWhile is_name_char).length + 1)).takeWhile is_string_char := by
  intro l
  induction l with
  | nil => intro h; simp at h
  | cons c r ih =>
    intro h
    by_cases hc : c = 0
    · subst hc; simp [List.takeWhile_cons, is_name_char] at h
    · by_cases hs : c = 32
      · subst hs
        simp [List.takeWhile_cons, is_name_char, is_string_char]
      · have htw : List.takeWhile is_name_char (c :: r) =
            c :: List.takeWhile is_name_char r := by
          simp [List.takeWhile_cons, hc, hs, is_name_char]
        have htw2 : List.takeWhile is_string_char (c :: r) =
            c :: List.takeWhile is_string_char r := by
          simp [List.takeWhile_cons, hc, is_string_char]
        rw [htw] at h ⊢
        rw [htw2]
        simp only [List.length_cons, List.getD_cons_succ, List.drop_succ_cons] at h ⊢
        exact ih h

/-- Without a space after the program name the string ends there. -/
theorem takeWhile_string_eq_name :
    ∀ (l : List Nat), l.getD (l.takeWhile is_name_char).length 0 ≠ 32 →
      l.takeWhile is_string_char = l.takeWhile is_name_char := by
  intro l
  induction l with
  | nil => intro _; simp
  | cons c r ih =>
    intro h
    by_cases hc : c = 0
    · subst hc; simp [List.takeWhile_cons, is_name_char, is_string_char]
    · by_cases hs : c = 32
      · subst hs
        simp [List.takeWhile_cons, is_name_char] at h
      · have htw : List.takeWhile is_name_char (c :: r) =
            c :: List.takeWhile is_name_char r := by
          simp [List.takeWhile_cons, hc, hs, is_name_char]
        have htw2 : List.takeWhile is_string_char (c :: r) =
            c :: List.takeWhile is_string_char r := by
          simp [List.takeWhile_cons, hc, is_string_char]
        rw [htw] at h ⊢
        rw [htw2]
        simp only [List.length_cons, List.getD_cons_succ] at h
        rw [ih h]

/-- `parseCmd` on a command that fits its buffers, called as `syscall_execute`
calls it (both buffers zeroed): `cmd_buf` receives the program name and
`arg_buf` the argument string. -/
theorem parseCmd_fits (cmd : List Nat) (h : fits_buffers cmd) :
    parseCmd cmd (fun _ => 0) (fun _ => 0) =
      some (c_string (program_name cmd), c_string (argument_string cmd)) := by
  obtain ⟨hn, ha⟩ := h
  unfold program_name at hn
  unfold argument_string program_name at ha
  unfold parseCmd
  simp only [MAX_BUF_SIZE] at hn ha
  dsimp only
  rw [parseCmd_loop_name (c_string cmd) cmd _ rfl rfl (le_refl _) (by simp; omega)]
  by_cases hsp : cmd.getD (cmd.takeWhile is_name_char).length 0 = 32
  · rw [takeWhile_string_drop cmd hsp] at ha
    simp only [if_pos hsp, parseCmd_memcpy]
    rw [to_uint32_natCast _ (by omega)]
    have hle : ¬ ((List.takeWhile is_string_char
        (List.drop ((List.takeWhile is_name_char cmd).length + 1) cmd)).length > MAX_BUF_SIZE) := by
      simp [MAX_BUF_SIZE]; omega
    simp only [if_neg hle, if_true, Option.some.injEq, Prod.mk.injEq]
    constructor
    · funext i
      simp only [memcpy, c_string, program_name, zero_add, Int.toNat_ofNat]
      split
      · rename_i hi; rw [takeWhile_getD _ _ _ hi]
      · rename_i hi; rw [List.getD_eq_default _ _ (by omega)]
    · funext i
      simp only [memcpy, c_string, argument_string, program_name]
      rw [takeWhile_string_drop cmd hsp]
      split
      · rename_i hi
        rw [takeWhile_getD _ _ _ hi]
        simp [List.getD_eq_getElem?_getD, List.getElem?_drop]
      · rename_i hi; rw [List.getD_eq_default _ _ (by omega)]
  · simp only [if_neg hsp, parseCmd_memcpy]
    simp only [zero_add]
    rw [to_uint32_natCast _ (by omega)]
    have hle : ¬ ((List.takeWhile is_name_char cmd).length > MAX_BUF_SIZE) := by
      simp [MAX_BUF_SIZE]; omega
    simp only [if_neg hle, Bool.false_eq_true, if_false, Option.some.injEq, Prod.mk.injEq]
    constructor
    · funext i
      simp only [memcpy, c_string, program_name, zero_add]
      split
      · rename_i hi; rw [takeWhile_getD _ _ _ hi]
      · rename_i hi; rw [List.getD_eq_default _ _ (by omega)]
    · funext i
      simp only [c_string, argument_string, program_name]
      rw [takeWhile_string_eq_name cmd hsp]
      rw [List.getD_eq_default _ _ (by simp)]

theorem strncmp_loop_congr (s1 f g : Nat → Nat) (n : Nat) :
    ∀ (fuel i : Nat),
      (∀ k, i ≤ k → k < n → (∀ j, i ≤ j → j < k → as_int8 (f j) ≠ 0) → f k = g k) →
      strncmp_loop s1 f n fuel i = strncmp_loop s1 g n fuel i := by
  intro fuel
  induction fuel with
  | zero => intro i _; simp [strncmp_loop]
  | succ fuel ih =>
    intro i h
    by_cases hi : i < n
    · have hfg : f i = g i := h i (le_refl _) hi (fun j h1 h2 => by omega)
      simp only [strncmp_loop, if_pos hi, ← hfg]
      by_cases hstop : as_int8 (s1 i) ≠ as_int8 (f i) ∨ as_int8 (s1 i) = 0
      · simp only [if_pos hstop]
      · simp only [if_neg hstop]
        apply ih
        intro k hk1 hk2 hz
        apply h k (by omega) hk2
        intro j hj1 hj2
        by_cases hji : j = i
        · subst hji
          intro h0
          apply hstop
          by_cases he : as_int8 (s1 j) = as_int8 (f j)
          · right; rw [he]; exact h0
          · left; exact he
        · exact hz j (by omega) hj2
    · simp [strncmp_loop, hi]

/-- `strncmp(s1, f, n)` reads `f` only up to its first NUL. -/
theorem strncmp_congr (s1 f g : Nat → Nat) (n : Nat)
    (h : ∀ k, k < n → (∀ j, j < k → as_int8 (f j) ≠ 0) → f k = g k) :
    strncmp s1 f n = strncmp s1 g n :=
  strncmp_loop_congr s1 f g n n 0
    (fun k _ hk hz => h k hk (fun j hj => hz j (Nat.zero_le _) hj))

theorem read_dentry_by_name_loop_congr (fs : filesystem_t) (f g : Nat → Nat)
    (h : ∀ s1, strncmp s1 f FILENAME_LEN = strncmp s1 g FILENAME_LEN) :
    ∀ (fuel i : Nat),
      read_dentry_by_name_loop fs f fuel i = read_dentry_by_name_loop fs g fuel i := by
  intro fuel
  induction fuel with
  | zero => intro i; simp [read_dentry_by_name_loop]
  | succ fuel ih =>
    intro i
    simp only [read_dentry_by_name_loop, h, ih]

theorem exec_file_check_copy_spec (command : Nat → Nat) :
    ∀ (fuel i : Nat) (f : Nat → Nat), i ≤ 32 → 32 ≤ i + fuel →
      i ≤ (exec_file_check_copy command fuel i f).1 ∧
      (exec_file_check_copy command fuel i f).1 ≤ 32 ∧
      (∀ j, i ≤ j → j < (exec_file_check_copy command fuel i f).1 →
        (exec_file_check_copy command fuel i f).2 j = command j ∧
          command j ≠ 32 ∧ command j ≠ 0) ∧
      (∀ j, j < i → (exec_file_check_copy command fuel i f).2 j = f j) ∧
      ((exec_file_check_copy command fuel i f).1 < 32 →
        command (exec_file_check_copy command fuel i f).1 = 32 ∨
        command (exec_file_check_copy command fuel i f).1 = 0) := by
  intro fuel
  induction fuel with
  | zero =>
    intro i f h1 h2
    have : i = 32 := by omega
    subst this
    simp only [exec_file_check_copy]
    refine ⟨le_refl _, le_refl _, ?_, fun _ _ => trivial, fun h => absurd h (lt_irrefl _)⟩
    intro j hj1 hj2; omega
  | succ fuel ih =>
    intro i f h1 h2
    by_cases hc : i < FILENAME_LEN ∧ command i ≠ 32 ∧ command i ≠ 0
    · simp only [exec_file_check_copy, if_pos hc]
      have hi : i < 32 := hc.1
      obtain ⟨a, b, c, d, e⟩ := ih (i + 1) (Function.update f i (command i)) (by omega) (by omega)
      refine ⟨by omega, b, ?_, ?_, e⟩
      · intro j hj1 hj2
        by_cases hji : j = i
        · subst hji
          rw [d j (by omega)]
          simp [hc.2.1, hc.2.2]
        · exact c j (by omega) hj2
      · intro j hj
        rw [d j (by omega), Function.update_noteq (by omega)]
    · simp only [exec_file_check_copy, if_neg hc]
      refine ⟨le_refl _, h1, ?_, ?_, ?_⟩
      · intro j hj1 hj2; omega
      · intro j _; trivial
      · intro hi
        simp only [FILENAME_LEN] at hc
        by_contra hcon
        push_neg at hcon
        exact hc ⟨hi, hcon.1, hcon.2⟩

/-- The `filename` buffer that `exec_file_check` builds from a program name
looks up the same directory entry as the name itself, whatever the buffer
held before. -/
theorem exec_file_check_lookup (fs : filesystem_t) (name : List Nat)
    (hname : ∀ c ∈ name, is_name_char c = true) (f : Nat → Nat) :
    read_dentry_by_name fs
      (Function.update (exec_file_check_copy (c_string name) FILENAME_LEN 0 f).2
        (exec_file_check_copy (c_string name) FILENAME_LEN 0 f).1 0) =
    read_dentry_by_name fs (c_string name) := by
  obtain ⟨-, hle, hcopy, -, hend⟩ :=
    exec_file_check_copy_spec (c_string name) FILENAME_LEN 0 f (by norm_num)
      (by norm_num [FILENAME_LEN])
  unfold read_dentry_by_name
  apply read_dentry_by_name_loop_congr
  intro s1
  apply strncmp_congr
  intro k hk hz
  simp only [FILENAME_LEN] at hk
  rcases Nat.lt_trichotomy k (exec_file_check_copy (c_string name) FILENAME_LEN 0 f).1 with h | h | h
  · rw [Function.update_noteq (by omega)]
    exact (hcopy k (Nat.zero_le _) h).1
  · rw [h, Function.update_same]
    rcases hend (by omega) with h32 | h0
    · exfalso
      have hlt : (exec_file_check_copy (c_string name) FILENAME_LEN 0 f).1 < name.length := by
        by_contra hge
        simp only [c_string] at h32
        rw [List.getD_eq_default _ _ (by omega)] at h32
        omega
      have hmem : (c_string name) (exec_file_check_copy (c_string name) FILENAME_LEN 0 f).1 ∈ name := by
        simp only [c_string]
        rw [List.getD_eq_getElem _ _ hlt]
        exact List.getElem_mem _
      have := hname _ hmem
      simp [is_name_char, h32] at this
    · exact h0.symm
  · exfalso
    have := hz (exec_file_check_copy (c_string name) FILENAME_LEN 0 f).1 h
    rw [Function.update_same] at this
    exact this (by decide)

theorem program_name_chars (cmd : List Nat) : ∀ c ∈ program_name cmd, is_name_char c = true := by
  intro c hc
  exact (List.mem_takeWhile_imp hc)

theorem as_int8_eq_iff (a b : Nat) : as_int8 a = as_int8 b ↔ a % 256 = b % 256 := by
  unfold as_int8
  split_ifs <;> omega

theorem as_int8_eq_zero_iff (a : Nat) : as_int8 a = 0 ↔ a % 256 = 0 := by
  unfold as_int8
  split_ifs <;> omega

/-- The signature check of `exec_file_check` succeeds exactly on the four
bytes 0x7F 'E' 'L' 'F'. -/
theorem strncmp_elf_magic (r : Nat → Nat) :
    strncmp r ELF_MAGIC ELF_MAGIC_LEN = 0 ↔
      (r 0 % 256 = 0x7F ∧ r 1 % 256 = 0x45 ∧ r 2 % 256 = 0x4C ∧ r 3 % 256 = 0x46) := by
  have e0 : ELF_MAGIC 0 = 0x7F := rfl
  have e1 : ELF_MAGIC 1 = 0x45 := rfl
  have e2 : ELF_MAGIC 2 = 0x4C := rfl
  have e3 : ELF_MAGIC 3 = 0x46 := rfl
  have h0 := as_int8_eq_iff (r 0) 0x7F
  have h1 := as_int8_eq_iff (r 1) 0x45
  have h2 := as_int8_eq_iff (r 2) 0x4C
  have h3 := as_int8_eq_iff (r 3) 0x46
  have z0 := as_int8_eq_zero_iff (r 0)
  have z1 := as_int8_eq_zero_iff (r 1)
  have z2 := as_int8_eq_zero_iff (r 2)
  have z3 := as_int8_eq_zero_iff (r 3)
  have c0 : as_int8 0x7F = 127 := by decide
  have c1 : as_int8 0x45 = 69 := by decide
  have c2 : as_int8 0x4C = 76 := by decide
  have c3 : as_int8 0x46 = 70 := by decide
  simp only [strncmp, ELF_MAGIC_LEN, strncmp_loop, e0, e1, e2, e3, c0, c1, c2, c3] at *
  norm_num at h0 h1 h2 h3 ⊢
  split_ifs <;> omega

theorem read_data_first_copy (temp_data : Nat → Nat) (length data_start : Nat) (data_end : Int)
    (is_end : Bool) (h1 : data_start + length ≤ BLOCK_SIZE)
    (h2 : is_end = true → ((data_start + length : Nat) : Int) ≤ data_end) :
    ∀ (n fuel i : Nat) (buf : Nat → Nat), i + n = length → n < fuel →
      read_data_first temp_data length data_start data_end is_end fuel i (buf, i) =
        (fun j => if i ≤ j ∧ j < length then temp_data (j + data_start) else buf j, length) := by
  intro n
  induction n with
  | zero =>
    intro fuel i buf hi hf
    obtain ⟨fuel, rfl⟩ : ∃ k, fuel = k + 1 := ⟨fuel - 1, by omega⟩
    have : ¬ (i < length ∧ i + data_start < BLOCK_SIZE) := by omega
    simp only [read_data_first, if_neg this, Prod.mk.injEq]
    refine ⟨?_, by omega⟩
    funext j
    have : ¬ (i ≤ j ∧ j < length) := by omega
    simp [this]
  | succ n ih =>
    intro fuel i buf hi hf
    obtain ⟨fuel, rfl⟩ : ∃ k, fuel = k + 1 := ⟨fuel - 1, by omega⟩
    have hc : i < length ∧ i + data_start < BLOCK_SIZE := by omega
    have hb : ¬ (is_end = true ∧ ((i + data_start : Nat) : Int) ≥ data_end) := by
      rintro ⟨he, hge⟩
      have := h2 he
      omega
    simp only [read_data_first, if_pos hc, if_neg hb]
    rw [ih fuel (i + 1) _ (by omega) (by omega)]
    simp only [Prod.mk.injEq, and_true]
    funext j
    by_cases hji : j = i
    · subst hji
      simp [hc.1]
    · rw [Function.update_noteq hji]
      by_cases hj : i ≤ j ∧ j < length
      · have : i + 1 ≤ j ∧ j < length := by omega
        simp [hj, this]
      · have : ¬ (i + 1 ≤ j ∧ j < length) := by omega
        simp [hj, this]

/-- A read that lies inside the file and inside one data block: `read_data`
fails exactly when the block number is invalid, and otherwise copies the
`length` bytes. -/
theorem read_data_within_block (fs : filesystem_t) (inode offset length : Nat)
    (buf : Nat → Nat) (hino : inode < 62)
    (hin : offset + length ≤ to_uint32 (fs.inodes inode).length)
    (h32 : offset + length < 4294967296)
    (hblk : offset % 4096 + length < 4096) :
    read_data fs inode offset buf length =
      if (fs.inodes inode).data_block_num (offset / 4096) < 0 ∨
          (fs.inodes inode).data_block_num (offset / 4096) ≥ fs.data_count then
        (-1, buf)
      else
        ((length : Int), fun j => if j < length then
          fs.data_blocks ((fs.inodes inode).data_block_num (offset / 4096)).toNat
            (j + offset % 4096) else buf j) := by
  have h1 : ¬ (inode ≥ NUM_DIR_ENTRIES - 1) := by simp [NUM_DIR_ENTRIES]; omega
  have h2 : ¬ (offset > to_uint32 (fs.inodes inode).length) := by omega
  have h3 : (length + offset) % 4294967296 = length + offset := Nat.mod_eq_of_lt (by omega)
  have h4 : ¬ (length + offset > to_uint32 (fs.inodes inode).length) := by omega
  have h5 : (length + offset) / 4096 = offset / 4096 := by omega
  have h6 : (length + offset) % 4096 = offset % 4096 + length := by omega
  unfold read_data
  simp only [if_neg h1, if_neg h2, h3, if_neg h4, BLOCK_SIZE, h5, h6]
  have hfuel : ((((offset / 4096 : Nat) : Int) + 1 - ((offset / 4096 : Nat) : Int)).toNat) = 1 := by
    omega
  rw [hfuel]
  by_cases hidx : (fs.inodes inode).data_block_num (offset / 4096) < 0 ∨
      (fs.inodes inode).data_block_num (offset / 4096) ≥ fs.data_count
  · simp only [read_data_blocks, le_refl, if_true, if_pos hidx]
  · simp only [read_data_blocks, le_refl, if_true, if_neg hidx, decide_True]
    rw [read_data_first_copy _ _ _ _ _ (by simp [BLOCK_SIZE]; omega) (by intro _; simp)
      length _ 0 buf (by omega) (by simp [BLOCK_SIZE]; omega)]
    simp

theorem read_data_blocks_none (fs : filesystem_t) (temp_inode : inode_t) (length data_start : Nat)
    (data_end : Int) (data_block_start : Nat) (data_block_end : Int) :
    ∀ (fuel d : Nat) (st : (Nat → Nat) × Nat),
      (read_data_blocks fs temp_inode length data_start data_end data_block_start
        data_block_end fuel d st).1 = none →
      ∃ b : Nat, d ≤ b ∧ (b : Int) ≤ data_block_end ∧
        (temp_inode.data_block_num b < 0 ∨ temp_inode.data_block_num b ≥ fs.data_count) := by
  intro fuel
  induction fuel with
  | zero => intro d st h; simp [read_data_blocks] at h
  | succ fuel ih =>
    intro d st h
    simp only [read_data_blocks] at h
    by_cases hd : (d : Int) ≤ data_block_end
    · simp only [if_pos hd] at h
      by_cases hidx : temp_inode.data_block_num d < 0 ∨ temp_inode.data_block_num d ≥ fs.data_count
      · exact ⟨d, le_refl _, hd, hidx⟩
      · simp only [if_neg hidx] at h
        have key : ∀ st', (read_data_blocks fs temp_inode length data_start data_end
            data_block_start data_block_end fuel (d + 1) st').1 = none →
            ∃ b : Nat, d ≤ b ∧ (b : Int) ≤ data_block_end ∧
              (temp_inode.data_block_num b < 0 ∨ temp_inode.data_block_num b ≥ fs.data_count) := by
          intro st' h'
          obtain ⟨b, hb1, hb2, hb3⟩ := ih (d + 1) st' h'
          exact ⟨b, by omega, hb2, hb3⟩
        split_ifs at h <;> exact key _ h
    · simp [if_neg hd] at h

/-- Reading a whole file whose data-block numbers are valid does not fail. -/
theorem read_data_whole_file (fs : filesystem_t) (inode : Nat) (buf : Nat → Nat)
    (hino : inode < 62) (h0 : 0 ≤ (fs.inodes inode).length)
    (h31 : (fs.inodes inode).length < 2147483648) (hv : blocks_valid fs inode) :
    (read_data fs inode 0 buf (to_uint32 (fs.inodes inode).length)).1 ≠ -1 := by
  have h1 : ¬ (inode ≥ NUM_DIR_ENTRIES - 1) := by simp [NUM_DIR_ENTRIES]; omega
  have hu : to_uint32 (fs.inodes inode).length = (fs.inodes inode).length.toNat := by
    unfold to_uint32; omega
  have h3 : ((fs.inodes inode).length.toNat + 0) % 4294967296 = (fs.inodes inode).length.toNat := by
    omega
  unfold read_data
  simp only [if_neg h1, hu, Nat.not_lt_zero, gt_iff_lt, if_false, h3, lt_irrefl]
  split
  · rename_i hnone
    exfalso
    obtain ⟨b, -, hb, hbad⟩ := read_data_blocks_none _ _ _ _ _ _ _ _ _ _ hnone
    have := hv b (by simp only [BLOCK_SIZE] at hb; omega)
    omega
  · simp only [ne_eq]
    omega

/-- `exec_file_check` fails when the lookup of the program name fails. -/
theorem exec_file_check_not_found (fs : filesystem_t) (name : List Nat)
    (hname : ∀ c ∈ name, is_name_char c = true) (m : exec_file_check_mem)
    (h : read_dentry_by_name fs (c_string name) = none) :
    exec_file_check fs (c_string name) m = none := by
  unfold exec_file_check
  simp only [exec_file_check_lookup fs name hname, h]

/-- `exec_file_check` fails when the file found has four first bytes that are
not the ELF signature. -/
theorem exec_file_check_not_elf (fs : filesystem_t) (name : List Nat)
    (hname : ∀ c ∈ name, is_name_char c = true) (m : exec_file_check_mem) (d : dentry_t)
    (h : read_dentry_by_name fs (c_string name) = some d)
    (hlen : 4 ≤ to_uint32 (fs.inodes (to_uint32 d.inode_num)).length)
    (hmagic : ¬ has_elf_magic fs (to_uint32 d.inode_num)) :
    exec_file_check fs (c_string name) m = none := by
  unfold exec_file_check
  simp only [exec_file_check_lookup fs name hname, h, ELF_MAGIC_LEN]
  by_cases hino : to_uint32 d.inode_num < 62
  · rw [read_data_within_block fs _ 0 4 _ hino (by omega) (by norm_num) (by norm_num)]
    by_cases hidx : (fs.inodes (to_uint32 d.inode_num)).data_block_num (0 / 4096) < 0 ∨
        (fs.inodes (to_uint32 d.inode_num)).data_block_num (0 / 4096) ≥ fs.data_count
    · simp only [if_pos hidx, true_or, if_true]
    · have hs : strncmp (fun j => if j < 4 then
          fs.data_blocks ((fs.inodes (to_uint32 d.inode_num)).data_block_num (0 / 4096)).toNat
            (j + 0 % 4096)
          else m.elf_magic j) ELF_MAGIC 4 ≠ 0 := by
        intro h0
        apply hmagic
        have := (strncmp_elf_magic _).mp h0
        simpa [has_elf_magic, file_byte, BLOCK_SIZE] using this
      simp only [if_neg hidx, hs, ne_eq, not_false_eq_true, or_true, if_true]
  · have hge : to_uint32 d.inode_num ≥ NUM_DIR_ENTRIES - 1 := by
      simp only [NUM_DIR_ENTRIES]; omega
    have : (read_data fs (to_uint32 d.inode_num) 0 m.elf_magic 4).1 = -1 := by
      unfold read_data
      simp only [if_pos hge]
    simp only [this, true_or, if_true]

/-- `exec_file_check` succeeds on a valid executable, whatever the
uninitialised memory holds, and stores bytes 24..27 of the file at `prog_eip`. -/
theorem exec_file_check_valid (fs : filesystem_t) (name : List Nat)
    (hname : ∀ c ∈ name, is_name_char c = true) (m : exec_file_check_mem) (d : dentry_t)
    (h : read_dentry_by_name fs (c_string name) = some d)
    (hlo : 0 ≤ d.inode_num) (hhi : d.inode_num < 62)
    (hlen : 28 ≤ (fs.inodes d.inode_num.toNat).length)
    (h31 : (fs.inodes d.inode_num.toNat).length < 2147483648)
    (hblocks : blocks_valid fs d.inode_num.toNat)
    (hmagic : has_elf_magic fs d.inode_num.toNat) :
    exec_file_check fs (c_string name) m =
      some (d, fun j => if j < 4 then
        fs.data_blocks ((fs.inodes d.inode_num.toNat).data_block_num 0).toNat (j + 24)
        else m.prog_eip j) := by
  have hu : to_uint32 d.inode_num = d.inode_num.toNat := by unfold to_uint32; omega
  have hl : to_uint32 (fs.inodes d.inode_num.toNat).length =
      (fs.inodes d.inode_num.toNat).length.toNat := by unfold to_uint32; omega
  have hb0 := hblocks 0 (by omega)
  have hidx : ¬ ((fs.inodes d.inode_num.toNat).data_block_num 0 < 0 ∨
      (fs.inodes d.inode_num.toNat).data_block_num 0 ≥ fs.data_count) := by omega
  unfold exec_file_check
  simp only [exec_file_check_lookup fs name hname, h, ELF_MAGIC_LEN, PROG_EIP_START_BYTE, hu]
  rw [read_data_within_block fs _ 0 4 _ (by omega) (by omega) (by norm_num) (by norm_num)]
  rw [read_data_within_block fs _ 24 4 _ (by omega) (by omega) (by norm_num) (by norm_num)]
  simp only [Nat.zero_div, Nat.reduceDiv, if_neg hidx]
  have hs : strncmp (fun j => if j < 4 then
      fs.data_blocks ((fs.inodes d.inode_num.toNat).data_block_num 0).toNat (j + 0 % 4096)
      else m.elf_magic j) ELF_MAGIC 4 = 0 := by
    have := (strncmp_elf_magic (fun j => if j < 4 then
      fs.data_blocks ((fs.inodes d.inode_num.toNat).data_block_num 0).toNat (j + 0 % 4096)
      else m.elf_magic j)).mpr
    apply this
    simpa [has_elf_magic, file_byte, BLOCK_SIZE] using hmagic
  have hne : ¬ (((4 : Nat) : Int) = -1 ∨ strncmp (fun j => if j < 4 then
      fs.data_blocks ((fs.inodes d.inode_num.toNat).data_block_num 0).toNat (j + 0 % 4096)
      else m.elf_magic j) ELF_MAGIC 4 ≠ 0) := by
    rw [hs]; simp
  simp only [if_neg hne]
  norm_num

/-- `load_program` on a valid executable: it returns 0, maps the program
window to the region of the current PCB's `process_id` and changes nothing
else. -/
theorem load_program_valid (s : kernel_state) (name : List Nat)
    (hname : ∀ c ∈ name, is_name_char c = true) (m : exec_file_check_mem) (d : dentry_t)
    (h : read_dentry_by_name s.filesystem (c_string name) = some d)
    (hlo : 0 ≤ d.inode_num) (hhi : d.inode_num < 62)
    (hlen : 28 ≤ (s.filesystem.inodes d.inode_num.toNat).length)
    (h31 : (s.filesystem.inodes d.inode_num.toNat).length < 2147483648)
    (hblocks : blocks_valid s.filesystem d.inode_num.toNat)
    (hmagic : has_elf_magic s.filesystem d.inode_num.toNat) :
    load_program s (c_string name) m =
      (0, { s with
          page_directory := Function.update s.page_directory ⟨32, by norm_num⟩
            (user_prog_pde (s.pcb_arr s.curr_pcb).process_id) },
        fun j => if j < 4 then
          s.filesystem.data_blocks
            ((s.filesystem.inodes d.inode_num.toNat).data_block_num 0).toNat (j + 24)
          else m.prog_eip j) := by
  have hu : to_uint32 d.inode_num = d.inode_num.toNat := by unfold to_uint32; omega
  unfold load_program
  rw [exec_file_check_valid s.filesystem name hname m d h hlo hhi hlen h31 hblocks hmagic]
  simp only [hu]
  have := read_data_whole_file s.filesystem d.inode_num.toNat (fun _ => 0) (by omega) (by omega)
    h31 hblocks
  simp only [if_neg this]

theorem find_avail_pid_none (t : pcb_table) (h : (find_avail_pid t).1 = -1) :
    (find_avail_pid t).2 = t := by
  rcases find_avail_pid_table t with ⟨-, h2⟩ | ⟨k, h1, -⟩
  · exact h2
  · rw [h1] at h; omega

theorem find_avail_pid_some (t : pcb_table) (k : Fin 6)
    (h : (find_avail_pid t).1 = (k.val : Int)) :
    (find_avail_pid t).2 = Function.update t k { t k with process_id := (k.val : Int) } := by
  rcases find_avail_pid_table t with ⟨h1, -⟩ | ⟨k', h1, h2⟩
  · rw [h1] at h; omega
  · have : k' = k := by
      apply Fin.ext
      rw [h1] at h
      exact_mod_cast h
    rw [h2, this]

theorem find_avail_pid_range (t : pcb_table) :
    (find_avail_pid t).1 = -1 ∨ ∃ k : Fin 6, (find_avail_pid t).1 = (k.val : Int) := by
  rcases find_avail_pid_table t with ⟨h1, -⟩ | ⟨k, h1, -⟩
  · exact Or.inl h1
  · exact Or.inr ⟨k, h1⟩

/-- The return value of `find_avail_pid` depends on the `available` flags only. -/
theorem find_avail_pid_flags (t t1 : pcb_table) (k : Fin 6)
    (hflags : ∀ j, (t1 j).available = (t j).available)
    (h : (find_avail_pid t).1 = (k.val : Int)) :
    (find_avail_pid t1).1 = (k.val : Int) := by
  have h1 := ((find_avail_pid_spec t).1 k).mp h
  apply ((find_avail_pid_spec t1).1 k).mpr
  refine ⟨by rw [hflags]; exact h1.1, fun j hj => by rw [hflags]; exact h1.2 j hj⟩

/-- `create_pcb` when `find_avail_pid` finds slot `k`. -/
theorem create_pcb_of_find (t : pcb_table) (parentID : Int) (curr_ebp curr_esp : Nat)
    (k : Fin 6) (h : (find_avail_pid t).1 = (k.val : Int)) :
    create_pcb t parentID curr_ebp curr_esp =
      some ((k.val : Int), Function.update t k
        { t k with
          available := 0, process_id := (k.val : Int), parent_id := parentID,
          saved_esp := curr_esp, saved_ebp := curr_ebp, active := 1 }) := by
  have hk := k.isLt
  have hr : 0 ≤ (find_avail_pid t).1 ∧ (find_avail_pid t).1 < 6 := by rw [h]; omega
  have hfin : (⟨(find_avail_pid t).1.toNat, by omega⟩ : Fin 6) = k := by
    apply Fin.ext; simp only [h]; simp
  unfold create_pcb
  simp only [dif_pos hr, hfin, find_avail_pid_some t k h, h]
  simp

theorem to_uint8_fin (k : Fin 6) : to_uint8 (k.val : Int) = k.val := by
  have := k.isLt
  unfold to_uint8; omega

theorem le32_entry (fs : filesystem_t) (inode : Nat) (g : Nat → Nat) :
    le32 (fun j => if j < 4 then
      fs.data_blocks ((fs.inodes inode).data_block_num 0).toNat (j + 24) else g j) =
    entry_point fs inode := by
  simp [le32, entry_point, file_byte, PROG_EIP_START_BYTE, BLOCK_SIZE]

theorem load_program_valid_fs (s : kernel_state) (name : List Nat) (m : exec_file_check_mem)
    (d : dentry_t) (fs : filesystem_t)
    (hname : ∀ c ∈ name, is_name_char c = true)
    (h : read_dentry_by_name fs (c_string name) = some d)
    (hlo : 0 ≤ d.inode_num) (hhi : d.inode_num < 62)
    (hlen : 28 ≤ (fs.inodes d.inode_num.toNat).length)
    (h31 : (fs.inodes d.inode_num.toNat).length < 2147483648)
    (hblocks : blocks_valid fs d.inode_num.toNat)
    (hmagic : has_elf_magic fs d.inode_num.toNat)
    (hs : s.filesystem = fs) :
    load_program s (c_string name) m =
      (0, { s with
          page_directory := Function.update s.page_directory ⟨32, by norm_num⟩
            (user_prog_pde (s.pcb_arr s.curr_pcb).process_id) },
        fun j => if j < 4 then
          fs.data_blocks ((fs.inodes d.inode_num.toNat).data_block_num 0).toNat (j + 24)
          else m.prog_eip j) := by
  subst hs
  exact load_program_valid s name hname m d h hlo hhi hlen h31 hblocks hmagic

/-- `execute` when the file check fails: -1 is returned and only `arg_buf`
has changed. -/
theorem execute_check_fails (s : kernel_state) (cmd : List Nat) (f : execute_frame)
    (hfit : fits_buffers cmd)
    (hfail : exec_file_check s.filesystem (c_string (program_name cmd)) f.check_mem = none) :
    syscall_execute s cmd f =
      (outcome.returned (-1), { s with arg_buf := c_string (argument_string cmd) }) := by
  unfold syscall_execute
  simp only [parseCmd_fits cmd hfit, hfail]

/-- `execute` when the file check passes and no slot is available: -1 is
returned and only `arg_buf` has changed. -/
theorem execute_no_slot (s : kernel_state) (cmd : List Nat) (f : execute_frame)
    (hfit : fits_buffers cmd) (x : dentry_t × (Nat → Nat))
    (hok : exec_file_check s.filesystem (c_string (program_name cmd)) f.check_mem = some x)
    (hfull : ∀ j : Fin 6, (s.pcb_arr j).available ≠ 1) :
    syscall_execute s cmd f =
      (outcome.returned (-1), { s with arg_buf := c_string (argument_string cmd) }) := by
  have h1 : (find_avail_pid s.pcb_arr).1 = -1 := (find_avail_pid_spec s.pcb_arr).2.mpr hfull
  unfold syscall_execute
  simp only [parseCmd_fits cmd hfit, hok, h1, find_avail_pid_none _ h1, if_true]

/-- `execute` of a valid executable when `find_avail_pid` finds slot `k`: user
mode is entered at the entry address of the file and the state is
`execute_post`. -/
theorem execute_success (s : kernel_state) (cmd : List Nat) (f : execute_frame) (d : dentry_t)
    (k : Fin 6) (hfit : fits_buffers cmd)
    (h : read_dentry_by_name s.filesystem (c_string (program_name cmd)) = some d)
    (hlo : 0 ≤ d.inode_num) (hhi : d.inode_num < 62)
    (hlen : 28 ≤ (s.filesystem.inodes d.inode_num.toNat).length)
    (h31 : (s.filesystem.inodes d.inode_num.toNat).length < 2147483648)
    (hblocks : blocks_valid s.filesystem d.inode_num.toNat)
    (hmagic : has_elf_magic s.filesystem d.inode_num.toNat)
    (hk : (find_avail_pid s.pcb_arr).1 = (k.val : Int)) :
    syscall_execute s cmd f =
      (outcome.user_mode (entry_point s.filesystem d.inode_num.toNat) 0x08400000,
        execute_post s cmd f k (entry_point s.filesystem d.inode_num.toNat)) := by
  have hk6 := k.isLt
  have hne : ¬ ((k.val : Int) = -1) := by omega
  have hname := program_name_chars cmd
  have hk2 : (find_avail_pid (find_avail_pid s.pcb_arr).2).1 = (k.val : Int) := by
    apply find_avail_pid_flags s.pcb_arr _ k _ hk
    intro j
    rw [find_avail_pid_some _ k hk]
    by_cases hj : j = k
    · subst hj; simp
    · rw [Function.update_noteq hj]
  have hr : 0 ≤ (k.val : Int) ∧ (k.val : Int) < 6 := by omega
  have hfin : (⟨(k.val : Int).toNat, by omega⟩ : Fin 6) = k := by
    apply Fin.ext; simp
  unfold syscall_execute
  simp only [parseCmd_fits cmd hfit,
    exec_file_check_valid s.filesystem _ hname f.check_mem d h hlo hhi hlen h31 hblocks hmagic,
    hk, if_neg hne, create_pcb_of_find _ _ _ _ k hk2, point_curr_pcb, dif_pos hr, hfin]
  rw [load_program_valid_fs _ (program_name cmd) f.load_mem d s.filesystem hname h hlo hhi hlen
    h31 hblocks hmagic]
  swap
  · rfl
  simp only [le32_entry, to_uint8_fin, find_avail_pid_some _ k hk]
  have h0 : ¬ ((0 : Int) = -1) := by decide
  simp only [if_neg h0, execute_post, Prod.mk.injEq, true_and]
  congr 1
  · simp only [Function.update_same, Function.update_idem]
    by_cases hc : s.curr_pcb = k
    · rw [hc, Function.update_same]
      simp only [if_true]
    · rw [Function.update_noteq hc]
      simp only [if_neg hc]
  · simp

/-- For a command that fits the buffers of `parseCmd` and whose program name the
lookup of `read_dentry_by_name` does not find, or finds in an entry whose file
has at least four bytes of which the first four are not 0x7F 'E' 'L' 'F',
`execute` returns -1 and leaves every PCB, `curr_pcb` and the page directory as
they were. -/
theorem execute_lookup_fails (s : kernel_state) (cmd : List Nat) (f : execute_frame)
    (hfit : fits_buffers cmd)
    (h : read_dentry_by_name s.filesystem (c_string (program_name cmd)) = none ∨
      ∃ d : dentry_t, read_dentry_by_name s.filesystem (c_string (program_name cmd)) = some d ∧
        4 ≤ to_uint32 (s.filesystem.inodes (to_uint32 d.inode_num)).length ∧
        ¬ has_elf_magic s.filesystem (to_uint32 d.inode_num)) :
    (syscall_execute s cmd f).1 = outcome.returned (-1) ∧
    (syscall_execute s cmd f).2.pcb_arr = s.pcb_arr ∧
    (syscall_execute s cmd f).2.curr_pcb = s.curr_pcb ∧
    (syscall_execute s cmd f).2.page_directory = s.page_directory := by
  have hfail : exec_file_check s.filesystem (c_string (program_name cmd)) f.check_mem = none := by
    rcases h with h | ⟨d, hd, hlen, hmagic⟩
    · exact exec_file_check_not_found _ _ (program_name_chars cmd) _ h
    · exact exec_file_check_not_elf _ _ (program_name_chars cmd) _ d hd hlen hmagic
  rw [execute_check_fails s cmd f hfit hfail]
  exact ⟨rfl, rfl, rfl, rfl⟩

set_option maxRecDepth 10000 in
/-- C4, evaluated at the failing input: the directory holds an executable
whose name is 32 characters 'a', the command is 33 characters 'a'.  The
program name is longer than `FILENAME_LEN`, yet `execute` does not return -1:
the lookup compares the first 32 characters only and the program is started. -/
theorem execute_name33_started :
    (program_name (List.replicate 33 97)).length = 33 ∧
    (syscall_execute (fresh_state long_name_fs) (List.replicate 33 97) (demo_frame 1 2)).1 =
      outcome.user_mode 0x080482E8 0x08400000 ∧
    ((syscall_execute (fresh_state long_name_fs) (List.replicate 33 97)
      (demo_frame 1 2)).2.pcb_arr 0).available = 0 :=
  ⟨by decide, by decide, by decide⟩

theorem demo_fs_shell_valid : valid_executable demo_fs (program_name shell_command) :=
  ⟨demo_fs.direntries 1, rfl, by decide, by decide, by decide, by decide,
    fun b _ => by simp [demo_fs], by decide⟩

theorem demo_fs_ls_valid : valid_executable demo_fs (program_name ls_command) :=
  ⟨demo_fs.direntries 2, rfl, by decide, by decide, by decide, by decide,
    fun b _ => by simp [demo_fs], by decide⟩

/-- When none of the six slots is available, `execute` of a command that names
a valid executable and fits the buffers of `parseCmd` returns -1 and leaves
every PCB, `curr_pcb`, the terminal records and the page directory
unchanged. -/
theorem execute_full_table_returns (s : kernel_state) (cmd : List Nat) (f : execute_frame)
    (hfit : fits_buffers cmd)
    (hvalid : valid_executable s.filesystem (program_name cmd))
    (hfull : ∀ j : Fin 6, (s.pcb_arr j).available ≠ 1) :
    (syscall_execute s cmd f).1 = outcome.returned (-1) ∧
    (syscall_execute s cmd f).2.pcb_arr = s.pcb_arr ∧
    (syscall_execute s cmd f).2.curr_pcb = s.curr_pcb ∧
    (syscall_execute s cmd f).2.terminal_arr = s.terminal_arr ∧
    (syscall_execute s cmd f).2.curr_terminal = s.curr_terminal ∧
    (syscall_execute s cmd f).2.page_directory = s.page_directory := by
  obtain ⟨d, hd, hlo, hhi, hlen, h31, hblocks, hmagic⟩ := hvalid
  have hok := exec_file_check_valid s.filesystem _ (program_name_chars cmd) f.check_mem d hd hlo
    hhi hlen h31 hblocks hmagic
  rw [execute_no_slot s cmd f hfit _ hok hfull]
  exact ⟨rfl, rfl, rfl, rfl, rfl, rfl⟩

set_option maxRecDepth 10000 in
/-- C5: with all six slots taken, `execute` of "ls " followed by 129
characters, a command that names the valid executable "ls", does not return
-1: `parseCmd` copies the 129 argument characters into the 128-byte `arg_buf`
with no check of the length, before `execute` looks at the file or at the
table.  For a command that fits the two buffers of `parseCmd` the call returns
-1 and leaves every PCB, `curr_pcb`, the terminal records (so the current
terminal's `initialized` flag) and the page directory unchanged. -/
theorem execute_table_full :
    (program_name long_args_command = program_name ls_command ∧
      valid_executable full_state.filesystem (program_name long_args_command) ∧
      (∀ j : Fin 6, (full_state.pcb_arr j).available ≠ 1) ∧
      (argument_string long_args_command).length = 129 ∧
      (syscall_execute full_state long_args_command (demo_frame 1 2)).1 = outcome.fault) ∧
    (∀ (s : kernel_state) (cmd : List Nat) (f : execute_frame),
      fits_buffers cmd → valid_executable s.filesystem (program_name cmd) →
      (∀ j : Fin 6, (s.pcb_arr j).available ≠ 1) →
      (syscall_execute s cmd f).1 = outcome.returned (-1) ∧
      (syscall_execute s cmd f).2.pcb_arr = s.pcb_arr ∧
      (syscall_execute s cmd f).2.curr_pcb = s.curr_pcb ∧
      (syscall_execute s cmd f).2.terminal_arr = s.terminal_arr ∧
      (syscall_execute s cmd f).2.curr_terminal = s.curr_terminal ∧
      (syscall_execute s cmd f).2.page_directory = s.page_directory) := by
  have e : program_name long_args_command = program_name ls_command := by decide
  refine ⟨⟨e, ?_, by decide, by decide, by decide⟩,
    fun s cmd f hfit hvalid hfull => execute_full_table_returns s cmd f hfit hvalid hfull⟩
  rw [e]
  exact demo_fs_ls_valid

/-- C5 at "ls" with six live processes. -/
theorem execute_table_full_witness :
    fits_buffers ls_command ∧ (∀ j : Fin 6, (full_state.pcb_arr j).available ≠ 1) ∧
    (syscall_execute full_state ls_command (demo_frame 1 2)).1 = outcome.returned (-1) ∧
    (syscall_execute full_state ls_command (demo_frame 1 2)).2.pcb_arr = full_table :=
  ⟨by decide, by decide,
    (execute_table_full.2 full_state ls_command (demo_frame 1 2) (by decide) demo_fs_ls_valid
      (by decide)).1,
    (execute_table_full.2 full_state ls_command (demo_frame 1 2) (by decide) demo_fs_ls_valid
      (by decide)).2.1⟩

set_option maxRecDepth 1000000 in
/-- C6, evaluated at the failing input: "shell" passes `exec_file_check` but its
second data-block number is invalid, so `load_program` returns -1 after the
slot was taken.  `execute` returns -1 and the slot stays unavailable; the
terminal's `initialized` flag, `curr_pcb` and the program window keep the
values written for the new process. -/
theorem execute_load_failure_keeps_slot :
    ((fresh_state bad_block_fs).pcb_arr 0).available = 1 ∧
    ((fresh_state bad_block_fs).terminal_arr 0).initialized = 0 ∧
    (syscall_execute (fresh_state bad_block_fs) shell_command (demo_frame 3 4)).1 =
      outcome.returned (-1) ∧
    ((syscall_execute (fresh_state bad_block_fs) shell_command (demo_frame 3 4)).2.pcb_arr
      0).available = 0 ∧
    ((syscall_execute (fresh_state bad_block_fs) shell_command (demo_frame 3 4)).2.terminal_arr
      0).initialized = 1 ∧
    (ls_running_state.pcb_arr 1).available = 1 ∧
    ls_running_state.curr_pcb = 0 ∧
    ls_running_state.page_directory 32 = 0x800197 ∧
    (syscall_execute ls_running_state shell_command (demo_frame 3 4)).1 =
      outcome.returned (-1) ∧
    ((syscall_execute ls_running_state shell_command (demo_frame 3 4)).2.pcb_arr 1).available =
      0 ∧
    (syscall_execute ls_running_state shell_command (demo_frame 3 4)).2.curr_pcb = 1 ∧
    (syscall_execute ls_running_state shell_command (demo_frame 3 4)).2.page_directory 32 =
      0xC00197 := by
  refine ⟨by decide, by decide, by decide, by decide, by decide, by decide, by decide,
    by decide, by decide, by decide, by decide, by decide⟩

theorem execute_post_filesystem (s : kernel_state) (cmd : List Nat) (f : execute_frame)
    (k : Fin 6) (eip : Nat) : (execute_post s cmd f k eip).filesystem = s.filesystem := rfl

/-- C7: from a freshly initialised table (whether or not the terminal is
initialised), with "shell" and "ls" valid executables and "badprog" absent,
`execute("shell")` and `execute("ls")` enter user mode, `execute("badprog")`
returns -1, and afterwards exactly slots 0 and 1 are unavailable and
`find_avail_pid` returns 2. -/
theorem execute_shell_ls_badprog (s : kernel_state) (f1 f2 f3 : execute_frame)
    (htable : s.pcb_arr = pcb_arr_init)
    (hshell : valid_executable s.filesystem (program_name shell_command))
    (hls : valid_executable s.filesystem (program_name ls_command))
    (hbad : read_dentry_by_name s.filesystem (c_string (program_name badprog_command)) = none) :
    (∃ e1, (syscall_execute s shell_command f1).1 = outcome.user_mode e1 0x08400000) ∧
    (∃ e2, (syscall_execute (syscall_execute s shell_command f1).2 ls_command f2).1 =
      outcome.user_mode e2 0x08400000) ∧
    (syscall_execute (syscall_execute (syscall_execute s shell_command f1).2 ls_command f2).2
      badprog_command f3).1 = outcome.returned (-1) ∧
    (∀ i : Fin 6,
      ((syscall_execute (syscall_execute (syscall_execute s shell_command f1).2 ls_command f2).2
        badprog_command f3).2.pcb_arr i).available = if i.val < 2 then 0 else 1) ∧
    (find_avail_pid
      (syscall_execute (syscall_execute (syscall_execute s shell_command f1).2 ls_command f2).2
        badprog_command f3).2.pcb_arr).1 = 2 := by
  obtain ⟨d1, hd1, hlo1, hhi1, hlen1, h311, hblocks1, hmagic1⟩ := hshell
  obtain ⟨d2, hd2, hlo2, hhi2, hlen2, h312, hblocks2, hmagic2⟩ := hls
  have hk0 : (find_avail_pid s.pcb_arr).1 = (((0 : Fin 6)).val : Int) := by
    rw [htable]; decide
  have e1 := execute_success s shell_command f1 d1 0 (by decide) hd1 hlo1 hhi1 hlen1 h311
    hblocks1 hmagic1 hk0
  rw [e1]
  have hk1 : (find_avail_pid (execute_post s shell_command f1 0
      (entry_point s.filesystem d1.inode_num.toNat)).pcb_arr).1 = (((1 : Fin 6)).val : Int) := by
    apply ((find_avail_pid_spec _).1 1).mpr
    simp only [execute_post, htable]
    constructor
    · simp [pcb_arr_init]
    · intro j hj
      have : j = 0 := by apply Fin.ext; simpa using hj
      subst this
      simp
  have e2 := execute_success (execute_post s shell_command f1 0
      (entry_point s.filesystem d1.inode_num.toNat)) ls_command f2 d2 1 (by decide) hd2 hlo2 hhi2
    hlen2 h312 hblocks2 hmagic2 hk1
  simp only [execute_post_filesystem] at e2
  rw [e2]
  have e3 := execute_check_fails (execute_post (execute_post s shell_command f1 0
      (entry_point s.filesystem d1.inode_num.toNat)) ls_command f2 1
      (entry_point s.filesystem d2.inode_num.toNat)) badprog_command f3 (by decide)
    (exec_file_check_not_found _ _ (program_name_chars _) _ hbad)
  rw [e3]
  refine ⟨⟨_, rfl⟩, ⟨_, rfl⟩, rfl, ?_, ?_⟩
  · intro i
    simp only [execute_post, htable]
    fin_cases i <;> simp [pcb_arr_init]
  · apply ((find_avail_pid_spec _).1 2).mpr
    simp only [execute_post, htable]
    constructor
    · simp [pcb_arr_init]
    · intro j hj
      fin_cases j <;> simp at hj ⊢

/-- C7 on the example filesystem. -/
theorem execute_shell_ls_badprog_witness :
    (fresh_state demo_fs).pcb_arr = pcb_arr_init ∧
    ((fresh_state demo_fs).terminal_arr (fresh_state demo_fs).curr_terminal).initialized = 0 ∧
    read_dentry_by_name demo_fs (c_string (program_name badprog_command)) = none ∧
    (syscall_execute (syscall_execute (syscall_execute (fresh_state demo_fs) shell_command
      (demo_frame 1 2)).2 ls_command (demo_frame 3 4)).2 badprog_command (demo_frame 5 6)).1 =
      outcome.returned (-1) ∧
    (find_avail_pid
      (syscall_execute (syscall_execute (syscall_execute (fresh_state demo_fs) shell_command
        (demo_frame 1 2)).2 ls_command (demo_frame 3 4)).2 badprog_command
        (demo_frame 5 6)).2.pcb_arr).1 = 2 :=
  ⟨rfl, rfl, rfl,
    (execute_shell_ls_badprog (fresh_state demo_fs) (demo_frame 1 2) (demo_frame 3 4)
      (demo_frame 5 6) rfl demo_fs_shell_valid demo_fs_ls_valid rfl).2.2.1,
    (execute_shell_ls_badprog (fresh_state demo_fs) (demo_frame 1 2) (demo_frame 3 4)
      (demo_frame 5 6) rfl demo_fs_shell_valid demo_fs_ls_valid rfl).2.2.2.2⟩

theorem with_file_desc_self (s : kernel_state) :
    with_file_desc s (s.pcb_arr s.curr_pcb).file_desc = s := by
  simp [with_file_desc]

theorem with_file_desc_get (s : kernel_state) (g : Fin 8 → file_descriptor_t) :
    ((with_file_desc s g).pcb_arr (with_file_desc s g).curr_pcb).file_desc = g := by
  simp [with_file_desc]

theorem close_descriptor_with (s : kernel_state) (g : Fin 8 → file_descriptor_t) (i : Nat)
    (hi8 : i < 8) :
    close_descriptor (with_file_desc s g) (i : Int) =
      if 2 ≤ i ∧ (g ⟨i, hi8⟩).flags ≠ 0 then
        (true, with_file_desc s (Function.update g ⟨i, hi8⟩
          { fileops_table_ptr := fileops_ptr.null, inode := 0, file_pos := 0, flags := 0 }))
      else (false, with_file_desc s g) := by
  by_cases h2 : 2 ≤ i
  · have h3 : (2 : Int) ≤ (i : Int) ∧ (i : Int) < 8 := by omega
    have h4 : (⟨(i : Int).toNat, by omega⟩ : Fin 8) = ⟨i, hi8⟩ := by
      apply Fin.ext; simp
    simp only [close_descriptor, dif_pos h3, h4, with_file_desc_get, h2, true_and]
    by_cases hfl : (g ⟨i, hi8⟩).flags = 0
    · simp [hfl]
    · simp only [ne_eq, hfl, not_false_eq_true, if_true, Prod.mk.injEq, true_and]
      simp [with_file_desc]
  · have h3 : ¬ ((2 : Int) ≤ (i : Int) ∧ (i : Int) < 8) := by omega
    simp only [close_descriptor, dif_neg h3, h2, false_and, if_false]

theorem checkFd_with (s : kernel_state) (g : Fin 8 → file_descriptor_t) (i : Nat)
    (hi8 : i < 8) :
    checkFd (with_file_desc s g) (i : Int) =
      if (g ⟨i, hi8⟩).flags = 0 then some (-1) else some 0 := by
  have h1 : ¬ ((i : Int) < 0 ∨ (i : Int) ≥ (PCB_SIZE : Int)) := by
    simp only [PCB_SIZE]; omega
  have h2 : (i : Int) < 8 := by omega
  have h4 : (⟨(i : Int).toNat, by omega⟩ : Fin 8) = ⟨i, hi8⟩ := by
    apply Fin.ext; simp
  simp only [checkFd, if_neg h1, dif_pos h2, h4, with_file_desc_get]

/-- The close loop of `halt` from index `i` on: every descriptor from `i` on
is closed as `halt_closed` says, provided those in use have an operations
table. -/
theorem halt_close_loop_spec (s : kernel_state) :
    ∀ (fuel i : Nat) (g : Fin 8 → file_descriptor_t), i + fuel = 8 →
      (∀ j : Fin 8, i ≤ j.val → (g j).flags ≠ 0 → (g j).fileops_table_ptr ≠ fileops_ptr.null) →
      halt_close_loop fuel i (with_file_desc s g) =
        some (with_file_desc s (fun j => if i ≤ j.val then halt_closed g j else g j)) := by
  intro fuel
  induction fuel with
  | zero =>
    intro i g hi _
    simp only [halt_close_loop]
    have : (fun j : Fin 8 => if i ≤ j.val then halt_closed g j else g j) = g := by
      funext j
      have := j.isLt
      have : ¬ (i ≤ j.val) := by omega
      simp [this]
    rw [this]
  | succ fuel ih =>
    intro i g hi hcall
    have hi8 : i < 8 := by omega
    have hnext : ∀ (g1 : Fin 8 → file_descriptor_t),
        (∀ j : Fin 8, j.val ≠ i → g1 j = g j) → g1 ⟨i, hi8⟩ = halt_closed g ⟨i, hi8⟩ →
        halt_close_loop fuel (i + 1) (with_file_desc s g1) =
        some (with_file_desc s (fun j => if i ≤ j.val then halt_closed g j else g j)) := by
      intro g1 h1 h2
      rw [ih (i + 1) g1 (by omega)]
      · have : (fun j : Fin 8 => if i + 1 ≤ j.val then halt_closed g1 j else g1 j) =
            (fun j : Fin 8 => if i ≤ j.val then halt_closed g j else g j) := by
          funext j
          by_cases hji : j.val = i
          · have : j = ⟨i, hi8⟩ := Fin.ext hji
            subst this
            simp [h2]
          · by_cases hlt : i ≤ j.val
            · have : i + 1 ≤ j.val := by omega
              simp only [hlt, this, if_true, halt_closed, h1 j hji]
            · have : ¬ (i + 1 ≤ j.val) := by omega
              simp only [hlt, this, if_false, h1 j hji]
        rw [this]
      · intro j hj hfl
        rw [h1 j (by omega)] at hfl ⊢
        exact hcall j (by omega) hfl
    simp only [halt_close_loop, dif_pos hi8, checkFd_with s g i hi8]
    by_cases hfl : (g ⟨i, hi8⟩).flags = 0
    · simp only [if_pos hfl]
      have : ¬ ((-1 : Int) = 0) := by decide
      simp only [if_neg this]
      apply hnext g (fun _ _ => rfl)
      simp [halt_closed, hfl]
    · simp only [if_neg hfl, if_true, with_file_desc_get]
      have hptr := hcall ⟨i, hi8⟩ (le_refl _) hfl
      have hupd : ∀ j : Fin 8, j.val ≠ i →
          Function.update g ⟨i, hi8⟩
            { fileops_table_ptr := fileops_ptr.null, inode := 0, file_pos := 0, flags := 0 } j =
            g j := by
        intro j hj
        exact Function.update_noteq (fun h => hj (by rw [h])) _ _
      cases hp : (g ⟨i, hi8⟩).fileops_table_ptr with
      | null => exact absurd hp hptr
      | stdinOps_table =>
        simp only [fd_close, default_close]
        apply hnext g (fun _ _ => rfl)
        simp [halt_closed, hp]
      | stdoutOps_table =>
        simp only [fd_close, default_close]
        apply hnext g (fun _ _ => rfl)
        simp [halt_closed, hp]
      | fileops =>
        simp only [fd_close, file_close, close_descriptor_with s g i hi8]
        by_cases h2 : 2 ≤ i
        · simp only [h2, true_and, ne_eq, hfl, not_false_eq_true, if_true]
          apply hnext _ hupd
          simp [halt_closed, hp, hfl, h2]
        · simp only [h2, false_and, if_false]
          apply hnext g (fun _ _ => rfl)
          simp [halt_closed, h2]
      | dirops =>
        simp only [fd_close, dir_close, close_descriptor_with s g i hi8]
        by_cases h2 : 2 ≤ i
        · simp only [h2, true_and, ne_eq, hfl, not_false_eq_true, if_true]
          apply hnext _ hupd
          simp [halt_closed, hp, hfl, h2]
        · simp only [h2, false_and, if_false]
          apply hnext g (fun _ _ => rfl)
          simp [halt_closed, h2]
      | rtcOps_table =>
        simp only [fd_close, rtc_close, close_descriptor_with s g i hi8]
        by_cases h2 : 2 ≤ i
        · simp only [h2, true_and, ne_eq, hfl, not_false_eq_true, if_true]
          apply hnext _ hupd
          simp [halt_closed, hp, hfl, h2]
        · simp only [h2, false_and, if_false]
          apply hnext g (fun _ _ => rfl)
          simp [halt_closed, h2]

/-- The close loop of `halt` on a state whose current descriptor table is
callable. -/
theorem halt_close_loop_all (s : kernel_state)
    (hcall : fds_callable (s.pcb_arr s.curr_pcb).file_desc) :
    halt_close_loop FD_SIZE 0 s =
      some (with_file_desc s (halt_closed (s.pcb_arr s.curr_pcb).file_desc)) := by
  have h := halt_close_loop_spec s 8 0 (s.pcb_arr s.curr_pcb).file_desc (by norm_num)
    (fun j _ hfl => hcall j hfl)
  rw [with_file_desc_self] at h
  simp only [FD_SIZE, h, Nat.zero_le, if_true]

theorem clear_pid_fin (t : pcb_table) (k : Fin 6) :
    clear_pid t (k.val : Int) = ((k.val : Int), Function.update t k { t k with available := 1 }) := by
  have hk := k.isLt
  have hr : 0 ≤ (k.val : Int) ∧ (k.val : Int) < 6 := by omega
  have hfin : (⟨(k.val : Int).toNat, by omega⟩ : Fin 6) = k := by
    apply Fin.ext; simp
  simp only [clear_pid, dif_pos hr, hfin]

theorem point_curr_pcb_fin (s : kernel_state) (k : Fin 6) :
    point_curr_pcb s (k.val : Int) = ((k.val : Int), { s with curr_pcb := k }) := by
  have hk := k.isLt
  have hr : 0 ≤ (k.val : Int) ∧ (k.val : Int) < 6 := by omega
  have hfin : (⟨(k.val : Int).toNat, by omega⟩ : Fin 6) = k := by
    apply Fin.ext; simp
  simp only [point_curr_pcb, dif_pos hr, hfin]

theorem clear_pid_parent_id (t : pcb_table) (pid : Int) (j : Fin 6) :
    ((clear_pid t pid).2 j).parent_id = (t j).parent_id := by
  unfold clear_pid
  split
  · rename_i h
    by_cases hc : j = ⟨pid.toNat, by omega⟩
    · subst hc; simp
    · simp only [Function.update_noteq hc]
  · rfl

/-- `halt` of a process with a parent: control is handed to the parent with
the `ebp` and `esp` saved in the halting PCB and the status in `eax`. -/
theorem halt_outcome_resumed (s : kernel_state) (arg1 fuel : Nat)
    (frames : Nat → execute_frame)
    (hcall : fds_callable (s.pcb_arr s.curr_pcb).file_desc)
    (hpar : (s.pcb_arr s.curr_pcb).parent_id ≠ -1) :
    (syscall_halt s arg1 fuel frames).1 =
      outcome.resumed (s.pcb_arr s.curr_pcb).saved_ebp (s.pcb_arr s.curr_pcb).saved_esp
        (halt_retval arg1) := by
  unfold syscall_halt
  simp only [halt_close_loop_all s hcall, clear_pid_parent_id, Function.update_same,
    with_file_desc, if_neg hpar, halt_retval]

/-- `halt` of a process whose PCB carries its own slot index, with a parent
`p` whose PCB carries index `p`: the state afterwards is `halt_post`. -/
theorem halt_with_parent (s : kernel_state) (arg1 fuel : Nat) (frames : Nat → execute_frame)
    (p : Fin 6)
    (hcall : fds_callable (s.pcb_arr s.curr_pcb).file_desc)
    (hpid : (s.pcb_arr s.curr_pcb).process_id = (s.curr_pcb.val : Int))
    (hpar : (s.pcb_arr s.curr_pcb).parent_id = (p.val : Int))
    (hppid : (s.pcb_arr p).process_id = (p.val : Int)) :
    syscall_halt s arg1 fuel frames =
      (outcome.resumed (s.pcb_arr s.curr_pcb).saved_ebp (s.pcb_arr s.curr_pcb).saved_esp
        (halt_retval arg1), halt_post s p) := by
  have hp6 := p.isLt
  have hne : ¬ ((p.val : Int) = -1) := by omega
  have hpp : to_uint8 (p.val : Int) = p.val := by unfold to_uint8; omega
  unfold syscall_halt
  simp only [halt_close_loop_all s hcall, clear_pid_parent_id, Function.update_same,
    with_file_desc, hpar, if_neg hne, halt_retval, hpid, clear_pid_fin, point_curr_pcb_fin,
    Function.update_idem]
  have hproc : (Function.update s.pcb_arr s.curr_pcb
      { process_id := (s.curr_pcb.val : Int), parent_id := (p.val : Int),
        file_desc := halt_closed (s.pcb_arr s.curr_pcb).file_desc,
        saved_esp := 0, saved_ebp := 0, saved_eip := (s.pcb_arr s.curr_pcb).saved_eip,
        active := 0, available := 1 } p).process_id = (p.val : Int) := by
    by_cases hc : p = s.curr_pcb
    · rw [hc, Function.update_same]
    · rw [Function.update_noteq hc, hppid]
  simp only [hproc, hpp, halt_post, hpid, hpar]

theorem user_prog_pde_fin (p : Fin 6) :
    user_prog_pde (p.val : Int) = (8388608 + 4194304 * p.val) ||| 0x197 := by
  fin_cases p <;> decide

theorem shell_ls_state_callable :
    fds_callable (shell_ls_state.pcb_arr shell_ls_state.curr_pcb).file_desc := by
  unfold fds_callable; decide

/-- C9: when a process that has a parent halts, the value handed to the
parent as the result of `execute` is the status for every status 0..254 and
256 for status 255, so the result of `halt(255)` differs from that of every
`halt(s)` with `s` in 0..254; the status that the exception handlers pass,
`(uint8_t)-1`, is 255 and so yields 256. -/
theorem halt_status_to_parent (s : kernel_state) (fuel : Nat) (frames : Nat → execute_frame)
    (hcall : fds_callable (s.pcb_arr s.curr_pcb).file_desc)
    (hpar : (s.pcb_arr s.curr_pcb).parent_id ≠ -1) :
    (∀ status : Nat, status ≤ 254 →
      (syscall_halt s status fuel frames).1 =
        outcome.resumed (s.pcb_arr s.curr_pcb).saved_ebp (s.pcb_arr s.curr_pcb).saved_esp
          status) ∧
    (syscall_halt s 255 fuel frames).1 =
      outcome.resumed (s.pcb_arr s.curr_pcb).saved_ebp (s.pcb_arr s.curr_pcb).saved_esp 256 ∧
    (∀ status : Nat, status ≤ 254 →
      (syscall_halt s 255 fuel frames).1 ≠ (syscall_halt s status fuel frames).1) ∧
    exception_halt_status = 255 ∧
    (syscall_halt s exception_halt_status fuel frames).1 =
      outcome.resumed (s.pcb_arr s.curr_pcb).saved_ebp (s.pcb_arr s.curr_pcb).saved_esp 256 := by
  have h255 : halt_retval 255 = 256 := by decide
  have hlow : ∀ status : Nat, status ≤ 254 → halt_retval status = status := by
    intro status hs
    have : status ≠ 255 := by omega
    simp [halt_retval, this]
  have hexc : exception_halt_status = 255 := by decide
  refine ⟨?_, ?_, ?_, hexc, ?_⟩
  · intro status hs
    rw [halt_outcome_resumed s status fuel frames hcall hpar, hlow status hs]
  · rw [halt_outcome_resumed s 255 fuel frames hcall hpar, h255]
  · intro status hs
    rw [halt_outcome_resumed s 255 fuel frames hcall hpar,
      halt_outcome_resumed s status fuel frames hcall hpar, h255, hlow status hs]
    intro h
    injection h with _ _ h3
    omega
  · rw [hexc, halt_outcome_resumed s 255 fuel frames hcall hpar, h255]

/-- C9 for "ls" started by "shell": `halt(7)` hands 7 to the shell, `halt(255)`
hands 256. -/
theorem halt_status_to_parent_witness :
    fds_callable (shell_ls_state.pcb_arr shell_ls_state.curr_pcb).file_desc ∧
    (shell_ls_state.pcb_arr shell_ls_state.curr_pcb).parent_id ≠ -1 ∧
    (syscall_halt shell_ls_state 7 1 (fun _ => demo_frame 5 6)).1 = outcome.resumed 3 4 7 ∧
    (syscall_halt shell_ls_state 255 1 (fun _ => demo_frame 5 6)).1 = outcome.resumed 3 4 256 :=
  ⟨shell_ls_state_callable, by decide,
    (halt_status_to_parent shell_ls_state 1 (fun _ => demo_frame 5 6) shell_ls_state_callable
      (by decide)).1 7 (by decide),
    (halt_status_to_parent shell_ls_state 1 (fun _ => demo_frame 5 6) shell_ls_state_callable
      (by decide)).2.1⟩

/-- C10: when the current process occupies slot `c`, its parent is slot `p`
(another slot, `p` in 0..5), both PCBs carry their slot index as `process_id`
and the descriptors in use have an operations table (which is so for the
running process of every session state, see `session_halt_ready`), then after
`halt` slot `c` is available and inactive, the current PCB is slot `p` with
`active == 1`, `tss.esp0 == 8MB - 8KB*p`, `tss.ss0 == KERNEL_DS` and
`page_directory[32] == (8MB + 4MB*p) | 0x197`. -/
theorem halt_switches_to_parent (s : kernel_state) (arg1 fuel : Nat)
    (frames : Nat → execute_frame) (p : Fin 6)
    (hcall : fds_callable (s.pcb_arr s.curr_pcb).file_desc)
    (hpid : (s.pcb_arr s.curr_pcb).process_id = (s.curr_pcb.val : Int))
    (hpar : (s.pcb_arr s.curr_pcb).parent_id = (p.val : Int))
    (hppid : (s.pcb_arr p).process_id = (p.val : Int))
    (hne : p ≠ s.curr_pcb) :
    ((syscall_halt s arg1 fuel frames).2.pcb_arr s.curr_pcb).available = 1 ∧
    ((syscall_halt s arg1 fuel frames).2.pcb_arr s.curr_pcb).active = 0 ∧
    (syscall_halt s arg1 fuel frames).2.curr_pcb = p ∧
    ((syscall_halt s arg1 fuel frames).2.pcb_arr p).active = 1 ∧
    (syscall_halt s arg1 fuel frames).2.tss_esp0 = 8388608 - 8192 * p.val ∧
    (syscall_halt s arg1 fuel frames).2.tss_ss0 = KERNEL_DS ∧
    (syscall_halt s arg1 fuel frames).2.page_directory ⟨32, by norm_num⟩ =
      (8388608 + 4194304 * p.val) ||| 0x197 := by
  rw [halt_with_parent s arg1 fuel frames p hcall hpid hpar hppid]
  simp only [halt_post, Function.update_same, Function.update_noteq (Ne.symm hne), pidToESP0,
    KP_BOTTOM, KS_SIZE, user_prog_pde_fin, and_self]

/-- C10 for "ls" (slot 1) started by "shell" (slot 0). -/
theorem halt_switches_to_parent_witness :
    (shell_ls_state.pcb_arr shell_ls_state.curr_pcb).process_id = 1 ∧
    (shell_ls_state.pcb_arr shell_ls_state.curr_pcb).parent_id = 0 ∧
    (shell_ls_state.pcb_arr 0).process_id = 0 ∧
    shell_ls_state.curr_pcb = 1 ∧
    ((syscall_halt shell_ls_state 0 1 (fun _ => demo_frame 5 6)).2.pcb_arr 1).available = 1 ∧
    (syscall_halt shell_ls_state 0 1 (fun _ => demo_frame 5 6)).2.curr_pcb = 0 ∧
    (syscall_halt shell_ls_state 0 1 (fun _ => demo_frame 5 6)).2.tss_esp0 = 8388608 :=
  ⟨by decide, by decide, by decide, by decide,
    (halt_switches_to_parent shell_ls_state 0 1 (fun _ => demo_frame 5 6) 0
      shell_ls_state_callable (by decide) (by decide) (by decide) (by decide)).1,
    (halt_switches_to_parent shell_ls_state 0 1 (fun _ => demo_frame 5 6) 0
      shell_ls_state_callable (by decide) (by decide) (by decide) (by decide)).2.2.1,
    (halt_switches_to_parent shell_ls_state 0 1 (fun _ => demo_frame 5 6) 0
      shell_ls_state_callable (by decide) (by decide) (by decide) (by decide)).2.2.2.2.1⟩

theorem free_slots_take (t : pcb_table) (k : Fin 6) (x : pcb_t) (hk : (t k).available = 1)
    (hx : x.available ≠ 1) :
    free_slots (Function.update t k x) + 1 = free_slots t := by
  unfold free_slots
  have : Finset.univ.filter (fun i : Fin 6 => (Function.update t k x i).available = 1) =
      (Finset.univ.filter (fun i : Fin 6 => (t i).available = 1)).erase k := by
    ext i
    simp only [Finset.mem_filter, Finset.mem_univ, true_and, Finset.mem_erase]
    by_cases hik : i = k
    · subst hik; simp [hx]
    · simp [Function.update_noteq hik, hik]
  rw [this, Finset.card_erase_of_mem (by simp [hk])]
  have : 0 < (Finset.univ.filter (fun i : Fin 6 => (t i).available = 1)).card :=
    Finset.card_pos.mpr ⟨k, by simp [hk]⟩
  omega

theorem free_slots_pos (t : pcb_table) (h : 0 < free_slots t) :
    ∃ k : Fin 6, (find_avail_pid t).1 = (k.val : Int) := by
  unfold free_slots at h
  obtain ⟨i, hi⟩ := Finset.card_pos.mp h
  simp only [Finset.mem_filter, Finset.mem_univ, true_and] at hi
  rcases find_avail_pid_range t with h1 | h1
  · exact absurd hi ((find_avail_pid_spec t).2.mp h1 i)
  · exact h1

theorem halt_post_pcb_other (s : kernel_state) (p j : Fin 6) (hj1 : j ≠ s.curr_pcb)
    (hj2 : j ≠ p) : (halt_post s p).pcb_arr j = s.pcb_arr j := by
  simp only [halt_post, Function.update_noteq hj2, Function.update_noteq hj1]

theorem halt_post_pcb_parent (s : kernel_state) (p : Fin 6) (hne : p ≠ s.curr_pcb) :
    (halt_post s p).pcb_arr p = { (s.pcb_arr p) with active := 1 } := by
  simp only [halt_post, Function.update_same, Function.update_noteq hne]

theorem halt_post_pcb_halted (s : kernel_state) (p : Fin 6) (hne : p ≠ s.curr_pcb) :
    (halt_post s p).pcb_arr s.curr_pcb =
      { (s.pcb_arr s.curr_pcb) with
        file_desc := halt_closed (s.pcb_arr s.curr_pcb).file_desc,
        active := 0, saved_ebp := 0, saved_esp := 0, available := 1 } := by
  simp only [halt_post, Function.update_same, Function.update_noteq (Ne.symm hne)]

/-- `N` nested `execute` calls followed by `N` `halt` calls, started by a live
process of an initialised terminal: every `halt` hands back the `ebp` and
`esp` that the matching `execute` captured, the caller is the current PCB
again, the `available` flags are as before, and the PCBs of the processes
that were live before are as before, up to `active`. -/
theorem run_nested_spec (fuel : Nat) (frames : Nat → execute_frame) :
    ∀ (calls : List (List Nat × execute_frame × Nat)) (s : kernel_state),
      (s.terminal_arr s.curr_terminal).initialized ≠ 0 →
      (s.pcb_arr s.curr_pcb).available ≠ 1 →
      (s.pcb_arr s.curr_pcb).process_id = (s.curr_pcb.val : Int) →
      (∀ c ∈ calls, fits_buffers c.1 ∧ valid_executable s.filesystem (program_name c.1)) →
      calls.length ≤ free_slots s.pcb_arr →
      (∀ j : Fin 6, (s.pcb_arr j).available = 1 → fds_callable (s.pcb_arr j).file_desc) →
      ∃ s1 : kernel_state,
        run_nested fuel frames s calls =
          some ((calls.map (fun c => outcome.resumed c.2.1.ebp c.2.1.esp
            (halt_retval c.2.2))).reverse, s1) ∧
        s1.curr_pcb = s.curr_pcb ∧
        s1.filesystem = s.filesystem ∧
        (∀ j : Fin 6, (s1.pcb_arr j).available = (s.pcb_arr j).available) ∧
        (∀ j : Fin 6, (s.pcb_arr j).available ≠ 1 →
          same_but_active (s1.pcb_arr j) (s.pcb_arr j)) := by
  intro calls
  induction calls with
  | nil =>
    intro s _ _ _ _ _ _
    exact ⟨s, rfl, rfl, rfl, fun _ => rfl, fun _ _ => ⟨rfl, rfl, rfl, rfl, rfl, rfl, rfl⟩⟩
  | cons c rest ih =>
    intro s hinit hlive hpid hok hfree hfds
    obtain ⟨cmd, f, status⟩ := c
    obtain ⟨hfit, d, hd, hlo, hhi, hlen, h31, hblocks, hmagic⟩ := hok _ (List.mem_cons_self _ _)
    simp only [List.length_cons] at hfree
    obtain ⟨k, hk⟩ := free_slots_pos s.pcb_arr (by omega)
    have hkav : (s.pcb_arr k).available = 1 := (((find_avail_pid_spec s.pcb_arr).1 k).mp hk).1
    have hkc : s.curr_pcb ≠ k := by
      intro h; rw [h] at hlive; exact hlive hkav
    have hex := execute_success s cmd f d k hfit hd hlo hhi hlen h31 hblocks hmagic hk
    -- the state in which the new process runs
    obtain ⟨s2, hs2, hs2def⟩ : ∃ s2, (syscall_execute s cmd f).2 = s2 ∧
        s2 = execute_post s cmd f k (entry_point s.filesystem d.inode_num.toNat) :=
      ⟨_, rfl, by rw [hex]⟩
    have hs2fs : s2.filesystem = s.filesystem := by rw [hs2def]; rfl
    have hs2curr : s2.curr_pcb = k := by rw [hs2def]; rfl
    have hs2k : s2.pcb_arr k =
        { (s.pcb_arr k) with
          available := 0, process_id := (k.val : Int),
          parent_id := (s.curr_pcb.val : Int),
          saved_esp := f.esp, saved_ebp := f.ebp, active := 1,
          saved_eip := entry_point s.filesystem d.inode_num.toNat } := by
      rw [hs2def]
      simp only [execute_post, Function.update_same, if_neg hinit, if_neg hkc, hpid]
    have hs2other : ∀ j : Fin 6, j ≠ k → s2.pcb_arr j = s.pcb_arr j := by
      intro j hj
      rw [hs2def]
      simp only [execute_post, Function.update_noteq hj]
    have hs2table : s2.pcb_arr = Function.update s.pcb_arr k (s2.pcb_arr k) := by
      funext j
      by_cases hj : j = k
      · subst hj; simp
      · rw [Function.update_noteq hj, hs2other j hj]
    have hfree2 : rest.length ≤ free_slots s2.pcb_arr := by
      have := free_slots_take s.pcb_arr k (s2.pcb_arr k) hkav (by rw [hs2k]; simp)
      rw [← hs2table] at this
      omega
    obtain ⟨s3, hrun, hcurr3, hfs3, hav3, hsame3⟩ := ih s2
      (by rw [hs2def]; simp [execute_post])
      (by rw [hs2curr, hs2k]; simp)
      (by rw [hs2curr, hs2k])
      (by
        intro c hc
        rw [hs2fs]
        exact hok c (List.mem_cons_of_mem _ hc))
      hfree2
      (by
        intro j hj
        have hjk : j ≠ k := by
          intro h; rw [h, hs2k] at hj; simp at hj
        rw [hs2other j hjk] at hj ⊢
        exact hfds j hj)
    have hc3 : s3.curr_pcb = k := hcurr3.trans hs2curr
    -- the PCBs of the new process and of the caller when the new process halts
    have hk3 := hsame3 k (by rw [hs2k]; simp)
    have hp3 := hsame3 s.curr_pcb (by rw [hs2other _ hkc]; exact hlive)
    rw [hs2k] at hk3
    rw [hs2other _ hkc] at hp3
    obtain ⟨hk_pid, hk_par, hk_fd, hk_esp, hk_ebp, -, hk_av⟩ := hk3
    simp only at hk_pid hk_par hk_fd hk_esp hk_ebp hk_av
    have hhalt := halt_with_parent s3 status fuel frames s.curr_pcb
      (by rw [hcurr3, hs2curr, hk_fd]; exact hfds k hkav)
      (by rw [hcurr3, hs2curr, hk_pid])
      (by rw [hcurr3, hs2curr, hk_par])
      (by rw [hp3.1, hpid])
    refine ⟨halt_post s3 s.curr_pcb, ?_, rfl, ?_, ?_, ?_⟩
    · rw [hs2def] at hrun
      simp only [run_nested, hex, hrun, hhalt, hcurr3, hs2curr, hk_ebp, hk_esp,
        List.map_cons, List.reverse_cons]
    · simp only [halt_post, hfs3, hs2fs]
    · intro j
      by_cases hjk : j = k
      · rw [hjk, ← hc3, halt_post_pcb_halted s3 s.curr_pcb (by rw [hc3]; exact hkc), hc3, hkav]
      · by_cases hjp : j = s.curr_pcb
        · rw [hjp, halt_post_pcb_parent s3 s.curr_pcb (by rw [hc3]; exact hkc)]
          simp only
          rw [hav3, hs2other _ hkc]
        · rw [halt_post_pcb_other s3 s.curr_pcb j (by rw [hc3]; exact hjk) hjp, hav3,
            hs2other _ hjk]
    · intro j hj
      have hjk : j ≠ k := by
        intro h; rw [h] at hj; exact hj hkav
      have hj3 := hsame3 j (by rw [hs2other j hjk]; exact hj)
      rw [hs2other j hjk] at hj3
      by_cases hjp : j = s.curr_pcb
      · rw [hjp, halt_post_pcb_parent s3 s.curr_pcb (by rw [hc3]; exact hkc)]
        rw [hjp] at hj3
        exact hj3
      · rw [halt_post_pcb_other s3 s.curr_pcb j (by rw [hc3]; exact hjk) hjp]
        exact hj3

/-- C8 (amended): for every list of `N` calls, `N` at most the number of free
slots, issued from a live process of an initialised terminal (each command a
valid executable that fits the buffers, every free slot with callable
descriptors): the `N` nested `execute` calls enter user mode, the `N` `halt`
calls hand back, innermost first, exactly the `ebp` and `esp` captured by the
matching `execute`, the original caller is the current PCB again and the
`available` flags equal those before the first `execute`. -/
theorem nested_execute_halt (fuel : Nat) (frames : Nat → execute_frame)
    (calls : List (List Nat × execute_frame × Nat)) (s : kernel_state)
    (hinit : (s.terminal_arr s.curr_terminal).initialized ≠ 0)
    (hlive : (s.pcb_arr s.curr_pcb).available ≠ 1)
    (hpid : (s.pcb_arr s.curr_pcb).process_id = (s.curr_pcb.val : Int))
    (hok : ∀ c ∈ calls, fits_buffers c.1 ∧ valid_executable s.filesystem (program_name c.1))
    (hfree : calls.length ≤ free_slots s.pcb_arr)
    (hfds : ∀ j : Fin 6, (s.pcb_arr j).available = 1 → fds_callable (s.pcb_arr j).file_desc) :
    (run_nested fuel frames s calls).map Prod.fst =
      some ((calls.map (fun c => outcome.resumed c.2.1.ebp c.2.1.esp
        (halt_retval c.2.2))).reverse) ∧
    (run_nested fuel frames s calls).map (fun r => r.2.curr_pcb) = some s.curr_pcb ∧
    ∀ j : Fin 6, (run_nested fuel frames s calls).map (fun r => (r.2.pcb_arr j).available) =
      some (s.pcb_arr j).available := by
  obtain ⟨s1, hrun, hcurr, -, hav, -⟩ :=
    run_nested_spec fuel frames calls s hinit hlive hpid hok hfree hfds
  rw [hrun]
  refine ⟨rfl, ?_, ?_⟩
  · simp only [Option.map_some', hcurr]
  · intro j
    simp only [Option.map_some', hav j]

/-- The amended C8 for two nested "ls" started from the shell. -/
theorem nested_execute_halt_witness :
    (shell_state.terminal_arr shell_state.curr_terminal).initialized ≠ 0 ∧
    (shell_state.pcb_arr shell_state.curr_pcb).available ≠ 1 ∧
    two_calls.length ≤ free_slots shell_state.pcb_arr ∧
    (run_nested 1 (fun _ => demo_frame 7 8) shell_state two_calls).map Prod.fst =
      some [outcome.resumed 5 6 256, outcome.resumed 3 4 0] ∧
    (run_nested 1 (fun _ => demo_frame 7 8) shell_state two_calls).map
      (fun r => r.2.curr_pcb) = some 0 :=
  have h := nested_execute_halt 1 (fun _ => demo_frame 7 8) two_calls shell_state
    (by decide) (by decide) (by decide)
    (by
      intro c hc
      simp only [two_calls, List.mem_cons, List.mem_singleton, List.not_mem_nil, or_false] at hc
      rcases hc with rfl | rfl
      · exact ⟨by decide, demo_fs_ls_valid⟩
      · exact ⟨by decide, demo_fs_ls_valid⟩)
    (by decide)
    (by unfold fds_callable; decide)
  ⟨by decide, by decide, by decide, h.1, h.2.1⟩

/-- C8 as stated fails when the first `execute` is issued while the terminal
has no session yet: the process it creates is a session root, and its `halt`
starts a fresh shell instead of handing back `ebp = 1`, `esp = 2`; slot 0,
available before the `execute`, is taken afterwards. -/
theorem nested_execute_halt_counterexample :
    ((fresh_state demo_fs).terminal_arr (fresh_state demo_fs).curr_terminal).initialized = 0 ∧
    1 ≤ free_slots (fresh_state demo_fs).pcb_arr ∧
    ((fresh_state demo_fs).pcb_arr 0).available = 1 ∧
    (run_nested 1 (fun _ => demo_frame 7 8) (fresh_state demo_fs)
      [(shell_command, demo_frame 1 2, 0)]).map Prod.fst =
      some [outcome.user_mode 0x080482E8 0x08400000] ∧
    (run_nested 1 (fun _ => demo_frame 7 8) (fresh_state demo_fs)
      [(shell_command, demo_frame 1 2, 0)]).map (fun r => (r.2.pcb_arr 0).available) =
      some 0 := by
  refine ⟨by decide, by decide, by decide, by decide, by decide⟩


/-! ### The session invariant -/

theorem load_program_pcb_arr (s : kernel_state) (command : Nat → Nat) (m : exec_file_check_mem) :
    (load_program s command m).2.1.pcb_arr = s.pcb_arr := by
  unfold load_program
  split
  · rfl
  · dsimp only
    split <;> rfl

theorem load_program_curr_pcb (s : kernel_state) (command : Nat → Nat) (m : exec_file_check_mem) :
    (load_program s command m).2.1.curr_pcb = s.curr_pcb := by
  unfold load_program
  split
  · rfl
  · dsimp only
    split <;> rfl

theorem load_program_terminal_arr (s : kernel_state) (command : Nat → Nat)
    (m : exec_file_check_mem) :
    (load_program s command m).2.1.terminal_arr = s.terminal_arr := by
  unfold load_program
  split
  · rfl
  · dsimp only
    split <;> rfl

theorem load_program_curr_terminal (s : kernel_state) (command : Nat → Nat)
    (m : exec_file_check_mem) :
    (load_program s command m).2.1.curr_terminal = s.curr_terminal := by
  unfold load_program
  split
  · rfl
  · dsimp only
    split <;> rfl

/-- What any `execute` call does to the process table, the current PCB and the
terminal records: it faults, or it leaves them alone, or it allocates the
slot `k` that `find_avail_pid` finds and makes it current. -/
theorem execute_effect (s : kernel_state) (cmd : List Nat) (f : execute_frame) :
    ∀ r : outcome × kernel_state, syscall_execute s cmd f = r →
    r.1 = outcome.fault ∨
    (r.2.pcb_arr = s.pcb_arr ∧ r.2.curr_pcb = s.curr_pcb ∧
      r.2.terminal_arr = s.terminal_arr ∧ r.2.curr_terminal = s.curr_terminal) ∨
    ∃ k : Fin 6, (s.pcb_arr k).available = 1 ∧
      (∀ j : Fin 6, j ≠ k → r.2.pcb_arr j = s.pcb_arr j) ∧
      (r.2.pcb_arr k).available = 0 ∧
      (r.2.pcb_arr k).process_id = (k.val : Int) ∧
      (r.2.pcb_arr k).parent_id =
        (if (s.terminal_arr s.curr_terminal).initialized = 0 then -1
         else if s.curr_pcb = k then (k.val : Int) else (s.pcb_arr s.curr_pcb).process_id) ∧
      (r.2.pcb_arr k).file_desc = (s.pcb_arr k).file_desc ∧
      r.2.curr_pcb = k ∧ r.2.curr_terminal = s.curr_terminal ∧
      (r.2.terminal_arr r.2.curr_terminal).initialized = 1 := by
  intro r hr
  unfold syscall_execute at hr
  cases hp : parseCmd cmd (fun _ => 0) (fun _ => 0) with
  | none =>
    simp only [hp] at hr
    left; rw [← hr]
  | some bufs =>
    obtain ⟨cmd_buf, arg_buf⟩ := bufs
    simp only [hp] at hr
    cases hc : exec_file_check s.filesystem cmd_buf f.check_mem with
    | none =>
      simp only [hc] at hr
      right; left; rw [← hr]; exact ⟨rfl, rfl, rfl, rfl⟩
    | some x =>
      simp only [hc] at hr
      rcases find_avail_pid_range s.pcb_arr with h1 | ⟨k, hk⟩
      · simp only [h1, if_true, find_avail_pid_none _ h1] at hr
        right; left; rw [← hr]; exact ⟨rfl, rfl, rfl, rfl⟩
      · have hk6 := k.isLt
        have hne : ¬ ((k.val : Int) = -1) := by omega
        have hk2 : (find_avail_pid (find_avail_pid s.pcb_arr).2).1 = (k.val : Int) := by
          apply find_avail_pid_flags s.pcb_arr _ k _ hk
          intro j
          rw [find_avail_pid_some _ k hk]
          by_cases hj : j = k
          · subst hj; simp
          · rw [Function.update_noteq hj]
        have hr6 : 0 ≤ (k.val : Int) ∧ (k.val : Int) < 6 := by omega
        have hfin : (⟨(k.val : Int).toNat, by omega⟩ : Fin 6) = k := by
          apply Fin.ext; simp
        have hkav : (s.pcb_arr k).available = 1 := (((find_avail_pid_spec s.pcb_arr).1 k).mp hk).1
        simp only [hk, if_neg hne, create_pcb_of_find _ _ _ _ k hk2, point_curr_pcb, dif_pos hr6,
          hfin] at hr
        simp only [find_avail_pid_some _ k hk] at hr
        right; right
        refine ⟨k, hkav, ?_⟩
        generalize hl : load_program _ cmd_buf f.load_mem = l at hr
        have h1 := congrArg (fun x => x.2.1.pcb_arr) hl
        have h2 := congrArg (fun x => x.2.1.curr_pcb) hl
        have h3 := congrArg (fun x => x.2.1.terminal_arr) hl
        have h4 := congrArg (fun x => x.2.1.curr_terminal) hl
        simp only [load_program_pcb_arr] at h1
        simp only [load_program_curr_pcb] at h2
        simp only [load_program_terminal_arr] at h3
        simp only [load_program_curr_terminal] at h4
        obtain ⟨l1, ls, l2⟩ := l
        cases ls
        dsimp only at h1 h2 h3 h4 hr
        subst h1 h2 h3 h4
        by_cases hl1 : l1 = -1
        · simp only [hl1, if_true] at hr
          rw [← hr]
          simp only [Function.update_same, Function.update_idem]
          refine ⟨fun j hj => Function.update_noteq hj _ _, trivial, trivial, ?_, trivial, trivial,
            trivial, trivial⟩
          by_cases h0 : (s.terminal_arr s.curr_terminal).initialized = 0
          · simp only [if_pos h0]
          · simp only [if_neg h0]
            by_cases hck : s.curr_pcb = k
            · rw [hck, Function.update_same]; simp only [if_true]
            · rw [Function.update_noteq hck]; simp only [if_neg hck]
        · simp only [if_neg hl1] at hr
          rw [← hr]
          simp only [Function.update_same, Function.update_idem]
          refine ⟨fun j hj => Function.update_noteq hj _ _, trivial, trivial, ?_, trivial, trivial,
            trivial, trivial⟩
          by_cases h0 : (s.terminal_arr s.curr_terminal).initialized = 0
          · simp only [if_pos h0]
          · simp only [if_neg h0]
            by_cases hck : s.curr_pcb = k
            · rw [hck, Function.update_same]; simp only [if_true]
            · rw [Function.update_noteq hck]; simp only [if_neg hck]

/-- The invariant reads only the table, the current PCB and the terminal
records. -/
theorem session_inv_congr (s s1 : kernel_state) (h1 : s1.pcb_arr = s.pcb_arr)
    (h2 : s1.curr_pcb = s.curr_pcb) (h3 : s1.terminal_arr = s.terminal_arr)
    (h4 : s1.curr_terminal = s.curr_terminal) (hinv : session_inv s) : session_inv s1 := by
  unfold session_inv at *
  rw [h1, h2, h3, h4]
  exact hinv

/-- Clearing the `initialized` flag of the current terminal keeps the
invariant. -/
theorem session_inv_uninit (s : kernel_state) (hinv : session_inv s) :
    session_inv { s with
      terminal_arr := Function.update s.terminal_arr s.curr_terminal
        { (s.terminal_arr s.curr_terminal) with initialized := 0 } } := by
  obtain ⟨i6, i1, i2, i3, i4, -⟩ := hinv
  refine ⟨i6, i1, i2, i3, i4, ?_⟩
  intro h
  simp only [Function.update_same, ne_eq, not_true_eq_false] at h

/-- Allocating an available slot `k` as a child of the current process (or as
a session root) and making it current keeps the invariant. -/
theorem session_inv_alloc (s s1 : kernel_state) (k : Fin 6) (hinv : session_inv s)
    (hk : (s.pcb_arr k).available = 1)
    (hother : ∀ j : Fin 6, j ≠ k → s1.pcb_arr j = s.pcb_arr j)
    (hav : (s1.pcb_arr k).available = 0)
    (hpid : (s1.pcb_arr k).process_id = (k.val : Int))
    (hpar : (s1.pcb_arr k).parent_id =
      (if (s.terminal_arr s.curr_terminal).initialized = 0 then -1
       else if s.curr_pcb = k then (k.val : Int) else (s.pcb_arr s.curr_pcb).process_id))
    (hfd : (s1.pcb_arr k).file_desc = (s.pcb_arr k).file_desc)
    (hcurr : s1.curr_pcb = k) :
    session_inv s1 := by
  obtain ⟨i6, i1, i2, i3, i4, i5⟩ := hinv
  have hpar2 : (s1.pcb_arr k).parent_id = -1 ∨
      ((s1.pcb_arr k).parent_id = (s.curr_pcb.val : Int) ∧ s.curr_pcb ≠ k ∧
        (s.pcb_arr s.curr_pcb).available ≠ 1) := by
    rw [hpar]
    by_cases h0 : (s.terminal_arr s.curr_terminal).initialized = 0
    · left; simp only [if_pos h0]
    · right
      have hl := i5 h0
      have hne : s.curr_pcb ≠ k := fun h => hl (by rw [h]; exact hk)
      simp only [if_neg h0, if_neg hne]
      exact ⟨i1 _ hl, hne, hl⟩
  have hk6 := k.isLt
  refine ⟨?_, ?_, ?_, ?_, ?_, ?_⟩
  · intro i
    by_cases hik : i = k
    · rw [hik, hfd]; exact i6 k
    · rw [hother i hik]; exact i6 i
  · intro i hi
    by_cases hik : i = k
    · rw [hik]; exact hpid
    · rw [hother i hik] at hi ⊢; exact i1 i hi
  · intro i hi
    by_cases hik : i = k
    · rw [hik]
      rcases hpar2 with h | ⟨h, hne, hl⟩
      · exact Or.inl h
      · exact Or.inr ⟨s.curr_pcb, h, hne, by rw [hother _ hne]; exact hl⟩
    · rw [hother i hik] at hi ⊢
      rcases i2 i hi with h | ⟨p, hp, hpi, hpl⟩
      · exact Or.inl h
      · have hpk : p ≠ k := fun h => hpl (by rw [h]; exact hk)
        exact Or.inr ⟨p, hp, hpi, by rw [hother p hpk]; exact hpl⟩
  · intro i hi
    rw [hcurr]
    by_cases hik : i = k
    · rw [hik]
      rcases hpar2 with h | ⟨h, hne, -⟩
      · rw [h]; omega
      · rw [h]; intro hh
        exact hne (Fin.ext (by exact_mod_cast hh))
    · rw [hother i hik] at hi ⊢
      rcases i2 i hi with h | ⟨p, hp, -, hpl⟩
      · rw [h]; omega
      · rw [hp]; intro hh
        have hpk : p = k := Fin.ext (by exact_mod_cast hh)
        exact hpl (by rw [hpk]; exact hk)
  · intro i j hi hj hne1 heq
    by_cases hik : i = k
    · by_cases hjk : j = k
      · rw [hik, hjk]
      · exfalso
        rw [hik] at heq hne1
        rcases hpar2 with h | ⟨h, -, -⟩
        · exact hne1 h
        · rw [hother j hjk] at hj heq
          exact i3 j hj (by rw [← heq, h])
    · by_cases hjk : j = k
      · exfalso
        rw [hjk] at heq
        rw [hother i hik] at hi heq hne1
        rcases hpar2 with h | ⟨h, -, -⟩
        · exact hne1 (by rw [heq, h])
        · exact i3 i hi (by rw [heq, h])
      · rw [hother i hik] at hi heq hne1
        rw [hother j hjk] at hj heq
        exact i4 i j hi hj hne1 heq
  · intro _
    rw [hcurr, hav]; decide

/-- Every `execute` call that does not fault keeps the invariant. -/
theorem session_inv_execute (s : kernel_state) (cmd : List Nat) (f : execute_frame)
    (hinv : session_inv s) (hnf : (syscall_execute s cmd f).1 ≠ outcome.fault) :
    session_inv (syscall_execute s cmd f).2 := by
  rcases execute_effect s cmd f _ rfl with h | ⟨h1, h2, h3, h4⟩ |
    ⟨k, hk, hother, hav, hpid, hpar, hfd, hcurr, -, -⟩
  · exact absurd h hnf
  · exact session_inv_congr s _ h1 h2 h3 h4 hinv
  · exact session_inv_alloc s _ k hinv hk hother hav hpid hpar hfd hcurr

theorem halt_closed_callable (g : Fin 8 → file_descriptor_t) (h : fds_callable g) :
    fds_callable (halt_closed g) := by
  intro i hfl
  unfold halt_closed at hfl ⊢
  split_ifs at hfl ⊢ with hc
  · exact absurd rfl hfl
  · exact h i hfl

/-- Releasing the current slot `c`, and moving on to its parent or staying
with an uninitialised terminal, keeps the invariant. -/
theorem session_inv_release (s s1 : kernel_state) (hinv : session_inv s)
    (hav : (s1.pcb_arr s.curr_pcb).available = 1)
    (hfd : fds_callable (s1.pcb_arr s.curr_pcb).file_desc)
    (hsame : ∀ j : Fin 6, j ≠ s.curr_pcb →
      (s1.pcb_arr j).available = (s.pcb_arr j).available ∧
      (s1.pcb_arr j).process_id = (s.pcb_arr j).process_id ∧
      (s1.pcb_arr j).parent_id = (s.pcb_arr j).parent_id ∧
      (s1.pcb_arr j).file_desc = (s.pcb_arr j).file_desc)
    (hleaf : ∀ i : Fin 6, i ≠ s.curr_pcb → (s.pcb_arr i).available ≠ 1 →
      (s.pcb_arr i).parent_id ≠ (s1.curr_pcb.val : Int))
    (h5 : (s1.terminal_arr s1.curr_terminal).initialized ≠ 0 →
      s1.curr_pcb ≠ s.curr_pcb ∧ (s.pcb_arr s1.curr_pcb).available ≠ 1) :
    session_inv s1 := by
  obtain ⟨i6, i1, i2, i3, i4, -⟩ := hinv
  have hlive : ∀ i : Fin 6, (s1.pcb_arr i).available ≠ 1 →
      i ≠ s.curr_pcb ∧ (s.pcb_arr i).available ≠ 1 := by
    intro i hi
    have hic : i ≠ s.curr_pcb := fun h => hi (by rw [h]; exact hav)
    exact ⟨hic, by rw [← (hsame i hic).1]; exact hi⟩
  refine ⟨?_, ?_, ?_, ?_, ?_, ?_⟩
  · intro i
    by_cases hic : i = s.curr_pcb
    · rw [hic]; exact hfd
    · rw [(hsame i hic).2.2.2]; exact i6 i
  · intro i hi
    obtain ⟨hic, hl⟩ := hlive i hi
    rw [(hsame i hic).2.1]; exact i1 i hl
  · intro i hi
    obtain ⟨hic, hl⟩ := hlive i hi
    rw [(hsame i hic).2.2.1]
    rcases i2 i hl with h | ⟨p, hp, hpi, hpl⟩
    · exact Or.inl h
    · have hpc : p ≠ s.curr_pcb := fun h => i3 i hl (by rw [hp, h])
      exact Or.inr ⟨p, hp, hpi, by rw [(hsame p hpc).1]; exact hpl⟩
  · intro i hi
    obtain ⟨hic, hl⟩ := hlive i hi
    rw [(hsame i hic).2.2.1]
    exact hleaf i hic hl
  · intro i j hi hj hne1 heq
    obtain ⟨hic, hli⟩ := hlive i hi
    obtain ⟨hjc, hlj⟩ := hlive j hj
    rw [(hsame i hic).2.2.1] at hne1 heq
    rw [(hsame j hjc).2.2.1] at heq
    exact i4 i j hli hlj hne1 heq
  · intro h
    obtain ⟨hne, hl⟩ := h5 h
    rw [(hsame _ hne).1]; exact hl

/-- `halt` of a process without parent (`parent_id == -1`) whose PCB carries
its own slot index: the descriptors are closed, the slot is released and the
restart loop is entered. -/
theorem halt_without_parent (s : kernel_state) (arg1 fuel : Nat)
    (frames : Nat → execute_frame)
    (hcall : fds_callable (s.pcb_arr s.curr_pcb).file_desc)
    (hpid : (s.pcb_arr s.curr_pcb).process_id = (s.curr_pcb.val : Int))
    (hpar : (s.pcb_arr s.curr_pcb).parent_id = -1) :
    syscall_halt s arg1 fuel frames =
      halt_restart fuel
        { s with
          pcb_arr := Function.update s.pcb_arr s.curr_pcb
            { (s.pcb_arr s.curr_pcb) with
              file_desc := halt_closed (s.pcb_arr s.curr_pcb).file_desc,
              active := 0, saved_ebp := 0, saved_esp := 0, available := 1 } } frames := by
  unfold syscall_halt
  simp only [halt_close_loop_all s hcall, clear_pid_parent_id, Function.update_same,
    with_file_desc, hpar, if_true, hpid, clear_pid_fin, Function.update_idem]

/-- The restart loop of `halt`, when it comes to an end without a fault,
keeps the invariant. -/
theorem halt_restart_inv :
    ∀ (fuel : Nat) (s : kernel_state) (frames : Nat → execute_frame),
      session_inv { s with
        terminal_arr := Function.update s.terminal_arr s.curr_terminal
          { (s.terminal_arr s.curr_terminal) with initialized := 0 } } →
      (halt_restart fuel s frames).1 ≠ outcome.fault →
      (halt_restart fuel s frames).1 ≠ outcome.still_looping →
      session_inv (halt_restart fuel s frames).2 := by
  intro fuel
  induction fuel with
  | zero =>
    intro s frames _ _ h
    exact absurd rfl h
  | succ fuel ih =>
    intro s frames hJ
    have hex := session_inv_execute _ shell_command (frames 0) hJ
    simp only [halt_restart]
    split
    · rename_i x heq
      intro h1 h2
      exact ih _ _ (session_inv_uninit _ (hex (by rw [heq]; simp))) h1 h2
    · intro h1 _
      exact hex h1

/-- Every `halt` call made while the terminal is initialised, and that comes
to an end without a fault, keeps the invariant. -/
theorem session_inv_halt (s : kernel_state) (arg1 fuel : Nat) (frames : Nat → execute_frame)
    (hinv : session_inv s)
    (hinit : (s.terminal_arr s.curr_terminal).initialized ≠ 0)
    (hnf : (syscall_halt s arg1 fuel frames).1 ≠ outcome.fault)
    (hnl : (syscall_halt s arg1 fuel frames).1 ≠ outcome.still_looping) :
    session_inv (syscall_halt s arg1 fuel frames).2 := by
  have hinv0 := hinv
  obtain ⟨i6, i1, i2, i3, i4, i5⟩ := hinv
  have hlive := i5 hinit
  have hpid := i1 _ hlive
  have hcall := i6 s.curr_pcb
  rcases i2 _ hlive with hroot | ⟨p, hp, hpc, hpl⟩
  · rw [halt_without_parent s arg1 fuel frames hcall hpid hroot] at hnf hnl ⊢
    apply halt_restart_inv _ _ _ _ hnf hnl
    apply session_inv_release s _ hinv0
    · simp only [Function.update_same]
    · simp only [Function.update_same]
      exact halt_closed_callable _ hcall
    · intro j hj
      simp only [Function.update_noteq hj, and_self]
    · intro i _ hi
      exact i3 i hi
    · intro h
      simp only [Function.update_same, ne_eq, not_true_eq_false] at h
  · rw [halt_with_parent s arg1 fuel frames p hcall hpid hp (i1 p hpl)]
    apply session_inv_release s _ hinv0
    · rw [halt_post_pcb_halted s p hpc]
    · rw [halt_post_pcb_halted s p hpc]
      exact halt_closed_callable _ hcall
    · intro j hj
      by_cases hjp : j = p
      · rw [hjp, halt_post_pcb_parent s p hpc]
        exact ⟨rfl, rfl, rfl, rfl⟩
      · rw [halt_post_pcb_other s p j hj hjp]
        exact ⟨rfl, rfl, rfl, rfl⟩
    · intro i hic hi hpar
      have hne1 : (s.pcb_arr i).parent_id ≠ -1 := by
        have := p.isLt
        change (s.pcb_arr i).parent_id = (p.val : Int) at hpar
        rw [hpar]; omega
      exact hic (i4 i s.curr_pcb hi hlive hne1 (by
        change (s.pcb_arr i).parent_id = (p.val : Int) at hpar
        rw [hpar, hp]))
    · intro _
      exact ⟨hpc, hpl⟩

/-- Every state of a session satisfies the invariant. -/
theorem session_reachable_inv (s : kernel_state) (h : session_reachable s) : session_inv s := by
  induction h with
  | boot s htab hinit =>
    have hav : ∀ i : Fin 6, (s.pcb_arr i).available = 1 := by
      intro i; rw [htab]; rfl
    refine ⟨?_, ?_, ?_, ?_, ?_, ?_⟩
    · intro i
      rw [htab]
      change fds_callable (start_process pcb_zero.file_desc)
      unfold fds_callable
      decide
    · intro i hi; exact absurd (hav i) hi
    · intro i hi; exact absurd (hav i) hi
    · intro i hi; exact absurd (hav i) hi
    · intro i j hi; exact absurd (hav i) hi
    · intro h; exact absurd hinit h
  | execute s command f _ hnf ih =>
    exact session_inv_execute s command f ih hnf
  | halt s arg1 fuel frames _ hinit hnf hnl ih =>
    exact session_inv_halt s arg1 fuel frames ih hinit hnf hnl

/-- In every state of a session in which a process runs, the current PCB and
its parent are as the lemmas about `halt` require: the descriptors in use have
an operations table, the PCB carries its slot index, and a parent `p` is
another slot whose PCB carries the index `p`. -/
theorem session_halt_ready (s : kernel_state) (h : session_reachable s)
    (hinit : (s.terminal_arr s.curr_terminal).initialized ≠ 0) :
    fds_callable (s.pcb_arr s.curr_pcb).file_desc ∧
    (s.pcb_arr s.curr_pcb).process_id = (s.curr_pcb.val : Int) ∧
    ((s.pcb_arr s.curr_pcb).parent_id = -1 ∨
      ∃ p : Fin 6, (s.pcb_arr s.curr_pcb).parent_id = (p.val : Int) ∧ p ≠ s.curr_pcb ∧
        (s.pcb_arr p).process_id = (p.val : Int) ∧ (s.pcb_arr p).available ≠ 1) := by
  obtain ⟨i6, i1, i2, -, -, i5⟩ := session_reachable_inv s h
  have hlive := i5 hinit
  refine ⟨i6 _, i1 _ hlive, ?_⟩
  rcases i2 _ hlive with hroot | ⟨p, hp, hpc, hpl⟩
  · exact Or.inl hroot
  · exact Or.inr ⟨p, hp, hpc, i1 p hpl, hpl⟩

/-- The state in which "shell" has started "ls" is a state of a session. -/
theorem shell_ls_state_reachable : session_reachable shell_ls_state :=
  session_reachable.execute _ ls_command (demo_frame 3 4)
    (session_reachable.execute _ shell_command (demo_frame 1 2)
      (session_reachable.boot _ rfl rfl) (by decide)) (by decide)



/-! ### Restart of a session root -/

theorem fd_table_ok_callable (fd : Fin 8 → file_descriptor_t) (h : fd_table_ok fd) :
    fds_callable fd := by
  obtain ⟨-, h0, -, h1, h2⟩ := h
  intro i hfl
  by_cases hi0 : i = 0
  · rw [hi0, h0]; decide
  · by_cases hi1 : i = 1
    · rw [hi1, h1]; decide
    · have hi2 : 2 ≤ i.val := by
        have h0 : i.val ≠ 0 := fun h => hi0 (Fin.ext h)
        have h1 : i.val ≠ 1 := fun h => hi1 (Fin.ext h)
        omega
      rcases h2 i hi2 hfl with h | h | h <;> rw [h] <;> decide

/-- An `execute` call that faults leaves the state as it was. -/
theorem execute_fault_state (s : kernel_state) (cmd : List Nat) (f : execute_frame) :
    ∀ r : outcome × kernel_state, syscall_execute s cmd f = r →
    r.1 = outcome.fault → r.2 = s := by
  intro r hr hfault
  unfold syscall_execute at hr
  cases hp : parseCmd cmd (fun _ => 0) (fun _ => 0) with
  | none =>
    simp only [hp] at hr
    rw [← hr]
  | some bufs =>
    obtain ⟨cmd_buf, arg_buf⟩ := bufs
    simp only [hp] at hr
    cases hc : exec_file_check s.filesystem cmd_buf f.check_mem with
    | none =>
      simp only [hc] at hr
      rw [← hr] at hfault
      exact absurd hfault (by simp)
    | some x =>
      simp only [hc] at hr
      rcases find_avail_pid_range s.pcb_arr with h1 | ⟨k, hk⟩
      · simp only [h1, if_true, find_avail_pid_none _ h1] at hr
        rw [← hr] at hfault
        exact absurd hfault (by simp)
      · have hk6 := k.isLt
        have hne : ¬ ((k.val : Int) = -1) := by omega
        have hk2 : (find_avail_pid (find_avail_pid s.pcb_arr).2).1 = (k.val : Int) := by
          apply find_avail_pid_flags s.pcb_arr _ k _ hk
          intro j
          rw [find_avail_pid_some _ k hk]
          by_cases hj : j = k
          · subst hj; simp
          · rw [Function.update_noteq hj]
        have hr6 : 0 ≤ (k.val : Int) ∧ (k.val : Int) < 6 := by omega
        have hfin : (⟨(k.val : Int).toNat, by omega⟩ : Fin 6) = k := by
          apply Fin.ext; simp
        simp only [hk, if_neg hne, create_pcb_of_find _ _ _ _ k hk2, point_curr_pcb, dif_pos hr6,
          hfin] at hr
        exfalso
        generalize load_program _ cmd_buf f.load_mem = l at hr
        by_cases hl1 : l.1 = -1
        · simp only [hl1, if_true] at hr
          rw [← hr] at hfault
          simp at hfault
        · simp only [if_neg hl1] at hr
          rw [← hr] at hfault
          simp at hfault

/-- No `execute` call changes a descriptor table. -/
theorem execute_file_desc (s : kernel_state) (cmd : List Nat) (f : execute_frame) (j : Fin 6) :
    ((syscall_execute s cmd f).2.pcb_arr j).file_desc = (s.pcb_arr j).file_desc := by
  rcases execute_effect s cmd f _ rfl with h | ⟨h1, -, -, -⟩ |
    ⟨k, -, hother, -, -, -, hfd, -, -, -⟩
  · rw [execute_fault_state s cmd f _ rfl h]
  · rw [h1]
  · by_cases hjk : j = k
    · rw [hjk, hfd]
    · rw [hother j hjk]

/-- The restart loop of `halt` changes no descriptor table. -/
theorem halt_restart_file_desc :
    ∀ (fuel : Nat) (s : kernel_state) (frames : Nat → execute_frame) (j : Fin 6),
      ((halt_restart fuel s frames).2.pcb_arr j).file_desc = (s.pcb_arr j).file_desc := by
  intro fuel
  induction fuel with
  | zero => intro s frames j; rfl
  | succ fuel ih =>
    intro s frames j
    simp only [halt_restart]
    split
    · rw [ih, execute_file_desc]
    · rw [execute_file_desc]

theorem clear_pid_file_desc (t : pcb_table) (pid : Int) (j : Fin 6) :
    ((clear_pid t pid).2 j).file_desc = (t j).file_desc := by
  unfold clear_pid
  split
  · rename_i h
    by_cases hc : j = ⟨pid.toNat, by omega⟩
    · subst hc; simp
    · simp only [Function.update_noteq hc]
  · rfl

theorem point_curr_pcb_pcb_arr (s : kernel_state) (pcbx : Int) :
    (point_curr_pcb s pcbx).2.pcb_arr = s.pcb_arr := by
  unfold point_curr_pcb
  split <;> rfl

theorem update_keeps_file_desc (t : pcb_table) (i j : Fin 6) (x : pcb_t)
    (hx : x.file_desc = (t i).file_desc) :
    (Function.update t i x j).file_desc = (t j).file_desc := by
  by_cases hji : j = i
  · rw [hji, Function.update_same, hx]
  · rw [Function.update_noteq hji]

/-- The descriptor tables after `halt`: the table of the halting process is
closed as `halt_closed` says, the other tables are as before. -/
theorem halt_file_desc (s : kernel_state) (arg1 fuel : Nat) (frames : Nat → execute_frame)
    (hcall : fds_callable (s.pcb_arr s.curr_pcb).file_desc) (j : Fin 6) :
    ((syscall_halt s arg1 fuel frames).2.pcb_arr j).file_desc =
      if j = s.curr_pcb then halt_closed (s.pcb_arr s.curr_pcb).file_desc
      else (s.pcb_arr j).file_desc := by
  have hbase : ((with_file_desc s (halt_closed (s.pcb_arr s.curr_pcb).file_desc)).pcb_arr
      j).file_desc =
      if j = s.curr_pcb then halt_closed (s.pcb_arr s.curr_pcb).file_desc
      else (s.pcb_arr j).file_desc := by
    unfold with_file_desc
    by_cases hj : j = s.curr_pcb
    · rw [hj]; simp only [Function.update_same, if_true]
    · simp only [Function.update_noteq hj, if_neg hj]
  unfold syscall_halt
  simp only [halt_close_loop_all s hcall]
  split
  · rw [halt_restart_file_desc]
    dsimp only
    rw [clear_pid_file_desc, update_keeps_file_desc, update_keeps_file_desc, hbase]
    all_goals rfl
  · dsimp only
    rw [update_keeps_file_desc, point_curr_pcb_pcb_arr]
    · dsimp only
      rw [clear_pid_file_desc, update_keeps_file_desc, update_keeps_file_desc, hbase]
      all_goals rfl
    · rfl

theorem halt_closed_ok (fd : Fin 8 → file_descriptor_t) (h : fd_table_ok fd) :
    (∀ i : Fin 8, 2 ≤ i.val → (halt_closed fd i).flags = 0) ∧
    halt_closed fd 0 = fd 0 ∧ halt_closed fd 1 = fd 1 := by
  obtain ⟨-, -, -, -, h2⟩ := h
  refine ⟨?_, ?_, ?_⟩
  · intro i hi
    unfold halt_closed
    by_cases hfl : (fd i).flags = 0
    · simp [hfl]
    · have := h2 i hi hfl
      simp [hfl, hi, this]
  · simp [halt_closed]
  · simp [halt_closed]

/-- C12: when the descriptor table of the halting process is as
`start_process` and the open operations fill it, then after `halt` every
descriptor 2..7 of that table is marked not in use, and descriptors 0 and 1
are in use and bound to the terminal input and output tables; this holds on
every path of `halt`, with or without a parent. -/
theorem halt_closes_descriptors (s : kernel_state) (arg1 fuel : Nat)
    (frames : Nat → execute_frame)
    (hok : fd_table_ok (s.pcb_arr s.curr_pcb).file_desc) :
    (∀ i : Fin 8, 2 ≤ i.val →
      (((syscall_halt s arg1 fuel frames).2.pcb_arr s.curr_pcb).file_desc i).flags = 0) ∧
    (((syscall_halt s arg1 fuel frames).2.pcb_arr s.curr_pcb).file_desc 0).flags ≠ 0 ∧
    (((syscall_halt s arg1 fuel frames).2.pcb_arr s.curr_pcb).file_desc 0).fileops_table_ptr =
      fileops_ptr.stdinOps_table ∧
    (((syscall_halt s arg1 fuel frames).2.pcb_arr s.curr_pcb).file_desc 1).flags ≠ 0 ∧
    (((syscall_halt s arg1 fuel frames).2.pcb_arr s.curr_pcb).file_desc 1).fileops_table_ptr =
      fileops_ptr.stdoutOps_table := by
  have hfd := halt_file_desc s arg1 fuel frames (fd_table_ok_callable _ hok) s.curr_pcb
  simp only [if_true] at hfd
  obtain ⟨hc2, hc0, hc1⟩ := halt_closed_ok _ hok
  rw [hfd, hc0, hc1]
  exact ⟨hc2, hok.1, hok.2.1, hok.2.2.1, hok.2.2.2.1⟩

/-- C12 for "ls" holding a file and the directory open: after `halt(0)` the
descriptors 2 and 3 of slot 1 are not in use. -/
theorem halt_closes_descriptors_witness :
    ((ls_files_state.pcb_arr ls_files_state.curr_pcb).file_desc 2).flags = 1 ∧
    ((ls_files_state.pcb_arr ls_files_state.curr_pcb).file_desc 3).flags = 1 ∧
    (((syscall_halt ls_files_state 0 1 (fun _ => demo_frame 7 8)).2.pcb_arr
      ls_files_state.curr_pcb).file_desc 2).flags = 0 ∧
    (((syscall_halt ls_files_state 0 1 (fun _ => demo_frame 7 8)).2.pcb_arr
      ls_files_state.curr_pcb).file_desc 3).flags = 0 :=
  have h := halt_closes_descriptors ls_files_state 0 1 (fun _ => demo_frame 7 8)
    (by unfold fd_table_ok; decide)
  ⟨by decide, by decide, h.1 2 (by decide), h.1 3 (by decide)⟩

theorem to_int32_small (k : Nat) (h : k < 2147483648) : to_int32 k = (k : Int) := by
  unfold to_int32
  have : k % 4294967296 = k := Nat.mod_eq_of_lt (by omega)
  rw [this, if_pos h]

theorem checkFd_table (s : kernel_state) (i : Nat) (hi8 : i < 8) :
    checkFd s (i : Int) =
      if ((s.pcb_arr s.curr_pcb).file_desc ⟨i, hi8⟩).flags = 0 then some (-1) else some 0 := by
  have h := checkFd_with s (s.pcb_arr s.curr_pcb).file_desc i hi8
  rwa [with_file_desc_self] at h

theorem close_descriptor_table (s : kernel_state) (i : Nat) (hi8 : i < 8) :
    close_descriptor s (i : Int) =
      if 2 ≤ i ∧ ((s.pcb_arr s.curr_pcb).file_desc ⟨i, hi8⟩).flags ≠ 0 then
        (true, with_file_desc s (Function.update (s.pcb_arr s.curr_pcb).file_desc ⟨i, hi8⟩
          { fileops_table_ptr := fileops_ptr.null, inode := 0, file_pos := 0, flags := 0 }))
      else (false, s) := by
  have h := close_descriptor_with s (s.pcb_arr s.curr_pcb).file_desc i hi8
  rwa [with_file_desc_self] at h

/-- `close(fd)` of a descriptor that is not in use. -/
theorem syscall_close_unused (s : kernel_state) (i : Nat) (hi8 : i < 8)
    (hfl : ((s.pcb_arr s.curr_pcb).file_desc ⟨i, hi8⟩).flags = 0) :
    syscall_close s i = (outcome.returned (-1), s) := by
  unfold syscall_close
  rw [to_int32_small i (by omega), checkFd_table s i hi8, if_pos hfl]
  simp

/-- `close(fd)` of a descriptor bound to a terminal table. -/
theorem syscall_close_terminal (s : kernel_state) (i : Nat) (hi8 : i < 8)
    (hptr : ((s.pcb_arr s.curr_pcb).file_desc ⟨i, hi8⟩).fileops_table_ptr =
        fileops_ptr.stdinOps_table ∨
      ((s.pcb_arr s.curr_pcb).file_desc ⟨i, hi8⟩).fileops_table_ptr =
        fileops_ptr.stdoutOps_table) :
    syscall_close s i = (outcome.returned (-1), s) := by
  by_cases hfl : ((s.pcb_arr s.curr_pcb).file_desc ⟨i, hi8⟩).flags = 0
  · exact syscall_close_unused s i hi8 hfl
  · unfold syscall_close
    rw [to_int32_small i (by omega), checkFd_table s i hi8, if_neg hfl]
    simp only [if_true, dif_pos hi8]
    rcases hptr with h | h <;> rw [h] <;> rfl

/-- `close(fd)` of a descriptor 2..7 that is in use and bound to the file,
directory or RTC table. -/
theorem syscall_close_open (s : kernel_state) (i : Nat) (hi8 : i < 8) (hi2 : 2 ≤ i)
    (hfl : ((s.pcb_arr s.curr_pcb).file_desc ⟨i, hi8⟩).flags ≠ 0)
    (hptr : ((s.pcb_arr s.curr_pcb).file_desc ⟨i, hi8⟩).fileops_table_ptr = fileops_ptr.fileops ∨
      ((s.pcb_arr s.curr_pcb).file_desc ⟨i, hi8⟩).fileops_table_ptr = fileops_ptr.dirops ∨
      ((s.pcb_arr s.curr_pcb).file_desc ⟨i, hi8⟩).fileops_table_ptr =
        fileops_ptr.rtcOps_table) :
    syscall_close s i =
      (outcome.returned 0,
        with_file_desc s (Function.update (s.pcb_arr s.curr_pcb).file_desc ⟨i, hi8⟩
          { fileops_table_ptr := fileops_ptr.null, inode := 0, file_pos := 0, flags := 0 })) := by
  have hcond : 2 ≤ i ∧ ((s.pcb_arr s.curr_pcb).file_desc ⟨i, hi8⟩).flags ≠ 0 := ⟨hi2, hfl⟩
  unfold syscall_close
  rw [to_int32_small i (by omega), checkFd_table s i hi8, if_neg hfl]
  simp only [if_true, dif_pos hi8]
  rcases hptr with h | h | h <;> rw [h] <;>
    simp only [fd_close, file_close, dir_close, rtc_close, close_descriptor_table s i hi8,
      if_pos hcond, if_true]

/-- C13: for a current process whose descriptor table is as `start_process`
and the open operations fill it, `close(0)` and `close(1)` return -1 and
change nothing; for every `fd` in 2..7 that is in use, `close(fd)` returns 0,
marks the descriptor not in use and leaves the other descriptors as they were,
and a second `close(fd)` right afterwards returns -1. -/
theorem close_succeeds_once (s : kernel_state)
    (hok : fd_table_ok (s.pcb_arr s.curr_pcb).file_desc) :
    syscall_close s 0 = (outcome.returned (-1), s) ∧
    syscall_close s 1 = (outcome.returned (-1), s) ∧
    ∀ fd : Fin 8, 2 ≤ fd.val → ((s.pcb_arr s.curr_pcb).file_desc fd).flags ≠ 0 →
      (syscall_close s fd.val).1 = outcome.returned 0 ∧
      (((syscall_close s fd.val).2.pcb_arr (syscall_close s fd.val).2.curr_pcb).file_desc
        fd).flags = 0 ∧
      (∀ j : Fin 8, j ≠ fd →
        ((syscall_close s fd.val).2.pcb_arr (syscall_close s fd.val).2.curr_pcb).file_desc j =
          (s.pcb_arr s.curr_pcb).file_desc j) ∧
      (syscall_close (syscall_close s fd.val).2 fd.val).1 = outcome.returned (-1) := by
  obtain ⟨-, h0, -, h1, h2⟩ := hok
  refine ⟨syscall_close_terminal s 0 (by norm_num) (Or.inl h0),
    syscall_close_terminal s 1 (by norm_num) (Or.inr h1), ?_⟩
  intro fd hfd hfl
  rw [syscall_close_open s fd.val fd.isLt hfd hfl (h2 fd hfd hfl)]
  refine ⟨rfl, ?_, ?_, ?_⟩
  · simp only [with_file_desc_get, Fin.eta, Function.update_same]
  · intro j hj
    simp only [with_file_desc_get, Fin.eta, Function.update_noteq hj]
  · rw [syscall_close_unused _ fd.val fd.isLt]
    simp only [with_file_desc_get, Fin.eta, Function.update_same]

/-- C13 for "ls" holding a file open as descriptor 2: the first `close(2)`
returns 0, the second -1. -/
theorem close_succeeds_once_witness :
    ((ls_files_state.pcb_arr ls_files_state.curr_pcb).file_desc 2).flags ≠ 0 ∧
    (syscall_close ls_files_state 0).1 = outcome.returned (-1) ∧
    (syscall_close ls_files_state 2).1 = outcome.returned 0 ∧
    (syscall_close (syscall_close ls_files_state 2).2 2).1 = outcome.returned (-1) :=
  have h := close_succeeds_once ls_files_state (by unfold fd_table_ok; decide)
  ⟨by decide, by rw [h.1], (h.2.2 2 (by decide) (by decide)).1,
    (h.2.2 2 (by decide) (by decide)).2.2.2⟩

theorem to_int32_to_uint32 (fd : Int) (h1 : -2147483648 ≤ fd) (h2 : fd < 2147483648) :
    to_int32 (to_uint32 fd) = fd := by
  unfold to_int32 to_uint32
  have hlt : (fd % 4294967296).toNat < 4294967296 := by omega
  rw [Nat.mod_eq_of_lt hlt]
  split <;> omega

theorem checkFd_outside (s : kernel_state) (fd : Int) (h : fd < 0 ∨ 256 ≤ fd) :
    checkFd s fd = some (-1) := by
  unfold checkFd
  rw [if_pos (by simp only [PCB_SIZE]; omega)]

theorem checkFd_past_table (s : kernel_state) (fd : Int) (h1 : 8 ≤ fd) (h2 : fd < 256) :
    checkFd s fd = none := by
  unfold checkFd
  rw [if_neg (by simp only [PCB_SIZE]; omega), dif_neg (by omega)]

/-- C14, what the code does: `read`, `write` and `close` return -1 and change
nothing for a descriptor number that is negative or at least 256 (`PCB_SIZE`),
and for one in 0..7 whose descriptor is not in use; for a number from 8 to 255
`checkFd` reads the flag of `file_desc[fd]`, past the 8-entry table, and none
of the three calls returns -1. -/
theorem invalid_fd_handling (s : kernel_state) (fd : Int) (buf nbytes : Nat)
    (hlo : -2147483648 ≤ fd) (hhi : fd < 2147483648) :
    ((fd < 0 ∨ 256 ≤ fd) →
      syscall_read s (to_uint32 fd) buf nbytes = (outcome.returned (-1), s) ∧
      syscall_write s (to_uint32 fd) buf nbytes = (outcome.returned (-1), s) ∧
      syscall_close s (to_uint32 fd) = (outcome.returned (-1), s)) ∧
    (∀ i : Fin 8, fd = (i.val : Int) → ((s.pcb_arr s.curr_pcb).file_desc i).flags = 0 →
      syscall_read s (to_uint32 fd) buf nbytes = (outcome.returned (-1), s) ∧
      syscall_write s (to_uint32 fd) buf nbytes = (outcome.returned (-1), s) ∧
      syscall_close s (to_uint32 fd) = (outcome.returned (-1), s)) ∧
    ((8 ≤ fd ∧ fd < 256) →
      checkFd s fd = none ∧
      syscall_read s (to_uint32 fd) buf nbytes = (outcome.fault, s) ∧
      syscall_write s (to_uint32 fd) buf nbytes = (outcome.fault, s) ∧
      syscall_close s (to_uint32 fd) = (outcome.fault, s)) := by
  have hconv := to_int32_to_uint32 fd hlo hhi
  refine ⟨?_, ?_, ?_⟩
  · intro h
    have hc := checkFd_outside s fd h
    refine ⟨?_, ?_, ?_⟩
    · unfold syscall_read; rw [hconv, hc]; simp
    · unfold syscall_write; rw [hconv, hc]; simp
    · unfold syscall_close; rw [hconv, hc]; simp
  · intro i hi hfl
    have hc : checkFd s fd = some (-1) := by
      rw [hi, checkFd_table s i.val i.isLt]
      simp only [Fin.eta, hfl, if_true]
    refine ⟨?_, ?_, ?_⟩
    · unfold syscall_read; rw [hconv, hc]; simp
    · unfold syscall_write; rw [hconv, hc]; simp
    · unfold syscall_close; rw [hconv, hc]; simp
  · rintro ⟨h1, h2⟩
    have hc := checkFd_past_table s fd h1 h2
    refine ⟨hc, ?_, ?_, ?_⟩
    · unfold syscall_read; rw [hconv, hc]
    · unfold syscall_write; rw [hconv, hc]
    · unfold syscall_close; rw [hconv, hc]

/-- C14 at the descriptor numbers -1, 300 and 8 in the state where "ls" runs:
-1 for the first two, a read past the table for 8. -/
theorem invalid_fd_handling_witness :
    syscall_close shell_ls_state (to_uint32 (-1)) = (outcome.returned (-1), shell_ls_state) ∧
    syscall_close shell_ls_state (to_uint32 300) = (outcome.returned (-1), shell_ls_state) ∧
    syscall_close shell_ls_state (to_uint32 8) = (outcome.fault, shell_ls_state) :=
  ⟨((invalid_fd_handling shell_ls_state (-1) 0 0 (by decide) (by decide)).1
      (Or.inl (by decide))).2.2,
    ((invalid_fd_handling shell_ls_state 300 0 0 (by decide) (by decide)).1
      (Or.inr (by decide))).2.2,
    ((invalid_fd_handling shell_ls_state 8 0 0 (by decide) (by decide)).2.2
      ⟨by decide, by decide⟩).2.2.2⟩


/-! ### vidmap and getargs -/

theorem store32_le32 (m : Nat → Nat) (a v : Nat) (hv : v < 4294967296) :
    le32 (fun i => store32 m a v (a + i)) = v := by
  have h0 : store32 m a v (a + 0) = v % 256 := by
    simp [store32]
  have h1 : store32 m a v (a + 1) = v / 256 % 256 := by
    simp [store32, Nat.shiftRight_eq_div_pow]
  have h2 : store32 m a v (a + 2) = v / 65536 % 256 := by
    simp [store32, Nat.shiftRight_eq_div_pow]
  have h3 : store32 m a v (a + 3) = v / 16777216 % 256 := by
    simp [store32, Nat.shiftRight_eq_div_pow]
  simp only [le32, h0, h1, h2, h3]
  omega

theorem store32_other (m : Nat → Nat) (a v x : Nat) (h : x < a ∨ a + 4 ≤ x) :
    store32 m a v x = m x := by
  unfold store32
  rw [if_neg (by omega)]

theorem vidmap_addr_fin (k : Fin 6) :
    ((VIDMAP_PDE_IDX <<< VIDMAP_PDE_IDX_POS) ||| (k.val <<< VIDMAP_PTE_IDX_POS)) &&&
      ZERO_ATTRIBUTE = 138412032 + 4096 * k.val := by
  fin_cases k <;> decide

/-- `vidmap` with an address outside the program window. -/
theorem vidmap_rejects (s : kernel_state) (p : Nat) (h : p < 134217728 ∨ 138412032 ≤ p) :
    syscall_vidmap s p = (outcome.returned (-1), s) := by
  unfold syscall_vidmap
  rw [if_pos]
  simp only [USER_PROG_IDX, MB_OFFSET, VIDMAP_PDE_IDX]
  omega

/-- `vidmap` with an address inside the program window, called by the process
of slot `k`. -/
theorem vidmap_grants (s : kernel_state) (p : Nat) (k : Fin 6)
    (hpid : (s.pcb_arr s.curr_pcb).process_id = (k.val : Int))
    (h : ¬ (p < 134217728 ∨ 138412032 ≤ p)) :
    syscall_vidmap s p =
      (outcome.returned 0,
        { s with
          vidmap_page_table := Function.update s.vidmap_page_table
            ⟨k.val, by have := k.isLt; omega⟩ 0xB8007,
          mem := store32 s.mem p (138412032 + 4096 * k.val) }) := by
  have hk := k.isLt
  have hcond : ¬ (p < USER_PROG_IDX * MB_OFFSET ∨ p ≥ VIDMAP_PDE_IDX * MB_OFFSET ∨ p = 0) := by
    simp only [USER_PROG_IDX, MB_OFFSET, VIDMAP_PDE_IDX]
    omega
  have hr : 0 ≤ (k.val : Int) ∧ (k.val : Int) < 1024 := by omega
  have hfin : (⟨(k.val : Int).toNat, by omega⟩ : Fin 1024) = ⟨k.val, by omega⟩ := by
    apply Fin.ext; simp
  have hpte : (VIDMEM_PAGE_IDX * KB_OFFSET) ||| VIDMEM_PTE = 0xB8007 := by decide
  unfold syscall_vidmap
  simp only [if_neg hcond, hpid, dif_pos hr, hfin, Int.toNat_ofNat, vidmap_addr_fin, hpte]

/-- C15: for a caller whose `process_id` is `k` in 0..5, `vidmap(p)` returns
-1 exactly when `p < 128MB` or `p >= 132MB` (so also for `p == NULL`), and then
changes nothing; otherwise it returns 0, sets `vidmap_page_table[k]` to
`0xB8000 | 7` and no other entry of the two tables, and stores at `p` the
address `132MB + 4KB*k`, whose page-directory index is 33 and page-table index
`k`; the entry is present, writable and user-accessible with the frame
address 0xB8000. -/
theorem vidmap_maps_display (s : kernel_state) (p : Nat) (k : Fin 6)
    (hpid : (s.pcb_arr s.curr_pcb).process_id = (k.val : Int)) :
    ((syscall_vidmap s p).1 = outcome.returned (-1) ↔ (p < 134217728 ∨ 138412032 ≤ p)) ∧
    ((p < 134217728 ∨ 138412032 ≤ p) → (syscall_vidmap s p).2 = s) ∧
    (¬ (p < 134217728 ∨ 138412032 ≤ p) →
      (syscall_vidmap s p).1 = outcome.returned 0 ∧
      (syscall_vidmap s p).2.vidmap_page_table ⟨k.val, by have := k.isLt; omega⟩ =
        0xB8000 ||| 7 ∧
      (∀ j : Fin 1024, j.val ≠ k.val →
        (syscall_vidmap s p).2.vidmap_page_table j = s.vidmap_page_table j) ∧
      (syscall_vidmap s p).2.page_directory = s.page_directory ∧
      le32 (fun i => (syscall_vidmap s p).2.mem (p + i)) = 138412032 + 4096 * k.val ∧
      (∀ x : Nat, x < p ∨ p + 4 ≤ x → (syscall_vidmap s p).2.mem x = s.mem x) ∧
      (138412032 + 4096 * k.val) / 4194304 = 33 ∧
      (138412032 + 4096 * k.val) / 4096 % 1024 = k.val ∧
      (0xB8000 ||| 7) &&& ZERO_ATTRIBUTE = 0xB8000 ∧
      (0xB8000 ||| 7) &&& 7 = 7) := by
  have hk := k.isLt
  refine ⟨?_, ?_, ?_⟩
  · constructor
    · intro h
      by_contra hp
      rw [vidmap_grants s p k hpid hp] at h
      simp at h
    · intro hp
      rw [vidmap_rejects s p hp]
  · intro hp
    rw [vidmap_rejects s p hp]
  · intro hp
    rw [vidmap_grants s p k hpid hp]
    refine ⟨rfl, ?_, ?_, rfl, ?_, ?_, by omega, by omega, by decide, by decide⟩
    · simp only [Function.update_same]
      decide
    · intro j hj
      have hne : j ≠ ⟨k.val, by omega⟩ := fun h => hj (by rw [h])
      simp only [Function.update_noteq hne]
    · exact store32_le32 s.mem p _ (by omega)
    · intro x hx
      exact store32_other s.mem p _ x hx

/-- C15 for "ls" running in slot 1: `vidmap(0)` and `vidmap(132MB)` return
-1, `vidmap(128MB + 16)` returns 0 and sets entry 1. -/
theorem vidmap_maps_display_witness :
    (shell_ls_state.pcb_arr shell_ls_state.curr_pcb).process_id = 1 ∧
    (syscall_vidmap shell_ls_state 0).1 = outcome.returned (-1) ∧
    (syscall_vidmap shell_ls_state 138412032).1 = outcome.returned (-1) ∧
    (syscall_vidmap shell_ls_state 134217744).1 = outcome.returned 0 ∧
    (syscall_vidmap shell_ls_state 134217744).2.vidmap_page_table 1 = 0xB8007 :=
  have h := vidmap_maps_display shell_ls_state
  ⟨by decide,
    (h 0 1 (by decide)).1.mpr (Or.inl (by decide)),
    (h 138412032 1 (by decide)).1.mpr (Or.inr (by decide)),
    ((h 134217744 1 (by decide)).2.2 (by decide)).1,
    ((h 134217744 1 (by decide)).2.2 (by decide)).2.1⟩

/-! ### What execute and halt leave alone -/

theorem outside_unchanged_refl (s : kernel_state) : outside_unchanged s s :=
  ⟨rfl, rfl, rfl, rfl, rfl, rfl, rfl⟩

theorem outside_unchanged_trans (s s1 s2 : kernel_state) (h1 : outside_unchanged s s1)
    (h2 : outside_unchanged s1 s2) : outside_unchanged s s2 := by
  obtain ⟨a1, a2, a3, a4, a5, a6, a7⟩ := h1
  obtain ⟨b1, b2, b3, b4, b5, b6, b7⟩ := h2
  exact ⟨b1.trans a1, b2.trans a2, b3.trans a3, b4.trans a4, b5.trans a5, b6.trans a6,
    b7.trans a7⟩

theorem load_program_outside (s : kernel_state) (command : Nat → Nat)
    (m : exec_file_check_mem) : outside_unchanged s (load_program s command m).2.1 := by
  unfold load_program
  split
  · exact outside_unchanged_refl s
  · dsimp only
    split <;> exact ⟨rfl, rfl, rfl, rfl, rfl, rfl, rfl⟩

theorem point_curr_pcb_outside (s : kernel_state) (pcbx : Int) :
    outside_unchanged s (point_curr_pcb s pcbx).2 := by
  unfold point_curr_pcb
  split <;> exact ⟨rfl, rfl, rfl, rfl, rfl, rfl, rfl⟩

/-- No `execute` call writes the filesystem image, a terminal index,
`vidmap_page_table`, the cursor variables or `mem`. -/
theorem execute_outside (s : kernel_state) (cmd : List Nat) (f : execute_frame) :
    outside_unchanged s (syscall_execute s cmd f).2 := by
  unfold syscall_execute
  split
  · exact outside_unchanged_refl s
  · try dsimp only
    split
    · exact ⟨rfl, rfl, rfl, rfl, rfl, rfl, rfl⟩
    · try dsimp only
      split
      · exact ⟨rfl, rfl, rfl, rfl, rfl, rfl, rfl⟩
      · try dsimp only
        split
        · exact ⟨rfl, rfl, rfl, rfl, rfl, rfl, rfl⟩
        · try dsimp only
          split
          · refine outside_unchanged_trans _ _ _ ?_ (load_program_outside _ _ _)
            refine outside_unchanged_trans _ _ _ ?_ (point_curr_pcb_outside _ _)
            exact ⟨rfl, rfl, rfl, rfl, rfl, rfl, rfl⟩
          · change outside_unchanged s (load_program _ _ _).2.1
            refine outside_unchanged_trans _ _ _ ?_ (load_program_outside _ _ _)
            refine outside_unchanged_trans _ _ _ ?_ (point_curr_pcb_outside _ _)
            exact ⟨rfl, rfl, rfl, rfl, rfl, rfl, rfl⟩

theorem close_descriptor_outside (s : kernel_state) (fd : Int) :
    outside_unchanged s (close_descriptor s fd).2 := by
  unfold close_descriptor
  split
  · try dsimp only
    split <;> exact ⟨rfl, rfl, rfl, rfl, rfl, rfl, rfl⟩
  · exact outside_unchanged_refl s

theorem fd_close_outside (s : kernel_state) (ptr : fileops_ptr) (fd : Int)
    (r : Int × kernel_state) (h : fd_close s ptr fd = some r) : outside_unchanged s r.2 := by
  cases ptr with
  | null => simp only [fd_close] at h; exact absurd h (by simp)
  | stdinOps_table =>
    simp only [fd_close, Option.some.injEq] at h
    rw [← h]; exact outside_unchanged_refl s
  | stdoutOps_table =>
    simp only [fd_close, Option.some.injEq] at h
    rw [← h]; exact outside_unchanged_refl s
  | fileops =>
    simp only [fd_close, Option.some.injEq] at h
    rw [← h]; exact close_descriptor_outside s fd
  | dirops =>
    simp only [fd_close, Option.some.injEq] at h
    rw [← h]; exact close_descriptor_outside s fd
  | rtcOps_table =>
    simp only [fd_close, Option.some.injEq] at h
    rw [← h]; exact close_descriptor_outside s fd

theorem halt_close_loop_outside :
    ∀ (fuel i : Nat) (s s1 : kernel_state), halt_close_loop fuel i s = some s1 →
      outside_unchanged s s1 := by
  intro fuel
  induction fuel with
  | zero =>
    intro i s s1 h
    simp only [halt_close_loop, Option.some.injEq] at h
    rw [← h]; exact outside_unchanged_refl s
  | succ fuel ih =>
    intro i s s1 h
    simp only [halt_close_loop] at h
    split at h
    · split at h
      · exact absurd h (by simp)
      · split at h
        · split at h
          · exact absurd h (by simp)
          · rename_i r hr
            exact outside_unchanged_trans _ _ _ (fd_close_outside _ _ _ _ hr) (ih _ _ _ h)
        · exact ih _ _ _ h
    · simp only [Option.some.injEq] at h
      rw [← h]; exact outside_unchanged_refl s

theorem halt_restart_outside :
    ∀ (fuel : Nat) (s : kernel_state) (frames : Nat → execute_frame),
      outside_unchanged s (halt_restart fuel s frames).2 := by
  intro fuel
  induction fuel with
  | zero => intro s frames; exact outside_unchanged_refl s
  | succ fuel ih =>
    intro s frames
    simp only [halt_restart]
    split
    · refine outside_unchanged_trans _ _ _ ?_ (ih _ _)
      refine outside_unchanged_trans _ _ _ ?_ (execute_outside _ _ _)
      exact ⟨rfl, rfl, rfl, rfl, rfl, rfl, rfl⟩
    · refine outside_unchanged_trans _ _ _ ?_ (execute_outside _ _ _)
      exact ⟨rfl, rfl, rfl, rfl, rfl, rfl, rfl⟩

/-- No `halt` call writes the filesystem image, a terminal index,
`vidmap_page_table`, the cursor variables or `mem`. -/
theorem halt_outside (s : kernel_state) (arg1 fuel : Nat) (frames : Nat → execute_frame) :
    outside_unchanged s (syscall_halt s arg1 fuel frames).2 := by
  unfold syscall_halt
  try dsimp only
  split
  · exact outside_unchanged_refl s
  · rename_i s1 hs1
    have h1 := halt_close_loop_outside _ _ _ _ hs1
    try dsimp only
    split
    · refine outside_unchanged_trans _ _ _ ?_ (halt_restart_outside _ _ _)
      exact h1
    · change outside_unchanged s (point_curr_pcb _ _).2
      refine outside_unchanged_trans _ _ _ ?_ (point_curr_pcb_outside _ _)
      exact h1

/-- C16, what the code does: neither `halt` nor `execute` ever writes
`vidmap_page_table`.  In the run shell, "ls" (slot 1), `vidmap` by "ls",
`halt` of "ls": entry 1, not present before the `vidmap` call, is still
`0xB8000 | 7` when slot 1 is available again, and it is so for the next
process that `execute` puts into slot 1, which has not called `vidmap`. -/
theorem vidmap_entry_survives_halt :
    (∀ (s : kernel_state) (arg1 fuel : Nat) (frames : Nat → execute_frame),
      (syscall_halt s arg1 fuel frames).2.vidmap_page_table = s.vidmap_page_table) ∧
    (∀ (s : kernel_state) (cmd : List Nat) (f : execute_frame),
      (syscall_execute s cmd f).2.vidmap_page_table = s.vidmap_page_table) ∧
    shell_ls_state.vidmap_page_table 1 &&& 1 = 0 ∧
    (syscall_vidmap shell_ls_state 134217744).1 = outcome.returned 0 ∧
    (ls_vidmap_halted_state.pcb_arr 1).available = 1 ∧
    ls_vidmap_halted_state.curr_pcb = 0 ∧
    ls_vidmap_halted_state.vidmap_page_table 1 = 0xB8000 ||| 7 ∧
    (syscall_execute ls_vidmap_halted_state ls_command (demo_frame 3 4)).2.curr_pcb = 1 ∧
    (syscall_execute ls_vidmap_halted_state ls_command (demo_frame 3 4)).2.vidmap_page_table 1 =
      0xB8000 ||| 7 := by
  refine ⟨fun s arg1 fuel frames => (halt_outside s arg1 fuel frames).2.2.2.1,
    fun s cmd f => (execute_outside s cmd f).2.2.2.1, by decide, by decide, by decide,
    by decide, by decide, by decide, by decide⟩

/-- C17 (amended): `getargs(buf, n)` returns -1 and changes nothing when `buf`
is null or when the first byte of `arg_buf` is NUL (no argument string was
stored); otherwise, for `n` up to the `MAX_BUF_SIZE` bytes of `arg_buf`, it
returns 0, `buf[0..n)` equals the first `n` bytes of `arg_buf` and no other
byte of memory changes - also for `n = 0`, where nothing is written. -/
theorem getargs_copies_arg_buf (s : kernel_state) (buf n : Nat) :
    ((buf = 0 ∨ s.arg_buf 0 % 256 = 0) →
      syscall_getargs s buf n = (outcome.returned (-1), s)) ∧
    (buf ≠ 0 → s.arg_buf 0 % 256 ≠ 0 → n ≤ 128 →
      (syscall_getargs s buf n).1 = outcome.returned 0 ∧
      (∀ i : Nat, i < n → (syscall_getargs s buf n).2.mem (buf + i) = s.arg_buf i) ∧
      (∀ a : Nat, a < buf ∨ buf + n ≤ a → (syscall_getargs s buf n).2.mem a = s.mem a) ∧
      (syscall_getargs s buf n).2.arg_buf = s.arg_buf ∧
      (syscall_getargs s buf n).2.pcb_arr = s.pcb_arr) := by
  constructor
  · intro h
    unfold syscall_getargs
    rw [if_pos]
    rcases h with h | h
    · exact Or.inl h
    · exact Or.inr ((as_int8_eq_zero_iff _).mpr h)
  · intro hb ha hn
    have hcond : ¬ (buf = 0 ∨ as_int8 (s.arg_buf 0) = 0) := by
      rintro (h | h)
      · exact hb h
      · exact ha ((as_int8_eq_zero_iff _).mp h)
    have hn2 : ¬ (n > MAX_BUF_SIZE) := by simp only [MAX_BUF_SIZE]; omega
    unfold syscall_getargs
    rw [if_neg hcond, if_neg hn2]
    refine ⟨rfl, ?_, ?_, rfl, rfl⟩
    · intro i hi
      simp [mem_copy_in, memcpy, hi]
    · intro a ha2
      simp only [mem_copy_in, memcpy]
      by_cases hle : buf ≤ a
      · have h1 : ¬ (a - buf < n) := by omega
        have h2 : buf + (a - buf) = a := by omega
        simp only [if_pos hle, if_neg h1, h2]
      · simp only [if_neg hle]

/-- The amended C17 for "ls x": a null buffer gives -1, `getargs(buf, 1)`
copies the "x". -/
theorem getargs_copies_arg_buf_witness :
    ls_arg_state.arg_buf 0 % 256 ≠ 0 ∧
    syscall_getargs ls_arg_state 0 1 = (outcome.returned (-1), ls_arg_state) ∧
    (syscall_getargs ls_arg_state 134217744 1).1 = outcome.returned 0 ∧
    (syscall_getargs ls_arg_state 134217744 1).2.mem 134217744 = 120 :=
  have h := getargs_copies_arg_buf ls_arg_state
  ⟨by decide, (h 0 1).1 (Or.inl rfl),
    ((h 134217744 1).2 (by decide) (by decide) (by decide)).1,
    ((h 134217744 1).2 (by decide) (by decide) (by decide)).2.1 0 (by decide)⟩

/-- C17 as stated fails for `n = 0`: with the argument string "x" stored and
a non-null buffer, `getargs(buf, 0)` returns 0, not -1. -/
theorem getargs_zero_length_counterexample :
    ls_arg_state.arg_buf 0 = 120 ∧
    (syscall_getargs ls_arg_state 134217744 0).1 = outcome.returned 0 := by
  refine ⟨by decide, by decide⟩


/-! ### parseCmd -/

theorem takeWhile_string_all (c : List Nat) (hnul : ∀ x ∈ c, x ≠ 0) :
    c.takeWhile is_string_char = c := by
  rw [List.takeWhile_eq_self_iff]
  intro x hx
  simp [is_string_char, hnul x hx]

theorem program_name_eq_take :
    ∀ (c : List Nat), (∀ x ∈ c, x ≠ 0) → program_name c = c.take (c.indexOf 32) := by
  intro c
  induction c with
  | nil => intro _; rfl
  | cons a r ih =>
    intro hnul
    have ha0 : a ≠ 0 := hnul a (List.mem_cons_self _ _)
    have hr : ∀ x ∈ r, x ≠ 0 := fun x hx => hnul x (List.mem_cons_of_mem _ hx)
    unfold program_name at ih ⊢
    by_cases ha : a = 32
    · subst ha
      simp [List.takeWhile_cons, is_name_char]
    · have hn : is_name_char a = true := by simp [is_name_char, ha, ha0]
      rw [List.takeWhile_cons_of_pos hn, List.indexOf_cons_ne _ ha, List.take_succ_cons,
        ih hr]

/-- C18: for every command `c` without NUL of fewer than 128 characters,
`parseCmd` on zeroed buffers returns 0 and: when `c` holds no space, `cmd_buf`
holds `c` and `arg_buf` stays empty; otherwise, with `k` the index of the
first space, `cmd_buf` holds `c[0..k)` and `arg_buf` holds `c[k+1..]`, later
spaces included. -/
theorem parseCmd_splits_at_first_space (c : List Nat) (hnul : ∀ x ∈ c, x ≠ 0)
    (hlen : c.length < 128) :
    (32 ∉ c → parseCmd c (fun _ => 0) (fun _ => 0) = some (c_string c, c_string [])) ∧
    (32 ∈ c → parseCmd c (fun _ => 0) (fun _ => 0) =
      some (c_string (c.take (c.indexOf 32)), c_string (c.drop (c.indexOf 32 + 1)))) := by
  have hname := program_name_eq_take c hnul
  have hnl : (program_name c).length = min (c.indexOf 32) c.length := by
    rw [hname, List.length_take]
  have hargs : argument_string c = c.drop (c.indexOf 32 + 1) := by
    unfold argument_string
    rw [takeWhile_string_all c hnul, hnl]
    have hle : c.indexOf 32 ≤ c.length := List.indexOf_le_length
    rw [min_eq_left hle]
  have hfit : fits_buffers c := by
    unfold fits_buffers
    rw [hnl, hargs, List.length_drop]
    simp only [MAX_BUF_SIZE]
    omega
  rw [parseCmd_fits c hfit, hname, hargs]
  constructor
  · intro hsp
    have hidx : c.indexOf 32 = c.length := List.indexOf_eq_length.mpr hsp
    rw [hidx, List.take_length, List.drop_eq_nil_of_le (by omega)]
  · intro _
    rfl

/-- C18 for the command of `execute_test`: "shell 1234 9876" gives "shell" and
"1234 9876". -/
theorem parseCmd_splits_at_first_space_witness :
    shell_args_command.length < 128 ∧
    parseCmd shell_args_command (fun _ => 0) (fun _ => 0) =
      some (c_string shell_command, c_string [49, 50, 51, 52, 32, 57, 56, 55, 54]) :=
  ⟨by decide,
    (parseCmd_splits_at_first_space shell_args_command (by decide) (by decide)).2 (by decide)⟩

/-! ### Terminal switch -/

/-- The copy loop of `save_video_mem` when the page does not overlap the
display: byte `page + j` receives the character byte `vmem + 2*j`. -/
theorem save_video_mem_loop_spec (vmem page : Nat)
    (hdis : page + 2000 ≤ vmem ∨ vmem + 4000 ≤ page) :
    ∀ (fuel i : Nat) (m : Nat → Nat), i + fuel = 2000 → ∀ a : Nat,
      save_video_mem_loop vmem page fuel i m a =
        if page + i ≤ a ∧ a < page + 2000 then m (vmem + 2 * (a - page)) else m a := by
  intro fuel
  induction fuel with
  | zero =>
    intro i m hi a
    simp only [save_video_mem_loop]
    rw [if_neg (by omega)]
  | succ fuel ih =>
    intro i m hi a
    have hlt : i < NUM_COLS * NUM_ROWS := by simp only [NUM_COLS, NUM_ROWS]; omega
    simp only [save_video_mem_loop, if_pos hlt]
    rw [ih (i + 1) _ (by omega) a]
    have hsh : i <<< 1 = 2 * i := by rw [Nat.shiftLeft_eq]; omega
    by_cases h1 : page + (i + 1) ≤ a ∧ a < page + 2000
    · have hne : vmem + 2 * (a - page) ≠ page + i := by omega
      rw [if_pos h1, if_pos (by omega), Function.update_noteq hne]
    · rw [if_neg h1]
      by_cases h2 : a = page + i
      · rw [h2, Function.update_same, if_pos (by omega), hsh]
        congr 1
        omega
      · rw [Function.update_noteq h2, if_neg (by omega)]

/-- The copy loop of `restore_video_mem` when the page does not overlap the
display: the character byte `vmem + 2*j` receives byte `page + j`. -/
theorem restore_video_mem_loop_spec (vmem page : Nat)
    (hdis : page + 2000 ≤ vmem ∨ vmem + 4000 ≤ page) :
    ∀ (fuel i : Nat) (m : Nat → Nat), i + fuel = 2000 → ∀ a : Nat,
      restore_video_mem_loop vmem page fuel i m a =
        if vmem + 2 * i ≤ a ∧ a < vmem + 4000 ∧ (a - vmem) % 2 = 0 then
          m (page + (a - vmem) / 2)
        else m a := by
  intro fuel
  induction fuel with
  | zero =>
    intro i m hi a
    simp only [restore_video_mem_loop]
    rw [if_neg (by omega)]
  | succ fuel ih =>
    intro i m hi a
    have hlt : i < NUM_COLS * NUM_ROWS := by simp only [NUM_COLS, NUM_ROWS]; omega
    simp only [restore_video_mem_loop, if_pos hlt]
    rw [ih (i + 1) _ (by omega) a]
    have hsh : i <<< 1 = 2 * i := by rw [Nat.shiftLeft_eq]; omega
    rw [hsh]
    by_cases h1 : vmem + 2 * (i + 1) ≤ a ∧ a < vmem + 4000 ∧ (a - vmem) % 2 = 0
    · have hne : page + (a - vmem) / 2 ≠ vmem + 2 * i := by omega
      rw [if_pos h1, if_pos (by omega), Function.update_noteq hne]
    · rw [if_neg h1]
      by_cases h2 : a = vmem + 2 * i
      · rw [h2, Function.update_same, if_pos (by omega)]
        congr 1
        omega
      · rw [Function.update_noteq h2, if_neg (by omega)]

theorem get_page_addr_fin (t : Fin 3) :
    get_page_addr_from_terminal_id (t.val : Int) = (t.val + 69) * 4096 := by
  have ht := t.isLt
  unfold get_page_addr_from_terminal_id
  rw [if_neg (by simp only [NUM_TERMINALS]; omega)]
  simp [TERMINAL_VMEM_PAGE_IDX, KB_OFFSET]

theorem restore_video_mem_fin (s : kernel_state) (vmem : Nat) (t : Fin 3) :
    restore_video_mem s vmem (t.val : Int) =
      some { s with
        mem := restore_video_mem_loop vmem (get_page_addr_from_terminal_id (t.val : Int))
          (NUM_COLS * NUM_ROWS) 0 s.mem,
        screen_x := (s.terminal_arr t).cursor_x,
        screen_y := (s.terminal_arr t).cursor_y } := by
  have ht := t.isLt
  have h3 : 0 ≤ (t.val : Int) ∧ (t.val : Int) < 3 := by omega
  have hfin : (⟨(t.val : Int).toNat, by omega⟩ : Fin 3) = t := by
    apply Fin.ext; simp
  unfold restore_video_mem
  simp only [dif_pos h3, hfin, update_cursor]

/-- `run_terminal_process(t)` for an initialised terminal `t` other than the
running one, whose record names the process `pb`. -/
theorem run_terminal_process_initialized (s : kernel_state) (t : Fin 3) (pb : Fin 6)
    (curr_ebp curr_esp : Nat) (f : execute_frame)
    (hcur : t ≠ s.curr_terminal)
    (hinit : (s.terminal_arr t).initialized ≠ 0)
    (hpcb : (s.terminal_arr t).curr_pcb = some pb) :
    run_terminal_process s (t.val : Int) curr_ebp curr_esp f =
      (outcome.switched (s.terminal_arr t).ebp (s.terminal_arr t).esp,
        { s with
          terminal_arr := Function.update s.terminal_arr s.curr_terminal
            { (s.terminal_arr s.curr_terminal) with
              ebp := curr_ebp, esp := curr_esp, esp0 := s.tss_esp0, ss0 := s.tss_ss0,
              curr_pcb := some s.curr_pcb },
          curr_terminal := t,
          curr_pcb := pb,
          page_directory := Function.update s.page_directory ⟨32, by norm_num⟩
            (user_prog_pde (s.pcb_arr pb).process_id),
          tss_esp0 := (s.terminal_arr t).esp0,
          tss_ss0 := (s.terminal_arr t).ss0 }) := by
  have ht := t.isLt
  have h3 : 0 ≤ (t.val : Int) ∧ (t.val : Int) < 3 := by omega
  have hfin : (⟨(t.val : Int).toNat, by omega⟩ : Fin 3) = t := by
    apply Fin.ext; simp
  unfold run_terminal_process
  rw [dif_pos h3]
  generalize hT : (⟨(t.val : Int).toNat, _⟩ : Fin 3) = T
  have hTt : T = t := by rw [← hT]; exact hfin
  subst hTt
  simp only [Function.update_noteq hcur, if_neg hinit, hpcb]

theorem save_video_mem_terminal_arr (s : kernel_state) (vmem : Nat) (id : Int) (t : Fin 3)
    (hcur : t ≠ s.curr_terminal) :
    (save_video_mem s vmem id).terminal_arr t = s.terminal_arr t := by
  unfold save_video_mem
  simp only [Function.update_noteq hcur]

/-- `switch_terminal(t)` for an initialised terminal `t` that is neither in the
foreground nor running and whose record names the process `pb`: control goes
to the stack saved for `t` and the state is `switch_post`. -/
theorem switch_terminal_initialized (s : kernel_state) (t : Fin 3) (pb : Fin 6)
    (curr_ebp curr_esp : Nat) (f : execute_frame)
    (hfg : t ≠ s.curr_foreground_terminal) (hcur : t ≠ s.curr_terminal)
    (hinit : (s.terminal_arr t).initialized ≠ 0)
    (hpcb : (s.terminal_arr t).curr_pcb = some pb) :
    switch_terminal s (t.val : Int) curr_ebp curr_esp f =
      (outcome.switched (s.terminal_arr t).ebp (s.terminal_arr t).esp,
        switch_post s t pb curr_ebp curr_esp) := by
  have ht := t.isLt
  have h1 : ¬ ((t.val : Int) < 0 ∨ (t.val : Int) ≥ 3) := by omega
  have h2 : ¬ ((t.val : Int) = (s.curr_foreground_terminal.val : Int)) := by
    intro h
    exact hfg (Fin.ext (by exact_mod_cast h))
  have hfin : (⟨(t.val : Int).toNat, by omega⟩ : Fin 3) = t := by
    apply Fin.ext; simp
  have hrec := save_video_mem_terminal_arr s VIDEO (s.curr_foreground_terminal.val : Int) t hcur
  unfold switch_terminal
  rw [dif_neg h1, if_neg h2]
  dsimp only
  rw [restore_video_mem_fin]
  dsimp only
  rw [hfin, run_terminal_process_initialized _ t pb curr_ebp curr_esp f]
  · dsimp only
    rw [hrec]
    unfold switch_post save_video_mem
    simp only [Function.update_same, Function.update_idem]
  · exact hcur
  · dsimp only; rw [hrec]; exact hinit
  · dsimp only; rw [hrec]; exact hpcb

/-- Saving the display to the page of `A`, restoring that of `B`, saving to
the page of `B` and restoring that of `A` gives back every byte of the
display. -/
theorem video_round_trip (m : Nat → Nat) (A B : Fin 3) (hAB : A ≠ B) (j : Nat)
    (hj : j < 4000) :
    restore_video_mem_loop VIDEO (get_page_addr_from_terminal_id (A.val : Int))
      (NUM_COLS * NUM_ROWS) 0
      (save_video_mem_loop VIDEO (get_page_addr_from_terminal_id (B.val : Int))
        (NUM_COLS * NUM_ROWS) 0
        (restore_video_mem_loop VIDEO (get_page_addr_from_terminal_id (B.val : Int))
          (NUM_COLS * NUM_ROWS) 0
          (save_video_mem_loop VIDEO (get_page_addr_from_terminal_id (A.val : Int))
            (NUM_COLS * NUM_ROWS) 0 m))) (VIDEO + j) = m (VIDEO + j) := by
  have hA := A.isLt
  have hB := B.isLt
  have hne : A.val ≠ B.val := fun h => hAB (Fin.ext h)
  have hfuel : 0 + NUM_COLS * NUM_ROWS = 2000 := by decide
  have hsA := fun (m : Nat → Nat) (a : Nat) =>
    save_video_mem_loop_spec VIDEO ((A.val + 69) * 4096) (by simp only [VIDEO]; omega)
      (NUM_COLS * NUM_ROWS) 0 m hfuel a
  have hsB := fun (m : Nat → Nat) (a : Nat) =>
    save_video_mem_loop_spec VIDEO ((B.val + 69) * 4096) (by simp only [VIDEO]; omega)
      (NUM_COLS * NUM_ROWS) 0 m hfuel a
  have hrA := fun (m : Nat → Nat) (a : Nat) =>
    restore_video_mem_loop_spec VIDEO ((A.val + 69) * 4096) (by simp only [VIDEO]; omega)
      (NUM_COLS * NUM_ROWS) 0 m hfuel a
  have hrB := fun (m : Nat → Nat) (a : Nat) =>
    restore_video_mem_loop_spec VIDEO ((B.val + 69) * 4096) (by simp only [VIDEO]; omega)
      (NUM_COLS * NUM_ROWS) 0 m hfuel a
  rw [get_page_addr_fin A, get_page_addr_fin B, hrA]
  simp only [VIDEO] at hsA hsB hrA hrB ⊢
  by_cases hpar : j % 2 = 0
  · rw [if_pos (by omega), hsB, if_neg (by omega), hrB, if_neg (by omega), hsA,
      if_pos (by omega)]
    congr 1
    omega
  · rw [if_neg (by omega), hsB, if_neg (by omega), hrB, if_neg (by omega), hsA,
      if_neg (by omega)]

/-- C19: with `A` running and in the foreground and `B` another terminal,
both initialised, the record of `B` naming a process: `switch_terminal(B)`
followed by `switch_terminal(A)` hands the CPU over both times and leaves all
4000 bytes of the display at `VIDEO` and the cursor variables `screen_x` and
`screen_y` as they were before the first switch, with `A` in the foreground
again. -/
theorem switch_back_restores_display (s : kernel_state) (A B : Fin 3) (pb : Fin 6)
    (ebp1 esp1 ebp2 esp2 : Nat) (f1 f2 : execute_frame)
    (hAB : A ≠ B) (hfg : s.curr_foreground_terminal = A) (hcur : s.curr_terminal = A)
    (hA : (s.terminal_arr A).initialized ≠ 0) (hB : (s.terminal_arr B).initialized ≠ 0)
    (hpcb : (s.terminal_arr B).curr_pcb = some pb) :
    (switch_terminal s (B.val : Int) ebp1 esp1 f1).1 =
      outcome.switched (s.terminal_arr B).ebp (s.terminal_arr B).esp ∧
    (switch_terminal (switch_terminal s (B.val : Int) ebp1 esp1 f1).2 (A.val : Int)
      ebp2 esp2 f2).1 = outcome.switched ebp1 esp1 ∧
    (∀ j : Nat, j < 4000 →
      (switch_terminal (switch_terminal s (B.val : Int) ebp1 esp1 f1).2 (A.val : Int)
        ebp2 esp2 f2).2.mem (VIDEO + j) = s.mem (VIDEO + j)) ∧
    (switch_terminal (switch_terminal s (B.val : Int) ebp1 esp1 f1).2 (A.val : Int)
      ebp2 esp2 f2).2.screen_x = s.screen_x ∧
    (switch_terminal (switch_terminal s (B.val : Int) ebp1 esp1 f1).2 (A.val : Int)
      ebp2 esp2 f2).2.screen_y = s.screen_y ∧
    (switch_terminal (switch_terminal s (B.val : Int) ebp1 esp1 f1).2 (A.val : Int)
      ebp2 esp2 f2).2.curr_foreground_terminal = A := by
  subst hcur
  have hBA : B ≠ s.curr_terminal := Ne.symm hAB
  have h1 := switch_terminal_initialized s B pb ebp1 esp1 f1 (by rw [hfg]; exact hBA) hBA hB hpcb
  have h2 := switch_terminal_initialized (switch_post s B pb ebp1 esp1) s.curr_terminal
    s.curr_pcb ebp2 esp2 f2 hAB hAB
    (by simp only [switch_post, Function.update_same]; exact hA)
    (by simp only [switch_post, Function.update_same])
  rw [h1]
  dsimp only
  rw [h2]
  refine ⟨rfl, ?_, ?_, ?_, ?_, rfl⟩
  · simp only [switch_post, Function.update_same]
  · intro j hj
    have hm := video_round_trip s.mem s.curr_terminal B hAB j hj
    simp only [switch_post, hfg]
    exact hm
  · simp only [switch_post, Function.update_same]
  · simp only [switch_post, Function.update_same]

/-- C19 for the two-session example, terminal 1 in the foreground: the switch
to terminal 0 resumes the stack saved for it, and the switch back restores the
cursor. -/
theorem switch_back_restores_display_witness :
    two_terminal_state.curr_foreground_terminal = 1 ∧
    two_terminal_state.curr_terminal = 1 ∧
    (two_terminal_state.terminal_arr 0).initialized ≠ 0 ∧
    (two_terminal_state.terminal_arr 1).initialized ≠ 0 ∧
    (two_terminal_state.terminal_arr 0).curr_pcb = some 0 ∧
    (switch_terminal two_terminal_state 0 31 32 (demo_frame 7 8)).1 =
      outcome.switched 21 22 ∧
    (switch_terminal (switch_terminal two_terminal_state 0 31 32 (demo_frame 7 8)).2 1 41 42
      (demo_frame 7 8)).2.screen_x = two_terminal_state.screen_x :=
  have h := switch_back_restores_display two_terminal_state 1 0 0 31 32 41 42
    (demo_frame 7 8) (demo_frame 7 8) (by decide) (by decide) (by decide) (by decide)
    (by decide) (by decide)
  ⟨by decide, by decide, by decide, by decide, by decide, h.1, h.2.2.2.1⟩

/-- C20: `switch_terminal(t)` with `t` the foreground terminal, or with `t`
outside 0..2, returns without changing anything: the whole state - display and
saved pages in `mem`, the terminal records, the cursor, the current PCB, the
page directory, the TSS fields - is as before. -/
theorem switch_terminal_noop (s : kernel_state) (t : Int) (curr_ebp curr_esp : Nat)
    (f : execute_frame)
    (h : t = (s.curr_foreground_terminal.val : Int) ∨ t < 0 ∨ 3 ≤ t) :
    switch_terminal s t curr_ebp curr_esp f = (outcome.done, s) := by
  unfold switch_terminal
  by_cases h1 : t < 0 ∨ t ≥ 3
  · rw [dif_pos h1]
  · rw [dif_neg h1, if_pos]
    rcases h with h | h | h
    · exact h
    · exact absurd (Or.inl h) h1
    · exact absurd (Or.inr h) h1

/-- C20 in the fresh state, where terminal 0 is in the foreground: the calls
with 0, 3 and -1 change nothing. -/
theorem switch_terminal_noop_witness :
    switch_terminal (fresh_state demo_fs) 0 1 2 (demo_frame 7 8) =
      (outcome.done, fresh_state demo_fs) ∧
    switch_terminal (fresh_state demo_fs) 3 1 2 (demo_frame 7 8) =
      (outcome.done, fresh_state demo_fs) ∧
    switch_terminal (fresh_state demo_fs) (-1) 1 2 (demo_frame 7 8) =
      (outcome.done, fresh_state demo_fs) :=
  ⟨switch_terminal_noop (fresh_state demo_fs) 0 1 2 (demo_frame 7 8) (Or.inl rfl),
    switch_terminal_noop (fresh_state demo_fs) 3 1 2 (demo_frame 7 8)
      (Or.inr (Or.inr (by decide))),
    switch_terminal_noop (fresh_state demo_fs) (-1) 1 2 (demo_frame 7 8)
      (Or.inr (Or.inl (by decide)))⟩



/-! ### Terminal records that execute and halt leave alone -/

theorem records_elsewhere_refl (s : kernel_state) : records_elsewhere_unchanged s s :=
  fun _ _ => rfl

theorem records_elsewhere_trans (s s1 s2 : kernel_state)
    (h1 : records_elsewhere_unchanged s s1) (hc : s1.curr_terminal = s.curr_terminal)
    (h2 : records_elsewhere_unchanged s1 s2) : records_elsewhere_unchanged s s2 := by
  intro t ht
  rw [h2 t (by rw [hc]; exact ht), h1 t ht]

theorem records_elsewhere_of_eq (s s1 : kernel_state) (h : s1.terminal_arr = s.terminal_arr) :
    records_elsewhere_unchanged s s1 := by
  intro t _
  rw [h]

theorem point_curr_pcb_terminal_arr (s : kernel_state) (pcbx : Int) :
    (point_curr_pcb s pcbx).2.terminal_arr = s.terminal_arr := by
  unfold point_curr_pcb
  split <;> rfl

/-- An `execute` call writes no terminal record but that of the running
terminal. -/
theorem execute_records (s : kernel_state) (cmd : List Nat) (f : execute_frame) :
    records_elsewhere_unchanged s (syscall_execute s cmd f).2 := by
  unfold syscall_execute
  split
  · exact records_elsewhere_refl s
  · try dsimp only
    split
    · exact fun _ _ => rfl
    · try dsimp only
      split
      · exact fun _ _ => rfl
      · try dsimp only
        split
        · intro t ht
          exact Function.update_noteq ht _ _
        · try dsimp only
          split
          · intro t ht
            rw [load_program_terminal_arr, point_curr_pcb_terminal_arr]
            exact Function.update_noteq ht _ _
          · intro t ht
            change (load_program _ _ _).2.1.terminal_arr t = _
            rw [load_program_terminal_arr, point_curr_pcb_terminal_arr]
            exact Function.update_noteq ht _ _

theorem close_descriptor_terminal_arr (s : kernel_state) (fd : Int) :
    (close_descriptor s fd).2.terminal_arr = s.terminal_arr := by
  unfold close_descriptor
  split
  · try dsimp only
    split <;> rfl
  · rfl

theorem fd_close_terminal_arr (s : kernel_state) (ptr : fileops_ptr) (fd : Int)
    (r : Int × kernel_state) (h : fd_close s ptr fd = some r) :
    r.2.terminal_arr = s.terminal_arr := by
  cases ptr with
  | null => simp only [fd_close] at h; exact absurd h (by simp)
  | stdinOps_table =>
    simp only [fd_close, Option.some.injEq] at h
    rw [← h]; rfl
  | stdoutOps_table =>
    simp only [fd_close, Option.some.injEq] at h
    rw [← h]; rfl
  | fileops =>
    simp only [fd_close, Option.some.injEq] at h
    rw [← h]; exact close_descriptor_terminal_arr s fd
  | dirops =>
    simp only [fd_close, Option.some.injEq] at h
    rw [← h]; exact close_descriptor_terminal_arr s fd
  | rtcOps_table =>
    simp only [fd_close, Option.some.injEq] at h
    rw [← h]; exact close_descriptor_terminal_arr s fd

theorem halt_close_loop_terminal_arr :
    ∀ (fuel i : Nat) (s s1 : kernel_state), halt_close_loop fuel i s = some s1 →
      s1.terminal_arr = s.terminal_arr := by
  intro fuel
  induction fuel with
  | zero =>
    intro i s s1 h
    simp only [halt_close_loop, Option.some.injEq] at h
    rw [← h]
  | succ fuel ih =>
    intro i s s1 h
    simp only [halt_close_loop] at h
    split at h
    · split at h
      · exact absurd h (by simp)
      · split at h
        · split at h
          · exact absurd h (by simp)
          · rename_i r hr
            rw [ih _ _ _ h, fd_close_terminal_arr _ _ _ _ hr]
        · exact ih _ _ _ h
    · simp only [Option.some.injEq] at h
      rw [← h]

theorem halt_restart_records :
    ∀ (fuel : Nat) (s : kernel_state) (frames : Nat → execute_frame),
      records_elsewhere_unchanged s (halt_restart fuel s frames).2 := by
  intro fuel
  induction fuel with
  | zero => intro s frames; exact records_elsewhere_refl s
  | succ fuel ih =>
    intro s frames
    have hstep : records_elsewhere_unchanged s
        (syscall_execute
          { s with
            terminal_arr := Function.update s.terminal_arr s.curr_terminal
              { (s.terminal_arr s.curr_terminal) with initialized := 0 } }
          shell_command (frames 0)).2 := by
      refine records_elsewhere_trans s
        { s with
          terminal_arr := Function.update s.terminal_arr s.curr_terminal
            { (s.terminal_arr s.curr_terminal) with initialized := 0 } } _ ?_ rfl
        (execute_records _ _ _)
      intro t ht
      exact Function.update_noteq ht _ _
    simp only [halt_restart]
    split
    · exact records_elsewhere_trans _ _ _ hstep (execute_outside _ _ _).2.1 (ih _ _)
    · exact hstep

/-- A `halt` call writes no terminal record but that of the running
terminal. -/
theorem halt_records (s : kernel_state) (arg1 fuel : Nat) (frames : Nat → execute_frame) :
    records_elsewhere_unchanged s (syscall_halt s arg1 fuel frames).2 := by
  unfold syscall_halt
  try dsimp only
  split
  · exact records_elsewhere_refl s
  · rename_i s1 hs1
    have h1 := halt_close_loop_terminal_arr _ _ _ _ hs1
    have h2 := (halt_close_loop_outside _ _ _ _ hs1).2.1
    try dsimp only
    split
    · refine records_elsewhere_trans _ _ _ (records_elsewhere_of_eq _ _ ?_) ?_
        (halt_restart_records _ _ _)
      · exact h1
      · exact h2
    · intro t ht
      change (point_curr_pcb _ _).2.terminal_arr t = _
      rw [point_curr_pcb_terminal_arr]
      dsimp only
      rw [h2, Function.update_noteq ht, h1]

/-! ### The shape of the descriptor tables is kept -/

theorem fd_table_ok_update (g : Fin 8 → file_descriptor_t) (i : Fin 8) (x : file_descriptor_t)
    (h : fd_table_ok g) (hi : 2 ≤ i.val)
    (hx : x.flags ≠ 0 → (x.fileops_table_ptr = fileops_ptr.fileops ∨
      x.fileops_table_ptr = fileops_ptr.dirops ∨
      x.fileops_table_ptr = fileops_ptr.rtcOps_table)) :
    fd_table_ok (Function.update g i x) := by
  obtain ⟨a0, b0, a1, b1, h2⟩ := h
  have hi0 : (0 : Fin 8) ≠ i := fun h => by rw [← h] at hi; simp at hi
  have hi1 : (1 : Fin 8) ≠ i := fun h => by rw [← h] at hi; simp at hi
  refine ⟨?_, ?_, ?_, ?_, ?_⟩
  · rw [Function.update_noteq hi0]; exact a0
  · rw [Function.update_noteq hi0]; exact b0
  · rw [Function.update_noteq hi1]; exact a1
  · rw [Function.update_noteq hi1]; exact b1
  · intro j hj hfl
    by_cases hji : j = i
    · rw [hji, Function.update_same] at hfl ⊢
      exact hx hfl
    · rw [Function.update_noteq hji] at hfl ⊢
      exact h2 j hj hfl

theorem halt_closed_table_ok (g : Fin 8 → file_descriptor_t) (h : fd_table_ok g) :
    fd_table_ok (halt_closed g) := by
  obtain ⟨hc2, hc0, hc1⟩ := halt_closed_ok g h
  obtain ⟨a0, b0, a1, b1, -⟩ := h
  refine ⟨by rw [hc0]; exact a0, by rw [hc0]; exact b0, by rw [hc1]; exact a1,
    by rw [hc1]; exact b1, ?_⟩
  intro j hj hfl
  exact absurd (hc2 j hj) hfl

/-- Every table has the shape of `fd_table_ok`. -/
theorem tables_ok_fill (s : kernel_state) (fd : Fin 8) (ptr : fileops_ptr) (inode_num : Int)
    (hfd : 2 ≤ fd.val)
    (hptr : ptr = fileops_ptr.fileops ∨ ptr = fileops_ptr.dirops ∨
      ptr = fileops_ptr.rtcOps_table)
    (h : ∀ i : Fin 6, fd_table_ok (s.pcb_arr i).file_desc) :
    ∀ i : Fin 6, fd_table_ok ((fill_descriptor s fd ptr inode_num).pcb_arr i).file_desc := by
  intro i
  unfold fill_descriptor
  by_cases hi : i = s.curr_pcb
  · rw [hi]
    simp only [Function.update_same]
    exact fd_table_ok_update _ fd _ (h _) hfd (fun _ => hptr)
  · simp only [Function.update_noteq hi]
    exact h i

theorem open_loop_tables (s : kernel_state) (fname : Nat → Nat) (ptr : fileops_ptr)
    (hptr : ptr = fileops_ptr.fileops ∨ ptr = fileops_ptr.dirops ∨
      ptr = fileops_ptr.rtcOps_table)
    (h : ∀ i : Fin 6, fd_table_ok (s.pcb_arr i).file_desc) :
    ∀ (fuel fd : Nat), 2 ≤ fd →
      ∀ i : Fin 6, fd_table_ok ((open_loop s fname ptr fuel fd).2.pcb_arr i).file_desc := by
  intro fuel
  induction fuel with
  | zero => intro fd _; exact h
  | succ fuel ih =>
    intro fd hfd
    simp only [open_loop]
    split
    · split
      · exact ih (fd + 1) (by omega)
      · split
        · exact tables_ok_fill s _ ptr _ hfd hptr h
        · exact h
    · exact h

theorem rtc_open_loop_tables (s : kernel_state) (fname : Nat → Nat)
    (h : ∀ i : Fin 6, fd_table_ok (s.pcb_arr i).file_desc) :
    ∀ (fuel fd : Nat) (r : Int × kernel_state), 2 ≤ fd →
      rtc_open_loop s fname fuel fd = some r →
      ∀ i : Fin 6, fd_table_ok (r.2.pcb_arr i).file_desc := by
  intro fuel
  induction fuel with
  | zero =>
    intro fd r _ hr
    simp only [rtc_open_loop, Option.some.injEq] at hr
    rw [← hr]; exact h
  | succ fuel ih =>
    intro fd r hfd hr
    simp only [rtc_open_loop] at hr
    split at hr
    · split at hr
      · split at hr
        · simp only [Option.some.injEq] at hr
          rw [← hr]; exact h
        · split at hr
          · exact ih (fd + 1) r (by omega) hr
          · split at hr
            · simp only [Option.some.injEq] at hr
              rw [← hr]
              exact tables_ok_fill s _ _ _ hfd (Or.inr (Or.inr rfl)) h
            · simp only [Option.some.injEq] at hr
              rw [← hr]; exact h
      · exact absurd hr (by simp)
    · simp only [Option.some.injEq] at hr
      rw [← hr]; exact h

/-- `open` keeps the shape of every descriptor table. -/
theorem open_tables (s : kernel_state) (filename : List Nat)
    (h : ∀ i : Fin 6, fd_table_ok (s.pcb_arr i).file_desc) :
    ∀ i : Fin 6, fd_table_ok ((syscall_open s filename).2.pcb_arr i).file_desc := by
  unfold syscall_open
  split
  · exact open_loop_tables s _ _ (Or.inr (Or.inl rfl)) h 6 2 (le_refl _)
  · split
    · split
      · exact h
      · rename_i r hr
        exact rtc_open_loop_tables s _ h 254 2 r (le_refl _) hr
    · simp only [file_open]
      split
      · exact h
      · exact open_loop_tables s _ _ (Or.inl rfl) h 6 2 (le_refl _)

theorem open_loop_terminals (s : kernel_state) (fname : Nat → Nat) (ptr : fileops_ptr) :
    ∀ (fuel fd : Nat), terminals_unchanged s (open_loop s fname ptr fuel fd).2 := by
  intro fuel
  induction fuel with
  | zero => intro fd; exact ⟨rfl, rfl, rfl⟩
  | succ fuel ih =>
    intro fd
    simp only [open_loop]
    split
    · split
      · exact ih (fd + 1)
      · split <;> exact ⟨rfl, rfl, rfl⟩
    · exact ⟨rfl, rfl, rfl⟩

theorem rtc_open_loop_terminals (s : kernel_state) (fname : Nat → Nat) :
    ∀ (fuel fd : Nat) (r : Int × kernel_state), rtc_open_loop s fname fuel fd = some r →
      terminals_unchanged s r.2 := by
  intro fuel
  induction fuel with
  | zero =>
    intro fd r hr
    simp only [rtc_open_loop, Option.some.injEq] at hr
    rw [← hr]; exact ⟨rfl, rfl, rfl⟩
  | succ fuel ih =>
    intro fd r hr
    simp only [rtc_open_loop] at hr
    split at hr
    · split at hr
      · split at hr
        · simp only [Option.some.injEq] at hr
          rw [← hr]; exact ⟨rfl, rfl, rfl⟩
        · split at hr
          · exact ih (fd + 1) r hr
          · split at hr
            · simp only [Option.some.injEq] at hr
              rw [← hr]; exact ⟨rfl, rfl, rfl⟩
            · simp only [Option.some.injEq] at hr
              rw [← hr]; exact ⟨rfl, rfl, rfl⟩
      · exact absurd hr (by simp)
    · simp only [Option.some.injEq] at hr
      rw [← hr]; exact ⟨rfl, rfl, rfl⟩

/-- `open` writes no terminal record and no terminal index. -/
theorem open_terminals (s : kernel_state) (filename : List Nat) :
    terminals_unchanged s (syscall_open s filename).2 := by
  unfold syscall_open
  split
  · exact open_loop_terminals s _ _ 6 2
  · split
    · split
      · exact ⟨rfl, rfl, rfl⟩
      · rename_i r hr
        exact rtc_open_loop_terminals s _ 254 2 r hr
    · simp only [file_open]
      split
      · exact ⟨rfl, rfl, rfl⟩
      · exact open_loop_terminals s _ _ 6 2

theorem close_descriptor_tables (s : kernel_state) (fd : Int)
    (h : ∀ i : Fin 6, fd_table_ok (s.pcb_arr i).file_desc) :
    ∀ i : Fin 6, fd_table_ok ((close_descriptor s fd).2.pcb_arr i).file_desc := by
  unfold close_descriptor
  split
  · rename_i hfd
    try dsimp only
    split
    · intro i
      by_cases hi : i = s.curr_pcb
      · rw [hi]
        simp only [Function.update_same]
        refine fd_table_ok_update _ _ _ (h _) ?_ (fun hfl => absurd rfl hfl)
        have : (2 : Int) ≤ fd := hfd.1
        show 2 ≤ fd.toNat
        omega
      · simp only [Function.update_noteq hi]
        exact h i
    · exact h
  · exact h

theorem fd_close_tables (s : kernel_state) (ptr : fileops_ptr) (fd : Int)
    (r : Int × kernel_state) (hr : fd_close s ptr fd = some r)
    (h : ∀ i : Fin 6, fd_table_ok (s.pcb_arr i).file_desc) :
    ∀ i : Fin 6, fd_table_ok (r.2.pcb_arr i).file_desc := by
  cases ptr with
  | null => simp only [fd_close] at hr; exact absurd hr (by simp)
  | stdinOps_table =>
    simp only [fd_close, Option.some.injEq] at hr
    rw [← hr]; exact h
  | stdoutOps_table =>
    simp only [fd_close, Option.some.injEq] at hr
    rw [← hr]; exact h
  | fileops =>
    simp only [fd_close, Option.some.injEq] at hr
    rw [← hr]; exact close_descriptor_tables s fd h
  | dirops =>
    simp only [fd_close, Option.some.injEq] at hr
    rw [← hr]; exact close_descriptor_tables s fd h
  | rtcOps_table =>
    simp only [fd_close, Option.some.injEq] at hr
    rw [← hr]; exact close_descriptor_tables s fd h

/-- `close` keeps the shape of every descriptor table and writes no terminal
record and no terminal index. -/
theorem close_tables_terminals (s : kernel_state) (arg1 : Nat)
    (h : ∀ i : Fin 6, fd_table_ok (s.pcb_arr i).file_desc) :
    (∀ i : Fin 6, fd_table_ok ((syscall_close s arg1).2.pcb_arr i).file_desc) ∧
    terminals_unchanged s (syscall_close s arg1).2 := by
  unfold syscall_close
  split
  · exact ⟨h, rfl, rfl, rfl⟩
  · split
    · split
      · split
        · exact ⟨h, rfl, rfl, rfl⟩
        · rename_i r hr
          exact ⟨fd_close_tables _ _ _ _ hr h, fd_close_terminal_arr _ _ _ _ hr,
            (fd_close_outside _ _ _ _ hr).2.1, (fd_close_outside _ _ _ _ hr).2.2.1⟩
      · exact ⟨h, rfl, rfl, rfl⟩
    · exact ⟨h, rfl, rfl, rfl⟩

/-- `vidmap` and `getargs` write no PCB, no terminal record and no terminal
index. -/
theorem vidmap_getargs_frame (s : kernel_state) (a1 a2 : Nat) :
    ((syscall_vidmap s a1).2.pcb_arr = s.pcb_arr ∧
      terminals_unchanged s (syscall_vidmap s a1).2) ∧
    ((syscall_getargs s a1 a2).2.pcb_arr = s.pcb_arr ∧
      terminals_unchanged s (syscall_getargs s a1 a2).2) := by
  constructor
  · unfold syscall_vidmap
    split
    · exact ⟨rfl, rfl, rfl, rfl⟩
    · try dsimp only
      split <;> exact ⟨rfl, rfl, rfl, rfl⟩
  · unfold syscall_getargs
    split
    · exact ⟨rfl, rfl, rfl, rfl⟩
    · split <;> exact ⟨rfl, rfl, rfl, rfl⟩

theorem pcb_arr_init_tables (i : Fin 6) : fd_table_ok (pcb_arr_init i).file_desc := by
  change fd_table_ok (start_process pcb_zero.file_desc)
  unfold fd_table_ok
  decide

/-- After `halt` every descriptor table still has the shape it had. -/
theorem halt_tables (s : kernel_state) (arg1 fuel : Nat) (frames : Nat → execute_frame)
    (h : ∀ i : Fin 6, fd_table_ok (s.pcb_arr i).file_desc) :
    ∀ i : Fin 6, fd_table_ok ((syscall_halt s arg1 fuel frames).2.pcb_arr i).file_desc := by
  intro i
  rw [halt_file_desc s arg1 fuel frames (fd_table_ok_callable _ (h _)) i]
  split
  · exact halt_closed_table_ok _ (h _)
  · exact h i

/-- What `run_terminal_process(t)` leaves on every path: `t` is the running
terminal, the foreground terminal is as before, no descriptor table has
changed, and the record of every terminal but `t` is as before but for the
registers and the PCB saved in the record of the terminal being left. -/
theorem run_terminal_process_frame (s : kernel_state) (t : Fin 3) (curr_ebp curr_esp : Nat)
    (f : execute_frame) :
    (run_terminal_process s (t.val : Int) curr_ebp curr_esp f).2.curr_terminal = t ∧
    (run_terminal_process s (t.val : Int) curr_ebp curr_esp f).2.curr_foreground_terminal =
      s.curr_foreground_terminal ∧
    (∀ j : Fin 6,
      ((run_terminal_process s (t.val : Int) curr_ebp curr_esp f).2.pcb_arr j).file_desc =
        (s.pcb_arr j).file_desc) ∧
    (∀ u : Fin 3, u ≠ t →
      (run_terminal_process s (t.val : Int) curr_ebp curr_esp f).2.terminal_arr u =
        Function.update s.terminal_arr s.curr_terminal
          { (s.terminal_arr s.curr_terminal) with
            ebp := curr_ebp, esp := curr_esp, esp0 := s.tss_esp0, ss0 := s.tss_ss0,
            curr_pcb := some s.curr_pcb } u) := by
  have ht := t.isLt
  have h3 : 0 ≤ (t.val : Int) ∧ (t.val : Int) < 3 := by omega
  have hfin : (⟨(t.val : Int).toNat, by omega⟩ : Fin 3) = t := by
    apply Fin.ext; simp
  unfold run_terminal_process
  rw [dif_pos h3]
  generalize hT : (⟨(t.val : Int).toNat, _⟩ : Fin 3) = T
  have hTt : T = t := by rw [← hT]; exact hfin
  subst hTt
  dsimp only
  generalize hs2 : ({ s with
      terminal_arr := Function.update s.terminal_arr s.curr_terminal
        { (s.terminal_arr s.curr_terminal) with
          ebp := curr_ebp, esp := curr_esp, esp0 := s.tss_esp0, ss0 := s.tss_ss0,
          curr_pcb := some s.curr_pcb },
      curr_terminal := T } : kernel_state) = s2
  have e1 : s2.curr_terminal = T := by rw [← hs2]
  have e2 : s2.curr_foreground_terminal = s.curr_foreground_terminal := by rw [← hs2]
  have e3 : s2.pcb_arr = s.pcb_arr := by rw [← hs2]
  have e4 : s2.terminal_arr = Function.update s.terminal_arr s.curr_terminal
      { (s.terminal_arr s.curr_terminal) with
        ebp := curr_ebp, esp := curr_esp, esp0 := s.tss_esp0, ss0 := s.tss_ss0,
        curr_pcb := some s.curr_pcb } := by rw [← hs2]
  rw [← e4]
  by_cases hi : (s2.terminal_arr T).initialized = 0
  · rw [if_pos hi]
    have ho := execute_outside s2 shell_command f
    have f1 : (syscall_execute s2 shell_command f).2.curr_terminal = T := by rw [ho.2.1, e1]
    have f2 : (syscall_execute s2 shell_command f).2.curr_foreground_terminal =
        s.curr_foreground_terminal := by rw [ho.2.2.1, e2]
    have f3 : ∀ j : Fin 6, ((syscall_execute s2 shell_command f).2.pcb_arr j).file_desc =
        (s.pcb_arr j).file_desc := by
      intro j; rw [execute_file_desc, e3]
    have f4 : ∀ u : Fin 3, u ≠ T →
        (syscall_execute s2 shell_command f).2.terminal_arr u = s2.terminal_arr u := by
      intro u hu
      exact execute_records s2 shell_command f u (by rw [e1]; exact hu)
    generalize syscall_execute s2 shell_command f = r at f1 f2 f3 f4
    split
    · split
      · exact ⟨f1, f2, f3, f4⟩
      · exact ⟨f1, f2, f3, f4⟩
    · exact ⟨f1, f2, f3, f4⟩
  · rw [if_neg hi]
    dsimp only
    split
    · exact ⟨e1, e2, fun j => by rw [e3], fun _ _ => rfl⟩
    · exact ⟨e1, e2, fun j => by rw [e3], fun _ _ => rfl⟩

theorem kernel_inv_frame (s s1 : kernel_state) (h : kernel_inv s)
    (htab : ∀ i : Fin 6, fd_table_ok (s1.pcb_arr i).file_desc)
    (hcur : s1.curr_terminal = s.curr_terminal)
    (hfg : s1.curr_foreground_terminal = s.curr_foreground_terminal)
    (hrec : records_elsewhere_unchanged s s1) : kernel_inv s1 := by
  obtain ⟨-, h2, h3⟩ := h
  refine ⟨htab, by rw [hcur, hfg]; exact h2, ?_⟩
  intro t ht
  rw [hcur] at ht
  rw [hrec t ht]
  exact h3 t ht

theorem kernel_inv_run (s3 s : kernel_state) (t : Fin 3) (curr_ebp curr_esp : Nat)
    (f : execute_frame) (h : kernel_inv s)
    (htab : ∀ j : Fin 6, (s3.pcb_arr j).file_desc = (s.pcb_arr j).file_desc)
    (hfg : s3.curr_foreground_terminal = t)
    (hcur : s3.curr_terminal = s.curr_terminal)
    (hrec : ∀ u : Fin 3, u ≠ s.curr_terminal → s3.terminal_arr u = s.terminal_arr u) :
    kernel_inv (run_terminal_process s3 (t.val : Int) curr_ebp curr_esp f).2 := by
  obtain ⟨h1, -, h3⟩ := h
  obtain ⟨g1, g2, g3, g4⟩ := run_terminal_process_frame s3 t curr_ebp curr_esp f
  refine ⟨fun j => by rw [g3, htab]; exact h1 j, by rw [g1, g2, hfg], ?_⟩
  intro u hu
  rw [g1] at hu
  rw [g4 u hu]
  by_cases hc : u = s3.curr_terminal
  · rw [hc, Function.update_same]
    intro _ hnone
    exact absurd hnone (by simp)
  · rw [Function.update_noteq hc]
    have hc1 : u ≠ s.curr_terminal := by rw [← hcur]; exact hc
    rw [hrec u hc1]
    exact h3 u hc1

/-- A `switch_terminal` keeps `kernel_inv`. -/
theorem kernel_inv_switch_terminal (s : kernel_state) (target : Int) (curr_ebp curr_esp : Nat)
    (f : execute_frame) (h : kernel_inv s) :
    kernel_inv (switch_terminal s target curr_ebp curr_esp f).2 := by
  by_cases hr : target < 0 ∨ target ≥ 3
  · unfold switch_terminal
    rw [dif_pos hr]
    exact h
  · obtain ⟨t, rfl⟩ : ∃ t : Fin 3, target = (t.val : Int) :=
      ⟨⟨target.toNat, by omega⟩, by simp only [Int.toNat_of_nonneg (show 0 ≤ target by omega)]⟩
    have hfin : (⟨(t.val : Int).toNat, by omega⟩ : Fin 3) = t := by
      apply Fin.ext; simp
    unfold switch_terminal
    rw [dif_neg hr]
    split
    · exact h
    · dsimp only
      rw [restore_video_mem_fin]
      dsimp only
      generalize hT : (⟨(t.val : Int).toNat, _⟩ : Fin 3) = T
      have hTt : T = t := by rw [← hT]; exact hfin
      subst hTt
      refine kernel_inv_run _ s T curr_ebp curr_esp f h (fun j => rfl) rfl rfl ?_
      intro u hu
      exact save_video_mem_terminal_arr s VIDEO (s.curr_foreground_terminal.val : Int) u hu

/-- Every state of the kernel satisfies `kernel_inv`. -/
theorem kernel_reachable_inv (s : kernel_state) (h : kernel_reachable s) : kernel_inv s := by
  induction h with
  | boot s htab hcur hinit =>
    refine ⟨?_, hcur, ?_⟩
    · intro i; rw [htab]; exact pcb_arr_init_tables i
    · intro t _ hne; exact absurd (hinit t) hne
  | execute s command f _ _ ih =>
    have ho := execute_outside s command f
    exact kernel_inv_frame s _ ih (fun i => by rw [execute_file_desc]; exact ih.1 i)
      ho.2.1 ho.2.2.1 (execute_records s command f)
  | halt s arg1 fuel frames _ _ _ ih =>
    have ho := halt_outside s arg1 fuel frames
    exact kernel_inv_frame s _ ih (halt_tables s arg1 fuel frames ih.1)
      ho.2.1 ho.2.2.1 (halt_records s arg1 fuel frames)
  | sys_open s filename _ _ ih =>
    obtain ⟨a, b, c⟩ := open_terminals s filename
    exact kernel_inv_frame s _ ih (open_tables s filename ih.1) b c
      (records_elsewhere_of_eq _ _ a)
  | sys_close s arg1 _ _ ih =>
    obtain ⟨htab, a, b, c⟩ := close_tables_terminals s arg1 ih.1
    exact kernel_inv_frame s _ ih htab b c (records_elsewhere_of_eq _ _ a)
  | vidmap s arg1 _ _ ih =>
    obtain ⟨⟨hp, a, b, c⟩, -⟩ := vidmap_getargs_frame s arg1 0
    exact kernel_inv_frame s _ ih (fun i => by rw [hp]; exact ih.1 i) b c
      (records_elsewhere_of_eq _ _ a)
  | getargs s arg1 arg2 _ _ ih =>
    obtain ⟨-, hp, a, b, c⟩ := vidmap_getargs_frame s arg1 arg2
    exact kernel_inv_frame s _ ih (fun i => by rw [hp]; exact ih.1 i) b c
      (records_elsewhere_of_eq _ _ a)
  | switch s target curr_ebp curr_esp f _ _ ih =>
    exact kernel_inv_switch_terminal s target curr_ebp curr_esp f ih

/-- In every state of the kernel the descriptor table of the current PCB has
the shape of `fd_table_ok`, and a switch to another initialised terminal finds
the running terminal in the foreground and a PCB in the record of the
target. -/
theorem kernel_reachable_ready (s : kernel_state) (h : kernel_reachable s) :
    fd_table_ok (s.pcb_arr s.curr_pcb).file_desc ∧
    s.curr_terminal = s.curr_foreground_terminal ∧
    ∀ B : Fin 3, B ≠ s.curr_terminal → (s.terminal_arr B).initialized ≠ 0 →
      ∃ pb : Fin 6, (s.terminal_arr B).curr_pcb = some pb := by
  obtain ⟨h1, h2, h3⟩ := kernel_reachable_inv s h
  refine ⟨h1 _, h2, ?_⟩
  intro B hB hinit
  exact Option.ne_none_iff_exists'.mp (h3 B hB hinit)

/-- The state with two sessions is a state of the kernel. -/
theorem two_terminal_state_reachable : kernel_reachable two_terminal_state :=
  kernel_reachable.switch shell_state 1 21 22 (demo_frame 5 6)
    (kernel_reachable.execute _ shell_command (demo_frame 1 2)
      (kernel_reachable.boot _ rfl rfl (fun _ => rfl)) (by decide)) (by decide)


/-! ### Process slots: point_curr_pcb, clear_pid, create_pcb -/

/-- C24: `point_curr_pcb(i)` with 0 <= i < 6 returns `i` and makes slot `i` the
current PCB, changing nothing else.  For every other `i` the state, and so the
current PCB, stays as it was, but the value returned is 0 and not -1: the
`else` branch returns 0 and the `return -1` after it is never reached. -/
theorem point_curr_pcb_result (s : kernel_state) (i : Int) :
    (0 ≤ i ∧ i < 6 →
      (point_curr_pcb s i).1 = i ∧
      (((point_curr_pcb s i).2.curr_pcb).val : Int) = i ∧
      (point_curr_pcb s i).2 = { s with curr_pcb := (point_curr_pcb s i).2.curr_pcb }) ∧
    (¬ (0 ≤ i ∧ i < 6) →
      (point_curr_pcb s i).1 = 0 ∧ (point_curr_pcb s i).1 ≠ -1 ∧
      (point_curr_pcb s i).2 = s) := by
  constructor
  · intro h
    unfold point_curr_pcb
    rw [dif_pos h]
    refine ⟨rfl, ?_, rfl⟩
    show ((i.toNat : Nat) : Int) = i
    omega
  · intro h
    unfold point_curr_pcb
    rw [dif_neg h]
    exact ⟨rfl, by norm_num, rfl⟩

/-- C24 at the input of `point_curr_pcb_bad_input_test` with six slots:
`point_curr_pcb(3)` selects slot 3, and the out-of-range calls
`point_curr_pcb(7)` and `point_curr_pcb(-1)` return 0 and leave slot 0
current. -/
theorem point_curr_pcb_result_witness :
    (point_curr_pcb shell_state 3).1 = 3 ∧
    (point_curr_pcb shell_state 3).2.curr_pcb = 3 ∧
    point_curr_pcb shell_state 7 = (0, shell_state) ∧
    point_curr_pcb shell_state (-1) = (0, shell_state) ∧
    shell_state.curr_pcb = 0 :=
  have h3 := (point_curr_pcb_result shell_state 3).1 (by decide)
  have h7 := (point_curr_pcb_result shell_state 7).2 (by decide)
  have hm := (point_curr_pcb_result shell_state (-1)).2 (by decide)
  ⟨h3.1, Fin.ext (by exact_mod_cast h3.2.1), Prod.ext h7.1 h7.2.2, Prod.ext hm.1 hm.2.2,
    by decide⟩

/-- C25: `clear_pid(p)` with 0 <= p < 6 returns `p`, sets the `available` flag
of slot `p` to 1 and changes no other field of that slot and no other slot;
for every other `p` it returns -1 and the table is as before. -/
theorem clear_pid_marks_available (t : pcb_table) (p : Int) :
    (∀ k : Fin 6, p = (k.val : Int) →
      (clear_pid t p).1 = p ∧
      (clear_pid t p).2 k = { t k with available := 1 } ∧
      (∀ j : Fin 6, j ≠ k → (clear_pid t p).2 j = t j)) ∧
    (¬ (0 ≤ p ∧ p < 6) → clear_pid t p = (-1, t)) := by
  constructor
  · intro k hk
    subst hk
    rw [clear_pid_fin]
    refine ⟨rfl, by simp only [Function.update_same], ?_⟩
    intro j hj
    simp only [Function.update_noteq hj]
  · intro h
    unfold clear_pid
    rw [dif_neg h]

/-- C25 at the inputs of `clear_pid_test` and `clear_pid_bad_input_test`:
`clear_pid(0)` on a table whose slot 0 is taken returns 0 and keeps the stale
contents of the slot; `clear_pid(7)` returns -1. -/
theorem clear_pid_marks_available_witness :
    (clear_pid pcb_table_one_live 0).1 = 0 ∧
    ((clear_pid pcb_table_one_live 0).2 0).available = 1 ∧
    ((clear_pid pcb_table_one_live 0).2 0).saved_esp = 16 ∧
    ((clear_pid pcb_table_one_live 0).2 0).active = 1 ∧
    clear_pid pcb_table_one_live 7 = (-1, pcb_table_one_live) :=
  have h := (clear_pid_marks_available pcb_table_one_live 0).1 0 rfl
  have h7 := (clear_pid_marks_available pcb_table_one_live 7).2 (by decide)
  ⟨h.1, by rw [h.2.1], by rw [h.2.1]; rfl, by rw [h.2.1]; rfl, h7⟩

/-- C26: whenever a slot is available, `create_pcb(parent, ebp, esp)` returns
the lowest available index `i`; afterwards slot `i` has `available == 0`,
`active == 1`, `process_id == i`, `parent_id == parent`, `saved_ebp == ebp`
and `saved_esp == esp`, its descriptor table and `saved_eip` are as before,
and every other slot is unchanged.  On the table of `pcb_arr_init` it
returns 0. -/
theorem create_pcb_lowest_slot (t : pcb_table) (parent : Int) (ebp esp : Nat)
    (h : ∃ j : Fin 6, (t j).available = 1) :
    ∃ (i : Fin 6) (t1 : pcb_table),
      create_pcb t parent ebp esp = some ((i.val : Int), t1) ∧
      (t i).available = 1 ∧ (∀ j : Fin 6, j.val < i.val → (t j).available ≠ 1) ∧
      (t1 i).available = 0 ∧ (t1 i).active = 1 ∧ (t1 i).process_id = (i.val : Int) ∧
      (t1 i).parent_id = parent ∧ (t1 i).saved_ebp = ebp ∧ (t1 i).saved_esp = esp ∧
      (t1 i).file_desc = (t i).file_desc ∧ (t1 i).saved_eip = (t i).saved_eip ∧
      (∀ j : Fin 6, j ≠ i → t1 j = t j) ∧
      (t = pcb_arr_init → i = 0) := by
  rcases find_avail_pid_range t with hnone | ⟨k, hk⟩
  · obtain ⟨j, hj⟩ := h
    exact absurd hj (((find_avail_pid_spec t).2).mp hnone j)
  · obtain ⟨hav, hlow⟩ := ((find_avail_pid_spec t).1 k).mp hk
    refine ⟨k, _, create_pcb_of_find t parent ebp esp k hk, hav, hlow, ?_, ?_, ?_, ?_, ?_, ?_,
      ?_, ?_, ?_, ?_⟩
    · simp only [Function.update_same]
    · simp only [Function.update_same]
    · simp only [Function.update_same]
    · simp only [Function.update_same]
    · simp only [Function.update_same]
    · simp only [Function.update_same]
    · simp only [Function.update_same]
    · simp only [Function.update_same]
    · intro j hj
      simp only [Function.update_noteq hj]
    · intro ht
      by_contra hne
      have hpos : (0 : Fin 6).val < k.val := by
        rcases Nat.eq_zero_or_pos k.val with h0 | h0
        · exact absurd (Fin.ext h0) hne
        · exact h0
      exact hlow 0 hpos (by rw [ht]; rfl)

/-- C26 at the input of `create_pcb_test`: on the fresh table
`create_pcb(-1, 1, 16)` returns 0 and fills slot 0. -/
theorem create_pcb_lowest_slot_witness :
    (∃ j : Fin 6, (pcb_arr_init j).available = 1) ∧
    ∃ (i : Fin 6) (t1 : pcb_table),
      create_pcb pcb_arr_init (-1) 1 16 = some ((i.val : Int), t1) ∧ i = 0 ∧
      (t1 i).process_id = (i.val : Int) ∧ (t1 i).parent_id = -1 ∧
      (t1 i).saved_ebp = 1 ∧ (t1 i).saved_esp = 16 :=
  have h := create_pcb_lowest_slot pcb_arr_init (-1) 1 16 ⟨0, rfl⟩
  ⟨⟨0, rfl⟩, h.elim fun i hi => hi.elim fun t1 ht1 =>
    ⟨i, t1, ht1.1, ht1.2.2.2.2.2.2.2.2.2.2.2.2 rfl, ht1.2.2.2.2.2.1, ht1.2.2.2.2.2.2.1,
      ht1.2.2.2.2.2.2.2.1, ht1.2.2.2.2.2.2.2.2.1⟩⟩

/-! ### The program window -/

/-- C23: for process ids `N ≠ M` in 0..5, the page-directory entries
`(USER_PROG_PA + MB_OFFSET * pid) | USER_PROG_PDE` that `load_program`, `halt`
and `run_terminal_process` install in `page_directory[32]`: the sum does not
overflow 32 bits; the attribute bits 0x197 leave the base-address bits [31:22]
of the entry at `8MB + 4MB * pid` and are the low 22 bits of the entry; the
4MB region of `N` starts at or above 8MB, the end of the kernel's region, and
ends at or below 4GB; and the regions of `N` and `M` do not overlap. -/
theorem user_regions_disjoint (N M : Fin 6) (h : N ≠ M) :
    (USER_PROG_PA : Int) + (MB_OFFSET : Int) * (N.val : Int) < 4294967296 ∧
    to_uint32 ((USER_PROG_PA : Int) + (MB_OFFSET : Int) * (N.val : Int)) =
      8388608 + 4194304 * N.val ∧
    user_prog_pde (N.val : Int) &&& 0xFFC00000 = 8388608 + 4194304 * N.val ∧
    user_prog_pde (N.val : Int) &&& 0x3FFFFF = 0x197 ∧
    8388608 ≤ user_prog_pde (N.val : Int) &&& 0xFFC00000 ∧
    (user_prog_pde (N.val : Int) &&& 0xFFC00000) + 4194304 ≤ 4294967296 ∧
    ((user_prog_pde (N.val : Int) &&& 0xFFC00000) + 4194304 ≤
        user_prog_pde (M.val : Int) &&& 0xFFC00000 ∨
      (user_prog_pde (M.val : Int) &&& 0xFFC00000) + 4194304 ≤
        user_prog_pde (N.val : Int) &&& 0xFFC00000) := by
  fin_cases N <;> fin_cases M <;> first | exact absurd rfl h | decide

/-- C23 for the first and the last process slot: the regions are
[8MB, 12MB) and [28MB, 32MB). -/
theorem user_regions_disjoint_witness :
    user_prog_pde 0 &&& 0xFFC00000 = 8388608 ∧
    user_prog_pde 5 &&& 0xFFC00000 = 29360128 ∧
    ((user_prog_pde 0 &&& 0xFFC00000) + 4194304 ≤ user_prog_pde 5 &&& 0xFFC00000 ∨
      (user_prog_pde 5 &&& 0xFFC00000) + 4194304 ≤ user_prog_pde 0 &&& 0xFFC00000) :=
  have h := user_regions_disjoint 0 5 (by decide)
  ⟨h.2.2.1, by decide, h.2.2.2.2.2.2⟩

/-! ### run_terminal_process -/

/-- C21: `run_terminal_process(t)` for an initialised terminal `t` other than
the running one, whose record names the PCB `pb`: the record of the terminal
being left holds the `esp`, `ebp`, `tss.esp0`, `tss.ss0` and the current PCB
that were in force at the call and is otherwise as before; afterwards
`curr_terminal == t`, the current PCB is `pb`, `page_directory[32]` is
`(8MB + 4MB * pid of pb) | 0x197`, `tss.esp0` and `tss.ss0` are the values
saved for `t`, and control continues on the `ebp` and `esp` saved for `t`. -/
theorem run_terminal_process_switches (s : kernel_state) (t : Fin 3) (pb : Fin 6)
    (curr_ebp curr_esp : Nat) (f : execute_frame)
    (hcur : t ≠ s.curr_terminal)
    (hinit : (s.terminal_arr t).initialized ≠ 0)
    (hpcb : (s.terminal_arr t).curr_pcb = some pb) :
    (run_terminal_process s (t.val : Int) curr_ebp curr_esp f).2.terminal_arr s.curr_terminal =
      { (s.terminal_arr s.curr_terminal) with
        ebp := curr_ebp, esp := curr_esp, esp0 := s.tss_esp0, ss0 := s.tss_ss0,
        curr_pcb := some s.curr_pcb } ∧
    (run_terminal_process s (t.val : Int) curr_ebp curr_esp f).2.curr_terminal = t ∧
    (run_terminal_process s (t.val : Int) curr_ebp curr_esp f).2.curr_pcb = pb ∧
    (run_terminal_process s (t.val : Int) curr_ebp curr_esp f).2.page_directory
      ⟨32, by norm_num⟩ = user_prog_pde (s.pcb_arr pb).process_id ∧
    (∀ pid : Nat, pid < 1022 → (s.pcb_arr pb).process_id = (pid : Int) →
      (run_terminal_process s (t.val : Int) curr_ebp curr_esp f).2.page_directory
        ⟨32, by norm_num⟩ = (8388608 + 4194304 * pid) ||| 0x197) ∧
    (run_terminal_process s (t.val : Int) curr_ebp curr_esp f).2.tss_esp0 =
      (s.terminal_arr t).esp0 ∧
    (run_terminal_process s (t.val : Int) curr_ebp curr_esp f).2.tss_ss0 =
      (s.terminal_arr t).ss0 ∧
    (run_terminal_process s (t.val : Int) curr_ebp curr_esp f).1 =
      outcome.switched (s.terminal_arr t).ebp (s.terminal_arr t).esp := by
  rw [run_terminal_process_initialized s t pb curr_ebp curr_esp f hcur hinit hpcb]
  refine ⟨?_, rfl, rfl, ?_, ?_, rfl, rfl, rfl⟩
  · simp only [Function.update_same]
  · simp only [Function.update_same]
  · intro pid hpid hp
    simp only [Function.update_same, hp]
    unfold user_prog_pde to_uint32
    have e : (((USER_PROG_PA : Int) + (MB_OFFSET : Int) * (pid : Int)) % 4294967296).toNat =
        8388608 + 4194304 * pid := by
      simp only [USER_PROG_PA, MB_OFFSET]
      omega
    rw [e]
    rfl

/-- C21 for the two-session example: terminal 1 runs process 1 and terminal 0
is left with process 0; `run_terminal_process(0)` saves the registers of
terminal 1 and resumes process 0 in the region at 8MB. -/
theorem run_terminal_process_switches_witness :
    (0 : Fin 3) ≠ two_terminal_state.curr_terminal ∧
    (two_terminal_state.terminal_arr 0).initialized ≠ 0 ∧
    (two_terminal_state.terminal_arr 0).curr_pcb = some 0 ∧
    ((run_terminal_process two_terminal_state 0 31 32 (demo_frame 7 8)).2.terminal_arr
      two_terminal_state.curr_terminal).curr_pcb = some two_terminal_state.curr_pcb ∧
    (run_terminal_process two_terminal_state 0 31 32 (demo_frame 7 8)).2.curr_terminal = 0 ∧
    (run_terminal_process two_terminal_state 0 31 32 (demo_frame 7 8)).2.curr_pcb = 0 ∧
    (run_terminal_process two_terminal_state 0 31 32 (demo_frame 7 8)).1 =
      outcome.switched 21 22 :=
  have h := run_terminal_process_switches two_terminal_state 0 0 31 32 (demo_frame 7 8)
    (by decide) (by decide) (by decide)
  ⟨by decide, by decide, by decide, congrArg terminal_t.curr_pcb h.1, h.2.1, h.2.2.1,
    h.2.2.2.2.2.2.2⟩


/-! ### available and active -/

/-- An `execute` call never makes a slot both available and active. -/
theorem flags_exclusive_execute (s : kernel_state) (cmd : List Nat) (f : execute_frame)
    (h : flags_exclusive s.pcb_arr) : flags_exclusive (syscall_execute s cmd f).2.pcb_arr := by
  rcases execute_effect s cmd f _ rfl with hf | ⟨h1, -, -, -⟩ |
    ⟨k, -, hother, hav, -, -, -, -, -, -⟩
  · rw [execute_fault_state s cmd f _ rfl hf]
    exact h
  · rw [h1]
    exact h
  · intro i
    by_cases hik : i = k
    · rw [hik, hav]
      intro hc
      exact absurd hc.1 (by decide)
    · rw [hother i hik]
      exact h i

/-- The restart loop of `halt` never makes a slot both available and active. -/
theorem flags_exclusive_restart :
    ∀ (fuel : Nat) (s : kernel_state) (frames : Nat → execute_frame),
      flags_exclusive s.pcb_arr → flags_exclusive (halt_restart fuel s frames).2.pcb_arr := by
  intro fuel
  induction fuel with
  | zero => intro s frames h; exact h
  | succ fuel ih =>
    intro s frames h
    have hex := flags_exclusive_execute
      { s with
        terminal_arr := Function.update s.terminal_arr s.curr_terminal
          { (s.terminal_arr s.curr_terminal) with initialized := 0 } }
      shell_command (frames 0) h
    simp only [halt_restart]
    split
    · exact ih _ _ hex
    · exact hex

/-- A `halt` call made by the running process of a session never makes a slot
both available and active: the halted slot is released with `active == 0`,
and the parent that is marked active is a slot that is not available. -/
theorem flags_exclusive_halt (s : kernel_state) (arg1 fuel : Nat)
    (frames : Nat → execute_frame) (hinv : session_inv s)
    (hinit : (s.terminal_arr s.curr_terminal).initialized ≠ 0)
    (h : flags_exclusive s.pcb_arr) :
    flags_exclusive (syscall_halt s arg1 fuel frames).2.pcb_arr := by
  obtain ⟨i6, i1, i2, -, -, i5⟩ := hinv
  have hlive := i5 hinit
  have hpid := i1 _ hlive
  have hcall := i6 s.curr_pcb
  rcases i2 _ hlive with hroot | ⟨p, hp, hpc, hpl⟩
  · rw [halt_without_parent s arg1 fuel frames hcall hpid hroot]
    apply flags_exclusive_restart
    intro i
    by_cases hic : i = s.curr_pcb
    · rw [hic]
      simp only [Function.update_same]
      intro hc
      exact absurd hc.2 (by decide)
    · simp only [Function.update_noteq hic]
      exact h i
  · rw [halt_with_parent s arg1 fuel frames p hcall hpid hp (i1 p hpl)]
    intro i
    by_cases hic : i = s.curr_pcb
    · rw [hic, halt_post_pcb_halted s p hpc]
      intro hc
      exact absurd hc.2 (by simp)
    · by_cases hip : i = p
      · rw [hip, halt_post_pcb_parent s p hpc]
        intro hc
        exact hpl hc.1
      · rw [halt_post_pcb_other s p i hic hip]
        exact h i

/-- In every state reached from the table of `pcb_arr_init` through `execute`
calls and `halt` calls of the running process (the states of
`session_reachable`), no process slot has both `available == 1` and
`active == 1`. -/
theorem flags_exclusive_session (s : kernel_state) (h : session_reachable s) :
    ∀ i : Fin 6, ¬ ((s.pcb_arr i).available = 1 ∧ (s.pcb_arr i).active = 1) := by
  induction h with
  | boot s htab _ =>
    intro i
    rw [htab]
    intro hc
    exact absurd hc.2 (by simp [pcb_arr_init, pcb_zero])
  | execute s command f _ _ ih =>
    exact flags_exclusive_execute s command f ih
  | halt s arg1 fuel frames hprev hinit _ _ ih =>
    exact flags_exclusive_halt s arg1 fuel frames (session_reachable_inv s hprev) hinit ih

set_option maxRecDepth 10000 in
/-- C22: `halt(-1)` called in the boot state, as the exception handlers call
it when no process has been started, acts on the PCB of slot 0 that `curr_pcb`
names from the start: `pcb_arr_init` left its `parent_id` 0, not -1, so `halt`
takes the path of a process with a parent, releases slot 0 and then marks the
PCB of "parent" 0, the same slot, active.  The state is reached from
`pcb_arr_init` by one `halt` step and slot 0 has `available == 1` and
`active == 1`.  When `halt` is called by a running process only (the states of
`session_reachable`), no slot has both. -/
theorem available_active_exclusive :
    (syscall_halt (fresh_state demo_fs) 255 1 (fun _ => demo_frame 1 2)).1 =
      outcome.resumed 0 0 256 ∧
    execute_halt_reachable boot_halt_state ∧
    (boot_halt_state.pcb_arr 0).available = 1 ∧
    (boot_halt_state.pcb_arr 0).active = 1 ∧
    ¬ (∀ s : kernel_state, execute_halt_reachable s → flags_exclusive s.pcb_arr) ∧
    (∀ s : kernel_state, session_reachable s → flags_exclusive s.pcb_arr) := by
  have hreach : execute_halt_reachable boot_halt_state :=
    execute_halt_reachable.halt _ 255 1 (fun _ => demo_frame 1 2)
      (execute_halt_reachable.boot _ rfl rfl) (by decide) (by decide)
  exact ⟨by decide, hreach, by decide, by decide,
    fun h => h boot_halt_state hreach 0 ⟨by decide, by decide⟩,
    fun s h => flags_exclusive_session s h⟩

/-- C22 in the state in which "shell" has started "ls", and in the state after
"ls" has halted: slots 0 and 1 are taken and active, then slot 1 is available
and not active. -/
theorem available_active_exclusive_witness :
    session_reachable shell_ls_state ∧
    (∀ i : Fin 6, ¬ ((shell_ls_state.pcb_arr i).available = 1 ∧
      (shell_ls_state.pcb_arr i).active = 1)) ∧
    ((syscall_halt shell_ls_state 0 1 (fun _ => demo_frame 7 8)).2.pcb_arr 1).available = 1 ∧
    ((syscall_halt shell_ls_state 0 1 (fun _ => demo_frame 7 8)).2.pcb_arr 1).active = 0 :=
  ⟨shell_ls_state_reachable,
    available_active_exclusive.2.2.2.2.2 shell_ls_state shell_ls_state_reachable,
    by decide, by decide⟩


/-! ### file_open -/

theorem page_directory_init_loop_spec :
    ∀ (fuel i : Nat) (pd : Fin 1024 → Nat), i + fuel = 1024 →
      page_directory_init_loop fuel i pd =
        fun j => if i ≤ j.val then DEFAULT_PDE else pd j := by
  intro fuel
  induction fuel with
  | zero =>
    intro i pd hi
    funext j
    have := j.isLt
    simp only [page_directory_init_loop]
    rw [if_neg (by omega)]
  | succ fuel ih =>
    intro i pd hi
    have hlt : i < ENTRIES := by simp only [ENTRIES]; omega
    simp only [page_directory_init_loop, dif_pos hlt]
    rw [ih (i + 1) _ (by omega)]
    funext j
    by_cases h1 : i + 1 ≤ j.val
    · rw [if_pos h1, if_pos (by omega)]
    · rw [if_neg h1]
      by_cases h2 : j.val = i
      · have e : j = ⟨i, hlt⟩ := Fin.ext h2
        rw [e, Function.update_same, if_pos (le_refl _)]
      · have e : j ≠ ⟨i, hlt⟩ := fun h => h2 (by rw [h])
        rw [Function.update_noteq e, if_neg (by omega)]

theorem page_table_init_loop_spec :
    ∀ (fuel i : Nat) (pt vt : Fin 1024 → Nat), i + fuel = 1024 →
      page_table_init_loop fuel i (pt, vt) =
        (fun j => if i ≤ j.val then (j.val * KB_OFFSET) ||| DEFAULT_PTE else pt j,
         fun j => if i ≤ j.val then (j.val * KB_OFFSET) ||| DEFAULT_PTE else vt j) := by
  intro fuel
  induction fuel with
  | zero =>
    intro i pt vt hi
    simp only [page_table_init_loop, Prod.mk.injEq]
    constructor <;>
    · funext j
      have := j.isLt
      rw [if_neg (by omega)]
  | succ fuel ih =>
    intro i pt vt hi
    have hlt : i < KB_PAGE_COUNT := by simp only [KB_PAGE_COUNT]; omega
    simp only [page_table_init_loop, dif_pos hlt]
    rw [ih (i + 1) _ _ (by omega)]
    simp only [Prod.mk.injEq]
    constructor <;>
    · funext j
      by_cases h1 : i + 1 ≤ j.val
      · rw [if_pos h1, if_pos (by omega)]
      · rw [if_neg h1]
        by_cases h2 : j.val = i
        · have e : j = ⟨i, hlt⟩ := Fin.ext h2
          rw [e, Function.update_same, if_pos (le_refl _)]
        · have e : j ≠ ⟨i, hlt⟩ := fun h => h2 (by rw [h])
          rw [Function.update_noteq e, if_neg (by omega)]

/-- The entry that names a 4KB-aligned table or page at `a` with the
attribute bits `attr`. -/
theorem aligned_entry (a attr : Nat) (hal : a % 4096 = 0) (hlt : a < 4294967296)
    (hattr : attr < 4096) : (a &&& ZERO_ATTRIBUTE) ||| attr = a + attr := by
  have h1 : a &&& (2 ^ 32 - 1) = a := Nat.and_pow_two_sub_one_of_lt_two_pow (by norm_num; exact hlt)
  have h2 : (2 ^ 32 - 1 : Nat) = ZERO_ATTRIBUTE ||| (2 ^ 12 - 1) := by decide
  have h3 : a &&& (2 ^ 12 - 1) = 0 := by
    rw [Nat.and_pow_two_sub_one_eq_mod]
    norm_num
    exact hal
  have h4 : a &&& ZERO_ATTRIBUTE = a := by
    have := Nat.and_or_distrib_left a ZERO_ATTRIBUTE (2 ^ 12 - 1)
    rw [← h2, h1, h3, Nat.or_zero] at this
    exact this.symm
  rw [h4]
  have h5 : a = 2 ^ 12 * (a / 4096) := by norm_num; omega
  rw [h5, ← Nat.mul_add_lt_is_or (by norm_num; exact hattr)]

/-- The entry for page `i` with the attribute bits `attr`. -/
theorem page_entry (i attr : Nat) (hattr : attr < 4096) :
    (i * KB_OFFSET) ||| attr = i * 4096 + attr := by
  have h : i * KB_OFFSET = 2 ^ 12 * i := by simp only [KB_OFFSET]; omega
  rw [h, ← Nat.mul_add_lt_is_or (by norm_num; exact hattr)]
  omega

/-- The entries of `page_table` after `page_table_init`. -/
theorem page_table_init_table (s : kernel_state) (i : Fin 1024) :
    (page_table_init s).page_table i =
      if i.val = 184 ∨ i.val = 69 ∨ i.val = 70 ∨ i.val = 71 then i.val * 4096 + 7
      else i.val * 4096 + 22 := by
  have hi := i.isLt
  unfold page_table_init
  dsimp only
  rw [page_table_init_loop_spec KB_PAGE_COUNT 0 _ _ (by decide)]
  simp only [Function.update_apply, Fin.ext_iff, Nat.zero_le, if_true,
    page_entry _ VIDMEM_PTE (by decide), page_entry _ DEFAULT_PTE (by decide)]
  simp only [VIDMEM_PAGE_IDX, TERMINAL_VMEM_PAGE_IDX, VIDMEM_PTE, DEFAULT_PTE]
  split_ifs <;> omega

/-- The entries of `vidmap_page_table` after `page_table_init`. -/
theorem page_table_init_vidmap (s : kernel_state) (i : Fin 1024) :
    (page_table_init s).vidmap_page_table i = i.val * 4096 + 22 := by
  unfold page_table_init
  dsimp only
  rw [page_table_init_loop_spec KB_PAGE_COUNT 0 _ _ (by decide)]
  simp only [Nat.zero_le, if_true, page_entry _ DEFAULT_PTE (by decide)]
  simp only [DEFAULT_PTE]

/-- The entries of `page_directory` after `page_directory_init`, for tables
linked at 4KB-aligned addresses. -/
theorem page_directory_init_table (s : kernel_state) (pt vt : Nat)
    (hpt : pt % 4096 = 0) (hvt : vt % 4096 = 0) (hpt32 : pt < 4294967296)
    (hvt32 : vt < 4294967296) (i : Fin 1024) :
    (page_directory_init s pt vt).page_directory i =
      if i.val = 33 then vt + 7
      else if i.val = 1 then 4194304 + 403
      else if i.val = 0 then pt + 19
      else 130 := by
  have hi := i.isLt
  have hk : MB_OFFSET ||| KERNEL_PDE = 4194304 + 403 := by decide
  unfold page_directory_init
  dsimp only
  rw [page_directory_init_loop_spec ENTRIES 0 _ (by decide)]
  simp only [Function.update_apply, Fin.ext_iff, Nat.zero_le, if_true,
    aligned_entry pt TABLE_ATTRIBUTE hpt hpt32 (by decide),
    aligned_entry vt VIDMEM_PTE hvt hvt32 (by decide), hk]
  simp only [VIDMAP_PDE_IDX, USER_PROG_IDX, TABLE_ATTRIBUTE, VIDMEM_PTE, DEFAULT_PDE]

/-- The page walk with the two indices named. -/
theorem translate_at (s : kernel_state) (pt vt addr : Nat) (d i : Fin 1024)
    (hd : d.val = addr / 4194304 % 1024) (hi : i.val = addr / 4096 % 1024) :
    translate s pt vt addr =
      if ¬ entry_present (s.page_directory d) then none
      else if entry_large (s.page_directory d) then
        some (entry_frame_4mb (s.page_directory d) + addr % 4194304)
      else if entry_frame (s.page_directory d) = pt then
        if entry_present (s.page_table i) then
          some (entry_frame (s.page_table i) + addr % 4096)
        else none
      else if entry_frame (s.page_directory d) = vt then
        if entry_present (s.vidmap_page_table i) then
          some (entry_frame (s.vidmap_page_table i) + addr % 4096)
        else none
      else none := by
  have e1 : (⟨addr / 4194304 % 1024, Nat.mod_lt _ (by norm_num)⟩ : Fin 1024) = d :=
    Fin.ext hd.symm
  have e2 : (⟨addr / 4096 % 1024, Nat.mod_lt _ (by norm_num)⟩ : Fin 1024) = i :=
    Fin.ext hi.symm
  unfold translate
  dsimp only
  rw [e1, e2]

/-- C30: after `page_directory_init` and `page_table_init`, for tables linked
at 4KB-aligned 32-bit addresses: entry `i` of `page_table` is present exactly
for `i` in {69, 70, 71, 184}, and every entry `i` names the page at `i * 4KB`;
`page_directory[0]` is present, is no 4MB entry and names `page_table`;
`page_directory[1]` is a present supervisor 4MB mapping of the physical
address 4MB; `page_directory[33]` is present, is no 4MB entry and names
`vidmap_page_table`; every other directory entry is not present.  So the
addresses 0, 0xB7FFF, 0xB9000 and 8MB + 1234 are not mapped, and every address
in 0xB8000..0xB8FFF is mapped, to itself. -/
theorem paging_init_mapping (s : kernel_state) (pt vt : Nat)
    (hpt : pt % 4096 = 0) (hvt : vt % 4096 = 0) (hpt32 : pt < 4294967296)
    (hvt32 : vt < 4294967296) :
    (∀ i : Fin 1024,
      entry_present ((page_table_init (page_directory_init s pt vt)).page_table i) ↔
        (i.val = 69 ∨ i.val = 70 ∨ i.val = 71 ∨ i.val = 184)) ∧
    (∀ i : Fin 1024,
      entry_frame ((page_table_init (page_directory_init s pt vt)).page_table i) =
        i.val * 4096) ∧
    (entry_present ((page_table_init (page_directory_init s pt vt)).page_directory 0) ∧
      ¬ entry_large ((page_table_init (page_directory_init s pt vt)).page_directory 0) ∧
      entry_frame ((page_table_init (page_directory_init s pt vt)).page_directory 0) = pt) ∧
    (entry_present ((page_table_init (page_directory_init s pt vt)).page_directory 1) ∧
      ¬ entry_user ((page_table_init (page_directory_init s pt vt)).page_directory 1) ∧
      entry_large ((page_table_init (page_directory_init s pt vt)).page_directory 1) ∧
      entry_frame_4mb ((page_table_init (page_directory_init s pt vt)).page_directory 1) =
        4194304) ∧
    (entry_present ((page_table_init (page_directory_init s pt vt)).page_directory 33) ∧
      ¬ entry_large ((page_table_init (page_directory_init s pt vt)).page_directory 33) ∧
      entry_frame ((page_table_init (page_directory_init s pt vt)).page_directory 33) = vt) ∧
    (∀ i : Fin 1024, i.val ≠ 0 → i.val ≠ 1 → i.val ≠ 33 →
      ¬ entry_present ((page_table_init (page_directory_init s pt vt)).page_directory i)) ∧
    translate (page_table_init (page_directory_init s pt vt)) pt vt 0 = none ∧
    translate (page_table_init (page_directory_init s pt vt)) pt vt 0xB7FFF = none ∧
    translate (page_table_init (page_directory_init s pt vt)) pt vt 0xB9000 = none ∧
    translate (page_table_init (page_directory_init s pt vt)) pt vt (8388608 + 1234) = none ∧
    (∀ a : Nat, 0xB8000 ≤ a → a ≤ 0xB8FFF →
      translate (page_table_init (page_directory_init s pt vt)) pt vt a = some a) := by
  have hPD : ∀ i : Fin 1024,
      (page_table_init (page_directory_init s pt vt)).page_directory i =
        if i.val = 33 then vt + 7
        else if i.val = 1 then 4194304 + 403
        else if i.val = 0 then pt + 19
        else 130 := fun i => page_directory_init_table s pt vt hpt hvt hpt32 hvt32 i
  have hPT := page_table_init_table (page_directory_init s pt vt)
  have h0 : (page_table_init (page_directory_init s pt vt)).page_directory 0 = pt + 19 := by
    rw [hPD]; rfl
  have hlow : ∀ (a : Nat) (i : Fin 1024), a < 4194304 → i.val = a / 4096 →
      translate (page_table_init (page_directory_init s pt vt)) pt vt a =
        if i.val = 184 ∨ i.val = 69 ∨ i.val = 70 ∨ i.val = 71 then
          some (i.val * 4096 + a % 4096)
        else none := by
    intro a i ha hi
    rw [translate_at _ pt vt a 0 i (by show 0 = a / 4194304 % 1024; omega) (by omega), h0, hPT]
    have e1 : entry_present (pt + 19) := by unfold entry_present; omega
    have e2 : ¬ entry_large (pt + 19) := by unfold entry_large; omega
    have e3 : entry_frame (pt + 19) = pt := by unfold entry_frame; omega
    rw [if_neg (not_not.mpr e1), if_neg e2, if_pos e3]
    split_ifs with hc hp hp
    · have e4 : entry_frame (i.val * 4096 + 7) = i.val * 4096 := by unfold entry_frame; omega
      rw [e4]
    · exfalso; apply hp; unfold entry_present; omega
    · exfalso; unfold entry_present at hp; omega
    · rfl
  refine ⟨?_, ?_, ?_, ?_, ?_, ?_, ?_, ?_, ?_, ?_, ?_⟩
  · intro i
    rw [hPT]
    unfold entry_present
    split_ifs with hc <;> constructor <;> intro h <;> omega
  · intro i
    rw [hPT]
    unfold entry_frame
    split_ifs <;> omega
  · rw [h0]
    unfold entry_present entry_large entry_frame
    omega
  · have h1 : (page_table_init (page_directory_init s pt vt)).page_directory 1 =
        4194304 + 403 := by rw [hPD]; rfl
    rw [h1]
    decide
  · have h33 : (page_table_init (page_directory_init s pt vt)).page_directory 33 = vt + 7 := by
      rw [hPD]; rfl
    rw [h33]
    unfold entry_present entry_large entry_frame
    omega
  · intro i hi0 hi1 hi33
    rw [hPD, if_neg hi33, if_neg hi1, if_neg hi0]
    decide
  · rw [hlow 0 0 (by norm_num) (by decide)]
    decide
  · rw [hlow 0xB7FFF 183 (by norm_num) (by decide)]
    decide
  · rw [hlow 0xB9000 185 (by norm_num) (by decide)]
    decide
  · have h2 : (page_table_init (page_directory_init s pt vt)).page_directory 2 = 130 := by
      rw [hPD]; rfl
    have hnp : ¬ entry_present 130 := by decide
    rw [translate_at _ pt vt (8388608 + 1234) 2 0 (by decide) (by decide), h2,
      if_pos hnp]
  · intro a ha1 ha2
    have hc : (184 : Fin 1024).val = 184 ∨ (184 : Fin 1024).val = 69 ∨
        (184 : Fin 1024).val = 70 ∨ (184 : Fin 1024).val = 71 := Or.inl rfl
    rw [hlow a 184 (by omega) (by show 184 = a / 4096; omega), if_pos hc]
    have e : (184 : Fin 1024).val * 4096 + a % 4096 = a := by
      show 184 * 4096 + a % 4096 = a
      omega
    rw [e]

/-- C30 for tables linked at 0x405000 and 0x406000, started from the state
before paging is set up. -/
theorem paging_init_mapping_witness :
    paged_state.page_directory 0 = 0x405013 ∧
    entry_frame (paged_state.page_directory 33) = 0x406000 ∧
    translate paged_state 0x405000 0x406000 0 = none ∧
    translate paged_state 0x405000 0x406000 0xB8123 = some 0xB8123 :=
  have h := paging_init_mapping (fresh_state demo_fs) 0x405000 0x406000 (by decide) (by decide)
    (by decide) (by decide)
  ⟨by decide, h.2.2.2.2.1.2.2, h.2.2.2.2.2.2.1, h.2.2.2.2.2.2.2.2.2.2 0xB8123 (by decide)
    (by decide)⟩


/-! ### read_data over several blocks -/

/-- The copy loop of the first block copies `m` bytes, where `m` is where the
first of its three stop conditions strikes. -/
theorem read_data_first_stop (temp_data : Nat → Nat) (length data_start : Nat) (data_end : Int)
    (is_end : Bool) (m : Nat) (hm1 : m ≤ length) (hm2 : data_start + m ≤ BLOCK_SIZE)
    (hm3 : is_end = true → ((data_start + m : Nat) : Int) ≤ data_end)
    (hstop : m = length ∨ data_start + m = BLOCK_SIZE ∨
      (is_end = true ∧ ((data_start + m : Nat) : Int) ≥ data_end)) :
    ∀ (n fuel i : Nat) (buf : Nat → Nat), i + n = m → n ≤ fuel →
      read_data_first temp_data length data_start data_end is_end fuel i (buf, i) =
        (fun j => if i ≤ j ∧ j < m then temp_data (j + data_start) else buf j, m) := by
  intro n
  induction n with
  | zero =>
    intro fuel i buf hi _
    have hbuf : (fun j => if i ≤ j ∧ j < m then temp_data (j + data_start) else buf j) = buf := by
      funext j
      have : ¬ (i ≤ j ∧ j < m) := by omega
      simp [this]
    rw [hbuf]
    have him : i = m := by omega
    cases fuel with
    | zero => simp only [read_data_first, him]
    | succ fuel =>
      simp only [read_data_first]
      by_cases hc : i < length ∧ i + data_start < BLOCK_SIZE
      · have hb : is_end = true ∧ ((i + data_start : Nat) : Int) ≥ data_end := by
          rcases hstop with h | h | ⟨h1, h2⟩
          · omega
          · omega
          · refine ⟨h1, ?_⟩
            rw [him]
            have : ((m + data_start : Nat) : Int) = ((data_start + m : Nat) : Int) := by
              push_cast; omega
            rw [this]; exact h2
        rw [if_pos hc, if_pos hb, him]
      · rw [if_neg hc, him]
  | succ n ih =>
    intro fuel i buf hi hf
    obtain ⟨fuel, rfl⟩ : ∃ k, fuel = k + 1 := ⟨fuel - 1, by omega⟩
    have hc : i < length ∧ i + data_start < BLOCK_SIZE := by omega
    have hb : ¬ (is_end = true ∧ ((i + data_start : Nat) : Int) ≥ data_end) := by
      rintro ⟨he, hge⟩
      have := hm3 he
      push_cast at this hge
      omega
    simp only [read_data_first, if_pos hc, if_neg hb]
    rw [ih fuel (i + 1) _ (by omega) (by omega)]
    simp only [Prod.mk.injEq, and_true]
    funext j
    by_cases hji : j = i
    · subst hji
      have : j < m := by omega
      simp [this]
    · rw [Function.update_noteq hji]
      by_cases hj : i ≤ j ∧ j < m
      · have : i + 1 ≤ j ∧ j < m := by omega
        simp [hj, this]
      · have : ¬ (i + 1 ≤ j ∧ j < m) := by omega
        simp [hj, this]

/-- The copy loop of a later block, entered with `b` bytes read, appends `m`
bytes, where `m` is where the first of its two stop conditions strikes. -/
theorem read_data_rest_stop (temp_data : Nat → Nat) (length : Nat) (stop : Int) (b m : Nat)
    (hm1 : b + m ≤ length) (hm2 : (m : Int) ≤ stop)
    (hstop : b + m = length ∨ (m : Int) = stop) :
    ∀ (n fuel i : Nat) (buf : Nat → Nat), i + n = m → n ≤ fuel →
      read_data_rest temp_data length stop fuel i (buf, b + i) =
        (fun j => if b + i ≤ j ∧ j < b + m then temp_data (j - b) else buf j, b + m) := by
  intro n
  induction n with
  | zero =>
    intro fuel i buf hi _
    have hbuf : (fun j => if b + i ≤ j ∧ j < b + m then temp_data (j - b) else buf j) = buf := by
      funext j
      have : ¬ (b + i ≤ j ∧ j < b + m) := by omega
      simp [this]
    rw [hbuf]
    have him : i = m := by omega
    cases fuel with
    | zero => simp only [read_data_rest, him]
    | succ fuel =>
      have hc : ¬ (b + i < length ∧ (i : Int) < stop) := by
        rcases hstop with h | h
        · omega
        · rw [him]; omega
      simp only [read_data_rest]
      rw [if_neg hc, him]
  | succ n ih =>
    intro fuel i buf hi hf
    obtain ⟨fuel, rfl⟩ : ∃ k, fuel = k + 1 := ⟨fuel - 1, by omega⟩
    have hc : b + i < length ∧ (i : Int) < stop := by omega
    simp only [read_data_rest, if_pos hc]
    have e : b + i + 1 = b + (i + 1) := by omega
    rw [e, ih fuel (i + 1) _ (by omega) (by omega)]
    simp only [Prod.mk.injEq, and_true]
    funext j
    by_cases hji : j = b + i
    · subst hji
      have h1 : b + i < b + m := by omega
      have h2 : b + i - b = i := by omega
      simp [h1, h2]
    · rw [Function.update_noteq hji]
      by_cases hj : b + i ≤ j ∧ j < b + m
      · have : b + (i + 1) ≤ j ∧ j < b + m := by omega
        simp [hj, this]
      · have : ¬ (b + (i + 1) ≤ j ∧ j < b + m) := by omega
        simp [hj, this]

/-- The block loop of `read_data` from a block `d` after the first one: with
the bytes up to the start of block `d` copied, it copies the rest up to the
end position `be * 4096 + de` and returns the number of bytes `n`. -/
theorem read_data_blocks_rest (fs : filesystem_t) (ino : inode_t) (buf : Nat → Nat)
    (length offset bs ds be de n : Nat)
    (hoff : offset = bs * 4096 + ds) (hds : ds < 4096) (hde : de < 4096)
    (hn : offset + n = be * 4096 + de) (hlen : n ≤ length) :
    ∀ (fuel d : Nat), bs < d → fuel + d = be + 1 →
      (∀ b : Nat, d ≤ b → b ≤ be →
        ¬ (ino.data_block_num b < 0 ∨ ino.data_block_num b ≥ fs.data_count)) →
      read_data_blocks fs ino length ds (de : Int) bs (be : Int) fuel d
          (read_result fs ino offset buf (min (d * 4096) (be * 4096 + de) - offset),
            min (d * 4096) (be * 4096 + de) - offset) =
        (some n, read_result fs ino offset buf n) := by
  intro fuel
  induction fuel with
  | zero =>
    intro d _ hd _
    have e : min (d * 4096) (be * 4096 + de) - offset = n := by omega
    simp only [read_data_blocks, e]
  | succ fuel ih =>
    intro d hbs hd hv
    have hdle : (d : Int) ≤ (be : Int) := by omega
    have hvalid := hv d (le_refl _) (by omega)
    have hne : ¬ (d = bs) := by omega
    have hbr : min (d * 4096) (be * 4096 + de) - offset = d * 4096 - offset := by omega
    simp only [read_data_blocks, if_pos hdle, if_neg hvalid, if_neg hne]
    rw [hbr]
    by_cases hlast : d = be
    · have hmid : ¬ (d > bs ∧ (d : Int) < (be : Int)) := by omega
      have hend : (d : Int) = (be : Int) := by omega
      rw [if_neg hmid, if_pos hend]
      have hcopy := read_data_rest_stop (fs.data_blocks (ino.data_block_num d).toNat) length
        (de : Int) (d * 4096 - offset) de (by omega) (le_refl _) (Or.inr rfl) de BLOCK_SIZE 0
        (read_result fs ino offset buf (d * 4096 - offset)) (by omega)
        (by simp only [BLOCK_SIZE]; omega)
      simp only [Nat.add_zero] at hcopy
      rw [hcopy]
      have hnext : (fun j => if d * 4096 - offset ≤ j ∧ j < d * 4096 - offset + de then
            fs.data_blocks (ino.data_block_num d).toNat (j - (d * 4096 - offset))
          else read_result fs ino offset buf (d * 4096 - offset) j) =
          read_result fs ino offset buf (min ((d + 1) * 4096) (be * 4096 + de) - offset) := by
        funext j
        unfold read_result
        simp only [BLOCK_SIZE]
        by_cases h1 : d * 4096 - offset ≤ j ∧ j < d * 4096 - offset + de
        · have h2 : j < min ((d + 1) * 4096) (be * 4096 + de) - offset := by omega
          have h3 : (offset + j) / 4096 = d := by omega
          have h4 : (offset + j) % 4096 = j - (d * 4096 - offset) := by omega
          rw [if_pos h1, if_pos h2, h3, h4]
        · rw [if_neg h1]
          by_cases h5 : j < d * 4096 - offset
          · rw [if_pos h5, if_pos (by omega)]
          · rw [if_neg h5, if_neg (by omega)]
      have hb2 : d * 4096 - offset + de =
          min ((d + 1) * 4096) (be * 4096 + de) - offset := by omega
      rw [hnext, hb2]
      exact ih (d + 1) (by omega) (by omega) (fun b hb1 hb2 => hv b (by omega) hb2)
    · have hmid : d > bs ∧ (d : Int) < (be : Int) := by omega
      rw [if_pos hmid]
      have hcopy := read_data_rest_stop (fs.data_blocks (ino.data_block_num d).toNat) length
        (BLOCK_SIZE : Int) (d * 4096 - offset) 4096 (by omega) (by simp [BLOCK_SIZE])
        (Or.inr (by simp [BLOCK_SIZE])) 4096 BLOCK_SIZE 0
        (read_result fs ino offset buf (d * 4096 - offset)) (by omega)
        (by simp only [BLOCK_SIZE]; omega)
      simp only [Nat.add_zero] at hcopy
      rw [hcopy]
      have hnext : (fun j => if d * 4096 - offset ≤ j ∧ j < d * 4096 - offset + 4096 then
            fs.data_blocks (ino.data_block_num d).toNat (j - (d * 4096 - offset))
          else read_result fs ino offset buf (d * 4096 - offset) j) =
          read_result fs ino offset buf (min ((d + 1) * 4096) (be * 4096 + de) - offset) := by
        funext j
        unfold read_result
        simp only [BLOCK_SIZE]
        by_cases h1 : d * 4096 - offset ≤ j ∧ j < d * 4096 - offset + 4096
        · have h2 : j < min ((d + 1) * 4096) (be * 4096 + de) - offset := by omega
          have h3 : (offset + j) / 4096 = d := by omega
          have h4 : (offset + j) % 4096 = j - (d * 4096 - offset) := by omega
          rw [if_pos h1, if_pos h2, h3, h4]
        · rw [if_neg h1]
          by_cases h5 : j < d * 4096 - offset
          · rw [if_pos h5, if_pos (by omega)]
          · rw [if_neg h5, if_neg (by omega)]
      have hb2 : d * 4096 - offset + 4096 =
          min ((d + 1) * 4096) (be * 4096 + de) - offset := by omega
      rw [hnext, hb2]
      exact ih (d + 1) (by omega) (by omega) (fun b hb1 hb2 => hv b (by omega) hb2)

/-- `read_data` on a file of `F` bytes, for `offset <= F`: when the numbers of
the data blocks from block `offset / 4096` up to block `E / 4096` are valid,
`E` being the end position `min (offset + length) F`, it returns
`min length (F - offset)` and has copied that many bytes of the file, from
`offset` on, to the start of `buf`. -/
theorem read_data_copies (fs : filesystem_t) (inode offset length : Nat) (buf : Nat → Nat)
    (hino : inode < 62)
    (hF0 : 0 ≤ (fs.inodes inode).length) (hF31 : (fs.inodes inode).length < 2147483648)
    (h32 : offset + length < 4294967296)
    (hle : offset ≤ (fs.inodes inode).length.toNat)
    (hv : ∀ b : Nat, offset / 4096 ≤ b →
      b ≤ min (offset + length) (fs.inodes inode).length.toNat / 4096 →
      ¬ ((fs.inodes inode).data_block_num b < 0 ∨
        (fs.inodes inode).data_block_num b ≥ fs.data_count)) :
    read_data fs inode offset buf length =
      (((min length ((fs.inodes inode).length.toNat - offset) : Nat) : Int),
        read_result fs (fs.inodes inode) offset buf
          (min length ((fs.inodes inode).length.toNat - offset))) := by
  generalize hF : (fs.inodes inode).length.toNat = F at hle hv ⊢
  generalize hE : min (offset + length) F = E at hv
  have hn : min length (F - offset) = E - offset := by omega
  have h1 : ¬ (inode ≥ NUM_DIR_ENTRIES - 1) := by simp [NUM_DIR_ENTRIES]; omega
  have hu : to_uint32 (fs.inodes inode).length = F := by unfold to_uint32; omega
  have h2 : ¬ (offset > F) := by omega
  have h3 : (length + offset) % 4294967296 = length + offset := Nat.mod_eq_of_lt (by omega)
  have hbe : (if length + offset > F then (fs.inodes inode).length.tdiv ((4096 : Nat) : Int)
      else (((length + offset) / 4096 : Nat) : Int)) = ((E / 4096 : Nat) : Int) := by
    split
    · rw [Int.tdiv_eq_ediv hF0 (by norm_num)]
      omega
    · have : E = length + offset := by omega
      rw [this]
  have hde : (if length + offset > F then (fs.inodes inode).length.tmod ((4096 : Nat) : Int)
      else (((length + offset) % 4096 : Nat) : Int)) = ((E % 4096 : Nat) : Int) := by
    split
    · rw [Int.tmod_eq_emod hF0 (by norm_num)]
      omega
    · have : E = length + offset := by omega
      rw [this]
  unfold read_data
  simp only [if_neg h1, hu, if_neg h2, h3, BLOCK_SIZE, hbe, hde]
  have hfuel : ((((E / 4096 : Nat) : Int) + 1 - ((offset / 4096 : Nat) : Int)).toNat) =
      (E / 4096 - offset / 4096) + 1 := by
    omega
  rw [hfuel]
  have hstart : ((offset / 4096 : Nat) : Int) ≤ ((E / 4096 : Nat) : Int) := by omega
  have hvs := hv (offset / 4096) (le_refl _) (by omega)
  simp only [read_data_blocks, if_pos hstart, if_neg hvs, if_true]
  have hfirst := read_data_first_stop
    (fs.data_blocks ((fs.inodes inode).data_block_num (offset / 4096)).toNat) length
    (offset % 4096) ((E % 4096 : Nat) : Int)
    (decide (((offset / 4096 : Nat) : Int) = ((E / 4096 : Nat) : Int)))
    (min ((offset / 4096 + 1) * 4096) E - offset) (by omega)
    (by simp only [BLOCK_SIZE]; omega)
    (by
      intro he
      have := of_decide_eq_true he
      omega)
    (by
      by_cases hsame : offset / 4096 = E / 4096
      · right; right
        refine ⟨decide_eq_true (by omega), ?_⟩
        omega
      · right; left
        simp only [BLOCK_SIZE]; omega)
    (min ((offset / 4096 + 1) * 4096) E - offset) BLOCK_SIZE 0 buf (by omega)
    (by simp only [BLOCK_SIZE]; omega)
  rw [hfirst]
  have hres : (fun j => if 0 ≤ j ∧ j < min ((offset / 4096 + 1) * 4096) E - offset then
        fs.data_blocks ((fs.inodes inode).data_block_num (offset / 4096)).toNat
          (j + offset % 4096)
      else buf j) =
      read_result fs (fs.inodes inode) offset buf
        (min ((offset / 4096 + 1) * 4096) (E / 4096 * 4096 + E % 4096) - offset) := by
    funext j
    unfold read_result
    simp only [BLOCK_SIZE, Nat.zero_le, true_and]
    have hEE : E / 4096 * 4096 + E % 4096 = E := by omega
    rw [hEE]
    by_cases hj : j < min ((offset / 4096 + 1) * 4096) E - offset
    · have h4 : (offset + j) / 4096 = offset / 4096 := by omega
      have h5 : (offset + j) % 4096 = j + offset % 4096 := by omega
      rw [if_pos hj, if_pos hj, h4, h5]
    · rw [if_neg hj, if_neg hj]
  have hcnt : min ((offset / 4096 + 1) * 4096) E - offset =
      min ((offset / 4096 + 1) * 4096) (E / 4096 * 4096 + E % 4096) - offset := by omega
  rw [hres, hcnt]
  rw [read_data_blocks_rest fs (fs.inodes inode) buf length offset (offset / 4096)
    (offset % 4096) (E / 4096) (E % 4096) (E - offset) (by omega) (by omega) (by omega)
    (by omega) (by omega) (E / 4096 - offset / 4096) (offset / 4096 + 1) (by omega) (by omega)
    (fun b hb1 hb2 => hv b (by omega) hb2)]
  simp only [hn]

/-- The block loop of `read_data` returns -1 when the number of the last block
it visits is invalid, whatever it has copied before. -/
theorem read_data_blocks_invalid_end (fs : filesystem_t) (ino : inode_t)
    (length ds : Nat) (de : Int) (bs be : Nat)
    (hbad : ino.data_block_num be < 0 ∨ ino.data_block_num be ≥ fs.data_count) :
    ∀ (fuel d : Nat) (st : (Nat → Nat) × Nat), d ≤ be → fuel + d = be + 1 →
      (read_data_blocks fs ino length ds de bs (be : Int) fuel d st).1 = none := by
  intro fuel
  induction fuel with
  | zero => intro d st h1 h2; omega
  | succ fuel ih =>
    intro d st h1 h2
    have hdle : (d : Int) ≤ (be : Int) := by omega
    simp only [read_data_blocks, if_pos hdle]
    by_cases hd : d = be
    · rw [hd, if_pos hbad]
    · by_cases hv : ino.data_block_num d < 0 ∨ ino.data_block_num d ≥ fs.data_count
      · rw [if_pos hv]
      · rw [if_neg hv]
        split_ifs <;> exact ih _ _ (by omega) (by omega)

/-- C28: for an inode below 62 whose file has `F` bytes, the numbers of the
data blocks covering the bytes [0, F) being valid, and `offset + length` below
2^32: `read_data` returns 0 and writes nothing when `offset > F`.  For
`offset <= F` it returns `n = min length (F - offset)`, with `buf[j]` byte
`offset + j` of the file for every `j < n` and the rest of `buf` as before,
provided the read ends before the end of the file, or `F` is no multiple of
the block size, or entry `F / 4096` of the inode is a valid block number too.
In the remaining case, `F` a multiple of the block size, the read reaching
the end of the file and entry `F / 4096`, which covers no byte of the file,
not a valid block number, `read_data` returns -1: its block loop runs up to
block `F / 4096` inclusive and checks that entry although it copies nothing
from the block. -/
theorem read_data_reads_file (fs : filesystem_t) (inode offset length : Nat) (buf : Nat → Nat)
    (hino : inode < 62)
    (hF0 : 0 ≤ (fs.inodes inode).length) (hF31 : (fs.inodes inode).length < 2147483648)
    (h32 : offset + length < 4294967296)
    (hcov : ∀ b : Nat, b * 4096 < (fs.inodes inode).length.toNat →
      0 ≤ (fs.inodes inode).data_block_num b ∧
        (fs.inodes inode).data_block_num b < fs.data_count) :
    (offset > (fs.inodes inode).length.toNat →
      read_data fs inode offset buf length = (0, buf)) ∧
    (offset ≤ (fs.inodes inode).length.toNat →
      ((fs.inodes inode).length.toNat % 4096 ≠ 0 ∨
        offset + length < (fs.inodes inode).length.toNat ∨
        (0 ≤ (fs.inodes inode).data_block_num ((fs.inodes inode).length.toNat / 4096) ∧
          (fs.inodes inode).data_block_num ((fs.inodes inode).length.toNat / 4096) <
            fs.data_count)) →
      (read_data fs inode offset buf length).1 =
        ((min length ((fs.inodes inode).length.toNat - offset) : Nat) : Int) ∧
      (∀ j : Nat, j < min length ((fs.inodes inode).length.toNat - offset) →
        (read_data fs inode offset buf length).2 j % 256 = file_byte fs inode (offset + j)) ∧
      (∀ j : Nat, min length ((fs.inodes inode).length.toNat - offset) ≤ j →
        (read_data fs inode offset buf length).2 j = buf j)) ∧
    (offset ≤ (fs.inodes inode).length.toNat →
      (fs.inodes inode).length.toNat % 4096 = 0 →
      (fs.inodes inode).length.toNat ≤ offset + length →
      ((fs.inodes inode).data_block_num ((fs.inodes inode).length.toNat / 4096) < 0 ∨
        (fs.inodes inode).data_block_num ((fs.inodes inode).length.toNat / 4096) ≥
          fs.data_count) →
      (read_data fs inode offset buf length).1 = -1) := by
  have h1 : ¬ (inode ≥ NUM_DIR_ENTRIES - 1) := by simp [NUM_DIR_ENTRIES]; omega
  have hu : to_uint32 (fs.inodes inode).length = (fs.inodes inode).length.toNat := by
    unfold to_uint32; omega
  refine ⟨?_, ?_, ?_⟩
  · intro hgt
    unfold read_data
    simp only [if_neg h1, hu, if_pos hgt]
  · intro hle hok
    have hv : ∀ b : Nat, offset / 4096 ≤ b →
        b ≤ min (offset + length) (fs.inodes inode).length.toNat / 4096 →
        ¬ ((fs.inodes inode).data_block_num b < 0 ∨
          (fs.inodes inode).data_block_num b ≥ fs.data_count) := by
      intro b _ hb
      by_cases hin : b * 4096 < (fs.inodes inode).length.toNat
      · have := hcov b hin
        omega
      · have hbF : b = (fs.inodes inode).length.toNat / 4096 := by omega
        rcases hok with h | h | h
        · omega
        · omega
        · rw [hbF]; omega
    rw [read_data_copies fs inode offset length buf hino hF0 hF31 h32 hle hv]
    refine ⟨rfl, ?_, ?_⟩
    · intro j hj
      simp only [read_result, if_pos hj, file_byte]
    · intro j hj
      simp only [read_result, if_neg (not_lt.mpr hj)]
  · intro hle hmod hend hbad
    have h2 : ¬ (offset > (fs.inodes inode).length.toNat) := by omega
    have h3 : (length + offset) % 4294967296 = length + offset := Nat.mod_eq_of_lt (by omega)
    have hbe : (if length + offset > (fs.inodes inode).length.toNat then
        (fs.inodes inode).length.tdiv ((4096 : Nat) : Int)
        else (((length + offset) / 4096 : Nat) : Int)) =
        (((fs.inodes inode).length.toNat / 4096 : Nat) : Int) := by
      split
      · rw [Int.tdiv_eq_ediv hF0 (by norm_num)]
        omega
      · have : (fs.inodes inode).length.toNat = length + offset := by omega
        rw [this]
    unfold read_data
    simp only [if_neg h1, hu, if_neg h2, h3, BLOCK_SIZE, hbe]
    have hfuel : (((((fs.inodes inode).length.toNat / 4096 : Nat) : Int) + 1 -
        ((offset / 4096 : Nat) : Int)).toNat) =
        ((fs.inodes inode).length.toNat / 4096 - offset / 4096) + 1 := by
      omega
    rw [hfuel, read_data_blocks_invalid_end fs (fs.inodes inode) length _ _ _ _ hbad _ _ _
      (by omega) (by omega)]

/-- C28 on the example files: of the 5 bytes of "frame0.txt" a read of 10
bytes from offset 1 returns 4; of the file of exactly 4096 bytes a read of
4095 bytes returns 4095, and a read of all 4096 bytes returns -1, because
entry 1 of the inode, which no byte of the file uses, holds 7. -/
theorem read_data_reads_file_witness :
    (read_data demo_fs 3 1 (fun _ => 0) 10).1 = 4 ∧
    (read_data full_block_fs 3 0 (fun _ => 0) 4095).1 = 4095 ∧
    (full_block_fs.inodes 3).length = 4096 ∧
    (full_block_fs.inodes 3).data_block_num 0 = 2 ∧ full_block_fs.data_count = 3 ∧
    (read_data full_block_fs 3 0 (fun _ => 0) 4096).1 = -1 :=
  have hcov : ∀ b : Nat, b * 4096 < (full_block_fs.inodes 3).length.toNat →
      0 ≤ (full_block_fs.inodes 3).data_block_num b ∧
        (full_block_fs.inodes 3).data_block_num b < full_block_fs.data_count := by
    intro b hb
    have e : (full_block_fs.inodes 3).length.toNat = 4096 := by decide
    rw [e] at hb
    have hb0 : b = 0 := by omega
    rw [hb0]
    decide
  have hdemo : ∀ b : Nat, b * 4096 < (demo_fs.inodes 3).length.toNat →
      0 ≤ (demo_fs.inodes 3).data_block_num b ∧
        (demo_fs.inodes 3).data_block_num b < demo_fs.data_count := by
    intro b hb
    have e : (demo_fs.inodes 3).length.toNat = 5 := by decide
    rw [e] at hb
    have hb0 : b = 0 := by omega
    rw [hb0]
    decide
  have h1 := read_data_reads_file demo_fs 3 1 10 (fun _ => 0) (by decide) (by decide)
    (by decide) (by decide) hdemo
  have h2 := read_data_reads_file full_block_fs 3 0 4095 (fun _ => 0) (by decide) (by decide)
    (by decide) (by decide) hcov
  have h3 := read_data_reads_file full_block_fs 3 0 4096 (fun _ => 0) (by decide) (by decide)
    (by decide) (by decide) hcov
  ⟨(h1.2.1 (by decide) (Or.inl (by decide))).1,
    (h2.2.1 (by decide) (Or.inr (Or.inl (by decide)))).1,
    by decide, by decide, by decide,
    h3.2.2 (by decide) (by decide) (by decide) (Or.inr (by decide))⟩


/-! ### exec_file_check -/

/-- When `strncmp` returns 0: the two strings agree at every index below `n`
up to and including the first NUL of the first string. -/
theorem strncmp_loop_zero_iff (s1 s2 : Nat → Nat) (n : Nat) :
    ∀ (fuel i : Nat), i + fuel = n →
      (strncmp_loop s1 s2 n fuel i = 0 ↔
        ∀ k : Nat, i ≤ k → k < n → (∀ j : Nat, i ≤ j → j < k → as_int8 (s1 j) ≠ 0) →
          as_int8 (s1 k) = as_int8 (s2 k)) := by
  intro fuel
  induction fuel with
  | zero =>
    intro i hi
    simp only [strncmp_loop, true_iff]
    intro k h1 h2
    omega
  | succ fuel ih =>
    intro i hi
    have hin : i < n := by omega
    simp only [strncmp_loop, if_pos hin]
    by_cases hne : as_int8 (s1 i) = as_int8 (s2 i)
    · by_cases hz : as_int8 (s1 i) = 0
      · have hstop : as_int8 (s1 i) ≠ as_int8 (s2 i) ∨ as_int8 (s1 i) = 0 := Or.inr hz
        rw [if_pos hstop]
        constructor
        · intro _ k h1 h2 hpre
          rcases Nat.eq_or_lt_of_le h1 with h | h
          · rw [← h]; exact hne
          · exact absurd hz (hpre i (le_refl _) h)
        · intro _
          rw [hne]; omega
      · have hstop : ¬ (as_int8 (s1 i) ≠ as_int8 (s2 i) ∨ as_int8 (s1 i) = 0) := by
          intro h
          rcases h with h | h
          · exact h hne
          · exact hz h
        rw [if_neg hstop, ih (i + 1) (by omega)]
        constructor
        · intro h k h1 h2 hpre
          rcases Nat.eq_or_lt_of_le h1 with h3 | h3
          · rw [← h3]; exact hne
          · exact h k h3 h2 (fun j hj1 hj2 => hpre j (by omega) hj2)
        · intro h k h1 h2 hpre
          apply h k (by omega) h2
          intro j hj1 hj2
          rcases Nat.eq_or_lt_of_le hj1 with h3 | h3
          · rw [← h3]; exact hz
          · exact hpre j h3 hj2
    · have hstop : as_int8 (s1 i) ≠ as_int8 (s2 i) ∨ as_int8 (s1 i) = 0 := Or.inl hne
      rw [if_pos hstop]
      constructor
      · intro h
        exfalso
        apply hne
        omega
      · intro h
        exact absurd (h i (le_refl _) hin (fun j h1 h2 => by omega)) hne

/-- The comparison of `read_dentry_by_name` succeeds exactly on the entries
whose name field holds the name. -/
theorem strncmp_entry_named (d : dentry_t) (name : List Nat)
    (hlen : name.length ≤ 32) (hname : ∀ c ∈ name, c ≠ 0 ∧ c < 256)
    (hd : ∀ j : Nat, d.filename j < 256) :
    strncmp d.filename (c_string name) FILENAME_LEN = 0 ↔ entry_named d name := by
  have hget : ∀ k : Nat, k < name.length → name.getD k 0 ≠ 0 ∧ name.getD k 0 < 256 := by
    intro k hk
    have hmem : name.getD k 0 ∈ name := by
      rw [List.getD_eq_getElem _ _ hk]
      exact List.getElem_mem hk
    exact hname _ hmem
  have hpast : ∀ k : Nat, name.length ≤ k → name.getD k 0 = 0 := by
    intro k hk
    exact List.getD_eq_default _ _ hk
  have hbyte : ∀ a b : Nat, a < 256 → b < 256 → (as_int8 a = as_int8 b ↔ a = b) := by
    intro a b ha hb
    rw [as_int8_eq_iff]
    omega
  have hzero : ∀ a : Nat, a < 256 → (as_int8 a = 0 ↔ a = 0) := by
    intro a ha
    rw [as_int8_eq_zero_iff]
    omega
  unfold strncmp
  rw [strncmp_loop_zero_iff _ _ _ _ _ (by omega)]
  simp only [FILENAME_LEN, c_string, Nat.zero_le, true_implies]
  constructor
  · intro h
    have hpre : ∀ k : Nat, k ≤ name.length → k ≤ 32 →
        ∀ j : Nat, j < k → d.filename j = name.getD j 0 := by
      intro k
      induction k with
      | zero => intro _ _ j hj; omega
      | succ k ih =>
        intro hk1 hk2 j hj
        rcases Nat.eq_or_lt_of_le (Nat.lt_succ_iff.mp hj) with h1 | h1
        · rw [h1]
          have hk := h k (by omega) (fun i hi => by
            intro hz0
            have e := (hzero _ (hd i)).mp hz0
            rw [ih (by omega) (by omega) i hi] at e
            exact (hget i (by omega)).1 e)
          exact (hbyte _ _ (hd k) (hget k (by omega)).2).mp hk
        · exact ih (by omega) (by omega) j h1
    refine ⟨by simp only [FILENAME_LEN]; exact hlen, ?_, ?_⟩
    · intro k hk
      exact hpre name.length (le_refl _) hlen k hk
    · intro hlt
      simp only [FILENAME_LEN] at hlt
      have hk := h name.length hlt (fun i hi => by
        intro hz0
        have e := (hzero _ (hd i)).mp hz0
        rw [hpre name.length (le_refl _) hlen i hi] at e
        exact (hget i hi).1 e)
      rw [hpast _ (le_refl _)] at hk
      exact (hzero _ (hd _)).mp (by rw [hk]; decide)
  · rintro ⟨-, h1, h2⟩ k hk hpre
    rcases Nat.lt_trichotomy k name.length with h | h | h
    · rw [h1 k h]
    · rw [h, h2 (by simp only [FILENAME_LEN]; omega), hpast _ (le_refl _)]
    · exfalso
      apply hpre name.length h
      rw [h2 (by simp only [FILENAME_LEN]; omega)]
      decide

/-- The lookup loop returns the first entry from index `i` on that the
comparison accepts. -/
theorem read_dentry_by_name_loop_first (fs : filesystem_t) (fname : Nat → Nat)
    (hdc : fs.dir_count < 4294967296) :
    ∀ (fuel i : Nat), i + fuel = fs.dir_count.toNat → ∀ d : dentry_t,
      (read_dentry_by_name_loop fs fname fuel i = some d ↔
        ∃ k : Nat, i ≤ k ∧ (k : Int) < fs.dir_count ∧ d = fs.direntries k ∧
          strncmp (fs.direntries k).filename fname FILENAME_LEN = 0 ∧
          ∀ j : Nat, i ≤ j → j < k →
            strncmp (fs.direntries j).filename fname FILENAME_LEN ≠ 0) := by
  intro fuel
  induction fuel with
  | zero =>
    intro i hi d
    simp only [read_dentry_by_name_loop]
    constructor
    · intro h
      exact absurd h (by simp)
    · rintro ⟨k, h1, h2, -⟩
      omega
  | succ fuel ih =>
    intro i hi d
    have hlt : (i : Int) < fs.dir_count := by omega
    have hidx : read_dentry_by_index fs i = some (fs.direntries i) := by
      unfold read_dentry_by_index to_uint32
      rw [if_neg (by omega)]
    simp only [read_dentry_by_name_loop, if_pos hlt, hidx]
    by_cases hm : strncmp (fs.direntries i).filename fname FILENAME_LEN = 0
    · rw [if_pos hm]
      constructor
      · intro h
        simp only [Option.some.injEq] at h
        exact ⟨i, le_refl _, hlt, h.symm, hm, fun j h1 h2 => by omega⟩
      · rintro ⟨k, h1, -, h3, -, h5⟩
        rcases Nat.eq_or_lt_of_le h1 with h | h
        · rw [h3, ← h]
        · exact absurd hm (h5 i (le_refl _) h)
    · rw [if_neg hm, ih (i + 1) (by omega) d]
      constructor
      · rintro ⟨k, h1, h2, h3, h4, h5⟩
        refine ⟨k, by omega, h2, h3, h4, ?_⟩
        intro j hj1 hj2
        rcases Nat.eq_or_lt_of_le hj1 with h | h
        · rw [← h]; exact hm
        · exact h5 j h hj2
      · rintro ⟨k, h1, h2, h3, h4, h5⟩
        have hik : i ≠ k := fun h => hm (by rw [h]; exact h4)
        exact ⟨k, by omega, h2, h3, h4, fun j hj1 hj2 => h5 j (by omega) hj2⟩

/-- `read_dentry_by_name` finds the first directory entry whose name field
holds the name, for a name of at most 32 bytes without NUL. -/
theorem read_dentry_by_name_first (fs : filesystem_t) (name : List Nat)
    (hdc : fs.dir_count < 4294967296) (hdir : dir_names_bytes fs)
    (hlen : name.length ≤ 32) (hname : ∀ c ∈ name, c ≠ 0 ∧ c < 256) :
    (∀ i : Nat, first_entry_named fs name i →
      read_dentry_by_name fs (c_string name) = some (fs.direntries i)) ∧
    ((∀ i : Nat, (i : Int) < fs.dir_count → ¬ entry_named (fs.direntries i) name) →
      read_dentry_by_name fs (c_string name) = none) := by
  have hiff := fun i : Nat =>
    strncmp_entry_named (fs.direntries i) name hlen hname (fun j => hdir i j)
  have hloop := read_dentry_by_name_loop_first fs (c_string name) hdc fs.dir_count.toNat 0
    (by omega)
  constructor
  · rintro i ⟨h1, h2, h3⟩
    unfold read_dentry_by_name
    rw [hloop]
    exact ⟨i, Nat.zero_le _, h1, rfl, (hiff i).mpr h2,
      fun j _ hj => fun h => h3 j hj ((hiff j).mp h)⟩
  · intro hnone
    unfold read_dentry_by_name
    cases hr : read_dentry_by_name_loop fs (c_string name) fs.dir_count.toNat 0 with
    | none => rfl
    | some d =>
      exfalso
      obtain ⟨k, -, h2, -, h4, -⟩ := (hloop d).mp hr
      exact hnone k h2 ((hiff k).mp h4)

/-- The program name of a command line ends at a space or at the terminator. -/
theorem program_name_end :
    ∀ l : List Nat, l.getD (l.takeWhile is_name_char).length 0 = 32 ∨
      l.getD (l.takeWhile is_name_char).length 0 = 0 := by
  intro l
  induction l with
  | nil => right; rfl
  | cons c r ih =>
    by_cases hp : is_name_char c = true
    · rw [List.takeWhile_cons_of_pos hp]
      simp only [List.length_cons, List.getD_cons_succ]
      exact ih
    · rw [List.takeWhile_cons_of_neg hp]
      simp only [List.length_nil, List.getD_cons_zero]
      simp only [is_name_char, decide_eq_true_eq, not_and_or, not_not] at hp
      exact hp

/-- The copy loop of `exec_file_check` reads the command line only up to the
end of the program name. -/
theorem exec_file_check_copy_token (cmd : List Nat) :
    ∀ (fuel i : Nat) (f : Nat → Nat), i ≤ (program_name cmd).length →
      exec_file_check_copy (c_string cmd) fuel i f =
        exec_file_check_copy (c_string (program_name cmd)) fuel i f := by
  intro fuel
  induction fuel with
  | zero => intro i f _; rfl
  | succ fuel ih =>
    intro i f hi
    simp only [exec_file_check_copy]
    rcases Nat.eq_or_lt_of_le hi with h | h
    · have h1 : c_string (program_name cmd) i = 0 := by
        simp only [c_string]
        exact List.getD_eq_default _ _ (by omega)
      have h2 : c_string cmd i = 32 ∨ c_string cmd i = 0 := by
        simp only [c_string, h]
        exact program_name_end cmd
      have hc1 : ¬ (i < FILENAME_LEN ∧ c_string cmd i ≠ 32 ∧ c_string cmd i ≠ 0) := by
        rintro ⟨-, n1, n2⟩
        rcases h2 with h2 | h2
        · exact n1 h2
        · exact n2 h2
      have hc2 : ¬ (i < FILENAME_LEN ∧ c_string (program_name cmd) i ≠ 32 ∧
          c_string (program_name cmd) i ≠ 0) := by
        rintro ⟨-, -, n2⟩
        exact n2 h1
      rw [if_neg hc1, if_neg hc2]
    · have he : c_string (program_name cmd) i = c_string cmd i := by
        simp only [c_string, program_name]
        exact takeWhile_getD _ _ _ h
      rw [he]
      split
      · exact ih (i + 1) _ (by omega)
      · rfl

/-- `exec_file_check` looks at the first token of the command line only. -/
theorem exec_file_check_token (fs : filesystem_t) (cmd : List Nat) (m : exec_file_check_mem) :
    exec_file_check fs (c_string cmd) m =
      exec_file_check fs (c_string (program_name cmd)) m := by
  unfold exec_file_check
  rw [exec_file_check_copy_token cmd FILENAME_LEN 0 m.filename (Nat.zero_le _)]

/-- `exec_file_check` on a name that the lookup finds as entry `d`, the file
having at least the 28 bytes that hold the signature and the entry address:
the call succeeds exactly when the inode number, as the `uint32_t` that
`read_data` receives, is below 62, the number of the first data block is
valid and the file starts with the ELF signature; it then stores `d` and the
bytes 24..27 of the file. -/
theorem exec_file_check_found (fs : filesystem_t) (name : List Nat)
    (hname : ∀ c ∈ name, is_name_char c = true) (m : exec_file_check_mem) (d : dentry_t)
    (h : read_dentry_by_name fs (c_string name) = some d)
    (hlen : 28 ≤ (fs.inodes (to_uint32 d.inode_num)).length)
    (h31 : (fs.inodes (to_uint32 d.inode_num)).length < 2147483648) :
    exec_file_check fs (c_string name) m =
      if to_uint32 d.inode_num < 62 ∧
          (0 ≤ (fs.inodes (to_uint32 d.inode_num)).data_block_num 0 ∧
            (fs.inodes (to_uint32 d.inode_num)).data_block_num 0 < fs.data_count) ∧
          has_elf_magic fs (to_uint32 d.inode_num) then
        some (d, fun j => if j < 4 then
          fs.data_blocks ((fs.inodes (to_uint32 d.inode_num)).data_block_num 0).toNat (j + 24)
          else m.prog_eip j)
      else none := by
  have key : ∀ x : Int, 28 ≤ x → x < 2147483648 → to_uint32 x = x.toNat := by
    intro x h1 h2
    unfold to_uint32
    omega
  have hl := key _ hlen h31
  generalize hu : to_uint32 d.inode_num = ino at hlen h31 hl ⊢
  have hl4 : 4 ≤ to_uint32 (fs.inodes ino).length := by omega
  have hl28 : 28 ≤ to_uint32 (fs.inodes ino).length := by omega
  by_cases hino : ino < 62
  · by_cases hidx : (fs.inodes ino).data_block_num 0 < 0 ∨
        (fs.inodes ino).data_block_num 0 ≥ fs.data_count
    · have hcond : ¬ (ino < 62 ∧
          (0 ≤ (fs.inodes ino).data_block_num 0 ∧
            (fs.inodes ino).data_block_num 0 < fs.data_count) ∧
          has_elf_magic fs ino) := by
        rintro ⟨-, hb, -⟩
        omega
      rw [if_neg hcond]
      unfold exec_file_check
      simp only [exec_file_check_lookup fs name hname, h, ELF_MAGIC_LEN, hu]
      rw [read_data_within_block fs _ 0 4 _ hino (by omega) (by norm_num) (by norm_num)]
      simp only [Nat.zero_div, if_pos hidx, true_or, if_true]
    · by_cases hmagic : has_elf_magic fs ino
      · have hcond : ino < 62 ∧
            (0 ≤ (fs.inodes ino).data_block_num 0 ∧
              (fs.inodes ino).data_block_num 0 < fs.data_count) ∧
            has_elf_magic fs ino := ⟨hino, by omega, hmagic⟩
        rw [if_pos hcond]
        unfold exec_file_check
        simp only [exec_file_check_lookup fs name hname, h, ELF_MAGIC_LEN, PROG_EIP_START_BYTE,
          hu]
        rw [read_data_within_block fs _ 0 4 _ hino (by omega) (by norm_num) (by norm_num)]
        rw [read_data_within_block fs _ 24 4 _ hino (by omega) (by norm_num) (by norm_num)]
        simp only [Nat.zero_div, Nat.reduceDiv, if_neg hidx]
        have hs : strncmp (fun j => if j < 4 then
            fs.data_blocks ((fs.inodes ino).data_block_num 0).toNat (j + 0 % 4096)
            else m.elf_magic j) ELF_MAGIC 4 = 0 := by
          have := (strncmp_elf_magic (fun j => if j < 4 then
            fs.data_blocks ((fs.inodes ino).data_block_num 0).toNat (j + 0 % 4096)
            else m.elf_magic j)).mpr
          apply this
          simpa [has_elf_magic, file_byte, BLOCK_SIZE] using hmagic
        have hne : ¬ (((4 : Nat) : Int) = -1 ∨ strncmp (fun j => if j < 4 then
            fs.data_blocks ((fs.inodes ino).data_block_num 0).toNat (j + 0 % 4096)
            else m.elf_magic j) ELF_MAGIC 4 ≠ 0) := by
          rw [hs]; simp
        simp only [if_neg hne]
        norm_num
      · have hcond : ¬ (ino < 62 ∧
            (0 ≤ (fs.inodes ino).data_block_num 0 ∧
              (fs.inodes ino).data_block_num 0 < fs.data_count) ∧
            has_elf_magic fs ino) := fun hc => hmagic hc.2.2
        rw [if_neg hcond]
        exact exec_file_check_not_elf fs name hname m d h (by rw [hu]; exact hl4)
          (by rw [hu]; exact hmagic)
  · rw [if_neg (fun hc => hino hc.1)]
    have hge : ino ≥ NUM_DIR_ENTRIES - 1 := by
      simp only [NUM_DIR_ENTRIES]
      omega
    have hr : (read_data fs ino 0 m.elf_magic 4).1 = -1 := by
      unfold read_data
      simp only [if_pos hge]
    unfold exec_file_check
    simp only [exec_file_check_lookup fs name hname, h, ELF_MAGIC_LEN, hu, hr, true_or, if_true]

/-- The copy loop of `exec_file_check` reads at most the first 32 bytes of the
command line. -/
theorem exec_file_check_copy_congr (c1 c2 : Nat → Nat) :
    ∀ (fuel i : Nat) (f : Nat → Nat), (∀ j : Nat, i ≤ j → j < 32 → c1 j = c2 j) →
      exec_file_check_copy c1 fuel i f = exec_file_check_copy c2 fuel i f := by
  intro fuel
  induction fuel with
  | zero => intro i f _; rfl
  | succ fuel ih =>
    intro i f h
    simp only [exec_file_check_copy, FILENAME_LEN]
    by_cases hi : i < 32
    · rw [h i (le_refl _) hi]
      split
      · exact ih (i + 1) _ (fun j h1 h2 => h j (by omega) h2)
      · rfl
    · have hc1 : ¬ (i < 32 ∧ c1 i ≠ 32 ∧ c1 i ≠ 0) := fun hc => hi hc.1
      have hc2 : ¬ (i < 32 ∧ c2 i ≠ 32 ∧ c2 i ≠ 0) := fun hc => hi hc.1
      rw [if_neg hc1, if_neg hc2]

/-- A program name longer than 32 characters is looked up as its first 32
characters. -/
theorem exec_file_check_truncates (fs : filesystem_t) (cmd : List Nat)
    (m : exec_file_check_mem) :
    exec_file_check fs (c_string cmd) m =
      exec_file_check fs (c_string ((program_name cmd).take 32)) m := by
  rw [exec_file_check_token]
  unfold exec_file_check
  rw [exec_file_check_copy_congr (c_string (program_name cmd))
    (c_string ((program_name cmd).take 32)) FILENAME_LEN 0 m.filename]
  intro j _ hj
  simp only [c_string, List.getD_eq_getElem?_getD, List.getElem?_take, if_pos hj]

theorem c_string_byte (l : List Nat) (h : ∀ c ∈ l, c < 256) (j : Nat) : c_string l j < 256 := by
  unfold c_string
  by_cases hj : j < l.length
  · rw [List.getD_eq_getElem _ _ hj]
    exact h _ (List.getElem_mem hj)
  · rw [List.getD_eq_default _ _ (by omega)]
    norm_num

/-- C27: `exec_file_check(command, ...)` on a directory of byte strings, the
first token of the command being a byte string.  For a token of at most 32
characters: when no directory entry has the token as its name the call
returns -1; when entry `i` is the first one with that name and its file has
at least the 28 bytes that hold the signature and the entry address, the call
returns 0 exactly when the inode number of the entry is below 62, the number
of the file's first data block is valid and the first four bytes of the file
are 0x7F 0x45 0x4C 0x46, the outputs then being entry `i` and the
little-endian value of the bytes 24..27 of the file, and it returns -1
otherwise.  A token of more than 32 characters is not rejected: the call does
what it does for the first 32 characters of the token. -/
theorem exec_file_check_accepts (fs : filesystem_t) (cmd : List Nat) (m : exec_file_check_mem)
    (hbytes : ∀ c ∈ program_name cmd, c < 256)
    (hdc : fs.dir_count < 2147483648) (hdir : dir_names_bytes fs) :
    ((program_name cmd).length ≤ 32 →
      (∀ i : Nat, first_entry_named fs (program_name cmd) i →
        28 ≤ (fs.inodes (to_uint32 (fs.direntries i).inode_num)).length →
        (fs.inodes (to_uint32 (fs.direntries i).inode_num)).length < 2147483648 →
        ((to_uint32 (fs.direntries i).inode_num < 62 ∧
            (0 ≤ (fs.inodes (to_uint32 (fs.direntries i).inode_num)).data_block_num 0 ∧
              (fs.inodes (to_uint32 (fs.direntries i).inode_num)).data_block_num 0 <
                fs.data_count) ∧
            has_elf_magic fs (to_uint32 (fs.direntries i).inode_num) →
          ∃ e : Nat → Nat,
            exec_file_check fs (c_string cmd) m = some (fs.direntries i, e) ∧
            le32 e = entry_point fs (to_uint32 (fs.direntries i).inode_num)) ∧
         (¬ (to_uint32 (fs.direntries i).inode_num < 62 ∧
            (0 ≤ (fs.inodes (to_uint32 (fs.direntries i).inode_num)).data_block_num 0 ∧
              (fs.inodes (to_uint32 (fs.direntries i).inode_num)).data_block_num 0 <
                fs.data_count) ∧
            has_elf_magic fs (to_uint32 (fs.direntries i).inode_num)) →
          exec_file_check fs (c_string cmd) m = none))) ∧
      ((∀ i : Nat, (i : Int) < fs.dir_count →
          ¬ entry_named (fs.direntries i) (program_name cmd)) →
        exec_file_check fs (c_string cmd) m = none)) ∧
    (32 < (program_name cmd).length →
      exec_file_check fs (c_string cmd) m =
        exec_file_check fs (c_string ((program_name cmd).take 32)) m) := by
  constructor
  · intro hlen
    have hname : ∀ c ∈ program_name cmd, c ≠ 0 ∧ c < 256 := by
      intro c hc
      have h1 := program_name_chars cmd c hc
      simp only [is_name_char, decide_eq_true_eq] at h1
      exact ⟨h1.2, hbytes c hc⟩
    obtain ⟨hfound, hnone⟩ := read_dentry_by_name_first fs (program_name cmd) (by omega) hdir
      hlen hname
    constructor
    · intro i hi h28 h31
      have hex := exec_file_check_found fs (program_name cmd) (program_name_chars cmd) m
        (fs.direntries i) (hfound i hi) h28 h31
      rw [exec_file_check_token, hex]
      constructor
      · intro hc
        rw [if_pos hc]
        exact ⟨_, rfl, le32_entry fs _ _⟩
      · intro hc
        rw [if_neg hc]
    · intro hno
      rw [exec_file_check_token]
      exact exec_file_check_not_found fs _ (program_name_chars cmd) m (hnone hno)
  · intro _
    exact exec_file_check_truncates fs cmd m

theorem demo_fs_names_bytes : dir_names_bytes demo_fs := by
  intro i j
  unfold demo_fs
  dsimp only
  split_ifs
  · exact c_string_byte _ (by decide) j
  · exact c_string_byte _ (by decide) j
  · exact c_string_byte _ (by decide) j
  · exact c_string_byte _ (by decide) j
  · exact c_string_byte _ (by decide) j
  · norm_num

theorem long_name_fs_names_bytes : dir_names_bytes long_name_fs := by
  intro i j
  unfold long_name_fs
  dsimp only
  split_ifs
  · exact c_string_byte _ (by decide) j
  · exact c_string_byte _ (by decide) j

/-- C27 on the example filesystems.  "ls x": the entry of "ls" is found, the
stale bytes in the uninitialised locals do not matter, and the entry address
is that of the image.  33 characters 'a' on the directory whose entry is 32
characters 'a': no entry has that name, and the call does what it does for 32
characters 'a', which succeeds.  "log", an empty file, with the signature of
an earlier call left in `elf_magic`: the call succeeds. -/
theorem exec_file_check_accepts_witness :
    (∃ e : Nat → Nat,
      exec_file_check demo_fs (c_string ls_arg_command) stale_mem =
        some (demo_fs.direntries 2, e) ∧
      le32 e = entry_point demo_fs 2) ∧
    (∀ i : Nat, ¬ entry_named (long_name_fs.direntries i) (List.replicate 33 97)) ∧
    exec_file_check long_name_fs (c_string (List.replicate 33 97)) zero_mem =
      exec_file_check long_name_fs (c_string name32) zero_mem ∧
    (exec_file_check long_name_fs (c_string name32) zero_mem).isSome = true ∧
    (demo_fs.inodes 4).length = 0 ∧
    (exec_file_check demo_fs (c_string log_command) stale_mem).isSome = true :=
  have h1 := exec_file_check_accepts demo_fs ls_arg_command stale_mem (by decide) (by decide)
    demo_fs_names_bytes
  have h2 := exec_file_check_accepts long_name_fs (List.replicate 33 97) zero_mem (by decide)
    (by decide) long_name_fs_names_bytes
  ⟨((h1.1 (by decide)).1 2 (by decide) (by decide) (by decide)).1
      ⟨by decide, by decide, by decide⟩,
    fun i h => absurd h.1 (by decide),
    h2.2 (by decide), by decide, by decide, by decide⟩


/-! ### The addresses of the PCBs and of the kernel stacks -/

/-- C32: for every pid in 0..5, `pidToPCB(pid)` is 8MB - 8KB * (pid + 1) + 256
and `pidToESP0(pid)` is 8MB - 8KB * pid (neither subtraction goes below zero),
so that `pidToPCB(0)` is `PCB1_POS` and `pidToPCB(1)` is `PCB2_POS`; every
byte of the PCB lies in the 8KB kernel-stack region of that pid, below its
`esp0`, and in the kernel page from 4MB to 8MB; and the PCBs of two different
pids do not overlap. -/
theorem pcb_positions (pid : Fin 6) :
    pidToPCB pid.val = 8388608 - 8192 * (pid.val + 1) + 256 ∧
    pidToPCB pid.val + 8192 * (pid.val + 1) = 8388608 + 256 ∧
    pidToESP0 pid.val = 8388608 - 8192 * pid.val ∧
    pidToESP0 pid.val + 8192 * pid.val = 8388608 ∧
    pidToPCB 0 = PCB1_POS ∧ pidToPCB 1 = PCB2_POS ∧
    (∀ a : Nat, pidToPCB pid.val ≤ a → a < pidToPCB pid.val + sizeof_pcb_t →
      pidToESP0 pid.val - KS_SIZE ≤ a ∧ a < pidToESP0 pid.val ∧
      pidToESP0 (pid.val + 1) ≤ a ∧
      MB_OFFSET ≤ a ∧ a < 2 * MB_OFFSET) ∧
    (∀ q : Fin 6, q ≠ pid →
      pidToPCB pid.val + sizeof_pcb_t ≤ pidToPCB q.val ∨
      pidToPCB q.val + sizeof_pcb_t ≤ pidToPCB pid.val) := by
  have hp := pid.isLt
  have e1 : ∀ n : Nat, pidToPCB n = 8388608 - 8192 * (n + 1) + 256 := fun _ => rfl
  have e2 : ∀ n : Nat, pidToESP0 n = 8388608 - 8192 * n := fun _ => rfl
  have e3 : PCB1_POS = 8388608 - 8192 + 256 := rfl
  have e4 : PCB2_POS = 8388608 - 8192 - 8192 + 256 := rfl
  have e5 : sizeof_pcb_t = 152 := rfl
  have e6 : KS_SIZE = 8192 := rfl
  have e7 : MB_OFFSET = 4194304 := rfl
  rw [e1 pid.val, e2 pid.val, e2 (pid.val + 1), e1 0, e1 1, e3, e4, e5, e6, e7]
  refine ⟨rfl, by omega, rfl, by omega, by omega, by omega, ?_, ?_⟩
  · intro a h1 h2
    omega
  · intro q hq
    have hq6 := q.isLt
    have hne : q.val ≠ pid.val := fun h => hq (Fin.ext h)
    rw [e1 q.val]
    omega

/-! ### The stores of exec_file_check to its name buffer -/

theorem exec_file_check_stores_spec (cmd : List Nat) :
    ∀ (fuel i : Nat), i ≤ (program_name cmd).length → i + fuel = 32 →
      exec_file_check_stores (c_string cmd) fuel i =
        List.range' i (min (program_name cmd).length 32 - i) ++
          [min (program_name cmd).length 32] := by
  intro fuel
  induction fuel with
  | zero =>
    intro i hi h32
    have : i = 32 := by omega
    subst this
    have hk : min (program_name cmd).length 32 = 32 := by omega
    simp [exec_file_check_stores, hk]
  | succ fuel ih =>
    intro i hi h32
    have hend := program_name_end cmd
    simp only [exec_file_check_stores]
    by_cases hc : i < FILENAME_LEN ∧ c_string cmd i ≠ 32 ∧ c_string cmd i ≠ 0
    · rw [if_pos hc]
      have hlt : i < (program_name cmd).length := by
        rcases Nat.eq_or_lt_of_le hi with h | h
        · exfalso
          obtain ⟨-, n1, n2⟩ := hc
          simp only [c_string, h] at n1 n2
          rcases hend with e | e
          · exact n1 e
          · exact n2 e
        · exact h
      rw [ih (i + 1) (by omega) (by omega)]
      have h32c : i < 32 := hc.1
      have hk : min (program_name cmd).length 32 - i =
          (min (program_name cmd).length 32 - (i + 1)) + 1 := by omega
      rw [hk, List.range'_succ]
      rfl
    · rw [if_neg hc]
      have hi32 : i < FILENAME_LEN := by simp only [FILENAME_LEN]; omega
      have heq : i = (program_name cmd).length := by
        rcases Nat.eq_or_lt_of_le hi with h | h
        · exact h
        · exfalso
          apply hc
          have hmem : (program_name cmd).getD i 0 ∈ program_name cmd := by
            rw [List.getD_eq_getElem _ _ h]
            exact List.getElem_mem h
          have hch := program_name_chars cmd _ hmem
          have he : c_string cmd i = (program_name cmd).getD i 0 := by
            simp only [c_string, program_name]
            exact (takeWhile_getD _ _ _ h).symm
          rw [he]
          simp only [is_name_char, decide_eq_true_eq] at hch
          exact ⟨hi32, hch⟩
      have hk : min (program_name cmd).length 32 = i := by
        simp only [FILENAME_LEN] at hi32; omega
      rw [hk]
      simp

/-- C38: the indices at which `exec_file_check` stores to its 32-byte local
array `filename`, for a command whose first token has `n` characters: the
copy loop stores at 0, 1, .. up to `min n 32` (exclusive) and the terminating
NUL is stored at index `min n 32`, the index that the function's model uses.
Every store is at an index below `FILENAME_LEN` exactly when the token has
fewer than 32 characters: for a token of 32 characters, such as a file name of
the full length, or a longer one, the NUL is stored at index 32, one past the
array. -/
theorem exec_file_check_store_indices (cmd : List Nat) (f : Nat → Nat) :
    exec_file_check_stores (c_string cmd) FILENAME_LEN 0 =
      List.range (min (program_name cmd).length 32) ++ [min (program_name cmd).length 32] ∧
    (exec_file_check_copy (c_string cmd) FILENAME_LEN 0 f).1 =
      min (program_name cmd).length 32 ∧
    ((∀ i ∈ exec_file_check_stores (c_string cmd) FILENAME_LEN 0, i < FILENAME_LEN) ↔
      (program_name cmd).length < 32) ∧
    32 ∈ exec_file_check_stores (c_string name32) FILENAME_LEN 0 := by
  have h := exec_file_check_stores_spec cmd 32 0 (Nat.zero_le _) (by norm_num)
  have hr : List.range' 0 (min (program_name cmd).length 32 - 0) =
      List.range (min (program_name cmd).length 32) := by
    rw [Nat.sub_zero, List.range_eq_range']
  rw [hr] at h
  change exec_file_check_stores (c_string cmd) FILENAME_LEN 0 = _ at h
  have h32 := exec_file_check_stores_spec name32 32 0 (Nat.zero_le _) (by norm_num)
  refine ⟨h, ?_, ?_, ?_⟩
  · have hs := exec_file_check_copy_spec (c_string cmd) 32 0 f (by norm_num) (by norm_num)
    obtain ⟨-, hle, hcopy, -, hstop⟩ := hs
    have hend := program_name_end cmd
    simp only [FILENAME_LEN]
    generalize (exec_file_check_copy (c_string cmd) 32 0 f).1 = k at hle hcopy hstop
    have hk1 : k ≤ (program_name cmd).length := by
      by_contra hgt
      have hgt : (program_name cmd).length < k := by omega
      have := (hcopy _ (Nat.zero_le _) hgt).2
      simp only [c_string] at this
      rcases hend with e | e
      · exact this.1 e
      · exact this.2 e
    have hk2 : k < 32 → (program_name cmd).length ≤ k := by
      intro hlt
      by_contra hgt
      have hgt : k < (program_name cmd).length := by omega
      have hmem : (program_name cmd).getD k 0 ∈ program_name cmd := by
        rw [List.getD_eq_getElem _ _ hgt]
        exact List.getElem_mem hgt
      have hch := program_name_chars cmd _ hmem
      have he : c_string cmd k = (program_name cmd).getD k 0 := by
        simp only [c_string, program_name]
        exact (takeWhile_getD _ _ _ hgt).symm
      simp only [is_name_char, decide_eq_true_eq] at hch
      rw [← he] at hch
      rcases hstop hlt with e | e
      · exact hch.1 e
      · exact hch.2 e
    omega
  · change (∀ i ∈ exec_file_check_stores (c_string cmd) FILENAME_LEN 0, i < 32) ↔ _
    rw [h]
    simp only [List.mem_append, List.mem_range, List.mem_singleton]
    constructor
    · intro hall
      have := hall (min (program_name cmd).length 32) (Or.inr rfl)
      omega
    · intro hlt i hi
      rcases hi with hi | hi <;> omega
  · change 32 ∈ exec_file_check_stores (c_string name32) 32 0
    rw [h32]
    simp only [List.mem_append, List.mem_singleton]
    right
    decide


/-! ### What a successful execute leaves -/

/-- What `exec_file_check` stores at `prog_eip` when it succeeds on a file of
at least 28 bytes: the entry address of that file. -/
theorem exec_file_check_entry (fs : filesystem_t) (command : Nat → Nat)
    (m : exec_file_check_mem) (d : dentry_t) (e : Nat → Nat)
    (h : exec_file_check fs command m = some (d, e))
    (hlen : 28 ≤ (fs.inodes (to_uint32 d.inode_num)).length)
    (h31 : (fs.inodes (to_uint32 d.inode_num)).length < 2147483648) :
    le32 e = entry_point fs (to_uint32 d.inode_num) := by
  have key : ∀ x : Int, 28 ≤ x → x < 2147483648 → to_uint32 x = x.toNat := by
    intro x h1 h2
    unfold to_uint32
    omega
  unfold exec_file_check at h
  dsimp only at h
  generalize read_dentry_by_name fs _ = r at h
  cases r with
  | none => simp at h
  | some d1 =>
    simp only at h
    split at h
    · simp at h
    · rename_i h1
      split at h
      · simp at h
      · rename_i h2
        simp only [Option.some.injEq, Prod.mk.injEq] at h
        obtain ⟨hd, he⟩ := h
        subst hd
        have hl := key _ hlen h31
        generalize hu : to_uint32 d1.inode_num = ino at hlen h31 hl h1 h2 he ⊢
        have hino : ino < 62 := by
          by_contra hge
          apply h1
          left
          unfold read_data
          rw [if_pos (by simp only [NUM_DIR_ENTRIES]; omega)]
        simp only [PROG_EIP_START_BYTE] at h2 he
        rw [read_data_within_block fs _ 24 4 _ hino (by omega) (by norm_num) (by norm_num)]
          at h2 he
        by_cases hidx : (fs.inodes ino).data_block_num (24 / 4096) < 0 ∨
            (fs.inodes ino).data_block_num (24 / 4096) ≥ fs.data_count
        · rw [if_pos hidx] at h2
          exact absurd rfl h2
        · rw [if_neg hidx] at he
          rw [← he]
          simp [le32, entry_point, file_byte, PROG_EIP_START_BYTE, BLOCK_SIZE]

/-- Every `execute` call that enters user mode, for a command that fits the
buffers of `parseCmd`: the slot is the one that `find_avail_pid` finds, the
entry address is the value that the `exec_file_check` call of `load_program`
stored, and the state is `execute_post`. -/
theorem execute_user_mode (s : kernel_state) (cmd : List Nat) (f : execute_frame)
    (eip esp : Nat) (hfit : fits_buffers cmd)
    (h : (syscall_execute s cmd f).1 = outcome.user_mode eip esp) :
    ∃ (k : Fin 6) (d : dentry_t) (e : Nat → Nat),
      (find_avail_pid s.pcb_arr).1 = (k.val : Int) ∧
      exec_file_check s.filesystem (c_string (program_name cmd)) f.load_mem = some (d, e) ∧
      eip = le32 e ∧ esp = 0x08400000 ∧
      (syscall_execute s cmd f).2 = execute_post s cmd f k (le32 e) := by
  unfold syscall_execute at h ⊢
  simp only [parseCmd_fits cmd hfit] at h ⊢
  cases hc : exec_file_check s.filesystem (c_string (program_name cmd)) f.check_mem with
  | none =>
    simp only [hc] at h
    exact absurd h (by simp)
  | some x =>
    simp only [hc] at h ⊢
    rcases find_avail_pid_range s.pcb_arr with h1 | ⟨k, hk⟩
    · simp only [h1, if_true] at h
      exact absurd h (by simp)
    · have hk6 := k.isLt
      have hne : ¬ ((k.val : Int) = -1) := by omega
      have hk2 : (find_avail_pid (find_avail_pid s.pcb_arr).2).1 = (k.val : Int) := by
        apply find_avail_pid_flags s.pcb_arr _ k _ hk
        intro j
        rw [find_avail_pid_some _ k hk]
        by_cases hj : j = k
        · subst hj; simp
        · rw [Function.update_noteq hj]
      have hr : 0 ≤ (k.val : Int) ∧ (k.val : Int) < 6 := by omega
      have hfin : (⟨(k.val : Int).toNat, by omega⟩ : Fin 6) = k := by
        apply Fin.ext; simp
      simp only [hk, if_neg hne, create_pcb_of_find _ _ _ _ k hk2, point_curr_pcb, dif_pos hr,
        hfin] at h ⊢
      unfold load_program at h ⊢
      simp only at h ⊢
      cases hl : exec_file_check s.filesystem (c_string (program_name cmd)) f.load_mem with
      | none =>
        simp only [hl, if_true] at h
        exact absurd h (by simp)
      | some x1 =>
        obtain ⟨d, e⟩ := x1
        simp only [hl] at h ⊢
        split at h
        · exact absurd h (by simp)
        · rename_i hrd
          rw [if_neg hrd]
          have h0 : ¬ ((0 : Int) = -1) := by decide
          simp only [if_neg h0, outcome.user_mode.injEq] at h ⊢
          refine ⟨k, d, e, rfl, rfl, h.1.symm, h.2.symm, ?_⟩
          simp only [to_uint8_fin, find_avail_pid_some _ k hk, execute_post]
          congr 1
          · simp only [Function.update_same, Function.update_idem]
            by_cases hcp : s.curr_pcb = k
            · rw [hcp, Function.update_same]
              simp only [if_true]
            · rw [Function.update_noteq hcp]
              simp only [if_neg hcp]
          · simp

/-- C31: an `execute` call that enters user mode at `eip`, for a command that
fits the buffers of `parseCmd`, issued while the terminal is not initialised or
while the current PCB is a live slot.  It allocates the lowest free slot `i`,
sets its `parent_id` to -1 if the terminal was not initialised and to the
`process_id` of the previously current PCB otherwise, marks the terminal
initialised, makes slot `i` the current PCB, sets `page_directory[32]` to
(8MB + 4MB * i) | 0x197, stores `eip` in `saved_eip`, and sets `tss.esp0` to
8MB - 8KB * i and `tss.ss0` to `KERNEL_DS`; `eip` is the value that the file
check of the loader read from the image `d`, which is the entry address in
bytes 24..27 of that image when the image has them. -/
theorem execute_success_effect (s : kernel_state) (cmd : List Nat) (f : execute_frame)
    (eip esp : Nat) (hfit : fits_buffers cmd)
    (h : (syscall_execute s cmd f).1 = outcome.user_mode eip esp)
    (hlive : (s.terminal_arr s.curr_terminal).initialized ≠ 0 →
      (s.pcb_arr s.curr_pcb).available ≠ 1) :
    ∃ i : Fin 6,
      ((s.pcb_arr i).available = 1 ∧ ∀ j : Fin 6, j.val < i.val → (s.pcb_arr j).available ≠ 1) ∧
      ((syscall_execute s cmd f).2.pcb_arr i).available = 0 ∧
      ((syscall_execute s cmd f).2.pcb_arr i).process_id = (i.val : Int) ∧
      ((syscall_execute s cmd f).2.pcb_arr i).parent_id =
        (if (s.terminal_arr s.curr_terminal).initialized = 0 then -1
         else (s.pcb_arr s.curr_pcb).process_id) ∧
      (syscall_execute s cmd f).2.curr_terminal = s.curr_terminal ∧
      ((syscall_execute s cmd f).2.terminal_arr s.curr_terminal).initialized = 1 ∧
      (syscall_execute s cmd f).2.curr_pcb = i ∧
      (syscall_execute s cmd f).2.page_directory ⟨32, by norm_num⟩ =
        (8388608 + 4194304 * i.val) ||| 0x197 ∧
      ((syscall_execute s cmd f).2.pcb_arr i).saved_eip = eip ∧
      (syscall_execute s cmd f).2.tss_esp0 = 8388608 - 8192 * i.val ∧
      (syscall_execute s cmd f).2.tss_ss0 = KERNEL_DS ∧
      (∀ j : Fin 6, j ≠ i → (syscall_execute s cmd f).2.pcb_arr j = s.pcb_arr j) ∧
      ∃ (d : dentry_t) (e : Nat → Nat),
        exec_file_check s.filesystem (c_string (program_name cmd)) f.load_mem = some (d, e) ∧
        eip = le32 e ∧
        (28 ≤ (s.filesystem.inodes (to_uint32 d.inode_num)).length →
          (s.filesystem.inodes (to_uint32 d.inode_num)).length < 2147483648 →
          eip = entry_point s.filesystem (to_uint32 d.inode_num)) := by
  obtain ⟨k, d, e, hk, hl, heip, -, hst⟩ := execute_user_mode s cmd f eip esp hfit h
  have hlow := ((find_avail_pid_spec s.pcb_arr).1 k).mp hk
  refine ⟨k, ⟨hlow.1, hlow.2⟩, ?_⟩
  rw [hst]
  refine ⟨?_, ?_, ?_, rfl, ?_, rfl, ?_, ?_, rfl, rfl, ?_, ?_⟩
  · simp only [execute_post, Function.update_same]
  · simp only [execute_post, Function.update_same]
  · simp only [execute_post, Function.update_same]
    by_cases hin : (s.terminal_arr s.curr_terminal).initialized = 0
    · rw [if_pos hin, if_pos hin]
    · rw [if_neg hin, if_neg hin]
      have hne : s.curr_pcb ≠ k := by
        intro hck
        apply hlive hin
        rw [hck]
        exact hlow.1
      rw [if_neg hne]
  · simp only [execute_post, Function.update_same]
  · simp only [execute_post, Function.update_same]
    exact user_prog_pde_fin k
  · simp only [execute_post, Function.update_same]
    exact heip.symm
  · intro j hj
    simp only [execute_post]
    rw [Function.update_noteq hj]
  · exact ⟨d, e, hl, heip, fun h28 h31 => by
      rw [heip]
      exact exec_file_check_entry _ _ _ d e hl h28 h31⟩

set_option maxRecDepth 10000 in
/-- C31 at "ls x" started by the shell of the example filesystem: slot 1 is
allocated with parent 0, the program window is 12MB | 0x197, `esp0` is
8MB - 8KB, and user mode is entered at the entry address of "ls". -/
theorem execute_success_effect_witness :
    (syscall_execute shell_state ls_arg_command (demo_frame 3 4)).1 =
      outcome.user_mode 0x080480B4 0x08400000 ∧
    ((syscall_execute shell_state ls_arg_command (demo_frame 3 4)).2.pcb_arr 1).parent_id = 0 ∧
    (syscall_execute shell_state ls_arg_command (demo_frame 3 4)).2.curr_pcb = 1 ∧
    (syscall_execute shell_state ls_arg_command (demo_frame 3 4)).2.page_directory
      ⟨32, by norm_num⟩ = 0xC00197 ∧
    ((syscall_execute shell_state ls_arg_command (demo_frame 3 4)).2.pcb_arr 1).saved_eip =
      0x080480B4 ∧
    (syscall_execute shell_state ls_arg_command (demo_frame 3 4)).2.tss_esp0 = 0x7FE000 ∧
    entry_point demo_fs 2 = 0x080480B4 ∧
    ∃ i : Fin 6, (shell_state.pcb_arr i).available = 1 ∧
      ((syscall_execute shell_state ls_arg_command (demo_frame 3 4)).2.pcb_arr i).saved_eip =
        0x080480B4 :=
  have h := execute_success_effect shell_state ls_arg_command (demo_frame 3 4) 0x080480B4
    0x08400000 (by decide) (by decide) (by decide)
  ⟨by decide, by decide, by decide, by decide, by decide, by decide, by decide,
    h.elim fun i hi => ⟨i, hi.1.1, hi.2.2.2.2.2.2.2.2.1⟩⟩


/-! ### A terminal switch when no slot is free -/

/-- An `execute` call made while no slot is available returns -1 and changes
`arg_buf` only. -/
theorem execute_no_free_slot (s : kernel_state) (cmd : List Nat) (f : execute_frame)
    (hfit : fits_buffers cmd) (hfull : ∀ j : Fin 6, (s.pcb_arr j).available ≠ 1) :
    syscall_execute s cmd f =
      (outcome.returned (-1), { s with arg_buf := c_string (argument_string cmd) }) := by
  cases hc : exec_file_check s.filesystem (c_string (program_name cmd)) f.check_mem with
  | none => exact execute_check_fails s cmd f hfit hc
  | some x => exact execute_no_slot s cmd f hfit x hc hfull

/-- C37 fails when the target terminal has no session and no slot is free:
`run_terminal_process(t)` for a terminal `t` other than the running one whose
record is as `init_terminals` left it (`initialized` 0, `curr_pcb` `NULL`),
called while all six slots are taken.  The `execute("shell")` call returns -1
without having created a process, and the function goes on to read
`target_terminal_pcb->process_id` through the `NULL` pointer of the record: no
live PCB becomes current. -/
theorem run_terminal_process_no_slot (s : kernel_state) (t : Fin 3)
    (curr_ebp curr_esp : Nat) (f : execute_frame)
    (hcur : t ≠ s.curr_terminal)
    (hinit : (s.terminal_arr t).initialized = 0)
    (hnull : (s.terminal_arr t).curr_pcb = none)
    (hfull : ∀ j : Fin 6, (s.pcb_arr j).available ≠ 1) :
    (run_terminal_process s (t.val : Int) curr_ebp curr_esp f).1 = outcome.fault ∧
    (run_terminal_process s (t.val : Int) curr_ebp curr_esp f).2.curr_terminal = t ∧
    ((run_terminal_process s (t.val : Int) curr_ebp curr_esp f).2.terminal_arr t).curr_pcb =
      none ∧
    (run_terminal_process s (t.val : Int) curr_ebp curr_esp f).2.pcb_arr = s.pcb_arr := by
  have ht := t.isLt
  have h3 : 0 ≤ (t.val : Int) ∧ (t.val : Int) < 3 := by omega
  have hfin : (⟨(t.val : Int).toNat, by omega⟩ : Fin 3) = t := by
    apply Fin.ext; simp
  unfold run_terminal_process
  rw [dif_pos h3]
  generalize hT : (⟨(t.val : Int).toNat, _⟩ : Fin 3) = T
  have hTt : T = t := by rw [← hT]; exact hfin
  subst hTt
  simp only [Function.update_noteq hcur, hinit, if_true]
  have hex : ∀ S : kernel_state, S.pcb_arr = s.pcb_arr →
      syscall_execute S shell_command f =
        (outcome.returned (-1), { S with arg_buf := c_string (argument_string shell_command) }) := by
    intro S hS
    exact execute_no_free_slot S shell_command f (by decide) (by rw [hS]; exact hfull)
  rw [hex]
  swap
  · rfl
  simp only [Function.update_noteq hcur, hnull]
  refine ⟨?_, ?_, ?_, ?_⟩ <;> first | rfl | trivial

theorem shells_state_reachable : ∀ n : Nat, n ≤ 6 → kernel_reachable (shells_state n) := by
  intro n
  induction n with
  | zero => intro _; exact kernel_reachable.boot _ rfl rfl (fun _ => rfl)
  | succ n ih =>
    intro hn
    have hr := ih (by omega)
    apply kernel_reachable.execute _ shell_command (demo_frame 1 2) hr
    have : n = 0 ∨ n = 1 ∨ n = 2 ∨ n = 3 ∨ n = 4 ∨ n = 5 := by omega
    rcases this with h | h | h | h | h | h <;> subst h <;> decide

set_option maxRecDepth 10000 in
/-- C37 evaluated: six nested shells run in terminal 0, a state the kernel
reaches by six `execute` calls; terminal 1 has never been used.  A switch to
terminal 1 then dereferences the `NULL` in the record of terminal 1, both
through `run_terminal_process(1)` and through `switch_terminal(1)`. -/
theorem run_terminal_process_no_slot_witness :
    kernel_reachable (shells_state 6) ∧
    (∀ j : Fin 6, ((shells_state 6).pcb_arr j).available ≠ 1) ∧
    ((shells_state 6).terminal_arr 1).initialized = 0 ∧
    (run_terminal_process (shells_state 6) 1 21 22 (demo_frame 5 6)).1 = outcome.fault ∧
    (switch_terminal (shells_state 6) 1 21 22 (demo_frame 5 6)).1 = outcome.fault :=
  ⟨shells_state_reachable 6 (le_refl _), by decide, by decide,
    (run_terminal_process_no_slot (shells_state 6) 1 21 22 (demo_frame 5 6) (by decide)
      (by decide) (by decide) (by decide)).1,
    by decide⟩


/-! ### getargs and the execute calls of other processes -/

theorem load_program_arg_buf (s : kernel_state) (command : Nat → Nat) (m : exec_file_check_mem) :
    (load_program s command m).2.1.arg_buf = s.arg_buf := by
  unfold load_program
  split
  · rfl
  · dsimp only
    split <;> rfl

theorem point_curr_pcb_arg_buf (s : kernel_state) (pcbx : Int) :
    (point_curr_pcb s pcbx).2.arg_buf = s.arg_buf := by
  unfold point_curr_pcb
  split <;> rfl

/-- Every `execute` call whose command fits the buffers of `parseCmd` leaves
the argument string of that command in `arg_buf`, whether it starts a process
or not. -/
theorem execute_arg_buf (s : kernel_state) (cmd : List Nat) (f : execute_frame)
    (hfit : fits_buffers cmd) :
    (syscall_execute s cmd f).2.arg_buf = c_string (argument_string cmd) := by
  unfold syscall_execute
  simp only [parseCmd_fits cmd hfit]
  split
  · rfl
  · try dsimp only
    split
    · rfl
    · try dsimp only
      split
      · rfl
      · try dsimp only
        split
        · rw [load_program_arg_buf, point_curr_pcb_arg_buf]
        · change (load_program _ _ _).2.1.arg_buf = _
          rw [load_program_arg_buf, point_curr_pcb_arg_buf]

/-- The `halt` of a process with a parent does not write `arg_buf`. -/
theorem halt_arg_buf (s : kernel_state) (arg1 fuel : Nat) (frames : Nat → execute_frame)
    (hcall : fds_callable (s.pcb_arr s.curr_pcb).file_desc)
    (hpar : (s.pcb_arr s.curr_pcb).parent_id ≠ -1) :
    (syscall_halt s arg1 fuel frames).2.arg_buf = s.arg_buf := by
  unfold syscall_halt
  simp only [halt_close_loop_all s hcall, clear_pid_parent_id, Function.update_same,
    with_file_desc, if_neg hpar, point_curr_pcb_arg_buf]

/-- C36 (amended): `getargs` hands out the argument string of the most recent
`execute` call, whichever process made it and whether it started a process or
failed.  Every `execute` call whose command fits the buffers of `parseCmd`
leaves the argument string of its command in the one global `arg_buf`; the
result of `getargs` and the bytes it copies are those of `arg_buf`, so that two
runs whose latest `execute` calls carry the same argument string give the
caller the same result and the same bytes; and the `halt` of a process with a
parent leaves `arg_buf` as it is, so that the parent then reads the argument
string of the latest call, not its own. -/
theorem getargs_latest_execute (s s1 : kernel_state) (cmd cmd1 : List Nat)
    (f f1 : execute_frame) (buf n : Nat)
    (hfit : fits_buffers cmd) (hfit1 : fits_buffers cmd1)
    (hargs : argument_string cmd = argument_string cmd1) (hn : n ≤ 128) :
    (syscall_execute s cmd f).2.arg_buf = c_string (argument_string cmd) ∧
    (syscall_getargs (syscall_execute s cmd f).2 buf n).1 =
      (syscall_getargs (syscall_execute s1 cmd1 f1).2 buf n).1 ∧
    ((syscall_getargs (syscall_execute s cmd f).2 buf n).1 = outcome.returned 0 →
      ∀ i : Nat, i < n →
        (syscall_getargs (syscall_execute s cmd f).2 buf n).2.mem (buf + i) =
          c_string (argument_string cmd) i ∧
        (syscall_getargs (syscall_execute s1 cmd1 f1).2 buf n).2.mem (buf + i) =
          c_string (argument_string cmd) i) ∧
    (∀ (t : kernel_state) (status fuel : Nat) (frames : Nat → execute_frame),
      fds_callable (t.pcb_arr t.curr_pcb).file_desc →
      (t.pcb_arr t.curr_pcb).parent_id ≠ -1 →
      (syscall_halt t status fuel frames).2.arg_buf = t.arg_buf) := by
  have h1 := execute_arg_buf s cmd f hfit
  have h2 := execute_arg_buf s1 cmd1 f1 hfit1
  rw [← hargs] at h2
  have hn2 : ¬ (n > MAX_BUF_SIZE) := by simp only [MAX_BUF_SIZE]; omega
  refine ⟨h1, ?_, ?_, fun t status fuel frames hc hp => halt_arg_buf t status fuel frames hc hp⟩
  · unfold syscall_getargs
    rw [h1, h2]
    by_cases hc : buf = 0 ∨ as_int8 (c_string (argument_string cmd) 0) = 0
    · rw [if_pos hc, if_pos hc]
    · rw [if_neg hc, if_neg hc, if_neg hn2, if_neg hn2]
  · intro h0 i hi
    unfold syscall_getargs at h0 ⊢
    rw [h1] at h0
    rw [h1, h2]
    by_cases hc : buf = 0 ∨ as_int8 (c_string (argument_string cmd) 0) = 0
    · rw [if_pos hc] at h0
      exact absurd h0 (by simp)
    · rw [if_neg hc, if_neg hc, if_neg hn2, if_neg hn2]
      simp [mem_copy_in, memcpy, hi]

set_option maxRecDepth 10000 in
/-- The amended C36 at "ls x" started from the boot state and from the shell:
in both runs `getargs` copies "x". -/
theorem getargs_latest_execute_witness :
    fits_buffers ls_arg_command ∧
    (syscall_getargs (syscall_execute (fresh_state demo_fs) ls_arg_command (demo_frame 1 2)).2
      134512896 1).1 = outcome.returned 0 ∧
    (syscall_getargs (syscall_execute (fresh_state demo_fs) ls_arg_command (demo_frame 1 2)).2
      134512896 1).2.mem 134512896 = 120 ∧
    (syscall_getargs (syscall_execute shell_state ls_arg_command (demo_frame 3 4)).2
      134512896 1).2.mem 134512896 = 120 :=
  have h := getargs_latest_execute (fresh_state demo_fs) shell_state ls_arg_command
    ls_arg_command (demo_frame 1 2) (demo_frame 3 4) 134512896 1 (by decide) (by decide) rfl
    (by decide)
  have h0 : (syscall_getargs
      (syscall_execute (fresh_state demo_fs) ls_arg_command (demo_frame 1 2)).2
      134512896 1).1 = outcome.returned 0 := by decide
  ⟨by decide, h0, (h.2.2.1 h0 0 (by decide)).1, (h.2.2.1 h0 0 (by decide)).2⟩

set_option maxRecDepth 10000 in
/-- C36 as stated fails.  The shell of slot 0 is created with the arguments
"1234 9876" and starts "ls" (slot 1).  In run A "ls" halts at once; in run B
"ls" first calls `execute("badprog q")`, which fails, and then halts.  The two
runs differ only in that `execute` call of "ls", made after the shell was
created, and in both the shell of slot 0 runs again; yet its `getargs` call
returns -1 in run A and copies "q" in run B, and in neither run does it get
"1234 9876". -/
theorem getargs_other_process_counterexample :
    argument_string shell_args_command = [49, 50, 51, 52, 32, 57, 56, 55, 54] ∧
    args_run_a.curr_pcb = 0 ∧ args_run_b.curr_pcb = 0 ∧
    (syscall_execute args_child_state badprog_q_command (demo_frame 5 6)).1 =
      outcome.returned (-1) ∧
    (syscall_getargs args_run_a 134512896 9).1 = outcome.returned (-1) ∧
    (syscall_getargs args_run_b 134512896 9).1 = outcome.returned 0 ∧
    (syscall_getargs args_run_b 134512896 9).2.mem 134512896 = 113 ∧
    (syscall_getargs args_run_a 134512896 9).2.mem 134512896 = 0 :=
  ⟨by decide, by decide, by decide, by decide, by decide, by decide, by decide, by decide⟩


/-! ### terminal_read -/

theorem terminal_read_loop_skip (k : keyboard_t) (t : Fin 3) (rb : Int) :
    ∀ (fuel i : Nat) (st : (Nat → Nat) × Nat), rb ≤ (i : Int) →
      terminal_read_loop k t rb fuel i st = some st := by
  intro fuel
  induction fuel with
  | zero => intro i st _; rfl
  | succ fuel ih =>
    intro i st h
    obtain ⟨temp, counter⟩ := st
    simp only [terminal_read_loop]
    have h1 : ¬ ((i : Int) < rb) := by omega
    rw [if_neg h1]
    split
    · exact ih (i + 1) _ (by push_cast; omega)
    · rfl

/-- The loop of `terminal_read` copies the first `min length read_bytes`
characters of the line, from `head` on and around the end of the buffer, to
the start of `temp`. -/
theorem terminal_read_loop_copy (k : keyboard_t) (t : Fin 3) (rb : Int)
    (hhead : 0 ≤ k.keyboard_buffer_head t) (hrb : 0 ≤ rb) :
    ∀ (fuel i : Nat) (temp : Nat → Nat), i + fuel = (k.length t).toNat →
      i ≤ min (k.length t).toNat rb.toNat →
      terminal_read_loop k t rb fuel i (temp, i) =
        some (fun j => if i ≤ j ∧ j < min (k.length t).toNat rb.toNat then
            k.keyboard_buffer t ((k.keyboard_buffer_head t + (j : Int)) % 128).toNat
          else temp j,
          min (k.length t).toNat rb.toNat) := by
  intro fuel
  induction fuel with
  | zero =>
    intro i temp h1 h2
    have hm : min (k.length t).toNat rb.toNat = i := by omega
    simp only [terminal_read_loop, hm, Option.some.injEq, Prod.mk.injEq, and_true]
    funext j
    rw [if_neg (by omega)]
  | succ fuel ih =>
    intro i temp h1 h2
    have hlt : (i : Int) < k.length t := by omega
    simp only [terminal_read_loop, if_pos hlt]
    by_cases hr : (i : Int) < rb
    · have hidx : (k.keyboard_buffer_head t + (i : Int)).tmod (KEYBOARD_BUFFER_SIZE : Int) =
          (k.keyboard_buffer_head t + (i : Int)) % 128 := by
        simp only [KEYBOARD_BUFFER_SIZE]
        exact Int.tmod_eq_emod (by omega) (by norm_num)
      have hnn : 0 ≤ (k.keyboard_buffer_head t + (i : Int)) % 128 := by omega
      rw [if_pos hr, hidx, if_pos hnn]
      rw [ih (i + 1) _ (by omega) (by omega)]
      simp only [Option.some.injEq, Prod.mk.injEq, and_true]
      funext j
      by_cases hj : j = i
      · subst hj
        rw [if_neg (by omega), if_pos (by omega), Function.update_same]
      · rw [Function.update_noteq hj]
        by_cases hc : i + 1 ≤ j ∧ j < min (k.length t).toNat rb.toNat
        · rw [if_pos hc, if_pos (by omega)]
        · rw [if_neg hc, if_neg (by omega)]
    · rw [if_neg hr]
      have hm : min (k.length t).toNat rb.toNat = i := by omega
      rw [terminal_read_loop_skip k t rb fuel (i + 1) _ (by push_cast; omega), hm]
      simp only [Option.some.injEq, Prod.mk.injEq, and_true]
      funext j
      rw [if_neg (by omega)]

/-- C39, what the code does: `terminal_read(fd, buf, nbytes)` with
`nbytes > 0`, a pending input line (`enter_flag` set) and `head` not negative.
It returns the count `c = min(length, min(nbytes, 128))`, which is between 0
and `min(nbytes, 128)`, and `buf[0..c)` holds the first `c` characters of the
line.  For `nbytes >= 128` it writes 128 bytes of `buf`.  For `nbytes <= 127`
it writes `nbytes + 1` bytes: byte `nbytes` of `buf`, the first byte after the
`nbytes` bytes that the caller offered, is overwritten with 0 or with a
newline. -/
theorem terminal_read_extent (k : keyboard_t) (t : Fin 3) (buf : Nat → Nat) (nbytes : Int)
    (hpos : 0 < nbytes) (hflag : k.enter_flag t ≠ 0) (hhead : 0 ≤ k.keyboard_buffer_head t) :
    ∃ (c : Nat) (k1 : keyboard_t) (b : Nat → Nat),
      terminal_read k t buf nbytes = terminal_read_result.returned (c : Int) k1 b ∧
      c = min (k.length t).toNat (min nbytes 128).toNat ∧
      (c : Int) ≤ min nbytes 128 ∧
      (∀ j : Nat, j < c →
        b j = k.keyboard_buffer t ((k.keyboard_buffer_head t + (j : Int)) % 128).toNat) ∧
      (nbytes ≤ 127 →
        (b nbytes.toNat = 0 ∨ b nbytes.toNat = 10) ∧
        (∀ j : Nat, c < j → j < nbytes.toNat → b j = 0) ∧
        (∀ j : Nat, nbytes.toNat < j → b j = buf j)) ∧
      (128 ≤ nbytes → ∀ j : Nat, 128 ≤ j → b j = buf j) := by
  have h0 : ¬ (nbytes = 0) := by omega
  have hT1 : ∀ (C : Prop) [Decidable C] (T : Nat → Nat) (m j : Nat), j ≠ m →
      (if C then Function.update T m 10 else T) j = T j := by
    intro C _ T m j hj
    split
    · exact Function.update_noteq hj _ _
    · rfl
  have hT2 : ∀ (C : Prop) [Decidable C] (T : Nat → Nat) (m : Nat),
      (if C then Function.update T m 10 else T) m = 10 ∨
      (if C then Function.update T m 10 else T) m = T m := by
    intro C _ T m
    split
    · left; exact Function.update_same _ _ _
    · right; rfl
  unfold terminal_read
  rw [if_neg h0]
  by_cases hsmall : nbytes ≤ 127
  · simp only [if_pos hsmall]
    have hbs : ¬ (nbytes + 1 ≤ 0) := by omega
    have hfl : ¬ (k.enter_flag t = 0) := hflag
    rw [if_neg hbs, if_neg hfl]
    rw [terminal_read_loop_copy k t nbytes hhead (by omega) _ 0 _ (by omega) (Nat.zero_le _)]
    have hmin : (min nbytes 128).toNat = nbytes.toNat := by omega
    rw [hmin]
    generalize hm : min (k.length t).toNat nbytes.toNat = m
    simp only
    refine ⟨m, _, _, rfl, rfl, by omega, ?_, ?_, ?_⟩
    · intro j hj
      have hj2 : j < (nbytes + 1).toNat := by omega
      simp only [memcpy, if_pos hj2]
      rw [hT1 _ _ _ _ (by omega)]
      simp only [Nat.zero_le, true_and, if_pos hj]
    · intro _
      refine ⟨?_, ?_, ?_⟩
      · have hj2 : nbytes.toNat < (nbytes + 1).toNat := by omega
        simp only [memcpy, if_pos hj2]
        by_cases hmn : nbytes.toNat = m
        · rw [hmn]
          rcases hT2 ((m : Int) = nbytes ∧
              as_int8 ((fun j => if 0 ≤ j ∧ j < m then
                k.keyboard_buffer t ((k.keyboard_buffer_head t + (j : Int)) % 128).toNat
                else 0) (m - 1)) ≠ 10 ∧ m ≠ KEYBOARD_BUFFER_SIZE)
            (fun j => if 0 ≤ j ∧ j < m then
                k.keyboard_buffer t ((k.keyboard_buffer_head t + (j : Int)) % 128).toNat
                else 0) m with h | h
          · right; exact h
          · left
            rw [h]
            simp only [Nat.zero_le, true_and, lt_irrefl, if_false]
        · rw [hT1 _ _ _ _ hmn]
          left
          simp only [Nat.zero_le, true_and]
          rw [if_neg (by omega)]
      · intro j hj1 hj2
        have hj3 : j < (nbytes + 1).toNat := by omega
        simp only [memcpy, if_pos hj3]
        rw [hT1 _ _ _ _ (by omega)]
        simp only [Nat.zero_le, true_and]
        rw [if_neg (by omega)]
      · intro j hj
        have hj3 : ¬ (j < (nbytes + 1).toNat) := by omega
        simp only [memcpy, if_neg hj3]
    · intro h128
      omega
  · simp only [if_neg hsmall]
    have hbs : ¬ ((128 : Int) ≤ 0) := by decide
    have hfl : ¬ (k.enter_flag t = 0) := hflag
    rw [if_neg hbs, if_neg hfl]
    rw [terminal_read_loop_copy k t 128 hhead (by decide) _ 0 _ (by omega) (Nat.zero_le _)]
    have hmin : (min nbytes 128).toNat = (128 : Int).toNat := by omega
    rw [hmin]
    have e128 : (128 : Int).toNat = 128 := rfl
    generalize hm : min (k.length t).toNat (128 : Int).toNat = m
    have hm128 : m ≤ 128 := by omega
    simp only
    refine ⟨m, _, _, rfl, rfl, by omega, ?_, ?_, ?_⟩
    · intro j hj
      have hj2 : j < (128 : Int).toNat := by omega
      simp only [memcpy, if_pos hj2]
      rw [hT1 _ _ _ _ (by omega)]
      simp only [Nat.zero_le, true_and, if_pos hj]
    · intro h
      omega
    · intro _ j hj
      have hj3 : ¬ (j < (128 : Int).toNat) := by omega
      simp only [memcpy, if_neg hj3]

/-! ### The line buffers of the keyboard -/

/-- What `update_keyboard_buffer` does to the line of the foreground terminal
and that it leaves the other lines and `shift` alone. -/
theorem update_keyboard_buffer_line (k : keyboard_t) (t : Fin 3) (key c : Nat) (k1 : keyboard_t)
    (htail : 0 ≤ k.keyboard_buffer_tail t)
    (h : update_keyboard_buffer k t key = some (c, k1)) :
    k1.shift = k.shift ∧
    (∀ u : Fin 3, u ≠ t → k1.length u = k.length u ∧
      k1.keyboard_buffer_head u = k.keyboard_buffer_head u ∧
      k1.keyboard_buffer_tail u = k.keyboard_buffer_tail u) ∧
    k1.keyboard_buffer_head t =
      (if k.enter_flag t ≠ 0 then k.keyboard_buffer_tail t else k.keyboard_buffer_head t) ∧
    ((key = BACKSPACE ∧
        k1.keyboard_buffer_tail t =
          (if k.keyboard_buffer_tail t > k1.keyboard_buffer_head t then
            k.keyboard_buffer_tail t - 1 else k1.keyboard_buffer_head t) ∧
        k1.length t = int_max ((if k.enter_flag t ≠ 0 then 0 else k.length t) - 1) 0) ∨
      (key ≠ BACKSPACE ∧ (if k.enter_flag t ≠ 0 then 0 else k.length t) < 128 ∧
        k1.keyboard_buffer_tail t = (k.keyboard_buffer_tail t + 1) % 128 ∧
        k1.length t = (if k.enter_flag t ≠ 0 then 0 else k.length t) + 1) ∨
      (key ≠ BACKSPACE ∧ k1.keyboard_buffer_tail t = k.keyboard_buffer_tail t ∧
        k1.length t = (if k.enter_flag t ≠ 0 then 0 else k.length t))) := by
  have htm : (k.keyboard_buffer_tail t + 1).tmod (KEYBOARD_BUFFER_SIZE : Int) =
      (k.keyboard_buffer_tail t + 1) % 128 := by
    simp only [KEYBOARD_BUFFER_SIZE]
    exact Int.tmod_eq_emod (by omega) (by norm_num)
  unfold update_keyboard_buffer at h
  cases hs : scancode_char k key with
  | none => simp only [hs] at h; exact absurd h (by simp)
  | some ch =>
    simp only [hs] at h
    by_cases he : k.enter_flag t ≠ 0
    · simp only [if_pos he] at h ⊢
      split_ifs at h <;>
        simp only [Option.some.injEq, Prod.mk.injEq, reduceCtorEq] at h
      all_goals obtain ⟨-, rfl⟩ := h
      all_goals refine ⟨rfl, fun u hu => ?_, ?_, ?_⟩
      all_goals first
        | exact ⟨by simp [Function.update_noteq hu], by simp [Function.update_noteq hu],
            by simp [Function.update_noteq hu]⟩
        | (simp only [Function.update_same]; done)
        | (left; refine ⟨by assumption, ?_, ?_⟩ <;> simp_all)
        | (right; left
           refine ⟨by assumption, ?_, ?_, ?_⟩
           · simp_all [KEYBOARD_BUFFER_SIZE]
           · simp only [Function.update_same]; exact htm
           · simp)
        | (right; right; exact ⟨by assumption, by simp, by simp⟩)
    · simp only [if_neg he] at h ⊢
      split_ifs at h <;>
        simp only [Option.some.injEq, Prod.mk.injEq, reduceCtorEq] at h
      all_goals obtain ⟨-, rfl⟩ := h
      all_goals refine ⟨rfl, fun u hu => ?_, ?_, ?_⟩
      all_goals first
        | exact ⟨by simp [Function.update_noteq hu], by simp [Function.update_noteq hu],
            by simp [Function.update_noteq hu]⟩
        | rfl
        | (simp only [Function.update_same]; done)
        | (left; refine ⟨by assumption, ?_, ?_⟩ <;> simp_all <;> split_ifs <;> omega)
        | (right; left
           refine ⟨by assumption, ?_, ?_, ?_⟩
           · simp_all [KEYBOARD_BUFFER_SIZE]
           · simp only [Function.update_same]; exact htm
           · simp)
        | (right; right; exact ⟨by assumption, by simp, by simp⟩)

/-- `send_to_screen` leaves `shift` and the lines alone. -/
theorem send_to_screen_line (k : keyboard_t) (t : Fin 3) (key c : Nat) (k1 : keyboard_t)
    (h : send_to_screen k t key c = some k1) :
    k1.shift = k.shift ∧ k1.length = k.length ∧
    k1.keyboard_buffer_head = k.keyboard_buffer_head ∧
    k1.keyboard_buffer_tail = k.keyboard_buffer_tail := by
  unfold send_to_screen at h
  cases hs : scancode_char k key with
  | none => simp only [hs] at h; exact absurd h (by simp)
  | some ch =>
    simp only [hs] at h
    split_ifs at h <;> simp only [Option.some.injEq] at h <;> subst h <;>
      exact ⟨rfl, rfl, rfl, rfl⟩

/-- A key event keeps `shift` 0 or 1, changes only the line of the foreground
terminal, and changes it the way `update_keyboard_buffer` does. -/
theorem keyboard_interrupt_line (k : keyboard_t) (t : Fin 3) (key : Nat)
    (r : keyboard_t × Option Int)
    (hshift : k.shift = 0 ∨ k.shift = 1) (htail : 0 ≤ k.keyboard_buffer_tail t)
    (h : _keyboard_interrupt_handler k t key = some r) :
    (r.1.shift = 0 ∨ r.1.shift = 1) ∧
    (∀ u : Fin 3, u ≠ t → r.1.length u = k.length u ∧
      r.1.keyboard_buffer_head u = k.keyboard_buffer_head u ∧
      r.1.keyboard_buffer_tail u = k.keyboard_buffer_tail u) ∧
    ((r.1.length t = k.length t ∧ r.1.keyboard_buffer_head t = k.keyboard_buffer_head t ∧
        r.1.keyboard_buffer_tail t = k.keyboard_buffer_tail t) ∨
      (r.1.keyboard_buffer_head t =
          (if k.enter_flag t ≠ 0 then k.keyboard_buffer_tail t else k.keyboard_buffer_head t) ∧
        ((key = BACKSPACE ∧
            r.1.keyboard_buffer_tail t =
              (if k.keyboard_buffer_tail t > r.1.keyboard_buffer_head t then
                k.keyboard_buffer_tail t - 1 else r.1.keyboard_buffer_head t) ∧
            r.1.length t = int_max ((if k.enter_flag t ≠ 0 then 0 else k.length t) - 1) 0) ∨
          (key ≠ BACKSPACE ∧ (if k.enter_flag t ≠ 0 then 0 else k.length t) < 128 ∧
            r.1.keyboard_buffer_tail t = (k.keyboard_buffer_tail t + 1) % 128 ∧
            r.1.length t = (if k.enter_flag t ≠ 0 then 0 else k.length t) + 1) ∨
          (key ≠ BACKSPACE ∧ r.1.keyboard_buffer_tail t = k.keyboard_buffer_tail t ∧
            r.1.length t = (if k.enter_flag t ≠ 0 then 0 else k.length t))))) := by
  have same : ∀ (k1 : keyboard_t) (req : Option Int), some (k1, req) = some r →
      (k1.shift = 0 ∨ k1.shift = 1) → k1.length = k.length →
      k1.keyboard_buffer_head = k.keyboard_buffer_head →
      k1.keyboard_buffer_tail = k.keyboard_buffer_tail →
      (r.1.shift = 0 ∨ r.1.shift = 1) ∧
      (∀ u : Fin 3, u ≠ t → r.1.length u = k.length u ∧
        r.1.keyboard_buffer_head u = k.keyboard_buffer_head u ∧
        r.1.keyboard_buffer_tail u = k.keyboard_buffer_tail u) ∧
      ((r.1.length t = k.length t ∧ r.1.keyboard_buffer_head t = k.keyboard_buffer_head t ∧
          r.1.keyboard_buffer_tail t = k.keyboard_buffer_tail t) ∨
        (r.1.keyboard_buffer_head t =
            (if k.enter_flag t ≠ 0 then k.keyboard_buffer_tail t
              else k.keyboard_buffer_head t) ∧
          ((key = BACKSPACE ∧
              r.1.keyboard_buffer_tail t =
                (if k.keyboard_buffer_tail t > r.1.keyboard_buffer_head t then
                  k.keyboard_buffer_tail t - 1 else r.1.keyboard_buffer_head t) ∧
              r.1.length t =
                int_max ((if k.enter_flag t ≠ 0 then 0 else k.length t) - 1) 0) ∨
            (key ≠ BACKSPACE ∧ (if k.enter_flag t ≠ 0 then 0 else k.length t) < 128 ∧
              r.1.keyboard_buffer_tail t = (k.keyboard_buffer_tail t + 1) % 128 ∧
              r.1.length t = (if k.enter_flag t ≠ 0 then 0 else k.length t) + 1) ∨
            (key ≠ BACKSPACE ∧ r.1.keyboard_buffer_tail t = k.keyboard_buffer_tail t ∧
              r.1.length t = (if k.enter_flag t ≠ 0 then 0 else k.length t))))) := by
    intro k1 req hr hs h1 h2 h3
    simp only [Option.some.injEq] at hr
    subst hr
    exact ⟨hs, fun u _ => ⟨by rw [h1], by rw [h2], by rw [h3]⟩,
      Or.inl ⟨by rw [h1], by rw [h2], by rw [h3]⟩⟩
  unfold _keyboard_interrupt_handler at h
  by_cases c1 : key = LEFT_SHIFT_PRESSED ∨ key = RIGHT_SHIFT_PRESSED
  · rw [if_pos c1] at h
    exact same _ _ h (Or.inr rfl) rfl rfl rfl
  rw [if_neg c1] at h
  by_cases c2 : key = LEFT_SHIFT_RELEASED ∨ key = RIGHT_SHIFT_RELEASED
  · rw [if_pos c2] at h
    exact same _ _ h (Or.inl rfl) rfl rfl rfl
  rw [if_neg c2] at h
  by_cases c3 : key = CAPS_LOCK_PRESSED
  · rw [if_pos c3] at h
    exact same _ _ h hshift rfl rfl rfl
  rw [if_neg c3] at h
  by_cases c4 : key = CTRL_PRESSED
  · rw [if_pos c4] at h
    exact same _ _ h hshift rfl rfl rfl
  rw [if_neg c4] at h
  by_cases c5 : key = CTRL_RELEASED
  · rw [if_pos c5] at h
    exact same _ _ h hshift rfl rfl rfl
  rw [if_neg c5] at h
  by_cases c6 : key = ALT_PRESSED
  · rw [if_pos c6] at h
    exact same _ _ h hshift rfl rfl rfl
  rw [if_neg c6] at h
  by_cases c7 : key = ALT_RELEASED
  · rw [if_pos c7] at h
    exact same _ _ h hshift rfl rfl rfl
  rw [if_neg c7] at h
  by_cases c8 : key = F1
  · rw [if_pos c8] at h
    exact same _ _ h hshift rfl rfl rfl
  rw [if_neg c8] at h
  by_cases c9 : key = F2
  · rw [if_pos c9] at h
    exact same _ _ h hshift rfl rfl rfl
  rw [if_neg c9] at h
  by_cases c10 : key = F3
  · rw [if_pos c10] at h
    exact same _ _ h hshift rfl rfl rfl
  rw [if_neg c10] at h
  by_cases c11 : key < SCANCODES_LEN
  swap
  · rw [if_neg c11] at h
    exact same _ _ h hshift rfl rfl rfl
  rw [if_pos c11] at h
  cases hu : update_keyboard_buffer k t key with
  | none => simp only [hu] at h; exact absurd h (by simp)
  | some x =>
    obtain ⟨c, k1⟩ := x
    simp only [hu] at h
    cases hsend : send_to_screen k1 t key c with
    | none => simp only [hsend] at h; exact absurd h (by simp)
    | some k2 =>
      simp only [hsend, Option.some.injEq] at h
      subst h
      obtain ⟨s1, s2, s3, s4⟩ := send_to_screen_line k1 t key c k2 hsend
      obtain ⟨u1, u2, u3, u4⟩ := update_keyboard_buffer_line k t key c k1 htail hu
      simp only [s1, s2, s3, s4]
      refine ⟨by rw [u1]; exact hshift, u2, Or.inr ⟨u3, u4⟩⟩

/-- What `terminal_read` does to the lines when it returns: nothing for
`nbytes == 0`; otherwise the line of the foreground terminal is consumed. -/
theorem terminal_read_line (k : keyboard_t) (t : Fin 3) (buf : Nat → Nat) (nbytes c : Int)
    (k1 : keyboard_t) (b : Nat → Nat)
    (h : terminal_read k t buf nbytes = terminal_read_result.returned c k1 b) :
    k1.shift = k.shift ∧
    (∀ u : Fin 3, u ≠ t → k1.length u = k.length u ∧
      k1.keyboard_buffer_head u = k.keyboard_buffer_head u ∧
      k1.keyboard_buffer_tail u = k.keyboard_buffer_tail u) ∧
    k1.keyboard_buffer_tail t = k.keyboard_buffer_tail t ∧
    ((k1.length t = k.length t ∧ k1.keyboard_buffer_head t = k.keyboard_buffer_head t) ∨
      (k1.length t = 0 ∧ k1.keyboard_buffer_head t = k.keyboard_buffer_tail t)) := by
  unfold terminal_read at h
  by_cases h0 : nbytes = 0
  · rw [if_pos h0] at h
    simp only [terminal_read_result.returned.injEq] at h
    obtain ⟨-, rfl, -⟩ := h
    exact ⟨rfl, fun u _ => ⟨rfl, rfl, rfl⟩, rfl, Or.inl ⟨rfl, rfl⟩⟩
  · rw [if_neg h0] at h
    have hinj : ∀ (cnt : Int) (b1 : Nat → Nat),
        terminal_read_result.returned cnt
          { k with
            keyboard_buffer_head :=
              Function.update k.keyboard_buffer_head t (k.keyboard_buffer_tail t),
            enter_flag := Function.update k.enter_flag t 0,
            length := Function.update k.length t 0 } b1 =
          terminal_read_result.returned c k1 b →
        k1.shift = k.shift ∧
        (∀ u : Fin 3, u ≠ t → k1.length u = k.length u ∧
          k1.keyboard_buffer_head u = k.keyboard_buffer_head u ∧
          k1.keyboard_buffer_tail u = k.keyboard_buffer_tail u) ∧
        k1.keyboard_buffer_tail t = k.keyboard_buffer_tail t ∧
        ((k1.length t = k.length t ∧ k1.keyboard_buffer_head t = k.keyboard_buffer_head t) ∨
          (k1.length t = 0 ∧ k1.keyboard_buffer_head t = k.keyboard_buffer_tail t)) := by
      intro cnt b1 hr
      simp only [terminal_read_result.returned.injEq] at hr
      obtain ⟨-, rfl, -⟩ := hr
      refine ⟨rfl, fun u hu => ?_, rfl, Or.inr ?_⟩
      · simp only [Function.update_noteq hu]
        exact ⟨trivial, trivial, trivial⟩
      · simp only [Function.update_same]
        exact ⟨trivial, trivial⟩
    dsimp only at h
    by_cases hbs : (if nbytes ≤ 127 then (if nbytes ≤ 127 then nbytes else 128) + 1 else 128) ≤ 0
    · rw [if_pos hbs] at h
      exact absurd h (by simp)
    · rw [if_neg hbs] at h
      by_cases hfl : k.enter_flag t = 0
      · rw [if_pos hfl] at h
        exact absurd h (by simp)
      · rw [if_neg hfl] at h
        cases hl : terminal_read_loop k t (if nbytes ≤ 127 then nbytes else 128)
            (k.length t).toNat 0 (fun _ => 0, 0) with
        | none =>
          simp only [hl] at h
          exact absurd h (by simp)
        | some x =>
          obtain ⟨temp, counter⟩ := x
          simp only [hl] at h
          exact hinj _ _ h

theorem int_max_eq (a : Int) : (0 ≤ int_max a 0) ∧ (a ≤ int_max a 0) ∧
    (int_max a 0 = a ∨ int_max a 0 = 0) := by
  unfold int_max
  split_ifs <;> omega

/-- A handled key event keeps the bounds of the lines. -/
theorem keyboard_interrupt_bounds (k : keyboard_t) (t : Fin 3) (key : Nat)
    (r : keyboard_t × Option Int) (hb : line_bounds k)
    (h : _keyboard_interrupt_handler k t key = some r) : line_bounds r.1 := by
  obtain ⟨hshift, hl⟩ := hb
  obtain ⟨h1, h2, h3⟩ := keyboard_interrupt_line k t key r hshift (hl t).2.2.2.2.1 h
  refine ⟨h1, fun u => ?_⟩
  by_cases hu : u = t
  · subst hu
    have := hl u
    rcases h3 with ⟨e1, e2, e3⟩ | ⟨e1, e2⟩
    · rw [e1, e2, e3]; exact this
    · have hm := int_max_eq ((if k.enter_flag u ≠ 0 then 0 else k.length u) - 1)
      rcases e2 with ⟨-, e3, e4⟩ | ⟨-, e5, e3, e4⟩ | ⟨-, e3, e4⟩
      · rw [e4, e3, e1]
        split_ifs at hm ⊢ <;> omega
      · rw [e4, e3, e1]
        split_ifs at e5 ⊢ <;> omega
      · rw [e4, e3, e1]
        split_ifs <;> omega
  · obtain ⟨e1, e2, e3⟩ := h2 u hu
    rw [e1, e2, e3]
    exact hl u

/-- A `terminal_read` call that returns keeps the bounds of the lines. -/
theorem terminal_read_bounds (k : keyboard_t) (t : Fin 3) (buf : Nat → Nat) (nbytes c : Int)
    (k1 : keyboard_t) (b : Nat → Nat) (hb : line_bounds k)
    (h : terminal_read k t buf nbytes = terminal_read_result.returned c k1 b) :
    line_bounds k1 := by
  obtain ⟨hshift, hl⟩ := hb
  obtain ⟨h1, h2, h3, h4⟩ := terminal_read_line k t buf nbytes c k1 b h
  refine ⟨by rw [h1]; exact hshift, fun u => ?_⟩
  by_cases hu : u = t
  · subst hu
    have := hl u
    rcases h4 with ⟨e1, e2⟩ | ⟨e1, e2⟩
    · rw [e1, e2, h3]; exact this
    · rw [e1, e2, h3]; omega
  · obtain ⟨e1, e2, e3⟩ := h2 u hu
    rw [e1, e2, e3]
    exact hl u

/-- The bounds of the lines hold in every state of the keyboard variables. -/
theorem keyboard_reachable_bounds (k : keyboard_t) (h : keyboard_reachable k) :
    line_bounds k := by
  induction h with
  | init => exact ⟨Or.inl rfl, fun _ => by simp [keyboard_init]⟩
  | key k t key r _ hr ih => exact keyboard_interrupt_bounds k t key r ih hr
  | read k t buf nbytes c k1 b _ hr ih => exact terminal_read_bounds k t buf nbytes c k1 b ih hr

/-- In a state within the bounds every key event is handled to the end. -/
theorem keyboard_interrupt_handled (k : keyboard_t) (t : Fin 3) (key : Nat)
    (hb : line_bounds k) : ∃ r, _keyboard_interrupt_handler k t key = some r := by
  obtain ⟨hshift, hl⟩ := hb
  have hlt := hl t
  have hsc : ∀ k1 : keyboard_t, k1.shift = k.shift → key < SCANCODES_LEN →
      ∃ ch, scancode_char k1 key = some ch := by
    intro k1 hk1 c11
    unfold scancode_char
    simp only [SCANCODES_LEN] at c11 ⊢
    rw [hk1]
    have hr : 0 ≤ (key : Int) + k.shift * ((58 : Nat) : Int) ∧
        (key : Int) + k.shift * ((58 : Nat) : Int) < 2 * ((58 : Nat) : Int) := by
      rcases hshift with e | e <;> rw [e] <;> omega
    simp only [if_pos hr]
    exact ⟨_, rfl⟩
  have hup : key < SCANCODES_LEN → ∃ x, update_keyboard_buffer k t key = some x := by
    intro c11
    obtain ⟨ch, hch⟩ := hsc k rfl c11
    unfold update_keyboard_buffer
    simp only [hch, KEYBOARD_BUFFER_SIZE]
    by_cases he : k.enter_flag t ≠ 0
    · simp only [if_pos he, Function.update_same]
      split_ifs <;> first | exact ⟨_, rfl⟩ | (exfalso; omega)
    · simp only [if_neg he]
      split_ifs <;> first | exact ⟨_, rfl⟩ | (exfalso; omega)
  cases hres : _keyboard_interrupt_handler k t key with
  | some r => exact ⟨r, rfl⟩
  | none =>
    exfalso
    unfold _keyboard_interrupt_handler at hres
    by_cases c1 : key = LEFT_SHIFT_PRESSED ∨ key = RIGHT_SHIFT_PRESSED
    · rw [if_pos c1] at hres; exact absurd hres (by simp)
    rw [if_neg c1] at hres
    by_cases c2 : key = LEFT_SHIFT_RELEASED ∨ key = RIGHT_SHIFT_RELEASED
    · rw [if_pos c2] at hres; exact absurd hres (by simp)
    rw [if_neg c2] at hres
    by_cases c3 : key = CAPS_LOCK_PRESSED
    · rw [if_pos c3] at hres; exact absurd hres (by simp)
    rw [if_neg c3] at hres
    by_cases c4 : key = CTRL_PRESSED
    · rw [if_pos c4] at hres; exact absurd hres (by simp)
    rw [if_neg c4] at hres
    by_cases c5 : key = CTRL_RELEASED
    · rw [if_pos c5] at hres; exact absurd hres (by simp)
    rw [if_neg c5] at hres
    by_cases c6 : key = ALT_PRESSED
    · rw [if_pos c6] at hres; exact absurd hres (by simp)
    rw [if_neg c6] at hres
    by_cases c7 : key = ALT_RELEASED
    · rw [if_pos c7] at hres; exact absurd hres (by simp)
    rw [if_neg c7] at hres
    by_cases c8 : key = F1
    · rw [if_pos c8] at hres; exact absurd hres (by simp)
    rw [if_neg c8] at hres
    by_cases c9 : key = F2
    · rw [if_pos c9] at hres; exact absurd hres (by simp)
    rw [if_neg c9] at hres
    by_cases c10 : key = F3
    · rw [if_pos c10] at hres; exact absurd hres (by simp)
    rw [if_neg c10] at hres
    by_cases c11 : key < SCANCODES_LEN
    swap
    · rw [if_neg c11] at hres; exact absurd hres (by simp)
    rw [if_pos c11] at hres
    obtain ⟨x, hx⟩ := hup c11
    obtain ⟨c, k1⟩ := x
    obtain ⟨u1, -⟩ := update_keyboard_buffer_line k t key c k1 hlt.2.2.2.2.1 hx
    have hsend : ∃ k2, send_to_screen k1 t key c = some k2 := by
      obtain ⟨ch, hch⟩ := hsc k1 u1 c11
      unfold send_to_screen
      simp only [hch]
      split_ifs <;> exact ⟨_, rfl⟩
    obtain ⟨k2, hk2⟩ := hsend
    simp only [hx, hk2] at hres
    exact absurd hres (by simp)

/-- A handled key event other than Backspace keeps `tail == (head + length)
mod 128` for every line. -/
theorem keyboard_interrupt_consistent (k : keyboard_t) (t : Fin 3) (key : Nat)
    (r : keyboard_t × Option Int) (hb : line_bounds k)
    (hc : ∀ u : Fin 3, line_consistent k u) (hkey : key ≠ BACKSPACE)
    (h : _keyboard_interrupt_handler k t key = some r) :
    ∀ u : Fin 3, line_consistent r.1 u := by
  obtain ⟨hshift, hl⟩ := hb
  obtain ⟨-, h2, h3⟩ := keyboard_interrupt_line k t key r hshift (hl t).2.2.2.2.1 h
  intro u
  have hcu := hc u
  unfold line_consistent at hcu ⊢
  by_cases hu : u = t
  · subst hu
    have := hl u
    rcases h3 with ⟨e1, e2, e3⟩ | ⟨e1, e2⟩
    · rw [e1, e2, e3]; exact hcu
    · rcases e2 with ⟨e0, -⟩ | ⟨-, e5, e3, e4⟩ | ⟨-, e3, e4⟩
      · exact absurd e0 hkey
      · rw [e4, e3, e1]
        split_ifs at e5 ⊢ <;> omega
      · rw [e4, e3, e1]
        split_ifs <;> omega
  · obtain ⟨e1, e2, e3⟩ := h2 u hu
    rw [e1, e2, e3]
    exact hcu

/-- A `terminal_read` call that returns keeps `tail == (head + length) mod 128`
for every line. -/
theorem terminal_read_consistent (k : keyboard_t) (t : Fin 3) (buf : Nat → Nat)
    (nbytes c : Int) (k1 : keyboard_t) (b : Nat → Nat) (hb : line_bounds k)
    (hc : ∀ u : Fin 3, line_consistent k u)
    (h : terminal_read k t buf nbytes = terminal_read_result.returned c k1 b) :
    ∀ u : Fin 3, line_consistent k1 u := by
  obtain ⟨-, hl⟩ := hb
  obtain ⟨-, h2, h3, h4⟩ := terminal_read_line k t buf nbytes c k1 b h
  intro u
  have hcu := hc u
  unfold line_consistent at hcu ⊢
  by_cases hu : u = t
  · subst hu
    have := hl u
    rcases h4 with ⟨e1, e2⟩ | ⟨e1, e2⟩
    · rw [e1, e2, h3]; exact hcu
    · rw [e1, e2, h3]; omega
  · obtain ⟨e1, e2, e3⟩ := h2 u hu
    rw [e1, e2, e3]
    exact hcu

theorem type_keys_reachable (t : Fin 3) :
    ∀ (keys : List Nat) (k k1 : keyboard_t), keyboard_reachable k →
      type_keys t k keys = some k1 → keyboard_reachable k1 := by
  intro keys
  induction keys with
  | nil =>
    intro k k1 hk h
    simp only [type_keys, Option.some.injEq] at h
    rw [← h]; exact hk
  | cons key rest ih =>
    intro k k1 hk h
    simp only [type_keys] at h
    cases hr : _keyboard_interrupt_handler k t key with
    | none => simp only [hr] at h; exact absurd h (by simp)
    | some r =>
      simp only [hr] at h
      exact ih r.1 k1 (keyboard_reachable.key k t key r hk hr) h

theorem type_keys_getD_reachable (t : Fin 3) (keys : List Nat)
    (h : (type_keys t keyboard_init keys).isSome = true) :
    keyboard_reachable ((type_keys t keyboard_init keys).getD keyboard_init) := by
  cases hk : type_keys t keyboard_init keys with
  | none => rw [hk] at h; exact absurd h (by simp)
  | some k1 =>
    simp only [Option.getD_some]
    exact type_keys_reachable t keys keyboard_init k1 keyboard_reachable.init hk

set_option maxRecDepth 100000 in
/-- C40: in every state that key events and `terminal_read` calls lead to,
every line has 0 <= length <= 128 and `head` and `tail` between 0 and 127, and
every key event is handled to the end.  `tail == (head + length) mod 128` is
kept by `terminal_read` and by every key other than Backspace, but not by
Backspace: after 128 keys 'a' the line of terminal 0 is full (`head` 0,
`tail` 0, length 128), and Backspace then leaves `tail` at `head` and the
length at 127, so that `tail` is 0 and `(head + length) mod 128` is 127; the
byte that it clears is the first character of the line, not the last. -/
theorem line_buffer_invariant :
    (∀ k : keyboard_t, keyboard_reachable k →
      (∀ t : Fin 3, 0 ≤ k.length t ∧ k.length t ≤ 128 ∧
        0 ≤ k.keyboard_buffer_head t ∧ k.keyboard_buffer_head t < 128 ∧
        0 ≤ k.keyboard_buffer_tail t ∧ k.keyboard_buffer_tail t < 128) ∧
      (∀ (t : Fin 3) (key : Nat), ∃ r, _keyboard_interrupt_handler k t key = some r)) ∧
    (∀ (k : keyboard_t) (t : Fin 3) (key : Nat) (r : keyboard_t × Option Int),
      keyboard_reachable k → (∀ u : Fin 3, line_consistent k u) → key ≠ BACKSPACE →
      _keyboard_interrupt_handler k t key = some r → ∀ u : Fin 3, line_consistent r.1 u) ∧
    (∀ (k : keyboard_t) (t : Fin 3) (buf : Nat → Nat) (nbytes c : Int) (k1 : keyboard_t)
      (b : Nat → Nat),
      keyboard_reachable k → (∀ u : Fin 3, line_consistent k u) →
      terminal_read k t buf nbytes = terminal_read_result.returned c k1 b →
      ∀ u : Fin 3, line_consistent k1 u) ∧
    (keyboard_reachable full_line_backspace_state ∧
      full_line_backspace_state.keyboard_buffer_head 0 = 0 ∧
      full_line_backspace_state.keyboard_buffer_tail 0 = 0 ∧
      full_line_backspace_state.length 0 = 127 ∧
      ¬ line_consistent full_line_backspace_state 0 ∧
      full_line_backspace_state.keyboard_buffer 0 0 = 0 ∧
      full_line_backspace_state.keyboard_buffer 0 127 = 97) := by
  refine ⟨fun k hk => ⟨(keyboard_reachable_bounds k hk).2,
      fun t key => keyboard_interrupt_handled k t key (keyboard_reachable_bounds k hk)⟩,
    fun k t key r hk hc hkey h =>
      keyboard_interrupt_consistent k t key r (keyboard_reachable_bounds k hk) hc hkey h,
    fun k t buf nbytes c k1 b hk hc h =>
      terminal_read_consistent k t buf nbytes c k1 b (keyboard_reachable_bounds k hk) hc h,
    type_keys_getD_reachable 0 _ (by decide), by decide, by decide, by decide, by decide,
    by decide, by decide⟩

set_option maxRecDepth 100000 in
/-- C39 at the pending line "ab\n" and `terminal_read(0, buf, 1)` with every
byte of `buf` holding 7: the call returns 1 and `buf[0]` is 'a', but `buf[1]`,
past the one byte asked for, is overwritten with a newline; `buf[2]` is
untouched. -/
theorem terminal_read_extent_witness :
    (type_keys 0 keyboard_init [0x1e, 0x30, ENTER]).isSome = true ∧
    ab_line_state.enter_flag 0 ≠ 0 ∧ ab_line_state.length 0 = 3 ∧
    read_count (terminal_read ab_line_state 0 (fun _ => 7) 1) = some 1 ∧
    read_byte (terminal_read ab_line_state 0 (fun _ => 7) 1) 0 = some 97 ∧
    read_byte (terminal_read ab_line_state 0 (fun _ => 7) 1) 1 = some 10 ∧
    read_byte (terminal_read ab_line_state 0 (fun _ => 7) 1) 2 = some 7 ∧
    ∃ (c : Nat) (k1 : keyboard_t) (b : Nat → Nat),
      terminal_read ab_line_state 0 (fun _ => 7) 1 =
        terminal_read_result.returned (c : Int) k1 b ∧
      (b 1 = 0 ∨ b 1 = 10) :=
  ⟨by decide, by decide, by decide, by decide, by decide, by decide, by decide,
    (terminal_read_extent ab_line_state 0 (fun _ => 7) 1 (by decide) (by decide)
      (by decide)).elim fun c hc => hc.elim fun k1 hk => hk.elim fun b hb =>
        ⟨c, k1, b, hb.1, (hb.2.2.2.2.1 (by decide)).1⟩⟩


/-! ### The descriptor tables of available slots -/

theorem slots_kept_refl (s : kernel_state) : slots_kept s s :=
  ⟨rfl, fun _ => ⟨rfl, rfl, rfl, fun _ => rfl⟩⟩

/-- Replacing the descriptor table of the current PCB keeps the slots. -/
theorem slots_kept_table (s : kernel_state) (g : Fin 8 → file_descriptor_t) :
    slots_kept s
      { s with
        pcb_arr := Function.update s.pcb_arr s.curr_pcb
          { (s.pcb_arr s.curr_pcb) with file_desc := g } } := by
  refine ⟨rfl, fun j => ?_⟩
  by_cases hj : j = s.curr_pcb
  · subst hj
    simp
  · simp [Function.update_noteq hj]

theorem close_descriptor_slots (s : kernel_state) (fd : Int) :
    slots_kept s (close_descriptor s fd).2 := by
  unfold close_descriptor
  split
  · try dsimp only
    split
    · exact slots_kept_table s _
    · exact slots_kept_refl s
  · exact slots_kept_refl s

theorem fd_close_slots (s : kernel_state) (ptr : fileops_ptr) (fd : Int)
    (r : Int × kernel_state) (h : fd_close s ptr fd = some r) : slots_kept s r.2 := by
  cases ptr with
  | null => simp only [fd_close] at h; exact absurd h (by simp)
  | stdinOps_table =>
    simp only [fd_close, Option.some.injEq] at h
    rw [← h]; exact slots_kept_refl s
  | stdoutOps_table =>
    simp only [fd_close, Option.some.injEq] at h
    rw [← h]; exact slots_kept_refl s
  | fileops =>
    simp only [fd_close, Option.some.injEq] at h
    rw [← h]; exact close_descriptor_slots s fd
  | dirops =>
    simp only [fd_close, Option.some.injEq] at h
    rw [← h]; exact close_descriptor_slots s fd
  | rtcOps_table =>
    simp only [fd_close, Option.some.injEq] at h
    rw [← h]; exact close_descriptor_slots s fd

/-- `close` keeps the slots. -/
theorem close_slots (s : kernel_state) (arg1 : Nat) :
    slots_kept s (syscall_close s arg1).2 := by
  unfold syscall_close
  split
  · exact slots_kept_refl s
  · split
    · split
      · split
        · exact slots_kept_refl s
        · rename_i r hr
          exact fd_close_slots _ _ _ _ hr
      · exact slots_kept_refl s
    · exact slots_kept_refl s

theorem open_loop_slots (s : kernel_state) (fname : Nat → Nat) (ptr : fileops_ptr) :
    ∀ (fuel fd : Nat), slots_kept s (open_loop s fname ptr fuel fd).2 := by
  intro fuel
  induction fuel with
  | zero => intro fd; exact slots_kept_refl s
  | succ fuel ih =>
    intro fd
    simp only [open_loop]
    split
    · split
      · exact ih (fd + 1)
      · split
        · exact slots_kept_table s _
        · exact slots_kept_refl s
    · exact slots_kept_refl s

theorem rtc_open_loop_slots (s : kernel_state) (fname : Nat → Nat) :
    ∀ (fuel fd : Nat) (r : Int × kernel_state), rtc_open_loop s fname fuel fd = some r →
      slots_kept s r.2 := by
  intro fuel
  induction fuel with
  | zero =>
    intro fd r hr
    simp only [rtc_open_loop, Option.some.injEq] at hr
    rw [← hr]; exact slots_kept_refl s
  | succ fuel ih =>
    intro fd r hr
    simp only [rtc_open_loop] at hr
    split at hr
    · split at hr
      · split at hr
        · simp only [Option.some.injEq] at hr
          rw [← hr]; exact slots_kept_refl s
        · split at hr
          · exact ih (fd + 1) r hr
          · split at hr
            · simp only [Option.some.injEq] at hr
              rw [← hr]; exact slots_kept_table s _
            · simp only [Option.some.injEq] at hr
              rw [← hr]; exact slots_kept_refl s
      · exact absurd hr (by simp)
    · simp only [Option.some.injEq] at hr
      rw [← hr]; exact slots_kept_refl s

/-- `open` keeps the slots. -/
theorem open_slots (s : kernel_state) (filename : List Nat) :
    slots_kept s (syscall_open s filename).2 := by
  unfold syscall_open
  split
  · exact open_loop_slots s _ _ 6 2
  · split
    · split
      · exact slots_kept_refl s
      · rename_i r hr
        exact rtc_open_loop_slots s _ 254 2 r hr
    · simp only [file_open]
      split
      · exact slots_kept_refl s
      · exact open_loop_slots s _ _ 6 2

/-- The invariant of a session reads the descriptor tables only through
`fds_callable`: a step that keeps the slots and the terminal records, and
leaves every table callable, keeps it. -/
theorem session_inv_slots (s s1 : kernel_state) (hinv : session_inv s)
    (hk : slots_kept s s1) (hterm : terminals_unchanged s s1)
    (hcall : ∀ i : Fin 6, fds_callable (s1.pcb_arr i).file_desc) : session_inv s1 := by
  obtain ⟨-, i1, i2, i3, i4, i5⟩ := hinv
  obtain ⟨hc, hs⟩ := hk
  obtain ⟨ht1, ht2, -⟩ := hterm
  refine ⟨hcall, ?_, ?_, ?_, ?_, ?_⟩
  · intro i hi
    rw [(hs i).1] at hi
    rw [(hs i).2.1]
    exact i1 i hi
  · intro i hi
    rw [(hs i).1] at hi
    rw [(hs i).2.2.1]
    rcases i2 i hi with h | ⟨p, hp1, hp2, hp3⟩
    · exact Or.inl h
    · exact Or.inr ⟨p, hp1, hp2, by rw [(hs p).1]; exact hp3⟩
  · intro i hi
    rw [(hs i).1] at hi
    rw [(hs i).2.2.1, hc]
    exact i3 i hi
  · intro i j hi hj hne heq
    rw [(hs i).1] at hi
    rw [(hs j).1] at hj
    rw [(hs i).2.2.1] at hne heq
    rw [(hs j).2.2.1] at heq
    exact i4 i j hi hj hne heq
  · intro hinit
    rw [ht1, ht2] at hinit
    rw [hc, (hs s.curr_pcb).1]
    exact i5 hinit

theorem halt_closed_fresh (fd : Fin 8 → file_descriptor_t) (h : fd_table_ok fd) :
    fd_table_fresh (halt_closed fd) := by
  obtain ⟨h2, h0, h1⟩ := halt_closed_ok fd h
  obtain ⟨a, b, c, d, -⟩ := h
  refine ⟨?_, ?_, ?_, ?_, h2⟩
  · rw [h0]; exact a
  · rw [h0]; exact b
  · rw [h1]; exact c
  · rw [h1]; exact d

/-- An `execute` call makes no slot available. -/
theorem execute_available (s : kernel_state) (cmd : List Nat) (f : execute_frame) (i : Fin 6)
    (h : ((syscall_execute s cmd f).2.pcb_arr i).available = 1) :
    (s.pcb_arr i).available = 1 := by
  rcases execute_effect s cmd f _ rfl with hf | ⟨h1, -, -, -⟩ |
    ⟨k, -, hother, hav, -, -, -, -, -, -⟩
  · rw [execute_fault_state s cmd f _ rfl hf] at h
    exact h
  · rw [h1] at h
    exact h
  · by_cases hik : i = k
    · rw [hik, hav] at h
      exact absurd h (by decide)
    · rw [hother i hik] at h
      exact h

/-- The restart loop of `halt` makes no slot available. -/
theorem halt_restart_available :
    ∀ (fuel : Nat) (s : kernel_state) (frames : Nat → execute_frame) (i : Fin 6),
      ((halt_restart fuel s frames).2.pcb_arr i).available = 1 →
      (s.pcb_arr i).available = 1 := by
  intro fuel
  induction fuel with
  | zero => intro s frames i h; exact h
  | succ fuel ih =>
    intro s frames i h
    have hex := execute_available
      { s with
        terminal_arr := Function.update s.terminal_arr s.curr_terminal
          { (s.terminal_arr s.curr_terminal) with initialized := 0 } }
      shell_command (frames 0) i
    simp only [halt_restart] at h
    split at h
    · exact hex (ih _ _ i h)
    · exact hex h

/-- A `halt` call of the running process of a session makes no slot other
than the halting one available. -/
theorem halt_available (s : kernel_state) (arg1 fuel : Nat) (frames : Nat → execute_frame)
    (hinv : session_inv s) (hinit : (s.terminal_arr s.curr_terminal).initialized ≠ 0)
    (i : Fin 6) (hi : i ≠ s.curr_pcb)
    (h : ((syscall_halt s arg1 fuel frames).2.pcb_arr i).available = 1) :
    (s.pcb_arr i).available = 1 := by
  obtain ⟨i6, i1, i2, -, -, i5⟩ := hinv
  have hlive := i5 hinit
  have hpid := i1 _ hlive
  have hcall := i6 s.curr_pcb
  rcases i2 _ hlive with hroot | ⟨p, hp, hpc, hpl⟩
  · rw [halt_without_parent s arg1 fuel frames hcall hpid hroot] at h
    have := halt_restart_available _ _ _ i h
    simp only [Function.update_noteq hi] at this
    exact this
  · rw [halt_with_parent s arg1 fuel frames p hcall hpid hp (i1 p hpl)] at h
    by_cases hip : i = p
    · rw [hip, halt_post_pcb_parent s p hpc] at h
      rw [hip]
      exact h
    · rw [halt_post_pcb_other s p i hi hip] at h
      exact h

/-- Every state of `process_reachable` satisfies `process_inv`. -/
theorem process_reachable_inv (s : kernel_state) (h : process_reachable s) : process_inv s := by
  induction h with
  | boot s htab hinit =>
    refine ⟨session_reachable_inv s (session_reachable.boot s htab hinit), ?_, ?_⟩
    · intro i
      rw [htab]
      exact pcb_arr_init_tables i
    · intro i _
      rw [htab]
      change fd_table_fresh (start_process pcb_zero.file_desc)
      unfold fd_table_fresh
      decide
  | execute s command f _ hnf ih =>
    obtain ⟨h1, h2, h3⟩ := ih
    refine ⟨session_inv_execute s command f h1 hnf, ?_, ?_⟩
    · intro i
      rw [execute_file_desc]
      exact h2 i
    · intro i hi
      rw [execute_file_desc]
      exact h3 i (execute_available s command f i hi)
  | halt s arg1 fuel frames _ hinit hnf hnl ih =>
    obtain ⟨h1, h2, h3⟩ := ih
    refine ⟨session_inv_halt s arg1 fuel frames h1 hinit hnf hnl,
      halt_tables s arg1 fuel frames h2, ?_⟩
    intro i hi
    rw [halt_file_desc s arg1 fuel frames (fd_table_ok_callable _ (h2 _)) i]
    by_cases hic : i = s.curr_pcb
    · rw [if_pos hic]
      exact halt_closed_fresh _ (h2 _)
    · rw [if_neg hic]
      exact h3 i (halt_available s arg1 fuel frames h1 hinit i hic hi)
  | sys_open s filename _ hinit _ ih =>
    obtain ⟨h1, h2, h3⟩ := ih
    have hk := open_slots s filename
    have htab := open_tables s filename h2
    refine ⟨session_inv_slots s _ h1 hk (open_terminals s filename)
      (fun i => fd_table_ok_callable _ (htab i)), htab, ?_⟩
    intro i hi
    rw [(hk.2 i).1] at hi
    have hic : i ≠ s.curr_pcb := by
      intro hc
      rw [hc] at hi
      exact h1.2.2.2.2.2 hinit hi
    rw [(hk.2 i).2.2.2 hic]
    exact h3 i hi
  | sys_close s arg1 _ hinit _ ih =>
    obtain ⟨h1, h2, h3⟩ := ih
    have hk := close_slots s arg1
    have htab := (close_tables_terminals s arg1 h2).1
    refine ⟨session_inv_slots s _ h1 hk (close_tables_terminals s arg1 h2).2
      (fun i => fd_table_ok_callable _ (htab i)), htab, ?_⟩
    intro i hi
    rw [(hk.2 i).1] at hi
    have hic : i ≠ s.curr_pcb := by
      intro hc
      rw [hc] at hi
      exact h1.2.2.2.2.2 hinit hi
    rw [(hk.2 i).2.2.2 hic]
    exact h3 i hi

/-- In every state reached from the table of `pcb_arr_init` through `execute`
calls and through `halt`, `open` and `close` calls of the running process,
every available slot has descriptors 0 and 1 in use, bound to the terminal
input and output tables, and descriptors 2..7 not in use; and a process that
`execute` then creates (for a command that fits the buffers of `parseCmd`)
starts with that table, whatever its slot held before. -/
theorem available_slots_fresh_session (s : kernel_state) (h : process_reachable s) :
    (∀ i : Fin 6, (s.pcb_arr i).available = 1 →
      ((s.pcb_arr i).file_desc 0).flags ≠ 0 ∧
      ((s.pcb_arr i).file_desc 0).fileops_table_ptr = fileops_ptr.stdinOps_table ∧
      ((s.pcb_arr i).file_desc 1).flags ≠ 0 ∧
      ((s.pcb_arr i).file_desc 1).fileops_table_ptr = fileops_ptr.stdoutOps_table ∧
      ∀ j : Fin 8, 2 ≤ j.val → ((s.pcb_arr i).file_desc j).flags = 0) ∧
    (∀ (cmd : List Nat) (f : execute_frame) (eip esp : Nat), fits_buffers cmd →
      (syscall_execute s cmd f).1 = outcome.user_mode eip esp →
      fd_table_fresh
        ((syscall_execute s cmd f).2.pcb_arr (syscall_execute s cmd f).2.curr_pcb).file_desc) := by
  obtain ⟨-, -, h3⟩ := process_reachable_inv s h
  refine ⟨fun i hi => h3 i hi, ?_⟩
  intro cmd f eip esp hfit hu
  obtain ⟨k, d, e, hk, -, -, -, hst⟩ := execute_user_mode s cmd f eip esp hfit hu
  have hav := (((find_avail_pid_spec s.pcb_arr).1 k).mp hk).1
  rw [execute_file_desc, hst]
  exact h3 k hav

set_option maxRecDepth 10000 in
/-- The state in which "ls" has halted with two files open is a state of
`process_reachable`. -/
theorem ls_opened_halted_reachable : process_reachable ls_opened_halted_state :=
  process_reachable.halt _ 0 1 (fun _ => demo_frame 7 8)
    (process_reachable.sys_open _ [46]
      (process_reachable.sys_open _ frame0_name
        (process_reachable.execute _ ls_command (demo_frame 3 4)
          (process_reachable.execute _ shell_command (demo_frame 1 2)
            (process_reachable.boot _ rfl rfl) (by decide))
          (by decide))
        (by decide) (by decide))
      (by decide) (by decide))
    (by decide) (by decide) (by decide)

set_option maxRecDepth 10000 in
/-- C35: `open("frame0.txt")` called in the boot state, as the kernel's own
tests call `open`, returns 2 and fills descriptor 2 of the PCB of slot 0, which
`curr_pcb` names from the start and which is available.  `create_pcb` does not
call `start_process`, so the "shell" that `execute` then puts into slot 0
starts with descriptor 2 in use.  The state is reached from `pcb_arr_init` by
one `open` step.  When `halt`, `open` and `close` are called by a running
process only (the states of `process_reachable`), every available slot has the
fresh table and every process that `execute` creates starts with it. -/
theorem available_slots_fresh :
    (syscall_open (fresh_state demo_fs) frame0_name).1 = outcome.returned 2 ∧
    calls_reachable boot_open_state ∧
    (boot_open_state.pcb_arr 0).available = 1 ∧
    ((boot_open_state.pcb_arr 0).file_desc 2).flags = 1 ∧
    (syscall_execute boot_open_state shell_command (demo_frame 1 2)).1 =
      outcome.user_mode 0x080482E8 0x08400000 ∧
    (syscall_execute boot_open_state shell_command (demo_frame 1 2)).2.curr_pcb = 0 ∧
    (((syscall_execute boot_open_state shell_command (demo_frame 1 2)).2.pcb_arr 0).file_desc
      2).flags = 1 ∧
    ¬ (∀ s : kernel_state, calls_reachable s →
      ∀ i : Fin 6, (s.pcb_arr i).available = 1 → fd_table_fresh (s.pcb_arr i).file_desc) ∧
    (∀ s : kernel_state, process_reachable s →
      (∀ i : Fin 6, (s.pcb_arr i).available = 1 →
        ((s.pcb_arr i).file_desc 0).flags ≠ 0 ∧
        ((s.pcb_arr i).file_desc 0).fileops_table_ptr = fileops_ptr.stdinOps_table ∧
        ((s.pcb_arr i).file_desc 1).flags ≠ 0 ∧
        ((s.pcb_arr i).file_desc 1).fileops_table_ptr = fileops_ptr.stdoutOps_table ∧
        ∀ j : Fin 8, 2 ≤ j.val → ((s.pcb_arr i).file_desc j).flags = 0) ∧
      (∀ (cmd : List Nat) (f : execute_frame) (eip esp : Nat), fits_buffers cmd →
        (syscall_execute s cmd f).1 = outcome.user_mode eip esp →
        fd_table_fresh
          ((syscall_execute s cmd f).2.pcb_arr
            (syscall_execute s cmd f).2.curr_pcb).file_desc)) := by
  have hreach : calls_reachable boot_open_state :=
    calls_reachable.sys_open _ frame0_name (calls_reachable.boot _ rfl rfl) (by decide)
  have hflag : ((boot_open_state.pcb_arr 0).file_desc 2).flags = 1 := by decide
  refine ⟨by decide, hreach, by decide, hflag, by decide, by decide, by decide, ?_,
    fun s h => available_slots_fresh_session s h⟩
  intro h
  have h2 := (h boot_open_state hreach 0 (by decide)).2.2.2.2 2 (le_refl _)
  rw [hflag] at h2
  exact absurd h2 (by decide)

set_option maxRecDepth 10000 in
/-- C35 in the run shell, "ls", `open("frame0.txt")`, `open(".")`, `halt`:
"ls" (slot 1) holds descriptors 2 and 3 open when it halts; afterwards slot 1
is available and its descriptors 2..7 are not in use, and the next "ls" that
`execute` puts into slot 1 starts with the fresh table. -/
theorem available_slots_fresh_witness :
    ((ls_opened_state.pcb_arr 1).file_desc 2).flags = 1 ∧
    ((ls_opened_state.pcb_arr 1).file_desc 3).flags = 1 ∧
    (ls_opened_halted_state.pcb_arr 1).available = 1 ∧
    ((ls_opened_halted_state.pcb_arr 1).file_desc 0).fileops_table_ptr =
      fileops_ptr.stdinOps_table ∧
    (∀ j : Fin 8, 2 ≤ j.val → ((ls_opened_halted_state.pcb_arr 1).file_desc j).flags = 0) ∧
    (syscall_execute ls_opened_halted_state ls_command (demo_frame 3 4)).2.curr_pcb = 1 ∧
    fd_table_fresh
      ((syscall_execute ls_opened_halted_state ls_command (demo_frame 3 4)).2.pcb_arr
        (syscall_execute ls_opened_halted_state ls_command (demo_frame 3 4)).2.curr_pcb).file_desc :=
  have h := available_slots_fresh.2.2.2.2.2.2.2.2 ls_opened_halted_state
    ls_opened_halted_reachable
  ⟨by decide, by decide, by decide, (h.1 1 (by decide)).2.1, (h.1 1 (by decide)).2.2.2.2,
    by decide, h.2 ls_command (demo_frame 3 4) 0x080480B4 0x08400000 (by decide) (by decide)⟩


/-! ### Paging writes and TLB flushes -/

theorem well_flushed_append :
    ∀ (a b : List event), well_flushed a = true → well_flushed b = true →
      well_flushed (a ++ b) = true := by
  intro a
  induction a with
  | nil => intro b _ hb; exact hb
  | cons e rest ih =>
    intro b ha hb
    cases rest with
    | nil =>
      simp only [well_flushed, flushed_after_writes, ends_flushed, List.getLast?_singleton,
        Bool.and_eq_true, Bool.or_eq_true, Bool.not_eq_true', decide_eq_true_eq] at ha
      have hpw : is_paging_write e = false := ha.2
      cases b with
      | nil =>
        simp [well_flushed, flushed_after_writes, ends_flushed, hpw]
      | cons x xs =>
        simp only [well_flushed, flushed_after_writes, ends_flushed, Bool.and_eq_true] at hb
        simp only [well_flushed, List.singleton_append, flushed_after_writes, hpw, Bool.not_false,
          Bool.true_or, Bool.true_and, ends_flushed, List.getLast?_cons_cons, Bool.and_eq_true]
        exact hb
    | cons r rs =>
      have hrest : well_flushed (r :: rs) = true := by
        simp only [well_flushed, flushed_after_writes, ends_flushed, List.getLast?_cons_cons,
          Bool.and_eq_true] at ha ⊢
        exact ⟨ha.1.2, ha.2⟩
      have hih := ih b hrest hb
      simp only [well_flushed, flushed_after_writes, List.head?_cons, Bool.and_eq_true] at ha
      simp only [well_flushed, List.cons_append, flushed_after_writes, List.head?_cons,
        ends_flushed, List.getLast?_cons_cons, Bool.and_eq_true] at hih ⊢
      exact ⟨⟨ha.1.1, hih.1⟩, hih.2⟩

theorem well_flushed_cons (tr : List event) (h : well_flushed tr = true) :
    well_flushed (event.other :: tr) = true :=
  well_flushed_append [event.other] tr (by rfl) h

theorem well_flushed_cons_sti (tr : List event) (h : well_flushed tr = true) :
    well_flushed (event.sti :: tr) = true :=
  well_flushed_append [event.sti] tr (by rfl) h

theorem create_pcb_events_flushed (t : pcb_table) : well_flushed (create_pcb_events t) = true := by
  unfold create_pcb_events
  dsimp only
  split <;> rfl

theorem clear_pid_events_flushed (pid : Int) : well_flushed (clear_pid_events pid) = true := by
  unfold clear_pid_events
  split <;> rfl

theorem load_program_events_flushed (s : kernel_state) (command : Nat → Nat)
    (m : exec_file_check_mem) : well_flushed (load_program_events s command m) = true := by
  unfold load_program_events
  split <;> rfl

theorem execute_events_flushed (s : kernel_state) (cmd : List Nat) (f : execute_frame) :
    well_flushed (syscall_execute_events s cmd f) = true := by
  unfold syscall_execute_events
  apply well_flushed_append _ _ (by rfl)
  split
  · rfl
  · dsimp only
    apply well_flushed_cons
    split
    · rfl
    · apply well_flushed_cons
      split
      · rfl
      · apply well_flushed_cons
        apply well_flushed_append _ _ (create_pcb_events_flushed _)
        split
        · rfl
        · apply well_flushed_cons
          apply well_flushed_append _ _ (load_program_events_flushed _ _ _)
          split <;> rfl

theorem halt_restart_events_flushed :
    ∀ (fuel : Nat) (s : kernel_state) (frames : Nat → execute_frame),
      well_flushed (halt_restart_events fuel s frames) = true := by
  intro fuel
  induction fuel with
  | zero => intro s frames; rfl
  | succ fuel ih =>
    intro s frames
    simp only [halt_restart_events]
    apply well_flushed_cons
    apply well_flushed_append _ _ (execute_events_flushed _ _ _)
    split
    · exact ih _ _
    · rfl

theorem halt_events_flushed (s : kernel_state) (arg1 fuel : Nat)
    (frames : Nat → execute_frame) :
    well_flushed (syscall_halt_events s arg1 fuel frames) = true := by
  unfold syscall_halt_events
  apply well_flushed_append _ _ (by rfl)
  split
  · rfl
  · dsimp only
    apply well_flushed_cons
    apply well_flushed_append _ _ (clear_pid_events_flushed _)
    split
    · exact halt_restart_events_flushed _ _ _
    · rfl

theorem run_terminal_process_events_flushed (s : kernel_state) (target_terminal_id : Int)
    (curr_ebp curr_esp : Nat) (f : execute_frame) :
    well_flushed (run_terminal_process_events s target_terminal_id curr_ebp curr_esp f) =
      true := by
  unfold run_terminal_process_events
  split
  · dsimp only
    apply well_flushed_cons
    apply well_flushed_append
    · split
      · exact well_flushed_cons_sti _ (execute_events_flushed _ _ _)
      · rfl
    · split
      · split <;> rfl
      · rfl
  · rfl

theorem well_flushed_flushed (tr : List event) (h : well_flushed tr = true) :
    flushed_after_writes tr = true := by
  simp only [well_flushed, Bool.and_eq_true] at h
  exact h.1

set_option maxRecDepth 10000 in
/-- C33: in `load_program`, `syscall_execute`, `syscall_halt` and
`run_terminal_process` every store to an entry of the page directory is
immediately followed by `flush_tlb()`, on every path through the function.
`syscall_vidmap` is different: whenever it accepts the address it stores to
`vidmap_page_table[pid]`, then stores the address through its argument and
returns, and `flush_tlb()` is not called at all; so it is for the `vidmap`
call of "ls" in the example. -/
theorem paging_writes_flushed :
    (∀ (s : kernel_state) (command : Nat → Nat) (m : exec_file_check_mem),
      flushed_after_writes (load_program_events s command m) = true) ∧
    (∀ (s : kernel_state) (cmd : List Nat) (f : execute_frame),
      flushed_after_writes (syscall_execute_events s cmd f) = true) ∧
    (∀ (s : kernel_state) (arg1 fuel : Nat) (frames : Nat → execute_frame),
      flushed_after_writes (syscall_halt_events s arg1 fuel frames) = true) ∧
    (∀ (s : kernel_state) (t : Int) (curr_ebp curr_esp : Nat) (f : execute_frame),
      flushed_after_writes (run_terminal_process_events s t curr_ebp curr_esp f) = true) ∧
    (∀ (s : kernel_state) (arg1 : Nat), (syscall_vidmap s arg1).1 = outcome.returned 0 →
      syscall_vidmap_events s arg1 =
        [event.sti, event.write_vidmap_page_table (s.pcb_arr s.curr_pcb).process_id,
          event.other] ∧
      flushed_after_writes (syscall_vidmap_events s arg1) = false ∧
      event.flush_tlb ∉ syscall_vidmap_events s arg1) ∧
    (syscall_vidmap shell_ls_state 134217744).1 = outcome.returned 0 ∧
    syscall_vidmap_events shell_ls_state 134217744 =
      [event.sti, event.write_vidmap_page_table 1, event.other] := by
  refine ⟨fun s c m => well_flushed_flushed _ (load_program_events_flushed s c m),
    fun s c f => well_flushed_flushed _ (execute_events_flushed s c f),
    fun s a fu fr => well_flushed_flushed _ (halt_events_flushed s a fu fr),
    fun s t e1 e2 f => well_flushed_flushed _ (run_terminal_process_events_flushed s t e1 e2 f),
    ?_, by decide, by decide⟩
  intro s arg1 h
  unfold syscall_vidmap at h
  have hev : syscall_vidmap_events s arg1 =
      [event.sti, event.write_vidmap_page_table (s.pcb_arr s.curr_pcb).process_id,
        event.other] := by
    unfold syscall_vidmap_events
    split at h
    · exact absurd h (by simp)
    · rename_i hc
      rw [if_neg hc]
      dsimp only at h ⊢
      split at h
      · rename_i hp
        rw [if_pos hp]
      · exact absurd h (by simp)
  rw [hev]
  refine ⟨rfl, rfl, ?_⟩
  simp

/-! ### The interrupt flag at the critical steps -/

theorem critical_flags_append :
    ∀ (a b : List event) (flag w : Bool),
      critical_flags flag w (a ++ b) =
        critical_flags flag w a ++
          critical_flags (a.foldl if_after flag) (a.foldl window_after w) b := by
  intro a
  induction a with
  | nil => intro b flag w; simp [critical_flags]
  | cons e rest ih =>
    intro b flag w
    rw [List.cons_append]
    simp only [critical_flags, ih, List.foldl_cons, List.append_assoc]

theorem runs_enabled_append (a b : List event) (ha : stays_enabled a) (hb : runs_enabled b) :
    runs_enabled (a ++ b) := by
  obtain ⟨⟨ha1, ha2⟩, ha3⟩ := ha
  obtain ⟨hb1, hb2⟩ := hb
  refine ⟨?_, ?_⟩
  · intro x hx
    rw [critical_flags_append, ha2, ha3, List.mem_append] at hx
    rcases hx with hx | hx
    · exact ha1 x hx
    · exact hb1 x hx
  · rw [List.foldl_append, ha2, hb2]

theorem stays_enabled_append (a b : List event) (ha : stays_enabled a) (hb : stays_enabled b) :
    stays_enabled (a ++ b) := by
  refine ⟨runs_enabled_append a b ha hb.1, ?_⟩
  rw [List.foldl_append, ha.2, hb.2]

theorem enabled_from_any_append (a b : List event) (ha : enabled_from_any a)
    (hb : enabled_from_any b) : enabled_from_any (a ++ b) := by
  intro flag
  refine ⟨?_, ?_⟩
  · intro x hx
    rw [critical_flags_append, (ha flag).2, List.mem_append] at hx
    rcases hx with hx | hx
    · exact (ha flag).1 x hx
    · exact (hb _).1 x hx
  · rw [List.foldl_append, (ha flag).2, (hb false).2]

theorem runs_enabled_nil : runs_enabled [] := by
  simp [runs_enabled, critical_flags]

theorem enabled_from_any_nil : enabled_from_any [] := by
  intro flag
  simp [critical_flags]

theorem stays_enabled_other : stays_enabled [event.other] := by
  simp [stays_enabled, runs_enabled, critical_flags, is_critical, is_available_write,
    window_after, if_after]

theorem runs_enabled_cons (tr : List event) (h : runs_enabled tr) :
    runs_enabled (event.other :: tr) :=
  runs_enabled_append [event.other] tr stays_enabled_other h

theorem enabled_from_any_cons (tr : List event) (h : enabled_from_any tr) :
    enabled_from_any (event.other :: tr) := by
  intro flag
  have h1 := h flag
  simpa [critical_flags, is_critical, is_available_write, window_after, if_after] using h1

/-- A list that starts with `sti()` and one further step and then runs
enabled has the flag set at its critical steps whatever the flag on entry. -/
theorem enabled_from_any_sti (tr : List event) (h : runs_enabled tr) :
    enabled_from_any ([event.sti, event.other] ++ tr) := by
  intro flag
  have h1 := h
  simpa [runs_enabled, critical_flags, is_critical, is_available_write, window_after,
    if_after] using h1

theorem create_pcb_events_enabled (t : pcb_table) : stays_enabled (create_pcb_events t) := by
  unfold create_pcb_events
  dsimp only
  split <;>
    simp [stays_enabled, runs_enabled, critical_flags, is_critical, is_available_write,
      window_after, if_after]

theorem clear_pid_events_enabled (pid : Int) : stays_enabled (clear_pid_events pid) := by
  unfold clear_pid_events
  split <;>
    simp [stays_enabled, runs_enabled, critical_flags, is_critical, is_available_write,
      window_after, if_after]

theorem load_program_events_enabled (s : kernel_state) (command : Nat → Nat)
    (m : exec_file_check_mem) : stays_enabled (load_program_events s command m) := by
  unfold load_program_events
  split <;>
    simp [stays_enabled, runs_enabled, critical_flags, is_critical, is_available_write,
      window_after, if_after, USER_PROG_IDX]

theorem execute_events_enabled (s : kernel_state) (cmd : List Nat) (f : execute_frame) :
    enabled_from_any (syscall_execute_events s cmd f) := by
  unfold syscall_execute_events
  apply enabled_from_any_sti
  split
  · exact runs_enabled_nil
  · dsimp only
    apply runs_enabled_cons
    split
    · exact runs_enabled_nil
    · apply runs_enabled_cons
      split
      · exact runs_enabled_nil
      · apply runs_enabled_cons
        apply runs_enabled_append _ _ (create_pcb_events_enabled _)
        split
        · exact runs_enabled_nil
        · apply runs_enabled_cons
          apply runs_enabled_append _ _ (load_program_events_enabled _ _ _)
          split
          · exact runs_enabled_nil
          · simp [runs_enabled, critical_flags, is_critical, is_available_write,
              window_after, if_after]

theorem halt_restart_events_enabled :
    ∀ (fuel : Nat) (s : kernel_state) (frames : Nat → execute_frame),
      enabled_from_any (halt_restart_events fuel s frames) := by
  intro fuel
  induction fuel with
  | zero => intro s frames; exact enabled_from_any_nil
  | succ fuel ih =>
    intro s frames
    simp only [halt_restart_events]
    apply enabled_from_any_cons
    apply enabled_from_any_append _ _ (execute_events_enabled _ _ _)
    split
    · exact ih _ _
    · exact enabled_from_any_nil

theorem halt_events_enabled (s : kernel_state) (arg1 fuel : Nat)
    (frames : Nat → execute_frame) :
    enabled_from_any (syscall_halt_events s arg1 fuel frames) := by
  unfold syscall_halt_events
  apply enabled_from_any_sti
  split
  · exact runs_enabled_nil
  · dsimp only
    apply runs_enabled_cons
    apply runs_enabled_append _ _ (clear_pid_events_enabled _)
    split
    · exact halt_restart_events_enabled _ _ _ true
    · simp [runs_enabled, critical_flags, is_critical, is_available_write,
        window_after, if_after, USER_PROG_IDX]

theorem run_terminal_process_events_initialized (s : kernel_state) (t : Fin 3) (pb : Fin 6)
    (curr_ebp curr_esp : Nat) (f : execute_frame)
    (hcur : t ≠ s.curr_terminal)
    (hinit : (s.terminal_arr t).initialized ≠ 0)
    (hpcb : (s.terminal_arr t).curr_pcb = some pb) :
    run_terminal_process_events s (t.val : Int) curr_ebp curr_esp f =
      [event.other, event.other, event.write_page_directory 32, event.flush_tlb,
        event.other, event.sti, event.other] := by
  have ht := t.isLt
  have h3 : 0 ≤ (t.val : Int) ∧ (t.val : Int) < 3 := by omega
  have hfin : (⟨(t.val : Int).toNat, by omega⟩ : Fin 3) = t := by
    apply Fin.ext; simp
  unfold run_terminal_process_events
  rw [dif_pos h3]
  generalize hT : (⟨(t.val : Int).toNat, _⟩ : Fin 3) = T
  have hTt : T = t := by rw [← hT]; exact hfin
  subst hTt
  simp only [Function.update_noteq hcur, if_neg hinit, hpcb]
  rfl

theorem keyboard_switch_events_initialized (s : kernel_state) (t : Fin 3) (pb : Fin 6)
    (curr_ebp curr_esp : Nat) (f : execute_frame)
    (hfg : t ≠ s.curr_foreground_terminal) (hcur : t ≠ s.curr_terminal)
    (hinit : (s.terminal_arr t).initialized ≠ 0)
    (hpcb : (s.terminal_arr t).curr_pcb = some pb) :
    keyboard_switch_events s (t.val : Int) curr_ebp curr_esp f =
      [event.cli, event.other, event.other, event.other, event.other,
        event.write_page_directory 32, event.flush_tlb, event.other, event.sti,
        event.other] := by
  have ht := t.isLt
  have h1 : ¬ ((t.val : Int) < 0 ∨ (t.val : Int) ≥ 3) := by omega
  have h2 : ¬ ((t.val : Int) = (s.curr_foreground_terminal.val : Int)) := by
    intro h
    exact hfg (Fin.ext (by exact_mod_cast h))
  have hrec := save_video_mem_terminal_arr s VIDEO (s.curr_foreground_terminal.val : Int) t hcur
  unfold keyboard_switch_events switch_terminal_events
  rw [dif_neg h1, if_neg h2]
  dsimp only
  rw [restore_video_mem_fin]
  dsimp only
  rw [run_terminal_process_events_initialized _ t pb curr_ebp curr_esp f]
  · exact hcur
  · dsimp only; rw [hrec]; exact hinit
  · dsimp only; rw [hrec]; exact hpcb

set_option maxRecDepth 100000 in
/-- C34 (counterexample): "ls" started from the shell runs `execute` with the
interrupt flag set at the store to the `available` flag of its PCB, at the
store to `page_directory[32]` and at the `flush_tlb()` after it, although the
system call is entered with the flag clear; the same holds for the `halt` of
"ls" and for the switch from the keyboard handler to a terminal that has not
been started. -/
theorem interrupt_flag_set_counterexample :
    syscall_execute_events shell_state ls_command (demo_frame 3 4) =
      [event.sti, event.other, event.other, event.other, event.other, event.other,
        event.write_available 1 0, event.other, event.other, event.other,
        event.write_page_directory 32, event.flush_tlb, event.other, event.other,
        event.cli, event.other] ∧
    critical_flags false false
      (syscall_execute_events shell_state ls_command (demo_frame 3 4)) = [true, true, true] ∧
    syscall_halt_events shell_ls_state 0 1 (fun _ => demo_frame 1 2) =
      [event.sti, event.other, event.other, event.write_available 1 1, event.other,
        event.write_page_directory 32, event.flush_tlb, event.other, event.other] ∧
    critical_flags false false
      (syscall_halt_events shell_ls_state 0 1 (fun _ => demo_frame 1 2)) =
        [true, true, true] ∧
    critical_flags false false
      (keyboard_switch_events shell_state 1 21 22 (demo_frame 5 6)) = [true, true, true] := by
  decide

/-- C34 (amended): the interrupt flag is clear from the store to
`page_directory[32]` through the `flush_tlb()` after it in the terminal switch
that the keyboard handler makes to a terminal already started (one that is
neither running nor in the foreground and whose record names a PCB): the
handler has called `cli()`, and `sti()` comes only after the flush; no
`available` flag is stored there. In `execute` and in `halt` the flag is set
at every such step, whatever it was on entry: both call `sti()` first, and
`execute` calls `cli()` only before it leaves for user mode. -/
theorem interrupt_flag_at_critical_steps (s : kernel_state) (t : Fin 3) (pb : Fin 6)
    (curr_ebp curr_esp : Nat) (f : execute_frame) (flag : Bool)
    (hfg : t ≠ s.curr_foreground_terminal) (hcur : t ≠ s.curr_terminal)
    (hinit : (s.terminal_arr t).initialized ≠ 0)
    (hpcb : (s.terminal_arr t).curr_pcb = some pb) :
    keyboard_switch_events s (t.val : Int) curr_ebp curr_esp f =
      [event.cli, event.other, event.other, event.other, event.other,
        event.write_page_directory 32, event.flush_tlb, event.other, event.sti,
        event.other] ∧
    critical_flags flag false (keyboard_switch_events s (t.val : Int) curr_ebp curr_esp f) =
      [false, false] ∧
    (∀ (S : kernel_state) (cmd : List Nat) (F : execute_frame) (fl : Bool),
      ∀ b ∈ critical_flags fl false (syscall_execute_events S cmd F), b = true) ∧
    (∀ (S : kernel_state) (arg1 fuel : Nat) (frames : Nat → execute_frame) (fl : Bool),
      ∀ b ∈ critical_flags fl false (syscall_halt_events S arg1 fuel frames), b = true) := by
  have hev := keyboard_switch_events_initialized s t pb curr_ebp curr_esp f hfg hcur hinit hpcb
  refine ⟨hev, ?_, fun S cmd F fl => (execute_events_enabled S cmd F fl).1,
    fun S a fu fr fl => (halt_events_enabled S a fu fr fl).1⟩
  rw [hev]
  cases flag <;> rfl

set_option maxRecDepth 100000 in
theorem interrupt_flag_at_critical_steps_witness :
    (0 : Fin 3) ≠ two_terminal_state.curr_foreground_terminal ∧
    (0 : Fin 3) ≠ two_terminal_state.curr_terminal ∧
    (two_terminal_state.terminal_arr 0).initialized ≠ 0 ∧
    (two_terminal_state.terminal_arr 0).curr_pcb = some 0 ∧
    critical_flags true false
      (keyboard_switch_events two_terminal_state ((0 : Fin 3).val : Int) 31 32
        (demo_frame 7 8)) = [false, false] :=
  ⟨by decide, by decide, by decide, by decide,
    (interrupt_flag_at_critical_steps two_terminal_state 0 0 31 32 (demo_frame 7 8) true
      (by decide) (by decide) (by decide) (by decide)).2.1⟩


/-! ### execute of a name that is not in the directory -/

set_option maxRecDepth 10000 in
/-- C3: three commands whose program name matches no directory entry, or
matches a file without the signature, for which `execute` does not return -1
with the tables unchanged.  33 characters 'a', in a directory whose one file is
named by 32 characters 'a': the lookup compares 32 bytes only, the file is
started, slot 0 is taken and `page_directory[32]` rewritten.  129 characters
'a': `parseCmd` copies them into the 128-byte `cmd_buf` with no check of the
length.  "log", an empty file: `read_data` stores nothing, its result is
compared with -1 only, and the signature that an earlier call left in the
uninitialised `elf_magic` is accepted.  For a command that fits the buffers of
`parseCmd` and whose program name has at most 32 characters, the claim holds:
if no entry of the directory has the name, or the first entry that has it is
a file of at least four bytes that do not start with 0x7F 'E' 'L' 'F',
`execute` returns -1 and leaves every PCB, `curr_pcb` and the page directory
as they were. -/
theorem execute_unmatched_program :
    ((program_name (List.replicate 33 97)).length = 33 ∧
      fits_buffers (List.replicate 33 97) ∧
      (∀ i : Nat, ¬ entry_named (long_name_fs.direntries i)
        (program_name (List.replicate 33 97))) ∧
      (syscall_execute (fresh_state long_name_fs) (List.replicate 33 97) (demo_frame 1 2)).1 =
        outcome.user_mode 0x080482E8 0x08400000 ∧
      ((fresh_state long_name_fs).pcb_arr 0).available = 1 ∧
      ((syscall_execute (fresh_state long_name_fs) (List.replicate 33 97)
        (demo_frame 1 2)).2.pcb_arr 0).available = 0 ∧
      (fresh_state long_name_fs).page_directory 32 = 0x82 ∧
      (syscall_execute (fresh_state long_name_fs) (List.replicate 33 97)
        (demo_frame 1 2)).2.page_directory 32 = 0x800197) ∧
    ((program_name (List.replicate 129 97)).length = 129 ∧
      (∀ i : Nat, ¬ entry_named (demo_fs.direntries i)
        (program_name (List.replicate 129 97))) ∧
      (syscall_execute (fresh_state demo_fs) (List.replicate 129 97) (demo_frame 1 2)).1 =
        outcome.fault) ∧
    (fits_buffers log_command ∧
      first_entry_named demo_fs (program_name log_command) 4 ∧
      (demo_fs.direntries 4).inode_num = 4 ∧ (demo_fs.inodes 4).length = 0 ∧
      ¬ has_elf_magic demo_fs 4 ∧
      (syscall_execute (fresh_state demo_fs) log_command
        { ebp := 1, esp := 2, check_mem := stale_mem, load_mem := stale_mem }).1 =
        outcome.user_mode 0 0x08400000) ∧
    (∀ (s : kernel_state) (cmd : List Nat) (f : execute_frame),
      fits_buffers cmd → (program_name cmd).length ≤ 32 →
      (∀ c ∈ program_name cmd, c < 256) →
      s.filesystem.dir_count < 2147483648 → dir_names_bytes s.filesystem →
      ((∀ i : Nat, (i : Int) < s.filesystem.dir_count →
          ¬ entry_named (s.filesystem.direntries i) (program_name cmd)) ∨
        (∃ i : Nat, first_entry_named s.filesystem (program_name cmd) i ∧
          4 ≤ to_uint32 (s.filesystem.inodes
            (to_uint32 (s.filesystem.direntries i).inode_num)).length ∧
          ¬ has_elf_magic s.filesystem (to_uint32 (s.filesystem.direntries i).inode_num))) →
      (syscall_execute s cmd f).1 = outcome.returned (-1) ∧
      (syscall_execute s cmd f).2.pcb_arr = s.pcb_arr ∧
      (syscall_execute s cmd f).2.curr_pcb = s.curr_pcb ∧
      (syscall_execute s cmd f).2.page_directory = s.page_directory) := by
  refine ⟨⟨by decide, by decide, fun i h => absurd h.1 (by decide), by decide, by decide,
    by decide, by decide, by decide⟩,
    ⟨by decide, fun i h => absurd h.1 (by decide), by decide⟩,
    ⟨by decide, by decide, by decide, by decide, by decide, by decide⟩, ?_⟩
  intro s cmd f hfit hlen hbytes hdc hdir h
  have hname : ∀ c ∈ program_name cmd, c ≠ 0 ∧ c < 256 := by
    intro c hc
    have h1 := program_name_chars cmd c hc
    simp only [is_name_char, decide_eq_true_eq] at h1
    exact ⟨h1.2, hbytes c hc⟩
  obtain ⟨hfound, hnone⟩ := read_dentry_by_name_first s.filesystem (program_name cmd)
    (by omega) hdir hlen hname
  rcases h with h | ⟨i, hi, h4, hmagic⟩
  · exact execute_lookup_fails s cmd f hfit (Or.inl (hnone h))
  · exact execute_lookup_fails s cmd f hfit
      (Or.inr ⟨s.filesystem.direntries i, hfound i hi, h4, hmagic⟩)

end MustC
